import Mathlib

/-!
# GryFlux: task graph, scheduler, builder and streaming pipeline

A shallow embedding of the GryFlux framework sources
(`task_node.cpp`, `task_scheduler.cpp`, `pipeline_builder.cpp`,
`streaming_pipeline.cpp`, `threadsafe_queue.h`, `thread_pool.h`, `thread_pool.cpp`,
`processing_task.h`, `unified_allocator.h`, and the YOLOX `object_detector.cpp`).

Modelling conventions.

* A `std::shared_ptr<DataObject>` is an `Option DataObject` (`none` is `nullptr`); the payload of
  a data object is a natural number.
* Task nodes live in a `Store` (the heap).  A non-null `std::shared_ptr<TaskNode>` is the index of
  the node in the store; `none` is `nullptr`.
* A `std::function` process function is an optional function (`none` is the empty
  `std::function`) whose call either returns a pointer or throws.
* `std::chrono::high_resolution_clock::now()` reads a tick counter kept in the store; every read
  advances it.  Durations (`double` milliseconds in the source) are differences of ticks.
* The store carries two logs that the source does not have: `executeLog` records every call of
  the virtual `execute()`, `funcLog` every invocation of a process function together with its
  argument vector.  They are only ever appended to and never read by the embedded code.
* `ThreadPool::enqueue` followed by `future.wait()` in `TaskScheduler::executeTask` is embedded
  twice.  `TaskScheduler.executeTask` runs the enqueued dependency tasks one after the other, in
  queue order, before the waiting caller continues, as if the pool always had a worker for an
  enqueued task (recursion depth is bounded by a fuel argument; `none` means out of fuel); the
  processing loop of the pipeline is built on it.  `Dispatch` has the caller and the workers
  of a pool of `numThreads` threads take steps under a schedule on the heap of task nodes: the
  entry into `executeTask` (the test `isExecuted()` and the enqueueing of the pending
  dependencies), the return from a `future.wait()`, and the call of `executeOnce` (lock, second
  test of `isExecuted()`, execution); a thread whose future is not ready cannot move.  What is
  said about `execute` returning or not returning is said about `Dispatch`.
* The threads around a `StreamingPipeline` (producers, consumers, the caller of `start` and
  `stop`, the processing thread) are embedded as a sequence of actions, each a call of a public
  method or one pass of the processing thread through its loop body, taken one at a time.  The
  join inside `stop()` is the processing loop run to its exit.  `Session` refines this between
  `start()` and the return of `stop()`: a call of `addInput` is three steps (the test of the
  wait loop, the test of `input_active_`, the push), `stop()` is two (clearing the flags, the
  return of the join), and the steps of any number of producer threads interleave with them
  and with the passes of the loop.  What is said about the capacity of the input queue and
  about the state when `stop()` returns is said about `Session`.
* Node execution is embedded twice: as functions on the store, in which a caught exception has
  already become its handler's return value, and (the `Completion` variants) with the
  exception channel explicit, so that where an exception is caught is a theorem.
* The tasks of a `ThreadPool` are named by numbers; the worker loop is embedded as passes of
  one worker, each pass holding the queue mutex for its test and removal as in the source.
* Every method of `threadsafe_queue` holds the queue mutex for its whole body, so a sequence
  of calls from any number of threads is a sequence of operations.
* `PoolState` is the dispatch of `Dispatch` on dependency lists and `executed` flags alone,
  without the nodes.
* A graph-construction callback that only calls `addInput` and `addTask` is a `GraphProgram`,
  a list of `BuildStep`s per item.
* `BaseUnifiedAllocator` is embedded with addresses and sizes as natural numbers below `2 ^ 64`
  and the platform allocation as a list of the addresses it will return (`0` for a failure).
* The `float`s of `object_detector.cpp` are a parameter type with the operations of `FloatOps`;
  `int` indices are integers, and an out-of-range vector access reads a default value.
-/

namespace GryFlux

/-! ## Data model -/

/-- Payload of a `DataObject`. -/
abbrev DataObject := Nat

/-- A `std::shared_ptr<DataObject>`; `none` is `nullptr`. -/
abbrev DataPtr := Option DataObject

/-- Address of a `TaskNode` in the store. -/
abbrev NodeRef := Nat

/-- A `std::shared_ptr<TaskNode>`; `none` is `nullptr`. -/
abbrev NodePtr := Option NodeRef

/-- The C++ type `TaskNode::TaskId`, a `std::string`. -/
abbrev TaskId := String

/-- Outcome of invoking a process function: it returns a pointer or throws. -/
inductive CallResult where
  | ret (v : DataPtr)
  | raised
  deriving DecidableEq, Repr

/-- The C++ type `MultiInputTaskNode::ProcessFunction`; `none` is the empty `std::function`. -/
abbrev ProcessFunction := Option (List DataPtr → CallResult)

/-- The dynamic type of a task node with the members of the derived class. -/
inductive NodeKind where
  | input (data : DataPtr)
  | multiInput (func : ProcessFunction) (inputs : List NodePtr)

/-- Members of the base class `TaskNode` (the mutex is not represented). -/
structure TaskNode where
  id : TaskId
  dependencies : List NodePtr
  result : DataPtr
  executed : Bool
  startTime : Nat
  endTime : Nat
  executionTimeMs : Nat
  kind : NodeKind

/-- The heap of task nodes, the clock, and the two observation logs. -/
structure Store where
  nodes : List TaskNode
  clock : Nat
  executeLog : List NodeRef
  funcLog : List (NodeRef × List DataPtr)

/-- The store before any node is allocated. -/
def Store.empty : Store := { nodes := [], clock := 0, executeLog := [], funcLog := [] }

/-- Apply `f` to the node at address `r`. -/
def Store.modifyNode (s : Store) (r : NodeRef) (f : TaskNode → TaskNode) : Store :=
  match s.nodes[r]? with
  | none => s
  | some n => { s with nodes := s.nodes.set r (f n) }

/-- Allocate a node (`std::make_shared`); returns the new store and the address. -/
def Store.alloc (s : Store) (n : TaskNode) : Store × NodeRef :=
  ({ s with nodes := s.nodes ++ [n] }, s.nodes.length)

/-- Read `high_resolution_clock::now()`. -/
def Store.now (s : Store) : Nat × Store := (s.clock, { s with clock := s.clock + 1 })

/-! ## `TaskNode` (task_node.cpp) -/

/-- The constructor `TaskNode::TaskNode(TaskId id)`: `executed_(false)`, `executionTimeMs_(0.0)`. -/
def TaskNode.mk0 (id : TaskId) (kind : NodeKind) : TaskNode :=
  { id := id, dependencies := [], result := none, executed := false,
    startTime := 0, endTime := 0, executionTimeMs := 0, kind := kind }

/-- The method `TaskNode::getId`. -/
def TaskNode.getId (s : Store) (self : NodeRef) : TaskId :=
  match s.nodes[self]? with
  | some n => n.id
  | none => ""

/-- The method `TaskNode::addDependency`: a non-null node is appended to `dependencies_`. -/
def TaskNode.addDependency (s : Store) (self : NodeRef) (node : NodePtr) : Store :=
  match node with
  | some d => s.modifyNode self (fun n => { n with dependencies := n.dependencies ++ [some d] })
  | none => s

/-- The method `TaskNode::getDependencies`. -/
def TaskNode.getDependencies (s : Store) (self : NodeRef) : List NodePtr :=
  match s.nodes[self]? with
  | some n => n.dependencies
  | none => []

/-- The method `TaskNode::setResult`: stores the result and sets `executed_ = true`. -/
def TaskNode.setResult (s : Store) (self : NodeRef) (result : DataPtr) : Store :=
  s.modifyNode self (fun n => { n with result := result, executed := true })

/-- The method `TaskNode::getResult`. -/
def TaskNode.getResult (s : Store) (self : NodeRef) : DataPtr :=
  match s.nodes[self]? with
  | some n => n.result
  | none => none

/-- The method `TaskNode::isExecuted`. -/
def TaskNode.isExecuted (s : Store) (self : NodeRef) : Bool :=
  match s.nodes[self]? with
  | some n => n.executed
  | none => false

/-- The base method `TaskNode::isReady`: every dependency is non-null and executed. -/
def TaskNode.isReady (s : Store) (self : NodeRef) : Bool :=
  (TaskNode.getDependencies s self).all fun dependency =>
    match dependency with
    | none => false
    | some d => TaskNode.isExecuted s d

/-- The method `TaskNode::startExecution`. -/
def TaskNode.startExecution (s : Store) (self : NodeRef) : Store :=
  let (t, s1) := s.now
  s1.modifyNode self (fun n => { n with startTime := t })

/-- The method `TaskNode::endExecution`. -/
def TaskNode.endExecution (s : Store) (self : NodeRef) : Store :=
  let (t, s1) := s.now
  s1.modifyNode self (fun n => { n with endTime := t, executionTimeMs := t - n.startTime })

/-- The method `TaskNode::getExecutionTimeMs`. -/
def TaskNode.getExecutionTimeMs (s : Store) (self : NodeRef) : Nat :=
  match s.nodes[self]? with
  | some n => n.executionTimeMs
  | none => 0

/-- The constructor `InputNode::InputNode(id, data)`: base constructor, then `setResult(data)`. -/
def InputNode.new (s : Store) (id : TaskId) (data : DataPtr) : Store × NodeRef :=
  let (s1, self) := s.alloc (TaskNode.mk0 id (NodeKind.input data))
  (TaskNode.setResult s1 self data, self)

/-- The method `InputNode::execute`. -/
def InputNode.execute (data : DataPtr) : DataPtr := data

/-- The constructor `MultiInputTaskNode::MultiInputTaskNode(id, func, inputs)`: every non-null
input is added as a dependency, in order. -/
def MultiInputTaskNode.new (s : Store) (id : TaskId) (func : ProcessFunction)
    (inputs : List NodePtr) : Store × NodeRef :=
  let (s1, self) := s.alloc (TaskNode.mk0 id (NodeKind.multiInput func inputs))
  (inputs.foldl (fun st input =>
      match input with
      | some i => TaskNode.addDependency st self (some i)
      | none => st) s1, self)

/-- The override `MultiInputTaskNode::isReady`. -/
def MultiInputTaskNode.isReady (s : Store) (self : NodeRef) : Bool :=
  TaskNode.isReady s self && !(TaskNode.getDependencies s self).isEmpty

/-- The virtual call `isReady()`. -/
def TaskNode.isReadyV (s : Store) (self : NodeRef) : Bool :=
  match s.nodes[self]? with
  | some n =>
    match n.kind with
    | NodeKind.input _ => TaskNode.isReady s self
    | NodeKind.multiInput _ _ => MultiInputTaskNode.isReady s self
  | none => false

/-- The loop of `MultiInputTaskNode::execute` that collects the dependency results: a null
dependency is skipped (`continue`), otherwise `dep->getResult()` is pushed. -/
def MultiInputTaskNode.collectInputResults (s : Store) (deps : List NodePtr) : List DataPtr :=
  deps.filterMap fun dep =>
    match dep with
    | none => none
    | some d => some (TaskNode.getResult s d)

/-- The method `MultiInputTaskNode::execute`.  Returns the result pointer and the store (only the
`funcLog` can differ).  The call `isReady()` is the override of this class.  An exception thrown
by `func_` is caught and turned into `nullptr`. -/
def MultiInputTaskNode.execute (s : Store) (self : NodeRef) (func : ProcessFunction) :
    DataPtr × Store :=
  if !MultiInputTaskNode.isReady s self || (TaskNode.getDependencies s self).isEmpty then
    (none, s)
  else
    let inputResults := MultiInputTaskNode.collectInputResults s (TaskNode.getDependencies s self)
    if inputResults.any (fun obj => obj.isNone) then
      (none, s)
    else
      match func with
      | none => (none, s)
      | some f =>
        let s1 := { s with funcLog := s.funcLog ++ [(self, inputResults)] }
        match f inputResults with
        | CallResult.ret v => (v, s1)
        | CallResult.raised => (none, s1)

/-- The virtual call `execute()`, dispatched on the dynamic type; the call is logged. -/
def TaskNode.execute (s : Store) (self : NodeRef) : DataPtr × Store :=
  let s1 := { s with executeLog := s.executeLog ++ [self] }
  match s1.nodes[self]? with
  | some n =>
    match n.kind with
    | NodeKind.input data => (InputNode.execute data, s1)
    | NodeKind.multiInput func _ => MultiInputTaskNode.execute s1 self func
  | none => (none, s1)

/-- The method `TaskNode::executeOnce`. -/
def TaskNode.executeOnce (s : Store) (self : NodeRef) : Store :=
  if TaskNode.isExecuted s self then
    s
  else
    let s1 := TaskNode.startExecution s self
    let (result, s2) := TaskNode.execute s1 self
    let s3 := TaskNode.endExecution s2 self
    TaskNode.setResult s3 self result

/-! ## `TaskScheduler` (task_scheduler.cpp) -/

/-- The assignment `m[k] = v` on a `std::unordered_map` kept as an association list with unique
keys: an existing binding is overwritten in place, a fresh key is added. -/
def mapAssign {β : Type} (m : List (TaskId × β)) (k : TaskId) (v : β) : List (TaskId × β) :=
  match m with
  | [] => [(k, v)]
  | (k1, v1) :: rest => if k1 = k then (k, v) :: rest else (k1, v1) :: mapAssign rest k v

/-- The lookup `m.find(k)` on the association list. -/
def mapFind {β : Type} (m : List (TaskId × β)) (k : TaskId) : Option β :=
  match m with
  | [] => none
  | (k1, v1) :: rest => if k1 = k then some v1 else mapFind rest k

/-- Members of `TaskScheduler`: the index `tasks_`.  The thread pool is not represented. -/
structure TaskScheduler where
  tasks : List (TaskId × NodeRef)

/-- The constructor `TaskScheduler::TaskScheduler`. -/
def TaskScheduler.new : TaskScheduler := { tasks := [] }

/-- The method `TaskScheduler::addTask`: a null task is ignored, otherwise
`tasks_[task->getId()] = task`. -/
def TaskScheduler.addTask (s : Store) (self : TaskScheduler) (task : NodePtr) : TaskScheduler :=
  match task with
  | none => self
  | some t => { self with tasks := mapAssign self.tasks (TaskNode.getId s t) t }

/-- The method `TaskScheduler::getTask`. -/
def TaskScheduler.getTask (self : TaskScheduler) (id : TaskId) : NodePtr :=
  mapFind self.tasks id

/-- The dependencies for which `executeTask` enqueues a pool task: `dep && !dep->isExecuted()`. -/
def TaskScheduler.pendingDependencies (s : Store) (task : NodeRef) : List NodePtr :=
  (TaskNode.getDependencies s task).filter fun dep =>
    match dep with
    | none => false
    | some d => !TaskNode.isExecuted s d

/-- The method `TaskScheduler::executeTask` when the pool has a free worker for every enqueued
task: the pool tasks enqueued for the pending dependencies run `executeTask(dep)` one after
the other; after the waits the node itself runs `executeOnce`.  The first argument is the
recursion fuel.  The same method on a pool of `numThreads` workers, where a task can stay in
the queue, is `Dispatch`. -/
def TaskScheduler.executeTask : Nat → Store → NodePtr → Option Store
  | 0, _, _ => none
  | _ + 1, s, none => some s
  | fuel + 1, s, some task =>
    if TaskNode.isExecuted s task then
      some s
    else
      match (TaskScheduler.pendingDependencies s task).foldlM
          (fun st dep => TaskScheduler.executeTask fuel st dep) s with
      | none => none
      | some s1 => some (TaskNode.executeOnce s1 task)

/-- The method `TaskScheduler::execute`: an unbound id logs an error and returns `nullptr`. -/
def TaskScheduler.execute (fuel : Nat) (s : Store) (self : TaskScheduler) (outputTaskId : TaskId) :
    Option (DataPtr × Store) :=
  match self.getTask outputTaskId with
  | none => some (none, s)
  | some outputTask =>
    match TaskScheduler.executeTask fuel s (some outputTask) with
    | none => none
    | some s1 => some (TaskNode.getResult s1 outputTask, s1)

/-- The method `TaskScheduler::clear`. -/
def TaskScheduler.clear (self : TaskScheduler) : TaskScheduler := { self with tasks := [] }

/-- The method `TaskScheduler::getTaskExecutionTimes`: the times of the executed indexed nodes. -/
def TaskScheduler.getTaskExecutionTimes (s : Store) (self : TaskScheduler) : List (TaskId × Nat) :=
  self.tasks.filterMap fun pair =>
    if TaskNode.isExecuted s pair.2 then some (pair.1, TaskNode.getExecutionTimeMs s pair.2)
    else none

/-! ## `PipelineBuilder` (pipeline_builder.cpp) -/

/-- Members of `PipelineBuilder`. -/
structure PipelineBuilder where
  scheduler : TaskScheduler
  profilingEnabled : Bool

/-- The constructor `PipelineBuilder::PipelineBuilder`. -/
def PipelineBuilder.new : PipelineBuilder :=
  { scheduler := TaskScheduler.new, profilingEnabled := false }

/-- The method `PipelineBuilder::addInput`. -/
def PipelineBuilder.addInput (s : Store) (self : PipelineBuilder) (id : TaskId) (data : DataPtr) :
    Store × PipelineBuilder × NodeRef :=
  let (s1, inputNode) := InputNode.new s id data
  (s1, { self with scheduler := self.scheduler.addTask s1 (some inputNode) }, inputNode)

/-- The method `PipelineBuilder::addTask`. -/
def PipelineBuilder.addTask (s : Store) (self : PipelineBuilder) (id : TaskId)
    (func : ProcessFunction) (inputs : List NodePtr) : Store × PipelineBuilder × NodeRef :=
  let (s1, node) := MultiInputTaskNode.new s id func inputs
  (s1, { self with scheduler := self.scheduler.addTask s1 (some node) }, node)

/-- The method `PipelineBuilder::execute`; with profiling the clock is read before and after the
scheduler call (the times are only logged). -/
def PipelineBuilder.execute (fuel : Nat) (s : Store) (self : PipelineBuilder) (outputId : TaskId) :
    Option (DataPtr × Store) :=
  let s0 := if self.profilingEnabled then s.now.2 else s
  match TaskScheduler.execute fuel s0 self.scheduler outputId with
  | none => none
  | some (result, s1) => some (result, if self.profilingEnabled then s1.now.2 else s1)

/-- The method `PipelineBuilder::reset`: a new scheduler replaces the old task graph. -/
def PipelineBuilder.reset (self : PipelineBuilder) : PipelineBuilder :=
  { self with scheduler := TaskScheduler.new }

/-! ## Specification-level notions for the task graph -/

/-- The value obtained by applying a process function: its return value; a missing function or
a call that throws gives null. -/
def callValue (func : ProcessFunction) (args : List DataPtr) : DataPtr :=
  match func with
  | none => none
  | some f =>
    match f args with
    | CallResult.ret v => v
    | CallResult.raised => none

/-- The value of a node as the specification describes it, with recursion fuel: an input node
has its preloaded value; a processing node is null if its dependency list is empty or any
dependency evaluates to null, and otherwise its function applied to the dependencies' values in
declaration order.  A missing function or a call that throws counts as null. -/
def evalFuel : Nat → Store → NodeRef → DataPtr
  | 0, _, _ => none
  | fuel + 1, s, t =>
    match s.nodes[t]? with
    | none => none
    | some n =>
      match n.kind with
      | NodeKind.input data => data
      | NodeKind.multiInput func _ =>
        if n.dependencies.isEmpty then none
        else
          let args := n.dependencies.map fun dep => dep.bind (evalFuel fuel s)
          if args.any (fun v => v.isNone) then none
          else callValue func args

/-- The value of a node; the number of nodes is enough fuel for an acyclic graph. -/
def eval (s : Store) (t : NodeRef) : DataPtr := evalFuel s.nodes.length s t

/-- The node `n` is in the dependency closure of `t`. -/
inductive Reaches (s : Store) : NodeRef → NodeRef → Prop where
  | refl (t : NodeRef) : Reaches s t t
  | step (t d n : NodeRef) : some d ∈ TaskNode.getDependencies s t → Reaches s d n → Reaches s t n

/-- The stores and builders reached from a new `PipelineBuilder` by calls of `addInput`, of
`addTask` with input handles that are non-null handles of nodes created before, of `execute`
(with fuel of at least the number of nodes) and of `reset`. -/
inductive Built : Store → PipelineBuilder → Prop where
  | fresh : Built Store.empty PipelineBuilder.new
  | addInput {s : Store} {b : PipelineBuilder} (id : TaskId) (data : DataPtr) :
      Built s b →
      Built (PipelineBuilder.addInput s b id data).1 (PipelineBuilder.addInput s b id data).2.1
  | addTask {s : Store} {b : PipelineBuilder} (id : TaskId) (func : ProcessFunction)
      (inputs : List NodePtr) :
      Built s b → (∀ p ∈ inputs, ∃ r : Nat, p = some r ∧ r < s.nodes.length) →
      Built (PipelineBuilder.addTask s b id func inputs).1
        (PipelineBuilder.addTask s b id func inputs).2.1
  | execute {s : Store} {b : PipelineBuilder} (outputId : TaskId) (fuel : Nat)
      (result : DataPtr) (s' : Store) :
      Built s b → s.nodes.length ≤ fuel →
      TaskScheduler.execute fuel s b.scheduler outputId = some (result, s') → Built s' b
  | reset {s : Store} {b : PipelineBuilder} : Built s b → Built s b.reset

/-- The part of a node that execution never writes. -/
def TaskNode.static (n : TaskNode) : TaskId × List NodePtr × NodeKind :=
  (n.id, n.dependencies, n.kind)

/-- Two stores hold the same graph: same addresses, ids, dependency lists and kinds. -/
def Store.SameGraph (s s' : Store) : Prop :=
  ∀ i : Nat, (s'.nodes[i]?).map TaskNode.static = (s.nodes[i]?).map TaskNode.static

/-- Nodes that have executed in `s` are identical in `s'`. -/
def Store.Mono (s s' : Store) : Prop :=
  ∀ (i : Nat) (n : TaskNode), s.nodes[i]? = some n → n.executed = true → s'.nodes[i]? = some n

/-- Invariant of stores built by the builder and run by the scheduler: dependencies are non-null
handles of older nodes, an executed node holds its value, its dependencies have executed, and
input nodes have no dependencies. -/
structure Store.WF (s : Store) : Prop where
  acyclic : ∀ (i : Nat) (n : TaskNode), s.nodes[i]? = some n → ∀ dep ∈ n.dependencies, ∃ d : Nat, dep = some d ∧ d < i
  executed_eval : ∀ (i : Nat) (n : TaskNode), s.nodes[i]? = some n → n.executed = true → n.result = eval s i
  executed_closed : ∀ (i : Nat) (n : TaskNode), s.nodes[i]? = some n → n.executed = true →
    ∀ d : Nat, some d ∈ n.dependencies → TaskNode.isExecuted s d = true
  input_leaf : ∀ (i : Nat) (n : TaskNode) (data : DataPtr), s.nodes[i]? = some n →
    n.kind = NodeKind.input data → n.dependencies = []

/-- A run of the scheduler from `s` to `s'` that executes only nodes below `bound`: the graph
is unchanged, executed nodes are untouched, the invariant holds afterwards, and the nodes
whose `execute()` was called are exactly the newly executed ones, each called once. -/
structure Store.Run (s s' : Store) (bound : Nat) : Prop where
  graph : s.SameGraph s'
  mono : s.Mono s'
  wf : s'.WF
  below : ∀ r : Nat, TaskNode.isExecuted s' r = true → TaskNode.isExecuted s r = true ∨ r < bound
  log : ∃ new, s'.executeLog = s.executeLog ++ new ∧ new.Nodup ∧
    ∀ r : Nat, r ∈ new ↔ (TaskNode.isExecuted s r = false ∧ TaskNode.isExecuted s' r = true)

/-! ## Scenarios of the specification (section 8) used as concrete instances -/

/-- The task `x ↦ x + k` of one input; on any other argument vector it returns null. -/
def Scenario.addK (k : Nat) : ProcessFunction :=
  some fun args =>
    match args with
    | [some x] => CallResult.ret (some (x + k))
    | _ => CallResult.ret none

/-- The task `join(a, b) = a + b`. -/
def Scenario.join : ProcessFunction :=
  some fun args =>
    match args with
    | [some a, some c] => CallResult.ret (some (a + c))
    | _ => CallResult.ret none

/-- Scenario S2, step 1: the input node `in` holding the item. -/
def Scenario.s2In (item : DataPtr) : Store × PipelineBuilder × NodeRef :=
  PipelineBuilder.addInput Store.empty PipelineBuilder.new "in" item

/-- Scenario S2, step 2: `in → A`, `A(x) = x + 10`. -/
def Scenario.s2A (item : DataPtr) : Store × PipelineBuilder × NodeRef :=
  PipelineBuilder.addTask (Scenario.s2In item).1 (Scenario.s2In item).2.1 "A" (Scenario.addK 10)
    [some (Scenario.s2In item).2.2]

/-- Scenario S2, step 3: `in → B`, `B(x) = x + 20`. -/
def Scenario.s2B (item : DataPtr) : Store × PipelineBuilder × NodeRef :=
  PipelineBuilder.addTask (Scenario.s2A item).1 (Scenario.s2A item).2.1 "B" (Scenario.addK 20)
    [some (Scenario.s2In item).2.2]

/-- Scenario S2, step 4: `(A, B) → out`, `join(a, b) = a + b`. -/
def Scenario.s2Out (item : DataPtr) : Store × PipelineBuilder × NodeRef :=
  PipelineBuilder.addTask (Scenario.s2B item).1 (Scenario.s2B item).2.1 "out" Scenario.join
    [some (Scenario.s2A item).2.2, some (Scenario.s2B item).2.2]

/-- Scenario S5, step 1: the input node `in`. -/
def Scenario.s5In : Store × PipelineBuilder × NodeRef :=
  PipelineBuilder.addInput Store.empty PipelineBuilder.new "in" (some 1)

/-- Scenario S5, step 2: `in → X`. -/
def Scenario.s5X : Store × PipelineBuilder × NodeRef :=
  PipelineBuilder.addTask Scenario.s5In.1 Scenario.s5In.2.1 "X" (Scenario.addK 1)
    [some Scenario.s5In.2.2]

/-- Scenario S5, step 3: `X → Y1`. -/
def Scenario.s5Y1 : Store × PipelineBuilder × NodeRef :=
  PipelineBuilder.addTask Scenario.s5X.1 Scenario.s5X.2.1 "Y1" (Scenario.addK 2)
    [some Scenario.s5X.2.2]

/-- Scenario S5, step 4: `X → Y2`. -/
def Scenario.s5Y2 : Store × PipelineBuilder × NodeRef :=
  PipelineBuilder.addTask Scenario.s5Y1.1 Scenario.s5Y1.2.1 "Y2" (Scenario.addK 3)
    [some Scenario.s5X.2.2]

/-- Scenario S5, step 5: `(Y1, Y2) → out`. -/
def Scenario.s5Out : Store × PipelineBuilder × NodeRef :=
  PipelineBuilder.addTask Scenario.s5Y2.1 Scenario.s5Y2.2.1 "out" Scenario.join
    [some Scenario.s5Y1.2.2, some Scenario.s5Y2.2.2]

/-! ## `threadsafe_queue` (threadsafe_queue.h) -/

/-- Members of `threadsafe_queue<T>`: the `std::queue`, front first. -/
structure threadsafe_queue (α : Type) where
  queue : List α

/-- The constructor of `threadsafe_queue`. -/
def threadsafe_queue.new {α : Type} : threadsafe_queue α := { queue := [] }

/-- The method `threadsafe_queue::push`. -/
def threadsafe_queue.push {α : Type} (self : threadsafe_queue α) (data : α) : threadsafe_queue α :=
  { queue := self.queue ++ [data] }

/-- The method `threadsafe_queue::try_pop(T &value)`: the returned flag, the value of the
reference argument afterwards, and the queue afterwards. -/
def threadsafe_queue.try_pop {α : Type} (self : threadsafe_queue α) (value : α) :
    Bool × α × threadsafe_queue α :=
  match self.queue with
  | [] => (false, value, self)
  | front :: rest => (true, front, { queue := rest })

/-- The method `threadsafe_queue::wait_and_pop`; `none` while the caller is blocked. -/
def threadsafe_queue.wait_and_pop {α : Type} (self : threadsafe_queue α) :
    Option (α × threadsafe_queue α) :=
  match self.queue with
  | [] => none
  | front :: rest => some (front, { queue := rest })

/-- The method `threadsafe_queue::empty`. -/
def threadsafe_queue.empty {α : Type} (self : threadsafe_queue α) : Bool := self.queue.isEmpty

/-- The method `threadsafe_queue::size` (an `int` in the source; sizes stay below `2^31`). -/
def threadsafe_queue.size {α : Type} (self : threadsafe_queue α) : Nat := self.queue.length

/-! ## `StreamingPipeline` (streaming_pipeline.cpp) -/

/-- What a call of the graph-construction callback leaves behind: the store and the builder as
the callback left them, and whether the callback threw. -/
structure CallbackResult where
  store : Store
  builder : PipelineBuilder
  threw : Bool

/-- The C++ type `StreamingPipeline::ProcessorFunction`: the callback receives the builder,
the input item and the output node id, and works on the heap of task nodes. -/
abbrev ProcessorFunction := Store → PipelineBuilder → DataPtr → TaskId → CallbackResult

/-- Members of `StreamingPipeline`, together with the heap of task nodes.  `pipelineBuilder` is
a shared pointer (`none` after `stop()` has reset it); `processor` is a `std::function`
(`none` while none is set); `threadJoinable` is `processingThread_.joinable()`. -/
structure StreamingPipeline where
  store : Store
  pipelineBuilder : Option PipelineBuilder
  inputQueue : threadsafe_queue DataPtr
  input_active : Bool
  outputQueue : threadsafe_queue DataPtr
  output_active : Bool
  processor : Option ProcessorFunction
  outputNodeId : TaskId
  threadJoinable : Bool
  running : Bool
  queueMaxSize : Nat
  processedItems : Nat
  errorCount : Nat
  totalProcessingTime : Nat
  profilingEnabled : Bool
  taskStats : List (TaskId × (Nat × Nat))
  startTime : Nat

/-- The constructor `StreamingPipeline::StreamingPipeline(numThreads, queueSize)`.  The two
`std::atomic<bool>` members `input_active_` and `output_active_` are not initialised by the
constructor; their initial values are parameters here. -/
def StreamingPipeline.new (queueSize : Nat) (inputActive outputActive : Bool) :
    StreamingPipeline :=
  { store := Store.empty, pipelineBuilder := some PipelineBuilder.new,
    inputQueue := threadsafe_queue.new, input_active := inputActive,
    outputQueue := threadsafe_queue.new, output_active := outputActive,
    processor := none, outputNodeId := "output", threadJoinable := false, running := false,
    queueMaxSize := queueSize, processedItems := 0, errorCount := 0, totalProcessingTime := 0,
    profilingEnabled := false, taskStats := [], startTime := 0 }

/-- The method `StreamingPipeline::start`: returns at once when running, throws when no
processor is set, otherwise resets the statistics, sets the flags and spawns the thread. -/
def StreamingPipeline.start (p : StreamingPipeline) : Except String StreamingPipeline :=
  if p.running then
    Except.ok p
  else
    match p.processor with
    | none => Except.error "Processor function not set"
    | some _ =>
      let (t, s1) := p.store.now
      Except.ok { p with
        store := s1, processedItems := 0, errorCount := 0, totalProcessingTime := 0,
        taskStats := [], startTime := t, running := true, input_active := true,
        output_active := true, threadJoinable := true }

/-- The method `StreamingPipeline::setProcessor`. -/
def StreamingPipeline.setProcessor (p : StreamingPipeline) (processor : Option ProcessorFunction) :
    Except String StreamingPipeline :=
  if p.running then
    Except.error "Cannot set processor while pipeline is running"
  else
    Except.ok { p with processor := processor }

/-- The method `StreamingPipeline::setOutputNodeId`. -/
def StreamingPipeline.setOutputNodeId (p : StreamingPipeline) (outputId : TaskId) :
    Except String StreamingPipeline :=
  if p.running then
    Except.error "Cannot set output node ID while pipeline is running"
  else
    Except.ok { p with outputNodeId := outputId }

/-- The method `StreamingPipeline::enableProfiling` (defined in the header). -/
def StreamingPipeline.enableProfiling (p : StreamingPipeline) (enable : Bool) : StreamingPipeline :=
  { p with profilingEnabled := enable }

/-- The method `StreamingPipeline::addInput` when no other thread acts during the call.  `none`
means the caller is still in the wait loop (`size() >= queueMaxSize_ && input_active_`);
otherwise the returned flag and the pipeline.  The exit test of the wait loop, the re-read of
`input_active_` and the push are one step here; `Session.advance` takes them one at a
time. -/
def StreamingPipeline.addInput (p : StreamingPipeline) (data : DataPtr) :
    Option (Bool × StreamingPipeline) :=
  match data with
  | none => some (false, p)
  | some _ =>
    if p.inputQueue.size ≥ p.queueMaxSize && p.input_active then
      none
    else if p.input_active then
      some (true, { p with inputQueue := p.inputQueue.push data })
    else
      some (false, p)

/-- The method `StreamingPipeline::tryGetOutput(output)`: the flag, the reference argument
afterwards, and the pipeline. -/
def StreamingPipeline.tryGetOutput (p : StreamingPipeline) (output : DataPtr) :
    Bool × DataPtr × StreamingPipeline :=
  let (ok, value, q) := p.outputQueue.try_pop output
  (ok, value, { p with outputQueue := q })

/-- The statement pair `taskStats_[taskName].first += executionTime; taskStats_[taskName].second++`
for one entry of the task times. -/
def StreamingPipeline.accumulateTaskTime (stats : List (TaskId × (Nat × Nat)))
    (taskTime : TaskId × Nat) : List (TaskId × (Nat × Nat)) :=
  let current := (mapFind stats taskTime.1).getD (0, 0)
  mapAssign stats taskTime.1 (current.1 + taskTime.2, current.2 + 1)

/-- How the `try` block of the processing loop ends for one item: an exception reaches the
`catch`, or `pipelineBuilder_->execute(outputNodeId_)` returns a result pointer. -/
inductive ItemOutcome where
  | exception
  | result (r : DataPtr)
  deriving DecidableEq, Repr

/-- The first two statements of the `try` block for one item: the call of the processor and the
call of `pipelineBuilder_->execute(outputNodeId_)`.  Returns the store, the builder and the
outcome; `none` if `execute` does not return or the builder pointer is null.  The fuel given to
`execute` is the number of nodes, which bounds the recursion depth on every acyclic graph.  An
empty `processor_` throws `std::bad_function_call`. -/
def StreamingPipeline.buildAndExecute (p : StreamingPipeline) (s0 : Store) (input : DataPtr) :
    Option (Store × Option PipelineBuilder × ItemOutcome) :=
  match p.processor with
  | none => some (s0, p.pipelineBuilder, ItemOutcome.exception)
  | some processor =>
    match p.pipelineBuilder with
    | none => none
    | some builder =>
      let cb := processor s0 builder input p.outputNodeId
      if cb.threw then
        some (cb.store, some cb.builder, ItemOutcome.exception)
      else
        match PipelineBuilder.execute cb.store.nodes.length cb.store cb.builder p.outputNodeId with
        | none => none
        | some (result, s1) => some (s1, some cb.builder, ItemOutcome.result result)

/-- The call `pipelineBuilder_->getScheduler()->getTaskExecutionTimes()`. -/
def StreamingPipeline.taskTimes (s : Store) (builder : Option PipelineBuilder) :
    List (TaskId × Nat) :=
  match builder with
  | some b => TaskScheduler.getTaskExecutionTimes s b.scheduler
  | none => []

/-- The statements `if (result) { outputQueue_->push(result); processedItems_++; }`. -/
def StreamingPipeline.handleResult (p : StreamingPipeline) (result : DataPtr) : StreamingPipeline :=
  match result with
  | some _ => { p with outputQueue := p.outputQueue.push result,
                       processedItems := p.processedItems + 1 }
  | none => p

/-- The body of the `if (inputQueue_->try_pop(input))` of `processingLoop` for a popped item. -/
def StreamingPipeline.processItem (p : StreamingPipeline) (input : DataPtr) :
    Option StreamingPipeline :=
  let (startProcess, s0) := if p.profilingEnabled then p.store.now else (0, p.store)
  match p.buildAndExecute s0 input with
  | none => none
  | some (s1, builder, ItemOutcome.exception) =>
    some { p with store := s1, pipelineBuilder := builder, errorCount := p.errorCount + 1 }
  | some (s1, builder, ItemOutcome.result result) =>
    if p.profilingEnabled then
      let taskTimes := StreamingPipeline.taskTimes s1 builder
      let p1 := { p with store := s1, pipelineBuilder := builder,
                         taskStats := taskTimes.foldl StreamingPipeline.accumulateTaskTime
                           p.taskStats }
      let p2 := p1.handleResult result
      let (endProcess, s2) := s1.now
      some { p2 with store := s2,
                     totalProcessingTime := p2.totalProcessingTime + (endProcess - startProcess) }
    else
      some ({ p with store := s1, pipelineBuilder := builder }.handleResult result)

/-- One pass through the body of the `while` loop of `processingLoop`: a non-blocking pop and,
if an item was popped, its processing. -/
def StreamingPipeline.loopBody (p : StreamingPipeline) : Option StreamingPipeline :=
  match p.inputQueue.try_pop none with
  | (false, _, _) => some p
  | (true, input, rest) => { p with inputQueue := rest }.processItem input

/-- The method `StreamingPipeline::processingLoop` from the state `p` on, with no other thread
acting: `while (running_ || !inputQueue_->empty())` the body, then `output_active_ = false`.
`none`: out of fuel (the loop is still going) or an item's `execute` did not return. -/
def StreamingPipeline.processingLoop : Nat → StreamingPipeline → Option StreamingPipeline
  | 0, p =>
    if p.running || !p.inputQueue.empty then none else some { p with output_active := false }
  | fuel + 1, p =>
    if p.running || !p.inputQueue.empty then
      match p.loopBody with
      | none => none
      | some p1 => StreamingPipeline.processingLoop fuel p1
    else
      some { p with output_active := false }

/-- The method `StreamingPipeline::stop`: after the flags are cleared the join waits for the
processing loop, which drains the input queue; then `output_active_ = false` and the builder
pointer is reset.  The statistics branch only logs. -/
def StreamingPipeline.stop (p : StreamingPipeline) : Option StreamingPipeline :=
  if !p.running then
    some p
  else
    let p1 := { p with running := false, input_active := false }
    let joined :=
      if p1.threadJoinable then
        (StreamingPipeline.processingLoop p1.inputQueue.size p1).map
          fun p2 => { p2 with threadJoinable := false }
      else some p1
    match joined with
    | none => none
    | some p2 =>
      let p3 := { p2 with output_active := false, pipelineBuilder := none }
      some (if p3.profilingEnabled then { p3 with store := p3.store.now.2 } else p3)

/-- The actions of the threads around a pipeline: the calls of its public methods and one pass
of the processing thread through its loop body. -/
inductive Action where
  | start
  | stop
  | setProcessor (processor : Option ProcessorFunction)
  | setOutputNodeId (outputId : TaskId)
  | enableProfiling (enable : Bool)
  | addInput (data : DataPtr)
  | tryGetOutput
  | loopIteration

/-- The effect of one action.  A call that throws or is still waiting leaves the pipeline as it
is; the processing thread takes passes through its loop body only while `running_` is set (the
passes after `stop()` cleared it belong to the join inside `stop`).  `none`: an `execute`
that does not return. -/
def StreamingPipeline.step (p : StreamingPipeline) : Action → Option StreamingPipeline
  | Action.start =>
    match p.start with
    | Except.ok p1 => some p1
    | Except.error _ => some p
  | Action.stop => p.stop
  | Action.setProcessor processor =>
    match p.setProcessor processor with
    | Except.ok p1 => some p1
    | Except.error _ => some p
  | Action.setOutputNodeId outputId =>
    match p.setOutputNodeId outputId with
    | Except.ok p1 => some p1
    | Except.error _ => some p
  | Action.enableProfiling enable => some (p.enableProfiling enable)
  | Action.addInput data =>
    match p.addInput data with
    | some (_, p1) => some p1
    | none => some p
  | Action.tryGetOutput => some (p.tryGetOutput none).2.2
  | Action.loopIteration => if p.running && p.threadJoinable then p.loopBody else some p

/-- The pipeline after a sequence of actions. -/
def StreamingPipeline.run (p : StreamingPipeline) : List Action → Option StreamingPipeline
  | [] => some p
  | a :: rest =>
    match p.step a with
    | none => none
    | some p1 => StreamingPipeline.run p1 rest

/-! ## Observations of a pipeline run -/

/-- What the threads around a pipeline have seen: the items for which `addInput` returned true,
in call order; the items popped by the processing loop, each with the outcome of its `try`
block, in processing order; and the values handed out by `tryGetOutput`. -/
structure History where
  accepted : List DataPtr
  processed : List (DataPtr × ItemOutcome)
  delivered : List DataPtr

/-- The history before anything happened. -/
def History.empty : History := { accepted := [], processed := [], delivered := [] }

/-- The item that one pass through the loop body pops in state `p`, with the outcome of its
`try` block; `none` if the queue is empty or `execute` does not return. -/
def StreamingPipeline.observeBody (p : StreamingPipeline) : Option (DataPtr × ItemOutcome) :=
  match p.inputQueue.try_pop none with
  | (false, _, _) => none
  | (true, input, rest) =>
    let p1 := { p with inputQueue := rest }
    let s0 := if p1.profilingEnabled then p1.store.now.2 else p1.store
    (p1.buildAndExecute s0 input).map fun r => (input, r.2.2)

/-- The items processed by `processingLoop fuel p`, with their outcomes, in order. -/
def StreamingPipeline.observeLoop : Nat → StreamingPipeline → List (DataPtr × ItemOutcome)
  | 0, _ => []
  | fuel + 1, p =>
    if p.running || !p.inputQueue.empty then
      match p.loopBody with
      | none => []
      | some p1 => p.observeBody.toList ++ StreamingPipeline.observeLoop fuel p1
    else
      []

/-- The history after action `a` is taken in state `p`. -/
def History.record (h : History) (p : StreamingPipeline) : Action → History
  | Action.addInput data =>
    match p.addInput data with
    | some (true, _) => { h with accepted := h.accepted ++ [data] }
    | _ => h
  | Action.tryGetOutput =>
    match p.tryGetOutput none with
    | (true, value, _) => { h with delivered := h.delivered ++ [value] }
    | _ => h
  | Action.loopIteration =>
    if p.running && p.threadJoinable then
      { h with processed := h.processed ++ p.observeBody.toList }
    else h
  | Action.stop =>
    if p.running && p.threadJoinable then
      let p1 : StreamingPipeline := { p with running := false, input_active := false }
      { h with processed := h.processed ++ StreamingPipeline.observeLoop p1.inputQueue.size p1 }
    else h
  | _ => h

/-- The pipeline and the history after a sequence of actions. -/
def StreamingPipeline.runObserved (p : StreamingPipeline) (h : History) :
    List Action → Option (StreamingPipeline × History)
  | [] => some (p, h)
  | a :: rest =>
    match p.step a with
    | none => none
    | some p1 => StreamingPipeline.runObserved p1 (h.record p a) rest

/-- The value pushed onto the output queue for a processed item, if any. -/
def ItemOutcome.output : ItemOutcome → Option DataPtr
  | ItemOutcome.result (some v) => some (some v)
  | _ => none

/-- The `try` block ended with a null result: nothing is pushed and nothing is counted. -/
def ItemOutcome.isNullResult : ItemOutcome → Bool
  | ItemOutcome.result none => true
  | _ => false

/-- The `try` block ended in the `catch`. -/
def ItemOutcome.isException : ItemOutcome → Bool
  | ItemOutcome.exception => true
  | _ => false

/-! ## Scenario callbacks -/

/-- The task `double(x) = 2x`. -/
def Scenario.double : ProcessFunction :=
  some fun args =>
    match args with
    | [some x] => CallResult.ret (some (2 * x))
    | _ => CallResult.ret none

/-- The function `maybeFail(x)` of scenario S3: throws when `x = 2`, otherwise returns `x`. -/
def Scenario.maybeFailFn (args : List DataPtr) : CallResult :=
  match args with
  | [some x] => if x = 2 then CallResult.raised else CallResult.ret (some x)
  | _ => CallResult.ret none

/-- The task `maybeFail` of scenario S3. -/
def Scenario.maybeFail : ProcessFunction := some Scenario.maybeFailFn

/-- The callback of scenario S1: `in → double → inc`, the last node carrying the output id. -/
def Scenario.s1Processor : ProcessorFunction := fun s b input outputId =>
  let r1 := PipelineBuilder.addInput s b "in" input
  let r2 := PipelineBuilder.addTask r1.1 r1.2.1 "double" Scenario.double [some r1.2.2]
  let r3 := PipelineBuilder.addTask r2.1 r2.2.1 outputId (Scenario.addK 1) [some r2.2.2]
  { store := r3.1, builder := r3.2.1, threw := false }

/-- The callback of scenario S3: `in → maybeFail`, the processing node carrying the output id. -/
def Scenario.s3Processor : ProcessorFunction := fun s b input outputId =>
  let r1 := PipelineBuilder.addInput s b "in" input
  let r2 := PipelineBuilder.addTask r1.1 r1.2.1 outputId Scenario.maybeFail [some r1.2.2]
  { store := r2.1, builder := r2.2.1, threw := false }

/-- A callback that builds the graph of scenario S1 for the item 1 and nothing for any other
item. -/
def Scenario.onceProcessor : ProcessorFunction := fun s b input outputId =>
  if input = some 1 then Scenario.s1Processor s b input outputId
  else { store := s, builder := b, threw := false }

/-- A constructed pipeline with the given queue capacity, the callback set and the terminal id
`out`. -/
def Scenario.configured (queueSize : Nat) (processor : ProcessorFunction) : StreamingPipeline :=
  { (StreamingPipeline.new queueSize false false) with
    processor := some processor, outputNodeId := "out" }

/-- The configured pipeline after `start()`. -/
def Scenario.startedWith (queueSize : Nat) (processor : ProcessorFunction) : StreamingPipeline :=
  match (Scenario.configured queueSize processor).start with
  | Except.ok p => p
  | Except.error _ => Scenario.configured queueSize processor

/-- A started pipeline with the given callback, queue capacity 10 and terminal id `out`. -/
def Scenario.started (processor : ProcessorFunction) : StreamingPipeline :=
  Scenario.startedWith 10 processor

/-- Scenario S1 as a run: the inputs 1, 2, 3, with loop passes between the calls of `addInput`. -/
def Scenario.s1Actions : List Action :=
  [Action.addInput (some 1), Action.loopIteration, Action.addInput (some 2),
    Action.addInput (some 3), Action.loopIteration, Action.loopIteration]

/-- The history agrees with the input queue: the processed items followed by the items still in
the input queue are the accepted items, in order. -/
def History.InputOrder (h : History) (p : StreamingPipeline) : Prop :=
  h.processed.map Prod.fst ++ p.inputQueue.queue = h.accepted

/-- The history agrees with the output queue: the delivered values followed by the values still
in the output queue are the non-null results of the processed items, in order. -/
def History.OutputOrder (h : History) (p : StreamingPipeline) : Prop :=
  h.delivered ++ p.outputQueue.queue = h.processed.filterMap (fun x => x.2.output)

/-- The counters agree with the history: `processedItems` is the number of processed items
that gave an output, `errorCount` the number that ended in an exception. -/
def History.Counted (h : History) (p : StreamingPipeline) : Prop :=
  p.processedItems = (h.processed.filterMap (fun x => x.2.output)).length ∧
  p.errorCount = (h.processed.filter (fun x => x.2.isException)).length

/-- The loop thread took the pipeline from `p` to `p'` processing the items `obs`: they were
popped from the front of the input queue in order, their non-null results were pushed onto the
output queue in order and counted in `processedItems`, and exceptions in `errorCount`. -/
structure StreamingPipeline.Processed (p p' : StreamingPipeline)
    (obs : List (DataPtr × ItemOutcome)) : Prop where
  input : obs.map Prod.fst ++ p'.inputQueue.queue = p.inputQueue.queue
  output : p'.outputQueue.queue = p.outputQueue.queue ++ obs.filterMap (fun x => x.2.output)
  processedItems :
    p'.processedItems = p.processedItems + (obs.filterMap (fun x => x.2.output)).length
  errorCount : p'.errorCount = p.errorCount + (obs.filter (fun x => x.2.isException)).length
  running : p'.running = p.running
  threadJoinable : p'.threadJoinable = p.threadJoinable
  queueMaxSize : p'.queueMaxSize = p.queueMaxSize
  input_active : p'.input_active = p.input_active
  processor : p'.processor = p.processor

/-- The action is a call of `stop()`. -/
def Action.isStop : Action → Bool
  | Action.stop => true
  | _ => false

/-- Scenario S3 as a run without its final `stop()`: the inputs 1, 2, 3. -/
def Scenario.s3Actions : List Action :=
  [Action.addInput (some 1), Action.addInput (some 2), Action.loopIteration,
    Action.addInput (some 3)]

/-- The observed run of scenario S1. -/
def Scenario.s1Run : Option (StreamingPipeline × History) :=
  (Scenario.started Scenario.s1Processor).runObserved History.empty Scenario.s1Actions

/-! ## Node execution with the exception channel made explicit (task_node.cpp) -/

/-- How a call ends: it returns a value or an exception leaves it. -/
inductive Completion (α : Type) where
  | returned (value : α)
  | threw
  deriving DecidableEq, Repr

/-- The `try` block of `MultiInputTaskNode::execute`: the collection of the dependency results,
the two early returns and the call `func_(inputResults)`, whose exception leaves the block. -/
def MultiInputTaskNode.executeTry (s : Store) (self : NodeRef) (func : ProcessFunction) :
    Completion DataPtr × Store :=
  let inputResults := MultiInputTaskNode.collectInputResults s (TaskNode.getDependencies s self)
  if inputResults.any (fun obj => obj.isNone) then
    (Completion.returned none, s)
  else
    match func with
    | none => (Completion.returned none, s)
    | some f =>
      let s1 := { s with funcLog := s.funcLog ++ [(self, inputResults)] }
      match f inputResults with
      | CallResult.ret v => (Completion.returned v, s1)
      | CallResult.raised => (Completion.threw, s1)

/-- The method `MultiInputTaskNode::execute` with its handlers: the readiness test, the `try`
block, and `catch (const std::exception&)` / `catch (...)`, both of which log and
`return nullptr`. -/
def MultiInputTaskNode.executeCompletion (s : Store) (self : NodeRef) (func : ProcessFunction) :
    Completion DataPtr × Store :=
  if !MultiInputTaskNode.isReady s self || (TaskNode.getDependencies s self).isEmpty then
    (Completion.returned none, s)
  else
    match MultiInputTaskNode.executeTry s self func with
    | (Completion.returned v, s1) => (Completion.returned v, s1)
    | (Completion.threw, s1) => (Completion.returned none, s1)

/-- The virtual call `execute()` with the exception channel; the call is logged. -/
def TaskNode.executeCompletion (s : Store) (self : NodeRef) : Completion DataPtr × Store :=
  let s1 := { s with executeLog := s.executeLog ++ [self] }
  match s1.nodes[self]? with
  | some n =>
    match n.kind with
    | NodeKind.input data => (Completion.returned (InputNode.execute data), s1)
    | NodeKind.multiInput func _ => MultiInputTaskNode.executeCompletion s1 self func
  | none => (Completion.returned none, s1)

/-- The method `TaskNode::executeOnce` with the exception channel: it has no handler, so an
exception leaving `execute()` would leave `executeOnce` before `endExecution()` and
`setResult(result)`. -/
def TaskNode.executeOnceCompletion (s : Store) (self : NodeRef) : Completion Unit × Store :=
  if TaskNode.isExecuted s self then
    (Completion.returned (), s)
  else
    let s1 := TaskNode.startExecution s self
    match TaskNode.executeCompletion s1 self with
    | (Completion.threw, s2) => (Completion.threw, s2)
    | (Completion.returned result, s2) =>
      let s3 := TaskNode.endExecution s2 self
      (Completion.returned (), TaskNode.setResult s3 self result)

/-! ## `ThreadPool` (thread_pool.h, thread_pool.cpp) -/

/-- Members of `ThreadPool` that the worker loop reads and writes: the task queue `tasks_`,
front first, and the flag `stop_`.  A task is named by a number; `ran` lists the tasks the
workers have taken from the queue and run, in order (the source keeps no such list). -/
structure ThreadPool where
  tasks : List Nat
  stop : Bool
  ran : List Nat
  deriving DecidableEq, Repr

/-- The constructor `ThreadPool::ThreadPool`: no task queued, `stop_` false. -/
def ThreadPool.new : ThreadPool := { tasks := [], stop := false, ran := [] }

/-- The method `ThreadPool::enqueue`: throws on a stopped pool, otherwise appends the task. -/
def ThreadPool.enqueue (self : ThreadPool) (task : Nat) : Except String ThreadPool :=
  if self.stop then
    Except.error "enqueue on stopped ThreadPool"
  else
    Except.ok { self with tasks := self.tasks ++ [task] }

/-- How one pass of a worker through its loop ends. -/
inductive WorkerPass where
  | waiting
  | exited
  | ran (task : Nat)
  deriving DecidableEq, Repr

/-- One pass of a worker thread through `while (true)`: the wait for `stop_ || !tasks_.empty()`,
the exit test `stop_ && tasks_.empty()`, and otherwise the removal of the front task and its
call (an exception of the task is caught and logged). -/
def ThreadPool.workerPass (self : ThreadPool) : WorkerPass × ThreadPool :=
  if self.stop || !self.tasks.isEmpty then
    if self.stop && self.tasks.isEmpty then
      (WorkerPass.exited, self)
    else
      match self.tasks with
      | task :: rest => (WorkerPass.ran task, { self with tasks := rest, ran := self.ran ++ [task] })
      | [] => (WorkerPass.exited, self)
  else
    (WorkerPass.waiting, self)

/-- A worker thread from the state `self` on, with no other thread acting: passes through the
loop until the worker returns.  `none`: out of fuel, or the worker waits on the condition. -/
def ThreadPool.worker : Nat → ThreadPool → Option ThreadPool
  | 0, _ => none
  | fuel + 1, self =>
    match self.workerPass with
    | (WorkerPass.exited, pool) => some pool
    | (WorkerPass.waiting, _) => none
    | (WorkerPass.ran _, pool) => ThreadPool.worker fuel pool

/-- The destructor `ThreadPool::~ThreadPool`: sets `stop_`, wakes the workers and joins them;
the join is a worker run to its return (the other workers then find the queue empty). -/
def ThreadPool.shutdown (self : ThreadPool) : Option ThreadPool :=
  ThreadPool.worker (self.tasks.length + 1) { self with stop := true }

/-! ## Sequences of operations on a `threadsafe_queue` -/

/-- The value of `int size()`: the `size_t` length converted to a 32-bit `int`. -/
def threadsafe_queue.sizeInt {α : Type} (self : threadsafe_queue α) : Int :=
  if self.queue.length % 2 ^ 32 < 2 ^ 31 then (self.queue.length % 2 ^ 32 : Nat)
  else ((self.queue.length % 2 ^ 32 : Nat) : Int) - 2 ^ 32

/-- A call of `push(data)` or of `try_pop(value)`. -/
inductive QueueOp (α : Type) where
  | push (data : α)
  | try_pop

/-- The value a `push` adds. -/
def QueueOp.pushedValue {α : Type} : QueueOp α → Option α
  | QueueOp.push data => some data
  | QueueOp.try_pop => none

/-- A queue together with the variable its callers pass to `try_pop`, the number of calls of
`try_pop` that returned true, and the values these calls stored into the variable, in order. -/
structure QueueTrace (α : Type) where
  queue : threadsafe_queue α
  value : α
  pops : Nat
  popped : List α

/-- The effect of one operation. -/
def QueueTrace.apply {α : Type} (t : QueueTrace α) : QueueOp α → QueueTrace α
  | QueueOp.push data => { t with queue := t.queue.push data }
  | QueueOp.try_pop =>
    match t.queue.try_pop t.value with
    | (true, value, rest) =>
      { queue := rest, value := value, pops := t.pops + 1, popped := t.popped ++ [value] }
    | (false, value, rest) => { t with queue := rest, value := value }

/-- A sequence of operations on a new queue; `init` is the initial value of the variable. -/
def QueueTrace.run {α : Type} (init : α) (ops : List (QueueOp α)) : QueueTrace α :=
  ops.foldl QueueTrace.apply { queue := threadsafe_queue.new, value := init, pops := 0, popped := [] }

/-! ## Further scenario callbacks -/

/-- A callback that builds `in → double` and never binds the output id. -/
def Scenario.unboundProcessor : ProcessorFunction := fun s b input _ =>
  let r1 := PipelineBuilder.addInput s b "in" input
  let r2 := PipelineBuilder.addTask r1.1 r1.2.1 "double" Scenario.double [some r1.2.2]
  { store := r2.1, builder := r2.2.1, threw := false }

/-- A callback that declares different node ids for different items: `in → first → out` for
the item 1 and `in → other → out` for every other item. -/
def Scenario.perItemProcessor : ProcessorFunction := fun s b input outputId =>
  let r1 := PipelineBuilder.addInput s b "in" input
  let r2 := PipelineBuilder.addTask r1.1 r1.2.1 (if input = some 1 then "first" else "other")
    Scenario.double [some r1.2.2]
  let r3 := PipelineBuilder.addTask r2.1 r2.2.1 outputId (Scenario.addK 1) [some r2.2.2]
  { store := r3.1, builder := r3.2.1, threw := false }

/-- The configured pipeline after `enableProfiling(true)` and `start()`. -/
def Scenario.startedProfiling (processor : ProcessorFunction) : StreamingPipeline :=
  match ((Scenario.configured 10 processor).enableProfiling true).start with
  | Except.ok p => p
  | Except.error _ => Scenario.configured 10 processor

/-- The run with profiling and the per-item callback: the items 1 and 2, each followed by a
pass of the processing loop. -/
def Scenario.perItemRun : Option StreamingPipeline :=
  (Scenario.startedProfiling Scenario.perItemProcessor).run
    [Action.addInput (some 1), Action.loopIteration, Action.addInput (some 2),
      Action.loopIteration]

/-- The number of calls of `execute()` on nodes with the given id. -/
def Store.executionsOf (s : Store) (id : TaskId) : Nat :=
  (s.executeLog.filter (fun r => TaskNode.getId s r == id)).length

/-! ## `TaskRegistry` (processing_task.h) and a callback that looks its tasks up -/

/-- Members of `TaskRegistry`: the registered tasks by id; a task is its `process` method. -/
structure TaskRegistry where
  tasks : List (TaskId × (List DataPtr → CallResult))

/-- A registry without tasks. -/
def TaskRegistry.new : TaskRegistry := { tasks := [] }

/-- The method `TaskRegistry::registerTask`. -/
def TaskRegistry.registerTask (self : TaskRegistry) (taskId : TaskId)
    (task : List DataPtr → CallResult) : TaskRegistry × TaskId :=
  ({ tasks := mapAssign self.tasks taskId task }, taskId)

/-- The method `TaskRegistry::getProcessFunction`: throws `std::runtime_error` for an id that is
not registered. -/
def TaskRegistry.getProcessFunction (self : TaskRegistry) (taskId : TaskId) :
    Except String ProcessFunction :=
  match mapFind self.tasks taskId with
  | none => Except.error ("Task not found: " ++ taskId)
  | some task => Except.ok (some task)

/-- A registry holding the task `double` only. -/
def Scenario.registry : TaskRegistry :=
  (TaskRegistry.new.registerTask "double" fun args =>
    match args with
    | [some x] => CallResult.ret (some (2 * x))
    | _ => CallResult.ret none).1

/-- A callback that declares `in → double` with the function looked up in the registry; for the
item 2 it asks for the id `unregistered`, so `getProcessFunction` throws after `addInput`. -/
def Scenario.lookupProcessor : ProcessorFunction := fun s b input outputId =>
  let r1 := PipelineBuilder.addInput s b "in" input
  match Scenario.registry.getProcessFunction
      (if input = some 2 then "unregistered" else "double") with
  | Except.error _ => { store := r1.1, builder := r1.2.1, threw := true }
  | Except.ok func =>
    let r2 := PipelineBuilder.addTask r1.1 r1.2.1 outputId func [some r1.2.2]
    { store := r2.1, builder := r2.2.1, threw := false }

/-- The run of the registry callback on the items 1, 2, 3. -/
def Scenario.lookupRun : Option StreamingPipeline :=
  (Scenario.started Scenario.lookupProcessor).run
    [Action.addInput (some 1), Action.addInput (some 2), Action.addInput (some 3),
      Action.loopIteration, Action.loopIteration, Action.loopIteration]

/-! ## Pushes onto the output queue since `start()` -/

/-- The action is a call of `start()`. -/
def Action.isStart : Action → Bool
  | Action.start => true
  | _ => false

/-- The call of `start()` in state `p` passes both tests and resets the statistics. -/
def StreamingPipeline.startResets (p : StreamingPipeline) (a : Action) : Bool :=
  a.isStart && !p.running && p.processor.isSome

/-- The number of values that the step from `p` to `p1` by the action `a` pushed onto the output
queue: the growth of the queue; a consumer's `tryGetOutput` pushes nothing. -/
def StreamingPipeline.pushCount (p p1 : StreamingPipeline) : Action → Nat
  | Action.tryGetOutput => 0
  | _ => p1.outputQueue.queue.length - p.outputQueue.queue.length

/-- The pipeline after a sequence of actions, together with the number of values pushed onto
the output queue since the last `start()` that reset the statistics; `count` is that number
in the state `p`. -/
def StreamingPipeline.runCounting (p : StreamingPipeline) (count : Nat) :
    List Action → Option (StreamingPipeline × Nat)
  | [] => some (p, count)
  | a :: rest =>
    match p.step a with
    | none => none
    | some p1 =>
      StreamingPipeline.runCounting p1
        (if p.startResets a then 0 else count + p.pushCount p1 a) rest

/-! ## Graphs built through the builder, null handles included -/

/-- The stores and builders reached from a new `PipelineBuilder` by calls of `addInput` and of
`addTask`, the handles passed to `addTask` being null or handles of nodes constructed
before. -/
inductive Constructed : Store → PipelineBuilder → Prop where
  | fresh : Constructed Store.empty PipelineBuilder.new
  | addInput {s : Store} {b : PipelineBuilder} (id : TaskId) (data : DataPtr) :
      Constructed s b →
      Constructed (PipelineBuilder.addInput s b id data).1
        (PipelineBuilder.addInput s b id data).2.1
  | addTask {s : Store} {b : PipelineBuilder} (id : TaskId) (func : ProcessFunction)
      (inputs : List NodePtr) :
      Constructed s b → (∀ p ∈ inputs, p = none ∨ ∃ r : Nat, p = some r ∧ r < s.nodes.length) →
      Constructed (PipelineBuilder.addTask s b id func inputs).1
        (PipelineBuilder.addTask s b id func inputs).2.1

/-- The node `n` is in the transitive dependency closure of `t`: reached by at least one
dependency edge. -/
def DependsOn (s : Store) (t n : NodeRef) : Prop :=
  ∃ d : NodeRef, some d ∈ TaskNode.getDependencies s t ∧ Reaches s d n

/-! ## The dispatch of `TaskScheduler::executeTask` on a pool of `N` workers -/

/-- A thread inside `TaskScheduler::executeTask(node)`, past the enqueueing of the pending
dependencies: the futures it still has to wait for, in order, and, for a worker, the future
of the pool task it is running (`none` for the caller of `execute`). -/
structure WaitFrame where
  future : Option Nat
  node : Nat
  waits : List Nat
  deriving DecidableEq, Repr

/-- The state of a dispatch: the dependency lists of the nodes (non-null handles), their
`executed` flags, the task queue of the pool (future and node of each queued
`executeTask(dep)`, front first), the number of futures created, the futures whose task has
returned, and the threads: thread 0 is the caller of `execute`, the threads from 1 on are the
workers; `none` is a thread that is in no call of `executeTask`. -/
structure PoolState where
  deps : List (List Nat)
  executed : List Bool
  tasks : List (Nat × Nat)
  futures : Nat
  ready : List Nat
  threads : List (Option WaitFrame)
  deriving DecidableEq, Repr

/-- The test `dep->isExecuted()`. -/
def PoolState.isExecuted (d : PoolState) (node : Nat) : Bool := d.executed.getD node false

/-- The dependencies for which `executeTask(node)` enqueues a task. -/
def PoolState.pending (d : PoolState) (node : Nat) : List Nat :=
  (d.deps.getD node []).filter fun dep => !d.isExecuted dep

/-- The calls `threadPool_.enqueue(...)` for the given nodes: the state and the futures. -/
def PoolState.enqueueAll (d : PoolState) (nodes : List Nat) : PoolState × List Nat :=
  nodes.foldl (fun acc dep =>
    ({ acc.1 with tasks := acc.1.tasks ++ [(acc.1.futures, dep)],
                  futures := acc.1.futures + 1 }, acc.2 ++ [acc.1.futures])) (d, [])

/-- The thread `i` is now in the given frame, or in none. -/
def PoolState.setThread (d : PoolState) (i : Nat) (frame : Option WaitFrame) : PoolState :=
  { d with threads := d.threads.set i frame }

/-- The pool task of the given future has returned. -/
def PoolState.complete (d : PoolState) (future : Option Nat) : PoolState :=
  match future with
  | some k => { d with ready := d.ready ++ [k] }
  | none => d

/-- The thread `i` enters `executeTask(node)`: an executed node returns at once; otherwise the
pending dependencies are enqueued and the thread goes on to wait for their futures. -/
def PoolState.beginExecuteTask (d : PoolState) (i : Nat) (future : Option Nat) (node : Nat) :
    PoolState :=
  if d.isExecuted node then
    (d.complete future).setThread i none
  else
    let r := d.enqueueAll (d.pending node)
    r.1.setThread i (some { future := future, node := node, waits := r.2 })

/-- One step of the thread `i`, `none` if the thread cannot move.  A thread in a frame returns
from `future.wait()` if the future is ready and blocks otherwise; with no future left it
runs `executeOnce` and returns.  A worker in no frame takes the front task of the queue and
enters `executeTask`, and waits on the condition if the queue is empty. -/
def PoolState.stepThread (d : PoolState) (i : Nat) : Option PoolState :=
  match d.threads[i]? with
  | none => none
  | some (some frame) =>
    match frame.waits with
    | w :: rest =>
      if w ∈ d.ready then some (d.setThread i (some { frame with waits := rest })) else none
    | [] =>
      some ((({ d with executed := d.executed.set frame.node true }).complete
        frame.future).setThread i none)
  | some none =>
    if i = 0 then none
    else
      match d.tasks with
      | [] => none
      | (k, node) :: rest => some (({ d with tasks := rest }).beginExecuteTask i (some k) node)

/-- The call `execute` on a scheduler with `numThreads` workers: the caller enters
`executeTask(terminal)`. -/
def PoolState.execute (deps : List (List Nat)) (executed : List Bool) (numThreads : Nat)
    (terminal : Nat) : PoolState :=
  ({ deps := deps, executed := executed, tasks := [], futures := 0, ready := [],
     threads := List.replicate (numThreads + 1) none } : PoolState).beginExecuteTask 0 none
    terminal

/-- The state after the threads named in the schedule were given a step each, in order; a
thread that cannot move leaves the state as it is. -/
def PoolState.run (d : PoolState) : List Nat → PoolState
  | [] => d
  | i :: rest => PoolState.run ((d.stepThread i).getD d) rest

/-- Every worker is blocked in `future.wait()` on a future whose task is still queued. -/
def PoolState.starved (d : PoolState) : Bool :=
  d.threads.tail.all fun thread =>
    match thread with
    | some frame =>
      match frame.waits with
      | w :: _ => !d.ready.contains w && (d.tasks.map Prod.fst).contains w
      | [] => false
    | none => false

/-- The dependency lists of the chain `in → a → b → out` (addresses 0, 1, 2, 3). -/
def Scenario.chainDeps : List (List Nat) := [[], [0], [1], [2]]

/-- The flags of the chain after construction: only the input node has executed. -/
def Scenario.chainExecuted : List Bool := [true, false, false, false]

/-! ## Callbacks that declare their graph through the builder only -/

/-- One call of the builder inside a graph-construction callback.  The handles that `addTask`
is given are named by the position of the earlier call of this callback that returned them;
a position that names no earlier call stands for a null handle. -/
inductive BuildStep where
  | addInput (id : TaskId) (data : DataPtr)
  | addTask (id : TaskId) (func : ProcessFunction) (inputs : List Nat)

/-- The id that the call declares. -/
def BuildStep.id : BuildStep → TaskId
  | BuildStep.addInput id _ => id
  | BuildStep.addTask id _ _ => id

/-- The call made on the builder: the store, the builder and the handles returned so far. -/
def BuildStep.run (st : Store × PipelineBuilder × List NodeRef) :
    BuildStep → Store × PipelineBuilder × List NodeRef
  | BuildStep.addInput id data =>
    let r := PipelineBuilder.addInput st.1 st.2.1 id data
    (r.1, r.2.1, st.2.2 ++ [r.2.2])
  | BuildStep.addTask id func inputs =>
    let r := PipelineBuilder.addTask st.1 st.2.1 id func (inputs.map fun k => st.2.2[k]?)
    (r.1, r.2.1, st.2.2 ++ [r.2.2])

/-- A graph-construction callback given as the calls it makes on the builder, for each item
and output id: it uses the handles returned by its own calls only, and it does not throw. -/
def GraphProgram.callback (program : DataPtr → TaskId → List BuildStep) : ProcessorFunction :=
  fun s b input outputId =>
    let r := (program input outputId).foldl BuildStep.run (s, b, [])
    { store := r.1, builder := r.2.1, threw := false }

/-- The value of the node that a call declares, from the values of the nodes declared by the
earlier calls: the data of an input node; for a processing node null if it has no non-null
handle or one of its dependencies has the value null, and otherwise its function applied to
the values of its dependencies. -/
def BuildStep.value (vals : List DataPtr) : BuildStep → DataPtr
  | BuildStep.addInput _ data => data
  | BuildStep.addTask _ func inputs =>
    if (inputs.filterMap fun k => vals[k]?).isEmpty then none
    else if (inputs.filterMap fun k => vals[k]?).any (fun v => v.isNone) then none
    else callValue func (inputs.filterMap fun k => vals[k]?)

/-- The values of the declared nodes so far, and the value of the last node declared under the
output id, if any. -/
def GraphProgram.step (outputId : TaskId) (st : List DataPtr × Option DataPtr)
    (step : BuildStep) : List DataPtr × Option DataPtr :=
  (st.1 ++ [step.value st.1],
    if step.id = outputId then some (step.value st.1) else st.2)

/-- The value of the terminal node that the calls declare; `none` if they declare no node
under the output id. -/
def GraphProgram.output (steps : List BuildStep) (outputId : TaskId) : Option DataPtr :=
  (steps.foldl (GraphProgram.step outputId) ([], none)).2

/-- A node without its timing members. -/
def TaskNode.untimed (n : TaskNode) : TaskNode :=
  { n with startTime := 0, endTime := 0, executionTimeMs := 0 }

/-- Two stores hold the same nodes up to the timing members; the clock and the observation
logs are not compared. -/
def Store.SameUntimed (s s' : Store) : Prop :=
  s.nodes.map TaskNode.untimed = s'.nodes.map TaskNode.untimed

/-- A deterministic graph-construction callback: the nodes it leaves (up to timing), the
builder it leaves and whether it throws are determined by the builder, the item, the output
id and the nodes it finds (up to timing); they do not depend on the clock. -/
def TimingIndependent (f : ProcessorFunction) : Prop :=
  ∀ (s s' : Store) (b : PipelineBuilder) (input : DataPtr) (outputId : TaskId),
    s.SameUntimed s' →
    (f s b input outputId).store.SameUntimed (f s' b input outputId).store ∧
    (f s b input outputId).builder = (f s' b input outputId).builder ∧
    (f s b input outputId).threw = (f s' b input outputId).threw

/-- Two pipelines agree in everything but the timing statistics (`totalProcessingTime`,
`taskStats`, `startTime`, the times recorded in the nodes, the clock) and the profiling
flag. -/
structure StreamingPipeline.SameUntimed (p q : StreamingPipeline) : Prop where
  store : p.store.SameUntimed q.store
  pipelineBuilder : p.pipelineBuilder = q.pipelineBuilder
  inputQueue : p.inputQueue = q.inputQueue
  input_active : p.input_active = q.input_active
  outputQueue : p.outputQueue = q.outputQueue
  output_active : p.output_active = q.output_active
  processor : p.processor = q.processor
  outputNodeId : p.outputNodeId = q.outputNodeId
  threadJoinable : p.threadJoinable = q.threadJoinable
  running : p.running = q.running
  queueMaxSize : p.queueMaxSize = q.queueMaxSize
  processedItems : p.processedItems = q.processedItems
  errorCount : p.errorCount = q.errorCount

/-- Two calls both do not return, or both return, with related results. -/
def Agree {α : Type} (R : α → α → Prop) : Option α → Option α → Prop
  | some a, some b => R a b
  | none, none => True
  | _, _ => False

/-- The action changes neither the callback nor the profiling flag. -/
def Action.keepsConfiguration : Action → Bool
  | Action.setProcessor _ => false
  | Action.enableProfiling _ => false
  | _ => true

/-- Scenario S3 as a program: `in → maybeFail`, whose function throws on the item 2. -/
def Scenario.s3Program : DataPtr → TaskId → List BuildStep := fun input outputId =>
  [BuildStep.addInput "in" input, BuildStep.addTask outputId Scenario.maybeFail [0]]

/-- Scenario S3 from the configured pipeline to the return of `stop()`. -/
def Scenario.s3Session : List Action :=
  [Action.start, Action.addInput (some 1), Action.addInput (some 2), Action.loopIteration,
    Action.addInput (some 3), Action.stop]

/-! ## `BaseUnifiedAllocator` (unified_allocator.h) -/

/-- The constant `GRYFLUX_MEMORY_ALIGN`. -/
def GRYFLUX_MEMORY_ALIGN : Nat := 128

/-- The constant `LARGE_MEMORY_THRESHOLD` (1 MiB). -/
def LARGE_MEMORY_THRESHOLD : Nat := 1 * 1024 * 1024

/-- The value of `sizeof(MemoryBlock)` on an LP64 platform. -/
def sizeofMemoryBlock : Nat := 32

/-- Members of `BaseUnifiedAllocator`.  A pointer is a number, `nullptr` is 0; `size_t` is 64
bits wide.  `budgets` is the pool and `payouts` the in-use list, each a `std::list` of (size,
pointer), front first.  `registry` is the `MemoryRegistry`: the registered user pointers with
the `original_ptr` of their `MemoryBlock`.  The platform is represented by `platform`, the
results of the coming calls of `platformMalloc` in order (0 for a failed call, and a call
after the list is exhausted fails), by `requested`, the sizes passed to `platformMalloc` so
far, and by `released`, the pointers passed to `platformFree` so far. -/
structure BaseUnifiedAllocator where
  size_compare_ratio : Nat
  size_drop_threshold : Nat
  budgets : List (Nat × Nat)
  payouts : List (Nat × Nat)
  registry : List (Nat × Nat)
  platform : List Nat
  requested : List Nat
  released : List Nat
  deriving DecidableEq, Repr

/-- The constructor `CPUAllocator(size_compare_ratio = 192, size_drop_threshold = 16)` on a
platform with the given results of `platformMalloc`. -/
def CPUAllocator.new (platform : List Nat) (size_compare_ratio : Nat) (size_drop_threshold : Nat) :
    BaseUnifiedAllocator :=
  { size_compare_ratio := size_compare_ratio % 2 ^ 32, size_drop_threshold := size_drop_threshold,
    budgets := [], payouts := [], registry := [], platform := platform, requested := [],
    released := [] }

/-- The method `MemoryRegistry::getBlock`: the `original_ptr` of the registered block. -/
def MemoryRegistry.getBlock (registry : List (Nat × Nat)) (user_ptr : Nat) : Option Nat :=
  (registry.find? fun entry => entry.1 == user_ptr).map Prod.snd

/-- The method `MemoryRegistry::unregisterBlock`. -/
def MemoryRegistry.unregisterBlock (registry : List (Nat × Nat)) (user_ptr : Nat) :
    List (Nat × Nat) :=
  registry.filter fun entry => !(entry.1 == user_ptr)

/-- The method `MemoryRegistry::registerBlock`: `memory_blocks_[user_ptr] = block`. -/
def MemoryRegistry.registerBlock (registry : List (Nat × Nat)) (user_ptr original_ptr : Nat) :
    List (Nat × Nat) :=
  MemoryRegistry.unregisterBlock registry user_ptr ++ [(user_ptr, original_ptr)]

/-- The rounding `(size + GRYFLUX_MEMORY_ALIGN - 1) & ~(GRYFLUX_MEMORY_ALIGN - 1)` in `size_t`. -/
def BaseUnifiedAllocator.alignSize (size : Nat) : Nat :=
  (size + GRYFLUX_MEMORY_ALIGN - 1) % 2 ^ 64 / GRYFLUX_MEMORY_ALIGN * GRYFLUX_MEMORY_ALIGN

/-- The test `bs >= size && ((bs * size_compare_ratio_) >> 8) <= size` in `size_t`. -/
def BaseUnifiedAllocator.fits (self : BaseUnifiedAllocator) (size bs : Nat) : Bool :=
  decide (bs ≥ size) && decide (bs * self.size_compare_ratio % 2 ^ 64 / 2 ^ 8 ≤ size)

/-- The recorded size of the pool block at a position. -/
def BaseUnifiedAllocator.sizeAt (self : BaseUnifiedAllocator) (it : Nat) : Nat :=
  (self.budgets.getD it (0, 0)).1

/-- The `for` loop of `malloc` over the pool from position `it` on (`rest` is the pool from
there): the position of the first block that fits, if any, and the iterators `it_min` and
`it_max` as the loop leaves them. -/
def BaseUnifiedAllocator.scan (self : BaseUnifiedAllocator) (size : Nat) :
    List (Nat × Nat) → Nat → Nat → Nat → Option Nat × Nat × Nat
  | [], _, it_min, it_max => (none, it_min, it_max)
  | (bs, _) :: rest, it, it_min, it_max =>
    if self.fits size bs then
      (some it, it_min, it_max)
    else
      BaseUnifiedAllocator.scan self size rest (it + 1)
        (if bs < self.sizeAt it_min then it else it_min)
        (if bs > self.sizeAt it_max then it else it_max)

/-- The statements that release the pool block at a position: the block is unregistered and
its memory freed if it is registered, and the entry is erased from the pool. -/
def BaseUnifiedAllocator.dropBlock (self : BaseUnifiedAllocator) (it : Nat) :
    BaseUnifiedAllocator :=
  let ptr := (self.budgets.getD it (0, 0)).2
  match MemoryRegistry.getBlock self.registry ptr with
  | some original_ptr =>
    { self with registry := MemoryRegistry.unregisterBlock self.registry ptr,
                released := self.released ++ [original_ptr],
                budgets := self.budgets.eraseIdx it }
  | none => { self with budgets := self.budgets.eraseIdx it }

/-- The pointer arithmetic of `alignPtr(original_ptr + sizeof(MemoryBlock), 128)`. -/
def alignPtr (ptr : Nat) (n : Nat) : Nat := (ptr + n - 1) % 2 ^ 64 / n * n

/-- The method `BaseUnifiedAllocator::allocateMemory`: the user pointer (0 if the platform
call fails) and the allocator. -/
def BaseUnifiedAllocator.allocateMemory (self : BaseUnifiedAllocator) (size : Nat) :
    Nat × BaseUnifiedAllocator :=
  let allocation_size := (size + sizeofMemoryBlock + GRYFLUX_MEMORY_ALIGN) % 2 ^ 64
  let original_ptr := self.platform.headD 0
  let self1 := { self with platform := self.platform.tail,
                           requested := self.requested ++ [allocation_size] }
  if original_ptr = 0 then
    (0, self1)
  else
    let user_ptr := alignPtr ((original_ptr + sizeofMemoryBlock) % 2 ^ 64) GRYFLUX_MEMORY_ALIGN
    (user_ptr,
      { self1 with registry := MemoryRegistry.registerBlock self1.registry user_ptr original_ptr })

/-- What a call of `malloc` returns: the pointer, whether it left through the `return` of the
reuse branch, and the allocator afterwards. -/
structure MallocResult where
  ptr : Nat
  reused : Bool
  allocator : BaseUnifiedAllocator
  deriving DecidableEq, Repr

/-- The method `BaseUnifiedAllocator::malloc`. -/
def BaseUnifiedAllocator.malloc (self : BaseUnifiedAllocator) (size : Nat) : MallocResult :=
  let size := BaseUnifiedAllocator.alignSize size
  match self.scan size self.budgets 0 0 0 with
  | (some it, _, _) =>
    let block := self.budgets.getD it (0, 0)
    { ptr := block.2, reused := true,
      allocator := { self with budgets := self.budgets.eraseIdx it,
                               payouts := self.payouts ++ [(block.1, block.2)] } }
  | (none, it_min, it_max) =>
    let self1 :=
      if !self.budgets.isEmpty && decide (self.budgets.length ≥ self.size_drop_threshold) then
        if self.sizeAt it_max < size then self.dropBlock it_min
        else if self.sizeAt it_min > size then self.dropBlock it_max
        else self
      else self
    let r := self1.allocateMemory size
    if r.1 = 0 then
      { ptr := 0, reused := false, allocator := r.2 }
    else
      { ptr := r.1, reused := false,
        allocator := { r.2 with payouts := r.2.payouts ++ [(size, r.1)] } }

/-- The position of the first entry of the in-use list with the given pointer. -/
def BaseUnifiedAllocator.findPayout (payouts : List (Nat × Nat)) (ptr : Nat) : Option Nat :=
  payouts.findIdx? fun entry => entry.2 == ptr

/-- The method `BaseUnifiedAllocator::free`. -/
def BaseUnifiedAllocator.free (self : BaseUnifiedAllocator) (ptr : Nat) : BaseUnifiedAllocator :=
  if ptr = 0 then
    self
  else
    match BaseUnifiedAllocator.findPayout self.payouts ptr with
    | some it =>
      let size := (self.payouts.getD it (0, 0)).1
      let self1 := { self with payouts := self.payouts.eraseIdx it }
      match MemoryRegistry.getBlock self1.registry ptr with
      | some original_ptr =>
        if size > LARGE_MEMORY_THRESHOLD * 2 then
          { self1 with registry := MemoryRegistry.unregisterBlock self1.registry ptr,
                       released := self1.released ++ [original_ptr] }
        else
          { self1 with budgets := self1.budgets ++ [(size, ptr)] }
      | none => self1
    | none =>
      match MemoryRegistry.getBlock self.registry ptr with
      | some original_ptr =>
        { self with registry := MemoryRegistry.unregisterBlock self.registry ptr,
                    released := self.released ++ [original_ptr] }
      | none => self

/-! ## YOLOX object detector (`object_detector.cpp`)

The `float` type of the source is a parameter `α`; the operations the embedded code applies to
floats are the fields of `FloatOps`.  `a >= b` of the source is `le b a`.  An `int` is an `Int`
(the indices stay between `-1` and the number of candidates).  A while loop takes a fuel
argument; `none` means out of fuel. -/

/-- The float operations used by the embedded part of `object_detector.cpp`. -/
structure FloatOps (α : Type) where
  /-- The comparison `a <= b`. -/
  le : α → α → Bool
  /-- The comparison `a > b`. -/
  gt : α → α → Bool
  /-- The sum `a + b`. -/
  add : α → α → α
  /-- The difference `a - pad` of a float and an `int`. -/
  subInt : α → Int → α
  /-- The function `CalculateOverlap`. -/
  CalculateOverlap : α → α → α → α → α → α → α → α → α
  /-- The expression `(int)(clamp(val, min, max) / scale)`. -/
  clampDiv : α → Int → Int → α → Int

/-- The struct `ObjectInfo` pushed to the `ObjectPackage`. -/
structure ObjectInfo (α : Type) where
  left : Int
  top : Int
  right : Int
  bottom : Int
  class_id : Int
  prob : α
  deriving DecidableEq, Repr

/-- The loop `while (low < high && input[high] <= key) high--;`. -/
def quick_sort_indice_inverse.scanHigh {α : Type} [Inhabited α] (le : α → α → Bool)
    (input : List α) (key : α) (low : Int) : Nat → Int → Option Int
  | 0, _ => none
  | fuel + 1, high =>
    if low < high ∧ le (input.getD high.toNat default) key = true then
      quick_sort_indice_inverse.scanHigh le input key low fuel (high - 1)
    else some high

/-- The loop `while (low < high && input[low] >= key) low++;`. -/
def quick_sort_indice_inverse.scanLow {α : Type} [Inhabited α] (le : α → α → Bool)
    (input : List α) (key : α) (high : Int) : Nat → Int → Option Int
  | 0, _ => none
  | fuel + 1, low =>
    if low < high ∧ le key (input.getD low.toNat default) = true then
      quick_sort_indice_inverse.scanLow le input key high fuel (low + 1)
    else some low

/-- The loop `while (low < high) { ... }` of `quick_sort_indice_inverse`; the result is
`input`, `indices`, `low` and `high` at its exit. -/
def quick_sort_indice_inverse.partition {α : Type} [Inhabited α] (le : α → α → Bool) (key : α) :
    Nat → List α → List Int → Int → Int → Option (List α × List Int × Int × Int)
  | 0, _, _, _, _ => none
  | fuel + 1, input, indices, low, high =>
    if low < high then
      match quick_sort_indice_inverse.scanHigh le input key low (fuel + 1) high with
      | none => none
      | some high1 =>
        let input1 := input.set low.toNat (input.getD high1.toNat default)
        let indices1 := indices.set low.toNat (indices.getD high1.toNat 0)
        match quick_sort_indice_inverse.scanLow le input1 key high1 (fuel + 1) low with
        | none => none
        | some low1 =>
          let input2 := input1.set high1.toNat (input1.getD low1.toNat default)
          let indices2 := indices1.set high1.toNat (indices1.getD low1.toNat 0)
          quick_sort_indice_inverse.partition le key fuel input2 indices2 low1 high1
    else some (input, indices, low, high)

/-- The function `quick_sort_indice_inverse(input, left, right, indices)`; the result is the
two vectors after the call and the returned `low`. -/
def quick_sort_indice_inverse {α : Type} [Inhabited α] (le : α → α → Bool) :
    Nat → List α → Int → Int → List Int → Option (List α × List Int × Int)
  | 0, _, _, _, _ => none
  | fuel + 1, input, left, right, indices =>
    if left < right then
      let key_index := indices.getD left.toNat 0
      let key := input.getD left.toNat default
      match quick_sort_indice_inverse.partition le key (fuel + 1) input indices left right with
      | none => none
      | some (input1, indices1, low, _) =>
        let input2 := input1.set low.toNat key
        let indices2 := indices1.set low.toNat key_index
        match quick_sort_indice_inverse le fuel input2 left (low - 1) indices2 with
        | none => none
        | some (input3, indices3, _) =>
          match quick_sort_indice_inverse le fuel input3 (low + 1) right indices3 with
          | none => none
          | some (input4, indices4, _) => some (input4, indices4, low)
    else some (input, indices, left)

/-- The test `iou > threshold` of `nms` for the candidates `n` and `m`. -/
def nms.overlaps {α : Type} [Inhabited α] (ops : FloatOps α) (outputLocations : List α)
    (threshold : α) (n m : Int) : Bool :=
  let xmin0 := outputLocations.getD (n * 4 + 0).toNat default
  let ymin0 := outputLocations.getD (n * 4 + 1).toNat default
  let xmax0 := ops.add (outputLocations.getD (n * 4 + 0).toNat default)
    (outputLocations.getD (n * 4 + 2).toNat default)
  let ymax0 := ops.add (outputLocations.getD (n * 4 + 1).toNat default)
    (outputLocations.getD (n * 4 + 3).toNat default)
  let xmin1 := outputLocations.getD (m * 4 + 0).toNat default
  let ymin1 := outputLocations.getD (m * 4 + 1).toNat default
  let xmax1 := ops.add (outputLocations.getD (m * 4 + 0).toNat default)
    (outputLocations.getD (m * 4 + 2).toNat default)
  let ymax1 := ops.add (outputLocations.getD (m * 4 + 1).toNat default)
    (outputLocations.getD (m * 4 + 3).toNat default)
  let iou := ops.CalculateOverlap xmin0 ymin0 xmax0 ymax0 xmin1 ymin1 xmax1 ymax1
  ops.gt iou threshold

/-- The function `nms`; the result is `order` after the call. -/
def nms {α : Type} [Inhabited α] (ops : FloatOps α) (validCount : Int)
    (outputLocations : List α) (classIds : List Int) (order : List Int) (filterId : Int)
    (threshold : α) : List Int :=
  (List.range validCount.toNat).foldl (fun order i =>
    let n := order.getD i 0
    if n = -1 ∨ classIds.getD n.toNat 0 ≠ filterId then order
    else
      (List.range' (i + 1) (validCount.toNat - (i + 1))).foldl (fun order j =>
        let m := order.getD j 0
        if m = -1 ∨ classIds.getD m.toNat 0 ≠ filterId then order
        else if nms.overlaps ops outputLocations threshold n m = true then order.set j (-1)
        else order) order) order

/-- The elements of `std::set<int> class_set(begin(classId), end(classId))` in iteration
order. -/
def ObjectDetector.class_set (classId : List Int) : List Int :=
  (classId.insertionSort (fun a b => a ≤ b)).dedup

/-- The `ObjectInfo` that the last loop of `ObjectDetector::process` builds for the candidate
`n` and the probability `obj_conf`. -/
def ObjectDetector.objInfo {α : Type} [Inhabited α] (ops : FloatOps α) (filterBoxes : List α)
    (classId : List Int) (x_pad y_pad model_in_w model_in_h : Int) (scale : α) (n : Int)
    (obj_conf : α) : ObjectInfo α :=
  let x1 := ops.subInt (filterBoxes.getD (n * 4 + 0).toNat default) x_pad
  let y1 := ops.subInt (filterBoxes.getD (n * 4 + 1).toNat default) y_pad
  let x2 := ops.add x1 (filterBoxes.getD (n * 4 + 2).toNat default)
  let y2 := ops.add y1 (filterBoxes.getD (n * 4 + 3).toNat default)
  let id := classId.getD n.toNat 0
  { left := ops.clampDiv x1 0 model_in_w scale
    top := ops.clampDiv y1 0 model_in_h scale
    right := ops.clampDiv x2 0 model_in_w scale
    bottom := ops.clampDiv y2 0 model_in_h scale
    class_id := id
    prob := obj_conf }

/-- The last loop of `ObjectDetector::process`: the pushed `ObjectInfo`s and `last_count`. -/
def ObjectDetector.emit {α : Type} [Inhabited α] (ops : FloatOps α) (filterBoxes : List α)
    (objProbs : List α) (classId : List Int) (indexArray : List Int)
    (x_pad y_pad model_in_w model_in_h : Int) (scale : α) (valid : Int) :
    List (ObjectInfo α) × Int :=
  (List.range valid.toNat).foldl (fun st i =>
    if indexArray.getD i 0 = -1 ∨ st.2 ≥ 80 then st
    else
      let n := indexArray.getD i 0
      let obj_conf := objProbs.getD i default
      (st.1 ++ [ObjectDetector.objInfo ops filterBoxes classId x_pad y_pad model_in_w
        model_in_h scale n obj_conf], st.2 + 1)) ([], 0)

/-- The part of `ObjectDetector::process` after the candidates have been collected by
`process_fp32` into `filterBoxes`, `objProbs` and `classId` (`valid` of them).  The outer
`none` is out of fuel, the inner `none` is the returned `nullptr`; otherwise the result is
the content of the returned `ObjectPackage`. -/
def ObjectDetector.process {α : Type} [Inhabited α] (ops : FloatOps α) (fuel : Nat)
    (threshold_ : α) (filterBoxes : List α) (objProbs : List α) (classId : List Int)
    (valid : Int) (x_pad y_pad model_in_w model_in_h : Int) (scale : α) :
    Option (Option (List (ObjectInfo α))) :=
  if valid ≤ 0 then some none
  else
    let indexArray := (List.range valid.toNat).map (fun i : Nat => (i : Int))
    match quick_sort_indice_inverse ops.le fuel objProbs 0 (valid - 1) indexArray with
    | none => none
    | some (objProbs1, indexArray1, _) =>
      let indexArray2 := (ObjectDetector.class_set classId).foldl (fun order c =>
        nms ops valid filterBoxes classId order c threshold_) indexArray1
      some (some (ObjectDetector.emit ops filterBoxes objProbs1 classId indexArray2 x_pad y_pad
        model_in_w model_in_h scale valid).1)

/-- Integer stand-ins for the float operations, used to run the detector on small inputs. -/
def FloatOps.int : FloatOps Int where
  le a b := decide (a ≤ b)
  gt a b := decide (a > b)
  add a b := a + b
  subInt a pad := a - pad
  CalculateOverlap xmin0 ymin0 xmax0 ymax0 xmin1 ymin1 xmax1 ymax1 :=
    let w := max 0 (min xmax0 xmax1 - max xmin0 xmin1 + 1)
    let h := max 0 (min ymax0 ymax1 - max ymin0 ymin1 + 1)
    let i := w * h
    let u := (xmax0 - xmin0 + 1) * (ymax0 - ymin0 + 1) + (xmax1 - xmin1 + 1) * (ymax1 - ymin1 + 1)
      - i
    if u ≤ 0 then 0 else i * 100 / u
  clampDiv val min max scale := (if val > min then (if val < max then val else max) else min) / scale

/-- Four candidates: probabilities out of order, two classes, the boxes of candidates 1 and 3
coincide. -/
def Scenario.detProbs : List Int := [30, 90, 50, 70]

/-- The class of each candidate of the scenario. -/
def Scenario.detClasses : List Int := [1, 0, 1, 0]

/-- The boxes (x, y, w, h) of the candidates of the scenario. -/
def Scenario.detBoxes : List Int :=
  [0, 0, 10, 10, 100, 100, 20, 20, 50, 50, 10, 10, 100, 100, 20, 20]

/-! ## The dispatch of `TaskScheduler::executeTask` on the heap of task nodes

The threads of a scheduler with `numThreads` workers, taking steps under a schedule.  What
`PoolState` does on dependency lists and flags is done here on the store, so that the nodes
run their functions and the calls of `execute()` are logged. -/

/-- The state of a dispatch: the heap of task nodes, the task queue of the pool (future and
node of each queued `executeTask(dep)`, front first), the node of the task of each future
created so far (future `k` is entry `k`), the futures whose task has returned, and the
threads: thread 0 is the caller of `execute`, the threads from 1 on are the workers; `none`
is a thread that is in no call of `executeTask`. -/
structure Dispatch where
  store : Store
  tasks : List (Nat × NodeRef)
  issued : List NodeRef
  ready : List Nat
  threads : List (Option WaitFrame)

/-- One call `futures.push_back(threadPool_.enqueue(...))` for a pending dependency: the task
is appended to the queue of the pool and its future to the vector `futures`. -/
def Dispatch.enqueue (acc : Dispatch × List Nat) (dep : NodePtr) : Dispatch × List Nat :=
  match dep with
  | none => acc
  | some r =>
    ({ acc.1 with tasks := acc.1.tasks ++ [(acc.1.issued.length, r)],
                  issued := acc.1.issued ++ [r] }, acc.2 ++ [acc.1.issued.length])

/-- The calls of `enqueue` for the pending dependencies, in order: the state and the
futures. -/
def Dispatch.enqueueAll (d : Dispatch) (deps : List NodePtr) : Dispatch × List Nat :=
  deps.foldl Dispatch.enqueue (d, [])

/-- The thread `i` is now in the given frame, or in none. -/
def Dispatch.setThread (d : Dispatch) (i : Nat) (frame : Option WaitFrame) : Dispatch :=
  { d with threads := d.threads.set i frame }

/-- The pool task of the given future has returned. -/
def Dispatch.complete (d : Dispatch) (future : Option Nat) : Dispatch :=
  match future with
  | some k => { d with ready := d.ready ++ [k] }
  | none => d

/-- The thread `i` enters `executeTask(node)`: if `task->isExecuted()` it returns at once;
otherwise it enqueues a pool task for every dependency with `dep && !dep->isExecuted()` and
goes on to wait for their futures. -/
def Dispatch.beginExecuteTask (d : Dispatch) (i : Nat) (future : Option Nat) (node : NodeRef) :
    Dispatch :=
  if TaskNode.isExecuted d.store node then
    (d.complete future).setThread i none
  else
    let r := d.enqueueAll (TaskScheduler.pendingDependencies d.store node)
    r.1.setThread i (some { future := future, node := node, waits := r.2 })

/-- One step of the thread `i`, `none` if the thread cannot move.  A thread in a frame returns
from `future.wait()` if the future is ready and blocks otherwise; with no future left it
calls `task->executeOnce()` (which takes the lock of the node and tests `isExecuted()`
again) and returns from `executeTask`.  A worker in no frame takes the front task of the
queue and enters `executeTask`, and waits on the condition if the queue is empty. -/
def Dispatch.stepThread (d : Dispatch) (i : Nat) : Option Dispatch :=
  match d.threads[i]? with
  | none => none
  | some (some frame) =>
    match frame.waits with
    | w :: rest =>
      if w ∈ d.ready then some (d.setThread i (some { frame with waits := rest })) else none
    | [] =>
      some ((({ d with store := TaskNode.executeOnce d.store frame.node }).complete
        frame.future).setThread i none)
  | some none =>
    if i = 0 then none
    else
      match d.tasks with
      | [] => none
      | (k, node) :: rest => some (({ d with tasks := rest }).beginExecuteTask i (some k) node)

/-- The call `executeTask(outputTask)` made by `TaskScheduler::execute` on a scheduler with
`numThreads` workers: the caller (thread 0) enters `executeTask`. -/
def Dispatch.execute (s : Store) (numThreads : Nat) (outputTask : NodeRef) : Dispatch :=
  ({ store := s, tasks := [], issued := [], ready := [],
     threads := List.replicate (numThreads + 1) none } : Dispatch).beginExecuteTask 0 none
    outputTask

/-- The state after the threads named in the schedule were given a step each, in order; a
thread that cannot move leaves the state as it is. -/
def Dispatch.run (d : Dispatch) : List Nat → Dispatch
  | [] => d
  | i :: rest => Dispatch.run ((d.stepThread i).getD d) rest

/-- The caller has returned from `executeTask(outputTask)`: `execute` goes on to
`return outputTask->getResult()`. -/
def Dispatch.returned (d : Dispatch) : Bool :=
  match d.threads[0]? with
  | some none => true
  | _ => false

/-- The value `TaskScheduler::execute` returns for the bound node `outputTask`, once the caller
has returned from `executeTask`; `none` while it has not. -/
def Dispatch.result (d : Dispatch) (outputTask : NodeRef) : Option DataPtr :=
  if d.returned then some (TaskNode.getResult d.store outputTask) else none

/-- The number of calls of the virtual `execute()` on the node `r` so far. -/
def Store.callsOf (s : Store) (r : NodeRef) : Nat := s.executeLog.count r

/-- The chain `in → a → b → out` with `in = 1`, `a(x) = x + 10`, `b(x) = x + 20`,
`out(x) = x + 1`, built through the builder (addresses 0, 1, 2, 3). -/
def Scenario.chainOut : Store × PipelineBuilder × NodeRef :=
  let r0 := PipelineBuilder.addInput Store.empty PipelineBuilder.new "in" (some 1)
  let r1 := PipelineBuilder.addTask r0.1 r0.2.1 "a" (Scenario.addK 10) [some r0.2.2]
  let r2 := PipelineBuilder.addTask r1.1 r1.2.1 "b" (Scenario.addK 20) [some r1.2.2]
  PipelineBuilder.addTask r2.1 r2.2.1 "out" (Scenario.addK 1) [some r2.2.2]

/-- The chain `in → a → b → c → out` built through the builder (addresses 0 to 4). -/
def Scenario.chain5Out : Store × PipelineBuilder × NodeRef :=
  let r0 := PipelineBuilder.addInput Store.empty PipelineBuilder.new "in" (some 1)
  let r1 := PipelineBuilder.addTask r0.1 r0.2.1 "a" (Scenario.addK 1) [some r0.2.2]
  let r2 := PipelineBuilder.addTask r1.1 r1.2.1 "b" (Scenario.addK 1) [some r1.2.2]
  let r3 := PipelineBuilder.addTask r2.1 r2.2.1 "c" (Scenario.addK 1) [some r2.2.2]
  PipelineBuilder.addTask r3.1 r3.2.1 "out" (Scenario.addK 1) [some r3.2.2]

/-! ## A pipeline session with the producer threads inside `addInput`

Between `start()` and the return of `stop()`, with the steps of a call of `addInput` (the test
of the wait loop, the test `if (input_active_.load())`, the push) and the steps of `stop()`
(clearing the flags, the return of the join) taken one at a time, interleaved with the passes
of the processing thread and with each other. -/

/-- Where a call of `addInput(data)` with a non-null item stands: before the test of the wait
loop `while (size() >= queueMaxSize_ && input_active_)`, before the test
`if (input_active_.load())`, or, having read the flag as true, before
`inputQueue_->push(data)`. -/
inductive AddInputCall where
  | waiting (data : DataPtr)
  | testing (data : DataPtr)
  | pushing (data : DataPtr)
  deriving DecidableEq, Repr

/-- The call has read `input_active_` as true and has not pushed yet. -/
def AddInputCall.isPushing : AddInputCall → Bool
  | AddInputCall.pushing _ => true
  | _ => false

/-- The call will push if no other thread acts before it does: it is before its push, or
before its test of `input_active_` with the flag set. -/
def AddInputCall.committed (input_active : Bool) : AddInputCall → Bool
  | AddInputCall.pushing _ => true
  | AddInputCall.testing _ => input_active
  | AddInputCall.waiting _ => false

/-- A pipeline between `start()` and after `stop()`, with its threads: the number of producer
threads and their calls of `addInput` in flight, whether the processing thread has left its
loop, and whether a call of `stop()` is blocked in the join or has returned.  Three fields
record what happened and are not in the source: the finished calls of `addInput` with the
value each returned, the items the loop popped with the outcome of each, and the number of
calls that were before their push when the loop was left. -/
structure Session where
  pipeline : StreamingPipeline
  producers : Nat
  calls : List AddInputCall
  loopExited : Bool
  stopJoining : Bool
  stopReturned : Bool
  returned : List (DataPtr × Bool)
  processed : List (DataPtr × ItemOutcome)
  pushingAtExit : Nat

/-- The session of a pipeline as `start()` leaves it, with the given number of producer
threads. -/
def Session.of (p : StreamingPipeline) (producers : Nat) : Session :=
  { pipeline := p, producers := producers, calls := [], loopExited := false,
    stopJoining := false, stopReturned := false, returned := [], processed := [],
    pushingAtExit := 0 }

/-- The items for which `addInput` has returned true, in the order of the returns. -/
def Session.accepted (s : Session) : List DataPtr :=
  (s.returned.filter fun r => r.2).map Prod.fst

/-- The number of calls of `addInput` that have read `input_active_` as true and not pushed
yet. -/
def Session.pushing (s : Session) : Nat := s.calls.countP AddInputCall.isPushing

/-- The number of calls of `addInput` that will push if no other thread acts first. -/
def Session.committed (s : Session) : Nat :=
  s.calls.countP (AddInputCall.committed s.pipeline.input_active)

/-- A producer thread that is in no call enters `addInput(data)`: a null item returns false at
once, any other item brings the call to the test of the wait loop. -/
def Session.addInput (s : Session) (data : DataPtr) : Session :=
  if s.calls.length ≥ s.producers then s
  else
    match data with
    | none => { s with returned := s.returned ++ [(none, false)] }
    | some _ => { s with calls := s.calls ++ [AddInputCall.waiting data] }

/-- The call `k` in flight takes its next step: the test of the wait loop (the call sleeps
and comes back to the test while the queue is full and the input is active), the test
`if (input_active_.load())`, or the push followed by `return true`. -/
def Session.advance (s : Session) (k : Nat) : Session :=
  match s.calls[k]? with
  | none => s
  | some (AddInputCall.waiting data) =>
    if s.pipeline.inputQueue.size ≥ s.pipeline.queueMaxSize && s.pipeline.input_active then s
    else { s with calls := s.calls.set k (AddInputCall.testing data) }
  | some (AddInputCall.testing data) =>
    if s.pipeline.input_active then
      { s with calls := s.calls.set k (AddInputCall.pushing data) }
    else
      { s with calls := s.calls.eraseIdx k, returned := s.returned ++ [(data, false)] }
  | some (AddInputCall.pushing data) =>
    { s with
      pipeline := { s.pipeline with inputQueue := s.pipeline.inputQueue.push data },
      calls := s.calls.eraseIdx k, returned := s.returned ++ [(data, true)] }

/-- The processing thread evaluates `while (running_ || !inputQueue_->empty())` and takes a
pass through the loop body, or leaves the loop and sets `output_active_ = false`.  `none`: an
`execute` that does not return. -/
def Session.loopPass (s : Session) : Option Session :=
  if s.pipeline.threadJoinable && !s.loopExited then
    if s.pipeline.running || !s.pipeline.inputQueue.empty then
      s.pipeline.loopBody.map fun p1 =>
        { s with pipeline := p1, processed := s.processed ++ s.pipeline.observeBody.toList }
    else
      some { s with pipeline := { s.pipeline with output_active := false },
                    loopExited := true, pushingAtExit := s.pushing }
  else some s

/-- The first statements of `stop()`: `if (!running_) return;`, then the two flags are
cleared and the caller goes on to `processingThread_.join()`. -/
def Session.stopBegin (s : Session) : Session :=
  if !s.pipeline.running then s
  else
    { s with pipeline := { s.pipeline with running := false, input_active := false },
             stopJoining := true }

/-- The join of `stop()` returns once the processing thread has left its loop; then
`output_active_ = false`, the builder pointer is reset, and `stop()` returns. -/
def Session.stopEnd (s : Session) : Session :=
  if s.stopJoining && (s.loopExited || !s.pipeline.threadJoinable) then
    let p3 := { s.pipeline with
      threadJoinable := false, output_active := false, pipelineBuilder := none }
    { s with
      pipeline := if p3.profilingEnabled then { p3 with store := p3.store.now.2 } else p3,
      stopJoining := false, stopReturned := true }
  else s

/-- The steps of the threads of a session. -/
inductive SessionAction where
  | addInput (data : DataPtr)
  | advance (k : Nat)
  | loopPass
  | stopBegin
  | stopEnd
  | tryGetOutput

/-- The effect of one step; a thread that cannot move leaves the session as it is.  `none`:
an `execute` that does not return. -/
def Session.step (s : Session) : SessionAction → Option Session
  | SessionAction.addInput data => some (s.addInput data)
  | SessionAction.advance k => some (s.advance k)
  | SessionAction.loopPass => s.loopPass
  | SessionAction.stopBegin => some s.stopBegin
  | SessionAction.stopEnd => some s.stopEnd
  | SessionAction.tryGetOutput =>
    some { s with pipeline := (s.pipeline.tryGetOutput none).2.2 }

/-- The session after a sequence of steps. -/
def Session.run (s : Session) : List SessionAction → Option Session
  | [] => some s
  | a :: rest =>
    match s.step a with
    | none => none
    | some s1 => Session.run s1 rest

/-- Two producers on a queue of capacity 1: both calls pass the test of the wait loop while
the queue is empty, then both push. -/
def Scenario.twoProducers : List SessionAction :=
  [SessionAction.addInput (some 5), SessionAction.addInput (some 6),
    SessionAction.advance 0, SessionAction.advance 1,
    SessionAction.advance 0, SessionAction.advance 1,
    SessionAction.advance 0, SessionAction.advance 0]

/-- Invariant of the sessions reached from a started pipeline with an empty input queue: the
popped items followed by the queued ones are the accepted ones, the counters count the
outcomes of the popped items, `input_active_` is clear once `running_` is, after the loop was
left the queue holds what the calls that were before their push have pushed since, `stop()` has
returned only after the loop was left, and the queue holds at most `queueMaxSize_` items plus
one for each producer thread beyond the first. -/
structure Session.Inv (s : Session) : Prop where
  input : s.processed.map Prod.fst ++ s.pipeline.inputQueue.queue = s.accepted
  processedItems :
    s.pipeline.processedItems = (s.processed.filterMap (fun x => x.2.output)).length
  errorCount : s.pipeline.errorCount = (s.processed.filter (fun x => x.2.isException)).length
  flags : s.pipeline.running = false → s.pipeline.input_active = false
  exited : s.loopExited = true → s.pipeline.running = false ∧
    s.pipeline.inputQueue.queue.length + s.pushing = s.pushingAtExit
  joinable : s.pipeline.threadJoinable = false → s.stopReturned = true
  stopped : s.stopReturned = true → s.loopExited = true
  calls : s.calls.length ≤ s.producers
  bound : s.pipeline.inputQueue.size + s.committed
    ≤ s.pipeline.queueMaxSize + (s.producers - 1)

/-- Invariant of the dispatch states reached from `Dispatch.execute s0 numThreads terminal` on
a well-formed store: the store has only gained executed nodes; every future belongs to a node
of the graph, a queued task to its future, a returned future to an executed node; a thread
inside `executeTask(node)` waits for a future of every dependency that is not executed; and
the caller is inside `executeTask(terminal)` or has returned with the terminal executed. -/
structure Dispatch.Sound (s0 : Store) (terminal : NodeRef) (d : Dispatch) : Prop where
  run : s0.Run d.store s0.nodes.length
  issued_lt : ∀ node ∈ d.issued, node < s0.nodes.length
  tasks_issued : ∀ (k : Nat) (node : NodeRef), (k, node) ∈ d.tasks → d.issued[k]? = some node
  ready_executed : ∀ k ∈ d.ready, ∃ node : NodeRef, d.issued[k]? = some node ∧
    TaskNode.isExecuted d.store node = true
  frames : ∀ (i : Nat) (frame : WaitFrame), d.threads[i]? = some (some frame) →
    frame.node < s0.nodes.length ∧
    (∀ k, frame.future = some k → d.issued[k]? = some frame.node) ∧
    (∀ x : Nat, some x ∈ TaskNode.getDependencies d.store frame.node →
      TaskNode.isExecuted d.store x = true ∨ ∃ k ∈ frame.waits, d.issued[k]? = some x)
  caller_returned : d.threads[0]? = some none → TaskNode.isExecuted d.store terminal = true
  caller_frame : ∀ frame : WaitFrame, d.threads[0]? = some (some frame) → frame.node = terminal

theorem Store.modifyNode_nodes_getElem? (s : Store) (r : NodeRef) (f : TaskNode → TaskNode)
    (i : Nat) :
    (s.modifyNode r f).nodes[i]? = if r = i then (s.nodes[i]?).map f else s.nodes[i]? := by
  unfold Store.modifyNode
  cases h : s.nodes[r]? with
  | none =>
    by_cases hri : r = i
    · subst hri; simp [h]
    · simp [hri]
  | some n =>
    by_cases hri : r = i
    · subst hri
      have hlt : r < s.nodes.length := by
        rcases List.getElem?_eq_some.1 h with ⟨hlt, _⟩
        exact hlt
      simp [h, List.getElem?_set, hlt]
    · simp [hri, List.getElem?_set]

theorem Store.modifyNode_length (s : Store) (r : NodeRef) (f : TaskNode → TaskNode) :
    (s.modifyNode r f).nodes.length = s.nodes.length := by
  unfold Store.modifyNode
  cases h : s.nodes[r]? <;> simp

theorem Store.modifyNode_clock (s : Store) (r : NodeRef) (f : TaskNode → TaskNode) :
    (s.modifyNode r f).clock = s.clock := by
  unfold Store.modifyNode
  cases h : s.nodes[r]? <;> simp

theorem Store.modifyNode_executeLog (s : Store) (r : NodeRef) (f : TaskNode → TaskNode) :
    (s.modifyNode r f).executeLog = s.executeLog := by
  unfold Store.modifyNode
  cases h : s.nodes[r]? <;> simp

theorem Store.modifyNode_funcLog (s : Store) (r : NodeRef) (f : TaskNode → TaskNode) :
    (s.modifyNode r f).funcLog = s.funcLog := by
  unfold Store.modifyNode
  cases h : s.nodes[r]? <;> simp


theorem TaskNode.isExecuted_modifyNode (s : Store) (x r : NodeRef) (f : TaskNode → TaskNode)
    (hf : ∀ n, n.executed = true → (f n).executed = true)
    (h : TaskNode.isExecuted s r = true) : TaskNode.isExecuted (s.modifyNode x f) r = true := by
  unfold TaskNode.isExecuted at *
  rw [Store.modifyNode_nodes_getElem?]
  cases hn : s.nodes[r]? with
  | none => simp [hn] at h
  | some n =>
    simp only [hn] at h
    by_cases hx : x = r
    · simp [hx, hf n h]
    · simp [hx, h]

theorem MultiInputTaskNode.execute_keeps_nodes (s : Store) (self : NodeRef) (func : ProcessFunction) :
    (MultiInputTaskNode.execute s self func).2.nodes = s.nodes ∧
    (MultiInputTaskNode.execute s self func).2.clock = s.clock ∧
    (MultiInputTaskNode.execute s self func).2.executeLog = s.executeLog := by
  unfold MultiInputTaskNode.execute
  split
  · simp
  · simp only
    split
    · simp
    · cases func with
      | none => simp
      | some f =>
        simp only
        cases f (MultiInputTaskNode.collectInputResults s (TaskNode.getDependencies s self)) <;> simp

theorem TaskNode.execute_logs_call (s : Store) (self : NodeRef) :
    (TaskNode.execute s self).2.nodes = s.nodes ∧
    (TaskNode.execute s self).2.clock = s.clock ∧
    (TaskNode.execute s self).2.executeLog = s.executeLog ++ [self] := by
  unfold TaskNode.execute
  simp only
  cases hn : s.nodes[self]? with
  | none => simp
  | some n =>
    simp only
    cases hk : n.kind with
    | input data => simp
    | multiInput func inputs =>
      simp only
      have h := MultiInputTaskNode.execute_keeps_nodes
        { s with executeLog := s.executeLog ++ [self] } self func
      exact h

theorem TaskNode.isExecuted_congr (s s' : Store) (h : s'.nodes = s.nodes) (r : NodeRef) :
    TaskNode.isExecuted s' r = TaskNode.isExecuted s r := by
  unfold TaskNode.isExecuted; rw [h]

theorem TaskNode.isExecuted_addDependency (s : Store) (self r : NodeRef) (node : NodePtr)
    (h : TaskNode.isExecuted s r = true) :
    TaskNode.isExecuted (TaskNode.addDependency s self node) r = true := by
  unfold TaskNode.addDependency
  cases node with
  | none => exact h
  | some d => exact TaskNode.isExecuted_modifyNode s self r _ (fun n hn => hn) h

theorem TaskNode.isExecuted_setResult (s : Store) (self r : NodeRef) (result : DataPtr)
    (h : TaskNode.isExecuted s r = true) :
    TaskNode.isExecuted (TaskNode.setResult s self result) r = true :=
  TaskNode.isExecuted_modifyNode s self r _ (fun _ _ => rfl) h

theorem TaskNode.isExecuted_startExecution (s : Store) (self r : NodeRef)
    (h : TaskNode.isExecuted s r = true) :
    TaskNode.isExecuted (TaskNode.startExecution s self) r = true := by
  unfold TaskNode.startExecution Store.now
  exact TaskNode.isExecuted_modifyNode _ self r _ (fun n hn => hn) h

theorem TaskNode.isExecuted_endExecution (s : Store) (self r : NodeRef)
    (h : TaskNode.isExecuted s r = true) :
    TaskNode.isExecuted (TaskNode.endExecution s self) r = true := by
  unfold TaskNode.endExecution Store.now
  exact TaskNode.isExecuted_modifyNode _ self r _ (fun n hn => hn) h

theorem TaskNode.isExecuted_executeOnce (s : Store) (self r : NodeRef)
    (h : TaskNode.isExecuted s r = true) :
    TaskNode.isExecuted (TaskNode.executeOnce s self) r = true := by
  unfold TaskNode.executeOnce
  split
  · exact h
  · simp only
    apply TaskNode.isExecuted_setResult
    apply TaskNode.isExecuted_endExecution
    rw [TaskNode.isExecuted_congr _ _ (TaskNode.execute_logs_call _ self).1]
    exact TaskNode.isExecuted_startExecution s self r h

theorem InputNode.new_isExecuted (s : Store) (id : TaskId) (data : DataPtr) :
    TaskNode.isExecuted (InputNode.new s id data).1 (InputNode.new s id data).2 = true := by
  unfold InputNode.new Store.alloc TaskNode.setResult TaskNode.isExecuted
  simp only
  rw [Store.modifyNode_nodes_getElem?]
  simp

/-- C9. `TaskNode::executeOnce` is idempotent: on a node whose `executed` flag is set it returns
the store unchanged (so `execute()` is not called, and result, flag and recorded time are kept);
an `InputNode` has the flag set from construction on; and none of the `TaskNode` operations
(`addDependency`, `setResult`, `startExecution`, `endExecution`, `executeOnce`) clears the flag
of any node. -/
theorem executeOnce_idempotent (s : Store) (self : NodeRef) :
    (TaskNode.isExecuted s self = true → TaskNode.executeOnce s self = s) ∧
    (∀ id data,
      TaskNode.isExecuted (InputNode.new s id data).1 (InputNode.new s id data).2 = true) ∧
    (∀ r, TaskNode.isExecuted s r = true →
      (∀ node, TaskNode.isExecuted (TaskNode.addDependency s self node) r = true) ∧
      (∀ result, TaskNode.isExecuted (TaskNode.setResult s self result) r = true) ∧
      TaskNode.isExecuted (TaskNode.startExecution s self) r = true ∧
      TaskNode.isExecuted (TaskNode.endExecution s self) r = true ∧
      TaskNode.isExecuted (TaskNode.executeOnce s self) r = true) := by
  refine ⟨?_, InputNode.new_isExecuted s, ?_⟩
  · intro h
    unfold TaskNode.executeOnce
    simp [h]
  · intro r h
    exact ⟨fun node => TaskNode.isExecuted_addDependency s self r node h,
      fun result => TaskNode.isExecuted_setResult s self r result h,
      TaskNode.isExecuted_startExecution s self r h,
      TaskNode.isExecuted_endExecution s self r h,
      TaskNode.isExecuted_executeOnce s self r h⟩

/-- Witness for C9 on a store holding one input node. -/
theorem executeOnce_idempotent_witness :
    TaskNode.isExecuted (InputNode.new Store.empty "in" (some 1)).1 0 = true ∧
    TaskNode.executeOnce (InputNode.new Store.empty "in" (some 1)).1 0
      = (InputNode.new Store.empty "in" (some 1)).1 :=
  ⟨by decide, (executeOnce_idempotent (InputNode.new Store.empty "in" (some 1)).1 0).1 (by decide)⟩

theorem Store.modifyNode_eq_set (s : Store) (r : NodeRef) (f : TaskNode → TaskNode) (n : TaskNode)
    (hn : s.nodes[r]? = some n) :
    s.modifyNode r f = { s with nodes := s.nodes.set r (f n) } := by
  unfold Store.modifyNode
  simp [hn]

/-- The node written by `executeOnce` on a node that has not executed, and the other fields of
the store. -/
theorem TaskNode.executeOnce_unexecuted (s : Store) (self : NodeRef) (n : TaskNode)
    (hn : s.nodes[self]? = some n) (hne : n.executed = false) :
    (TaskNode.executeOnce s self).nodes
      = s.nodes.set self { n with
          startTime := s.clock, endTime := s.clock + 1, executionTimeMs := s.clock + 1 - s.clock,
          result := (TaskNode.execute (TaskNode.startExecution s self) self).1,
          executed := true } ∧
    (TaskNode.executeOnce s self).executeLog = s.executeLog ++ [self] ∧
    (TaskNode.executeOnce s self).funcLog
      = (TaskNode.execute (TaskNode.startExecution s self) self).2.funcLog := by
  have hlt : self < s.nodes.length := (List.getElem?_eq_some.1 hn).1
  have hex : TaskNode.isExecuted s self = false := by
    unfold TaskNode.isExecuted; simp [hn, hne]
  have hstart : TaskNode.startExecution s self
      = { s with clock := s.clock + 1,
                 nodes := s.nodes.set self { n with startTime := s.clock } } := by
    unfold TaskNode.startExecution Store.now
    simp only
    rw [Store.modifyNode_eq_set _ _ _ n (by simpa using hn)]
  obtain ⟨e1, e2, e3⟩ := TaskNode.execute_logs_call (TaskNode.startExecution s self) self
  unfold TaskNode.executeOnce
  simp only [hex, Bool.false_eq_true, if_false]
  generalize hres : TaskNode.execute (TaskNode.startExecution s self) self = res at e1 e2 e3 ⊢
  obtain ⟨v, s2⟩ := res
  simp only at e1 e2 e3 ⊢
  rw [hstart] at e1 e2 e3
  simp only at e1 e2 e3
  have hn2 : s2.nodes[self]? = some { n with startTime := s.clock } := by
    rw [e1]; simp [List.getElem?_set, hlt]
  have hend : TaskNode.endExecution s2 self
      = { s2 with clock := s2.clock + 1,
                  nodes := s2.nodes.set self
                    { n with startTime := s.clock, endTime := s2.clock,
                             executionTimeMs := s2.clock - s.clock } } := by
    unfold TaskNode.endExecution Store.now
    simp only
    rw [Store.modifyNode_eq_set _ _ _ _ (by simpa using hn2)]
  have hn3 : (TaskNode.endExecution s2 self).nodes[self]?
      = some { n with startTime := s.clock, endTime := s2.clock,
                      executionTimeMs := s2.clock - s.clock } := by
    rw [hend]; simp [List.getElem?_set, e1, hlt]
  unfold TaskNode.setResult
  rw [Store.modifyNode_eq_set _ _ _ _ hn3]
  rw [hend]
  simp [e1, e2, e3, List.set_set]

theorem TaskNode.getResult_modifyNode (s : Store) (x r : NodeRef) (f : TaskNode → TaskNode)
    (hf : ∀ n, (f n).result = n.result) :
    TaskNode.getResult (s.modifyNode x f) r = TaskNode.getResult s r := by
  unfold TaskNode.getResult
  rw [Store.modifyNode_nodes_getElem?]
  by_cases hx : x = r
  · cases hn : s.nodes[r]? <;> simp [hx, hf]
  · simp [hx]

theorem TaskNode.getDependencies_modifyNode (s : Store) (x r : NodeRef) (f : TaskNode → TaskNode)
    (hf : ∀ n, (f n).dependencies = n.dependencies) :
    TaskNode.getDependencies (s.modifyNode x f) r = TaskNode.getDependencies s r := by
  unfold TaskNode.getDependencies
  rw [Store.modifyNode_nodes_getElem?]
  by_cases hx : x = r
  · cases hn : s.nodes[r]? <;> simp [hx, hf]
  · simp [hx]

theorem TaskNode.isExecuted_modifyNode_eq (s : Store) (x r : NodeRef) (f : TaskNode → TaskNode)
    (hf : ∀ n, (f n).executed = n.executed) :
    TaskNode.isExecuted (s.modifyNode x f) r = TaskNode.isExecuted s r := by
  unfold TaskNode.isExecuted
  rw [Store.modifyNode_nodes_getElem?]
  by_cases hx : x = r
  · cases hn : s.nodes[r]? <;> simp [hx, hf]
  · simp [hx]

/-- The value and the function log of `MultiInputTaskNode::execute` depend only on the
dependency lists, results and executed flags. -/
theorem MultiInputTaskNode.execute_congr (s s' : Store) (self : NodeRef) (func : ProcessFunction)
    (hd : TaskNode.getDependencies s' self = TaskNode.getDependencies s self)
    (hr : ∀ r, TaskNode.getResult s' r = TaskNode.getResult s r)
    (he : ∀ r, TaskNode.isExecuted s' r = TaskNode.isExecuted s r)
    (hl : s'.funcLog = s.funcLog) :
    (MultiInputTaskNode.execute s' self func).1 = (MultiInputTaskNode.execute s self func).1 ∧
    (MultiInputTaskNode.execute s' self func).2.funcLog
      = (MultiInputTaskNode.execute s self func).2.funcLog := by
  have hready : MultiInputTaskNode.isReady s' self = MultiInputTaskNode.isReady s self := by
    unfold MultiInputTaskNode.isReady TaskNode.isReady
    simp only [hd, he]
  have hcol : MultiInputTaskNode.collectInputResults s' (TaskNode.getDependencies s self)
      = MultiInputTaskNode.collectInputResults s (TaskNode.getDependencies s self) := by
    unfold MultiInputTaskNode.collectInputResults
    simp only [hr]
  unfold MultiInputTaskNode.execute
  rw [hready, hd, hcol]
  split
  · exact ⟨rfl, hl⟩
  · simp only
    split
    · exact ⟨rfl, hl⟩
    · cases func with
      | none => exact ⟨rfl, hl⟩
      | some f =>
        simp only
        cases f (MultiInputTaskNode.collectInputResults s (TaskNode.getDependencies s self)) <;>
          simp [hl]

/-- Inside `executeOnce` the virtual `execute()` of a multi-input node computes what
`MultiInputTaskNode::execute` computes in the store in which `executeOnce` was entered. -/
theorem TaskNode.execute_startExecution (s : Store) (self : NodeRef) (n : TaskNode)
    (func : ProcessFunction) (inputs : List NodePtr)
    (hn : s.nodes[self]? = some n) (hk : n.kind = NodeKind.multiInput func inputs) :
    (TaskNode.execute (TaskNode.startExecution s self) self).1
      = (MultiInputTaskNode.execute s self func).1 ∧
    (TaskNode.execute (TaskNode.startExecution s self) self).2.funcLog
      = (MultiInputTaskNode.execute s self func).2.funcLog := by
  have hn1 : (TaskNode.startExecution s self).nodes[self]?
      = some { n with startTime := s.clock } := by
    unfold TaskNode.startExecution Store.now
    simp only
    rw [Store.modifyNode_nodes_getElem?]
    simp [hn]
  unfold TaskNode.execute
  simp only [hn1, hk]
  apply MultiInputTaskNode.execute_congr
  · unfold TaskNode.startExecution Store.now
    simp only
    refine Eq.trans (TaskNode.getDependencies_modifyNode _ self self _ ?_) rfl
    intro m; rfl
  · intro r
    unfold TaskNode.startExecution Store.now
    simp only
    refine Eq.trans (TaskNode.getResult_modifyNode _ self r _ ?_) rfl
    intro m; rfl
  · intro r
    unfold TaskNode.startExecution Store.now
    simp only
    refine Eq.trans (TaskNode.isExecuted_modifyNode_eq _ self r _ ?_) rfl
    intro m; rfl
  · unfold TaskNode.startExecution Store.now
    simp only
    rw [Store.modifyNode_funcLog]

/-- `MultiInputTaskNode::execute` with a dependency whose result is null returns null and does
not invoke the function. -/
theorem MultiInputTaskNode.execute_null_dependency (s : Store) (self : NodeRef)
    (func : ProcessFunction) (d : NodeRef)
    (hd : some d ∈ TaskNode.getDependencies s self) (hnull : TaskNode.getResult s d = none) :
    (MultiInputTaskNode.execute s self func).1 = none ∧
    (MultiInputTaskNode.execute s self func).2.funcLog = s.funcLog := by
  unfold MultiInputTaskNode.execute
  split
  · exact ⟨rfl, rfl⟩
  · simp only
    have hany : (MultiInputTaskNode.collectInputResults s (TaskNode.getDependencies s self)).any
        (fun obj => obj.isNone) = true := by
      rw [List.any_eq_true]
      refine ⟨none, ?_, rfl⟩
      unfold MultiInputTaskNode.collectInputResults
      rw [List.mem_filterMap]
      exact ⟨some d, hd, by simp [hnull]⟩
    rw [if_pos hany]
    exact ⟨rfl, rfl⟩

/-- C3. Null propagation.  For a processing node with a dependency whose result is null,
`MultiInputTaskNode::execute` returns null without invoking the processing function (the
function log is unchanged); and if the node has not executed, then after `executeOnce` the
function has still not been invoked, the node has `executed = true`, and its result is null. -/
theorem null_dependency_skips_function (s : Store) (self : NodeRef) (n : TaskNode)
    (func : ProcessFunction) (inputs : List NodePtr) (d : NodeRef)
    (hn : s.nodes[self]? = some n) (hk : n.kind = NodeKind.multiInput func inputs)
    (hd : some d ∈ n.dependencies) (hnull : TaskNode.getResult s d = none) :
    ((MultiInputTaskNode.execute s self func).1 = none ∧
      (MultiInputTaskNode.execute s self func).2.funcLog = s.funcLog) ∧
    (n.executed = false →
      (TaskNode.executeOnce s self).funcLog = s.funcLog ∧
      TaskNode.isExecuted (TaskNode.executeOnce s self) self = true ∧
      TaskNode.getResult (TaskNode.executeOnce s self) self = none) := by
  have hd' : some d ∈ TaskNode.getDependencies s self := by
    unfold TaskNode.getDependencies; simpa [hn] using hd
  have hex := MultiInputTaskNode.execute_null_dependency s self func d hd' hnull
  refine ⟨hex, ?_⟩
  intro hne
  have hlt : self < s.nodes.length := (List.getElem?_eq_some.1 hn).1
  obtain ⟨h1, _, h3⟩ := TaskNode.executeOnce_unexecuted s self n hn hne
  obtain ⟨g1, g2⟩ := TaskNode.execute_startExecution s self n func inputs hn hk
  refine ⟨?_, ?_, ?_⟩
  · rw [h3, g2, hex.2]
  · unfold TaskNode.isExecuted
    rw [h1]
    simp [List.getElem?_set, hlt]
  · unfold TaskNode.getResult
    rw [h1]
    simp [List.getElem?_set, hlt, g1, hex.1]

theorem TaskNode.getDependencies_addDependency (s : Store) (self : NodeRef) (node : NodePtr)
    (m : TaskNode) (hm : s.nodes[self]? = some m) :
    TaskNode.getDependencies (TaskNode.addDependency s self node) self
      = TaskNode.getDependencies s self ++ (match node with | some d => [some d] | none => []) := by
  cases node with
  | none => simp [TaskNode.addDependency]
  | some d =>
    unfold TaskNode.addDependency TaskNode.getDependencies
    simp only
    rw [Store.modifyNode_nodes_getElem?]
    simp [hm]

theorem Store.SameGraph.sg_refl (s : Store) : s.SameGraph s := fun _ => rfl

theorem Store.SameGraph.sg_trans {s1 s2 s3 : Store} (h12 : s1.SameGraph s2) (h23 : s2.SameGraph s3) :
    s1.SameGraph s3 := fun i => (h23 i).trans (h12 i)

theorem Store.SameGraph.symm {s1 s2 : Store} (h : s1.SameGraph s2) : s2.SameGraph s1 :=
  fun i => (h i).symm

theorem Store.SameGraph.node {s s' : Store} (h : s.SameGraph s') {i : Nat} {n : TaskNode}
    (hn : s.nodes[i]? = some n) :
    ∃ n', s'.nodes[i]? = some n' ∧ n'.id = n.id ∧ n'.dependencies = n.dependencies ∧
      n'.kind = n.kind := by
  have hi := h i
  rw [hn] at hi
  cases hn' : s'.nodes[i]? with
  | none => simp [hn'] at hi
  | some n' =>
    rw [hn'] at hi
    simp only [Option.map_some', Option.some.injEq, TaskNode.static, Prod.mk.injEq] at hi
    exact ⟨n', rfl, hi.1, hi.2.1, hi.2.2⟩

theorem Store.SameGraph.length {s s' : Store} (h : s.SameGraph s') :
    s'.nodes.length = s.nodes.length := by
  apply Nat.le_antisymm
  · by_contra hlt
    push_neg at hlt
    have hi := h s.nodes.length
    rw [List.getElem?_eq_none (Nat.le_refl _), List.getElem?_eq_getElem hlt] at hi
    simp at hi
  · by_contra hlt
    push_neg at hlt
    have hi := h s'.nodes.length
    rw [List.getElem?_eq_none (Nat.le_refl _), List.getElem?_eq_getElem hlt] at hi
    simp at hi

theorem Store.SameGraph.getDependencies {s s' : Store} (h : s.SameGraph s') (t : Nat) :
    TaskNode.getDependencies s' t = TaskNode.getDependencies s t := by
  unfold TaskNode.getDependencies
  cases hn : s.nodes[t]? with
  | none =>
    have hi := h t
    rw [hn] at hi
    cases hn' : s'.nodes[t]? with
    | none => rfl
    | some n' => simp [hn'] at hi
  | some n =>
    obtain ⟨n', hn', _, hd, _⟩ := h.node hn
    simp [hn', hd]

theorem evalFuel_sameGraph {s s' : Store} (h : s.SameGraph s') (k : Nat) (t : Nat) :
    evalFuel k s' t = evalFuel k s t := by
  induction k generalizing t with
  | zero => rfl
  | succ k ih =>
    unfold evalFuel
    cases hn : s.nodes[t]? with
    | none =>
      have hi := h t
      rw [hn] at hi
      cases hn' : s'.nodes[t]? with
      | none => rfl
      | some n' => simp [hn'] at hi
    | some n =>
      obtain ⟨n', hn', _, hd, hk⟩ := h.node hn
      simp only [hn', hk, hd, ih]

theorem eval_sameGraph {s s' : Store} (h : s.SameGraph s') (t : Nat) :
    eval s' t = eval s t := by
  unfold eval
  rw [h.length, evalFuel_sameGraph h]

/-- With dependencies pointing to older nodes, any fuel above the address gives the same value. -/
theorem evalFuel_fuel (s : Store)
    (hac : ∀ (i : Nat) (n : TaskNode), s.nodes[i]? = some n →
      ∀ dep ∈ n.dependencies, ∃ d : Nat, dep = some d ∧ d < i)
    (k : Nat) : ∀ (k' : Nat) (t : Nat), t < k → t < k' → evalFuel k s t = evalFuel k' s t := by
  induction k with
  | zero => intro k' t h; omega
  | succ k ih =>
    intro k' t hk hk'
    cases k' with
    | zero => omega
    | succ k' =>
      unfold evalFuel
      cases hn : s.nodes[t]? with
      | none => rfl
      | some n =>
        simp only
        cases hkind : n.kind with
        | input data => rfl
        | multiInput func inputs =>
          simp only
          have hargs : (n.dependencies.map fun dep => dep.bind (evalFuel k s))
              = (n.dependencies.map fun dep => dep.bind (evalFuel k' s)) := by
            apply List.map_congr_left
            intro dep hdep
            obtain ⟨d, rfl, hlt⟩ := hac t n hn dep hdep
            simp only [Option.some_bind]
            exact ih k' d (by omega) (by omega)
          rw [hargs]

theorem eval_eq_evalFuel (s : Store) (hwf : s.WF) (t : Nat) (k : Nat) (hk : t < k)
    (ht : t < s.nodes.length) : evalFuel k s t = eval s t :=
  evalFuel_fuel s hwf.acyclic k s.nodes.length t hk ht

/-- Unfolding of `eval` at a processing node of a well-formed store. -/
theorem eval_multiInput (s : Store) (hwf : s.WF) (t : Nat) (n : TaskNode)
    (func : ProcessFunction) (inputs : List NodePtr)
    (hn : s.nodes[t]? = some n) (hk : n.kind = NodeKind.multiInput func inputs) :
    eval s t =
      if n.dependencies.isEmpty then none
      else
        if (n.dependencies.map fun dep => dep.bind (eval s)).any (fun v => v.isNone) then none
        else callValue func (n.dependencies.map fun dep => dep.bind (eval s)) := by
  have ht : t < s.nodes.length := (List.getElem?_eq_some.1 hn).1
  have hargs : ∀ k : Nat, t ≤ k → (n.dependencies.map fun dep => dep.bind (evalFuel k s))
      = (n.dependencies.map fun dep => dep.bind (eval s)) := by
    intro k hk
    apply List.map_congr_left
    intro dep hdep
    obtain ⟨d, rfl, hlt⟩ := hwf.acyclic t n hn dep hdep
    simp only [Option.some_bind]
    exact eval_eq_evalFuel s hwf d k (by omega) (by omega)
  rw [← eval_eq_evalFuel s hwf t (t + 1) (by omega) ht]
  unfold evalFuel
  simp only [hn, hk]
  rw [hargs t (Nat.le_refl t)]

theorem eval_input (s : Store) (t : Nat) (n : TaskNode) (data : DataPtr)
    (hn : s.nodes[t]? = some n) (hk : n.kind = NodeKind.input data) : eval s t = data := by
  have ht : t < s.nodes.length := (List.getElem?_eq_some.1 hn).1
  unfold eval
  cases hl : s.nodes.length with
  | zero => omega
  | succ k =>
    unfold evalFuel
    simp [hn, hk]

theorem TaskNode.isExecuted_eq_true_iff (s : Store) (r : Nat) :
    TaskNode.isExecuted s r = true ↔ ∃ n, s.nodes[r]? = some n ∧ n.executed = true := by
  unfold TaskNode.isExecuted
  cases hn : s.nodes[r]? with
  | none => simp
  | some n => simp

theorem Store.WF.getResult_eq_eval {s : Store} (hwf : s.WF) (d : Nat)
    (hd : TaskNode.isExecuted s d = true) : TaskNode.getResult s d = eval s d := by
  obtain ⟨n, hn, hex⟩ := (TaskNode.isExecuted_eq_true_iff s d).1 hd
  unfold TaskNode.getResult
  rw [hn]
  exact hwf.executed_eval d n hn hex

/-- In a well-formed store, `MultiInputTaskNode::execute` on a node whose dependencies have all
executed returns the value of the node. -/
theorem MultiInputTaskNode.execute_value (s : Store) (hwf : s.WF) (t : Nat) (n : TaskNode)
    (func : ProcessFunction) (inputs : List NodePtr)
    (hn : s.nodes[t]? = some n) (hk : n.kind = NodeKind.multiInput func inputs)
    (hdeps : ∀ d : Nat, some d ∈ n.dependencies → TaskNode.isExecuted s d = true) :
    (MultiInputTaskNode.execute s t func).1 = eval s t := by
  have hgd : TaskNode.getDependencies s t = n.dependencies := by
    unfold TaskNode.getDependencies; simp [hn]
  have hready : TaskNode.isReady s t = true := by
    unfold TaskNode.isReady
    rw [hgd, List.all_eq_true]
    intro dep hdep
    obtain ⟨d, rfl, _⟩ := hwf.acyclic t n hn dep hdep
    exact hdeps d hdep
  have hcol : MultiInputTaskNode.collectInputResults s n.dependencies
      = n.dependencies.map fun dep => dep.bind (eval s) := by
    unfold MultiInputTaskNode.collectInputResults
    have hgen : ∀ l : List NodePtr, (∀ dep ∈ l, dep ∈ n.dependencies) →
        l.filterMap (fun dep =>
          match dep with
          | none => none
          | some d => some (TaskNode.getResult s d))
        = l.map fun dep => dep.bind (eval s) := by
      intro l
      induction l with
      | nil => intro _; rfl
      | cons dep rest ih =>
        intro hmem
        have hdep := hmem dep (List.mem_cons_self _ _)
        obtain ⟨d, rfl, _⟩ := hwf.acyclic t n hn dep hdep
        have hrest := ih (fun x hx => hmem x (List.mem_cons_of_mem _ hx))
        simp only [List.filterMap_cons, List.map_cons, Option.some_bind]
        rw [hrest, hwf.getResult_eq_eval d (hdeps d hdep)]
    exact hgen n.dependencies (fun _ h => h)
  rw [eval_multiInput s hwf t n func inputs hn hk]
  unfold MultiInputTaskNode.execute MultiInputTaskNode.isReady
  rw [hgd, hready, hcol]
  by_cases hempty : n.dependencies.isEmpty = true
  · simp [hempty]
  · simp only [hempty, Bool.not_false, Bool.and_true, Bool.not_true, Bool.or_self,
      Bool.false_eq_true, if_false]
    split
    · rfl
    · cases func with
      | none => rfl
      | some f =>
        simp only [callValue]
        cases f (n.dependencies.map fun dep => dep.bind (eval s)) <;> rfl

/-- The value of the virtual `execute()` inside `executeOnce`, for either kind of node. -/
theorem TaskNode.execute_startExecution_eq_eval (s : Store) (hwf : s.WF) (t : Nat) (n : TaskNode)
    (hn : s.nodes[t]? = some n)
    (hdeps : ∀ d : Nat, some d ∈ n.dependencies → TaskNode.isExecuted s d = true) :
    (TaskNode.execute (TaskNode.startExecution s t) t).1 = eval s t := by
  cases hk : n.kind with
  | input data =>
    have hn1 : (TaskNode.startExecution s t).nodes[t]?
        = some { n with startTime := s.clock } := by
      unfold TaskNode.startExecution Store.now
      simp only
      rw [Store.modifyNode_nodes_getElem?]
      simp [hn]
    unfold TaskNode.execute
    simp only [hn1, hk, InputNode.execute]
    exact (eval_input s t n data hn hk).symm
  | multiInput func inputs =>
    rw [(TaskNode.execute_startExecution s t n func inputs hn hk).1]
    exact MultiInputTaskNode.execute_value s hwf t n func inputs hn hk hdeps

theorem Store.Mono.isExecuted {s s' : Store} (h : s.Mono s') (r : Nat)
    (hr : TaskNode.isExecuted s r = true) : TaskNode.isExecuted s' r = true := by
  obtain ⟨n, hn, hex⟩ := (TaskNode.isExecuted_eq_true_iff s r).1 hr
  exact (TaskNode.isExecuted_eq_true_iff s' r).2 ⟨n, h r n hn hex, hex⟩

theorem Store.Mono.mono_refl (s : Store) : s.Mono s := fun _ _ h _ => h

theorem Store.Mono.mono_trans {s1 s2 s3 : Store} (h12 : s1.Mono s2) (h23 : s2.Mono s3) :
    s1.Mono s3 := fun i n hn hex => h23 i n (h12 i n hn hex) hex

/-- `executeOnce` on a node that has not executed and whose dependencies all have: one call of
`execute()`, the node now holds its value, nothing else changes. -/
theorem TaskNode.executeOnce_run (s : Store) (hwf : s.WF) (t : Nat) (n : TaskNode)
    (hn : s.nodes[t]? = some n) (hne : n.executed = false)
    (hdeps : ∀ d : Nat, some d ∈ n.dependencies → TaskNode.isExecuted s d = true) :
    s.Run (TaskNode.executeOnce s t) (t + 1) ∧
    TaskNode.isExecuted (TaskNode.executeOnce s t) t = true := by
  have hlt : t < s.nodes.length := (List.getElem?_eq_some.1 hn).1
  obtain ⟨h1, h2, _⟩ := TaskNode.executeOnce_unexecuted s t n hn hne
  rw [TaskNode.execute_startExecution_eq_eval s hwf t n hn hdeps] at h1
  generalize TaskNode.executeOnce s t = s' at h1 h2 ⊢
  have hnode : ∀ i : Nat, s'.nodes[i]? =
      if t = i then some { n with
          startTime := s.clock, endTime := s.clock + 1, executionTimeMs := s.clock + 1 - s.clock,
          result := eval s t, executed := true }
      else s.nodes[i]? := by
    intro i
    rw [h1, List.getElem?_set]
    by_cases hti : t = i
    · subst hti; simp [hlt]
    · simp [hti]
  have hgraph : s.SameGraph s' := by
    intro i
    rw [hnode i]
    by_cases hti : t = i
    · subst hti; simp [hn, TaskNode.static]
    · simp [hti]
  have hmono : s.Mono s' := by
    intro i m hm hex
    rw [hnode i]
    by_cases hti : t = i
    · subst hti
      rw [hn] at hm
      cases hm
      rw [hne] at hex
      cases hex
    · simp [hti, hm]
  have hexec : ∀ r : Nat, TaskNode.isExecuted s' r = true ↔
      (r = t ∨ TaskNode.isExecuted s r = true) := by
    intro r
    unfold TaskNode.isExecuted
    rw [hnode r]
    by_cases hti : t = r
    · subst hti; simp
    · have hne' : ¬ r = t := fun h => hti h.symm
      simp [hti, hne']
  have hext : TaskNode.isExecuted s t = false := by
    unfold TaskNode.isExecuted; simp [hn, hne]
  refine ⟨⟨hgraph, hmono, ⟨?_, ?_, ?_, ?_⟩, ?_, ?_⟩, (hexec t).2 (Or.inl rfl)⟩
  · intro i m hm dep hdep
    rw [hnode i] at hm
    by_cases hti : t = i
    · subst hti
      simp only [if_true, Option.some.injEq] at hm
      subst hm
      exact hwf.acyclic t n hn dep hdep
    · simp only [hti, if_false] at hm
      exact hwf.acyclic i m hm dep hdep
  · intro i m hm hex
    rw [eval_sameGraph hgraph]
    rw [hnode i] at hm
    by_cases hti : t = i
    · subst hti
      simp only [if_true, Option.some.injEq] at hm
      subst hm
      rfl
    · simp only [hti, if_false] at hm
      exact hwf.executed_eval i m hm hex
  · intro i m hm hex d hd
    rw [hnode i] at hm
    by_cases hti : t = i
    · subst hti
      simp only [if_true, Option.some.injEq] at hm
      subst hm
      exact hmono.isExecuted d (hdeps d hd)
    · simp only [hti, if_false] at hm
      exact hmono.isExecuted d (hwf.executed_closed i m hm hex d hd)
  · intro i m data hm hk
    rw [hnode i] at hm
    by_cases hti : t = i
    · subst hti
      simp only [if_true, Option.some.injEq] at hm
      subst hm
      exact hwf.input_leaf t n data hn hk
    · simp only [hti, if_false] at hm
      exact hwf.input_leaf i m data hm hk
  · intro r hr
    rcases (hexec r).1 hr with h | h
    · right; omega
    · left; exact h
  · refine ⟨[t], h2, List.nodup_singleton t, ?_⟩
    intro r
    rw [List.mem_singleton, hexec r]
    constructor
    · intro h; subst h; exact ⟨hext, Or.inl rfl⟩
    · rintro ⟨hf, h | h⟩
      · exact h
      · rw [hf] at h; cases h

theorem Store.Run.run_refl {s : Store} (hwf : s.WF) (bound : Nat) : s.Run s bound :=
  ⟨Store.SameGraph.sg_refl s, Store.Mono.mono_refl s, hwf, fun _ h => Or.inl h,
    ⟨[], by simp, List.nodup_nil, by
      intro r
      constructor
      · intro h; cases h
      · rintro ⟨h1, h2⟩; rw [h1] at h2; cases h2⟩⟩

theorem Store.Run.weaken {s s' : Store} {b b' : Nat} (h : s.Run s' b) (hb : b ≤ b') :
    s.Run s' b' :=
  ⟨h.graph, h.mono, h.wf, fun r hr => (h.below r hr).imp id (fun hlt => Nat.lt_of_lt_of_le hlt hb),
    h.log⟩

theorem Store.Run.run_trans {s1 s2 s3 : Store} {b : Nat} (h12 : s1.Run s2 b) (h23 : s2.Run s3 b) :
    s1.Run s3 b := by
  refine ⟨h12.graph.sg_trans h23.graph, h12.mono.mono_trans h23.mono, h23.wf, ?_, ?_⟩
  · intro r hr
    rcases h23.below r hr with h | h
    · exact h12.below r h
    · exact Or.inr h
  · obtain ⟨new1, e1, nd1, m1⟩ := h12.log
    obtain ⟨new2, e2, nd2, m2⟩ := h23.log
    refine ⟨new1 ++ new2, by rw [e2, e1, List.append_assoc], ?_, ?_⟩
    · rw [List.nodup_append]
      refine ⟨nd1, nd2, ?_⟩
      intro r hr1 hr2
      have := ((m1 r).1 hr1).2
      rw [((m2 r).1 hr2).1] at this
      cases this
    · intro r
      rw [List.mem_append, m1 r, m2 r]
      constructor
      · rintro (⟨h1, h2⟩ | ⟨h1, h2⟩)
        · exact ⟨h1, h23.mono.isExecuted r h2⟩
        · refine ⟨?_, h2⟩
          cases hex : TaskNode.isExecuted s1 r with
          | false => rfl
          | true => rw [h12.mono.isExecuted r hex] at h1; cases h1
      · rintro ⟨h1, h3⟩
        cases hex : TaskNode.isExecuted s2 r with
        | false => exact Or.inr ⟨rfl, h3⟩
        | true => exact Or.inl ⟨h1, rfl⟩

theorem InputNode.new_store (s : Store) (id : TaskId) (data : DataPtr) :
    InputNode.new s id data =
      ({ s with nodes := s.nodes ++
          [{ TaskNode.mk0 id (NodeKind.input data) with result := data, executed := true }] },
        s.nodes.length) := by
  unfold InputNode.new Store.alloc TaskNode.setResult
  simp only
  rw [Store.modifyNode_eq_set _ _ _ (TaskNode.mk0 id (NodeKind.input data)) (by simp)]
  simp

theorem MultiInputTaskNode.addDependencies_fold_eq (inputs : List NodePtr) (s : Store)
    (base : List TaskNode) (m : TaskNode) (hs : s.nodes = base ++ [m]) :
    inputs.foldl (fun st input =>
        match input with
        | some i => TaskNode.addDependency st base.length (some i)
        | none => st) s
      = { s with nodes := base ++
          [{ m with dependencies := m.dependencies ++ inputs.filter (fun p => p.isSome) }] } := by
  induction inputs generalizing s m with
  | nil =>
    simp only [List.foldl_nil, List.filter_nil, List.append_nil]
    rw [← hs]
  | cons p rest ih =>
    cases p with
    | none =>
      simp only [List.foldl_cons]
      rw [ih s m hs]
      simp
    | some d =>
      simp only [List.foldl_cons]
      have hstep : TaskNode.addDependency s base.length (some d)
          = { s with nodes := base ++ [{ m with dependencies := m.dependencies ++ [some d] }] } := by
        unfold TaskNode.addDependency
        simp only
        rw [Store.modifyNode_eq_set _ _ _ m (by simp [hs])]
        simp [hs]
      rw [hstep, ih _ { m with dependencies := m.dependencies ++ [some d] } rfl]
      simp

theorem MultiInputTaskNode.new_node (s : Store) (id : TaskId) (func : ProcessFunction)
    (inputs : List NodePtr) :
    MultiInputTaskNode.new s id func inputs =
      ({ s with nodes := s.nodes ++
          [{ TaskNode.mk0 id (NodeKind.multiInput func inputs) with
              dependencies := inputs.filter (fun p => p.isSome) }] },
        s.nodes.length) := by
  unfold MultiInputTaskNode.new Store.alloc
  simp only
  have h := MultiInputTaskNode.addDependencies_fold_eq inputs
    { s with nodes := s.nodes ++ [TaskNode.mk0 id (NodeKind.multiInput func inputs)] }
    s.nodes (TaskNode.mk0 id (NodeKind.multiInput func inputs)) rfl
  refine Prod.ext ?_ rfl
  exact h.trans (by simp [TaskNode.mk0])

theorem mapFind_mapAssign {β : Type} (m : List (TaskId × β)) (k k' : TaskId) (v : β) :
    mapFind (mapAssign m k v) k' = if k = k' then some v else mapFind m k' := by
  induction m with
  | nil => simp [mapAssign, mapFind]
  | cons p rest ih =>
    obtain ⟨k1, v1⟩ := p
    unfold mapAssign
    by_cases h1 : k1 = k
    · subst h1
      by_cases h2 : k1 = k'
      · simp [mapFind, h2]
      · simp [mapFind, h2]
    · simp only [h1, if_false]
      unfold mapFind
      by_cases h2 : k1 = k'
      · subst h2
        have : ¬ k = k1 := fun h => h1 h.symm
        simp [this]
      · simp [h2, ih]

/-- Appending a node does not change the value of the nodes already there. -/
theorem evalFuel_append (s s' : Store) (m : TaskNode) (hs' : s'.nodes = s.nodes ++ [m])
    (hac : ∀ (i : Nat) (n : TaskNode), s.nodes[i]? = some n →
      ∀ dep ∈ n.dependencies, ∃ d : Nat, dep = some d ∧ d < i)
    (k : Nat) : ∀ i : Nat, i < s.nodes.length → evalFuel k s' i = evalFuel k s i := by
  induction k with
  | zero => intro i _; rfl
  | succ k ih =>
    intro i hi
    have hni : s'.nodes[i]? = s.nodes[i]? := by
      rw [hs', List.getElem?_append_left hi]
    unfold evalFuel
    rw [hni]
    cases hn : s.nodes[i]? with
    | none => rfl
    | some n =>
      simp only
      cases hk : n.kind with
      | input data => rfl
      | multiInput func inputs =>
        simp only
        have hargs : (n.dependencies.map fun dep => dep.bind (evalFuel k s'))
            = (n.dependencies.map fun dep => dep.bind (evalFuel k s)) := by
          apply List.map_congr_left
          intro dep hdep
          obtain ⟨d, rfl, hlt⟩ := hac i n hn dep hdep
          simp only [Option.some_bind]
          exact ih d (by omega)
        rw [hargs]

theorem eval_append (s s' : Store) (hwf : s.WF) (m : TaskNode) (hs' : s'.nodes = s.nodes ++ [m])
    (i : Nat) (hi : i < s.nodes.length) : eval s' i = eval s i := by
  have hac' : ∀ (j : Nat) (n : TaskNode), s'.nodes[j]? = some n → j < s.nodes.length →
      ∀ dep ∈ n.dependencies, ∃ d : Nat, dep = some d ∧ d < j := by
    intro j n hn hj
    rw [hs', List.getElem?_append_left hj] at hn
    exact hwf.acyclic j n hn
  unfold eval
  rw [evalFuel_append s s' m hs' hwf.acyclic _ i hi]
  have hlen : s'.nodes.length = s.nodes.length + 1 := by rw [hs']; simp
  rw [hlen]
  exact evalFuel_fuel s hwf.acyclic _ _ i (by omega) hi

/-- The invariant is kept when a node whose dependencies are handles of existing nodes is
allocated, provided that, if it is already executed, it holds its value and its dependencies
have executed. -/
theorem Store.WF.append {s : Store} (hwf : s.WF) (s' : Store) (m : TaskNode)
    (hs' : s'.nodes = s.nodes ++ [m])
    (hdeps : ∀ dep ∈ m.dependencies, ∃ d : Nat, dep = some d ∧ d < s.nodes.length)
    (hm : m.executed = true → m.result = eval s' s.nodes.length ∧
      ∀ d : Nat, some d ∈ m.dependencies → TaskNode.isExecuted s' d = true)
    (hleaf : ∀ data, m.kind = NodeKind.input data → m.dependencies = []) : s'.WF := by
  have hold : ∀ i : Nat, i < s.nodes.length → s'.nodes[i]? = s.nodes[i]? := by
    intro i hi
    rw [hs', List.getElem?_append_left hi]
  have hnew : s'.nodes[s.nodes.length]? = some m := by
    rw [hs']; simp
  have hcases : ∀ (i : Nat) (n : TaskNode), s'.nodes[i]? = some n →
      (i < s.nodes.length ∧ s.nodes[i]? = some n) ∨ (i = s.nodes.length ∧ n = m) := by
    intro i n hn
    have hi : i < s'.nodes.length := (List.getElem?_eq_some.1 hn).1
    have hlen : s'.nodes.length = s.nodes.length + 1 := by rw [hs']; simp
    by_cases hlt : i < s.nodes.length
    · left; exact ⟨hlt, by rw [← hold i hlt]; exact hn⟩
    · right
      have hi' : i = s.nodes.length := by omega
      subst hi'
      rw [hnew] at hn
      exact ⟨rfl, (Option.some.inj hn).symm⟩
  have hexold : ∀ d : Nat, TaskNode.isExecuted s d = true → TaskNode.isExecuted s' d = true := by
    intro d hd
    obtain ⟨n, hn, hex⟩ := (TaskNode.isExecuted_eq_true_iff s d).1 hd
    have hdl : d < s.nodes.length := (List.getElem?_eq_some.1 hn).1
    exact (TaskNode.isExecuted_eq_true_iff s' d).2 ⟨n, by rw [hold d hdl]; exact hn, hex⟩
  refine ⟨?_, ?_, ?_, ?_⟩
  · intro i n hn dep hdep
    rcases hcases i n hn with ⟨_, h⟩ | ⟨h1, h2⟩
    · exact hwf.acyclic i n h dep hdep
    · subst h1; subst h2
      exact hdeps dep hdep
  · intro i n hn hex
    rcases hcases i n hn with ⟨hi, h⟩ | ⟨h1, h2⟩
    · rw [eval_append s s' hwf m hs' i hi]
      exact hwf.executed_eval i n h hex
    · subst h1; subst h2
      exact (hm hex).1
  · intro i n hn hex d hd
    rcases hcases i n hn with ⟨_, h⟩ | ⟨h1, h2⟩
    · exact hexold d (hwf.executed_closed i n h hex d hd)
    · subst h1; subst h2
      exact (hm hex).2 d hd
  · intro i n data hn hk
    rcases hcases i n hn with ⟨_, h⟩ | ⟨h1, h2⟩
    · exact hwf.input_leaf i n data h hk
    · subst h1; subst h2
      exact hleaf data hk

theorem Scenario.s2Out_built (item : DataPtr) :
    Built (Scenario.s2Out item).1 (Scenario.s2Out item).2.1 := by
  have h1 : Built (Scenario.s2In item).1 (Scenario.s2In item).2.1 :=
    Built.addInput "in" item Built.fresh
  have h2 : Built (Scenario.s2A item).1 (Scenario.s2A item).2.1 :=
    Built.addTask "A" (Scenario.addK 10) _ h1 (by
      intro p hp
      simp only [List.mem_singleton] at hp
      exact ⟨0, hp, Nat.lt_of_lt_of_eq (by decide : (0 : Nat) < 1) rfl⟩)
  have h3 : Built (Scenario.s2B item).1 (Scenario.s2B item).2.1 :=
    Built.addTask "B" (Scenario.addK 20) _ h2 (by
      intro p hp
      simp only [List.mem_singleton] at hp
      exact ⟨0, hp, Nat.lt_of_lt_of_eq (by decide : (0 : Nat) < 2) rfl⟩)
  exact Built.addTask "out" Scenario.join _ h3 (by
    intro p hp
    simp only [List.mem_cons, List.mem_singleton, List.not_mem_nil, or_false] at hp
    rcases hp with hp | hp
    · exact ⟨1, hp, Nat.lt_of_lt_of_eq (by decide : (1 : Nat) < 3) rfl⟩
    · exact ⟨2, hp, Nat.lt_of_lt_of_eq (by decide : (2 : Nat) < 3) rfl⟩)

theorem Scenario.s5Out_built : Built Scenario.s5Out.1 Scenario.s5Out.2.1 := by
  have h1 : Built Scenario.s5In.1 Scenario.s5In.2.1 := Built.addInput "in" (some 1) Built.fresh
  have h2 : Built Scenario.s5X.1 Scenario.s5X.2.1 :=
    Built.addTask "X" (Scenario.addK 1) _ h1 (by
      intro p hp
      simp only [List.mem_singleton] at hp
      exact ⟨0, hp, by decide⟩)
  have h3 : Built Scenario.s5Y1.1 Scenario.s5Y1.2.1 :=
    Built.addTask "Y1" (Scenario.addK 2) _ h2 (by
      intro p hp
      simp only [List.mem_singleton] at hp
      exact ⟨1, hp, by decide⟩)
  have h4 : Built Scenario.s5Y2.1 Scenario.s5Y2.2.1 :=
    Built.addTask "Y2" (Scenario.addK 3) _ h3 (by
      intro p hp
      simp only [List.mem_singleton] at hp
      exact ⟨1, hp, by decide⟩)
  exact Built.addTask "out" Scenario.join _ h4 (by
    intro p hp
    simp only [List.mem_cons, List.mem_singleton, List.not_mem_nil, or_false] at hp
    rcases hp with hp | hp
    · exact ⟨2, hp, by decide⟩
    · exact ⟨3, hp, by decide⟩)

/-- Witness for C3: a processing node whose only dependency is an input node preloaded with
null. -/
theorem null_dependency_skips_function_witness :
    TaskNode.getResult (Scenario.s2A none).1 0 = none ∧
    (TaskNode.executeOnce (Scenario.s2A none).1 1).funcLog = (Scenario.s2A none).1.funcLog ∧
    TaskNode.isExecuted (TaskNode.executeOnce (Scenario.s2A none).1 1) 1 = true ∧
    TaskNode.getResult (TaskNode.executeOnce (Scenario.s2A none).1 1) 1 = none :=
  ⟨by decide,
    (null_dependency_skips_function (Scenario.s2A none).1 1
      { TaskNode.mk0 "A" (NodeKind.multiInput (Scenario.addK 10) [some 0]) with
          dependencies := [some 0] }
      (Scenario.addK 10) [some 0] 0 (by rfl) rfl (by simp) (by decide)).2 rfl⟩

theorem StreamingPipeline.handleResult_spec (p : StreamingPipeline) (result : DataPtr) :
    (p.handleResult result).outputQueue.queue
      = p.outputQueue.queue ++ (ItemOutcome.result result).output.toList ∧
    (p.handleResult result).processedItems
      = p.processedItems + (ItemOutcome.result result).output.toList.length ∧
    (p.handleResult result).errorCount = p.errorCount ∧
    (p.handleResult result).inputQueue = p.inputQueue ∧
    (p.handleResult result).running = p.running ∧
    (p.handleResult result).threadJoinable = p.threadJoinable ∧
    (p.handleResult result).queueMaxSize = p.queueMaxSize ∧
    (p.handleResult result).input_active = p.input_active ∧
    (p.handleResult result).processor = p.processor ∧
    (p.handleResult result).pipelineBuilder = p.pipelineBuilder ∧
    (p.handleResult result).profilingEnabled = p.profilingEnabled := by
  cases result with
  | none => simp [StreamingPipeline.handleResult, ItemOutcome.output]
  | some v =>
    simp [StreamingPipeline.handleResult, ItemOutcome.output, threadsafe_queue.push]

/-- What processing one popped item does to the pipeline, in terms of the outcome of the item's
`try` block: the output queue receives the non-null result, `processedItems` counts it,
`errorCount` counts an exception, and the input queue and the control flags are untouched. -/
theorem StreamingPipeline.processItem_spec (p p' : StreamingPipeline) (input : DataPtr)
    (h : p.processItem input = some p') :
    ∃ s1 builder outcome,
      p.buildAndExecute (if p.profilingEnabled then p.store.now.2 else p.store) input
        = some (s1, builder, outcome) ∧
      p'.pipelineBuilder = builder ∧
      p'.outputQueue.queue = p.outputQueue.queue ++ outcome.output.toList ∧
      p'.processedItems = p.processedItems + outcome.output.toList.length ∧
      p'.errorCount = p.errorCount + (if outcome.isException then 1 else 0) ∧
      p'.inputQueue = p.inputQueue ∧ p'.running = p.running ∧
      p'.threadJoinable = p.threadJoinable ∧ p'.queueMaxSize = p.queueMaxSize ∧
      p'.input_active = p.input_active ∧ p'.processor = p.processor ∧
      p'.profilingEnabled = p.profilingEnabled := by
  unfold StreamingPipeline.processItem at h
  have hs0 : (if p.profilingEnabled then p.store.now else (0, p.store)).2
      = (if p.profilingEnabled then p.store.now.2 else p.store) := by
    split <;> rfl
  generalize hst : (if p.profilingEnabled then p.store.now else (0, p.store)) = st at h hs0
  obtain ⟨startProcess, s0⟩ := st
  simp only at h hs0
  rw [← hs0]
  cases hbe : p.buildAndExecute s0 input with
  | none => rw [hbe] at h; simp at h
  | some r =>
    obtain ⟨s1, builder, outcome⟩ := r
    rw [hbe] at h
    refine ⟨s1, builder, outcome, rfl, ?_⟩
    cases outcome with
    | exception =>
      simp only [Option.some.injEq] at h
      subst h
      simp [ItemOutcome.output, ItemOutcome.isException]
    | result result =>
      simp only at h
      by_cases hprof : p.profilingEnabled = true
      · simp only [hprof, if_true, Option.some.injEq] at h
        subst h
        cases result <;>
          simp [StreamingPipeline.handleResult, ItemOutcome.output, ItemOutcome.isException,
            threadsafe_queue.push, hprof]
      · simp only [hprof, Bool.false_eq_true, if_false, Option.some.injEq] at h
        subst h
        cases result <;>
          simp [StreamingPipeline.handleResult, ItemOutcome.output, ItemOutcome.isException,
            threadsafe_queue.push, hprof]

theorem StreamingPipeline.Processed.processed_refl (p : StreamingPipeline) : p.Processed p [] :=
  ⟨by simp, by simp, by simp, by simp, rfl, rfl, rfl, rfl, rfl⟩

theorem StreamingPipeline.Processed.processed_trans {p1 p2 p3 : StreamingPipeline}
    {o1 o2 : List (DataPtr × ItemOutcome)} (h12 : p1.Processed p2 o1) (h23 : p2.Processed p3 o2) :
    p1.Processed p3 (o1 ++ o2) := by
  refine ⟨?_, ?_, ?_, ?_, h23.running.trans h12.running,
    h23.threadJoinable.trans h12.threadJoinable, h23.queueMaxSize.trans h12.queueMaxSize,
    h23.input_active.trans h12.input_active, h23.processor.trans h12.processor⟩
  · rw [List.map_append, List.append_assoc, h23.input, h12.input]
  · rw [h23.output, h12.output, List.filterMap_append, List.append_assoc]
  · rw [h23.processedItems, h12.processedItems, List.filterMap_append, List.length_append]
    omega
  · rw [h23.errorCount, h12.errorCount, List.filter_append, List.length_append]
    omega

/-- One pass through the loop body processes what `observeBody` reports. -/
theorem StreamingPipeline.loopBody_processed (p p' : StreamingPipeline)
    (h : p.loopBody = some p') : p.Processed p' p.observeBody.toList := by
  unfold StreamingPipeline.loopBody at h
  unfold StreamingPipeline.observeBody
  unfold threadsafe_queue.try_pop at h ⊢
  cases hq : p.inputQueue.queue with
  | nil =>
    simp only [hq, Option.some.injEq] at h ⊢
    subst h
    exact StreamingPipeline.Processed.processed_refl p
  | cons input rest =>
    simp only [hq] at h ⊢
    obtain ⟨s1, builder, outcome, hbe, _, ho, hp, he, hi, hr, ht, hm, ha, hpr, _⟩ :=
      StreamingPipeline.processItem_spec _ p' input h
    simp only at hbe ho hp he hi hr ht hm ha hpr
    rw [hbe]
    simp only [Option.map_some', Option.toList_some]
    refine ⟨?_, ?_, ?_, ?_, hr, ht, hm, ha, hpr⟩
    · simp [hi, hq]
    · rw [ho]; cases hout : outcome.output <;> simp [hout]
    · rw [hp]; cases hout : outcome.output <;> simp [hout]
    · rw [he]; cases hexc : outcome.isException <;> simp [hexc]

/-- The processing loop run to its exit processes what `observeLoop` reports, and exits with
`running_` clear and the input queue empty. -/
theorem StreamingPipeline.processingLoop_processed (fuel : Nat) :
    ∀ (p p' : StreamingPipeline), StreamingPipeline.processingLoop fuel p = some p' →
      ∃ p1, p.Processed p1 (StreamingPipeline.observeLoop fuel p) ∧
        p' = { p1 with output_active := false } ∧ p1.running = false ∧
        p1.inputQueue.queue = [] := by
  induction fuel with
  | zero =>
    intro p p' h
    unfold StreamingPipeline.processingLoop at h
    split at h
    · cases h
    · rename_i hc
      simp only [Option.some.injEq] at h
      refine ⟨p, StreamingPipeline.Processed.processed_refl p, h.symm, ?_, ?_⟩
      · have hc' : p.running = false ∧ p.inputQueue.empty = true := by simpa using hc
        exact hc'.1
      · have hc' : p.running = false ∧ p.inputQueue.empty = true := by simpa using hc
        simpa [threadsafe_queue.empty] using hc'.2
  | succ fuel ih =>
    intro p p' h
    unfold StreamingPipeline.processingLoop at h
    unfold StreamingPipeline.observeLoop
    split at h
    · rename_i hc
      rw [if_pos hc]
      cases hb : p.loopBody with
      | none => rw [hb] at h; cases h
      | some p1 =>
        rw [hb] at h
        simp only at h ⊢
        obtain ⟨p2, hp2, e, hr, hq⟩ := ih p1 p' h
        exact ⟨p2, (StreamingPipeline.loopBody_processed p p1 hb).processed_trans hp2, e, hr, hq⟩
    · rename_i hc
      rw [if_neg hc]
      simp only [Option.some.injEq] at h
      refine ⟨p, StreamingPipeline.Processed.processed_refl p, h.symm, ?_, ?_⟩
      · have hc' : p.running = false ∧ p.inputQueue.empty = true := by simpa using hc
        exact hc'.1
      · have hc' : p.running = false ∧ p.inputQueue.empty = true := by simpa using hc
        simpa [threadsafe_queue.empty] using hc'.2

/-- The join inside `stop()`: what `stop` does to a running pipeline with a live thread. -/
theorem StreamingPipeline.stop_processed (p p' : StreamingPipeline) (h : p.stop = some p')
    (hr : p.running = true) (ht : p.threadJoinable = true) :
    ∃ p1, StreamingPipeline.Processed { p with running := false, input_active := false } p1
        (StreamingPipeline.observeLoop p.inputQueue.size
          { p with running := false, input_active := false }) ∧
      p1.inputQueue.queue = [] ∧ p'.inputQueue = p1.inputQueue ∧
      p'.outputQueue = p1.outputQueue ∧ p'.processedItems = p1.processedItems ∧
      p'.errorCount = p1.errorCount ∧ p'.queueMaxSize = p1.queueMaxSize ∧
      p'.running = false ∧ p'.input_active = false ∧ p'.output_active = false ∧
      p'.threadJoinable = false := by
  cases p with
  | mk store pipelineBuilder inputQueue input_active outputQueue output_active processor
      outputNodeId threadJoinable running queueMaxSize processedItems errorCount
      totalProcessingTime profilingEnabled taskStats startTime =>
  simp only at hr ht
  subst hr ht
  unfold StreamingPipeline.stop at h
  simp only [Bool.not_true, Bool.false_eq_true, if_false, if_true] at h
  generalize hl : StreamingPipeline.processingLoop _ _ = res at h
  cases res with
  | none => simp at h
  | some p2 =>
    obtain ⟨p1, hp1, e, hr1, hq1⟩ := StreamingPipeline.processingLoop_processed _ _ p2 hl
    simp only [Option.map_some', Option.some.injEq] at h
    subst e
    refine ⟨p1, hp1, hq1, ?_⟩
    have hia : p1.input_active = false := hp1.input_active
    split at h <;> subst h <;> simp [hr1, hia]

/-- The three ways a call of `addInput` can stand: still waiting; returned false with the
pipeline unchanged; or returned true having pushed the item, which happens only with the input
active, the item non-null and fewer than `queueMaxSize_` items queued. -/
theorem StreamingPipeline.addInput_cases (p : StreamingPipeline) (data : DataPtr) :
    p.addInput data = none ∨ p.addInput data = some (false, p) ∨
    (p.addInput data = some (true, { p with inputQueue := p.inputQueue.push data }) ∧
      p.inputQueue.size < p.queueMaxSize ∧ p.input_active = true ∧ data ≠ none) := by
  unfold StreamingPipeline.addInput
  cases data with
  | none => right; left; rfl
  | some v =>
    simp only
    by_cases hcond : (decide (p.inputQueue.size ≥ p.queueMaxSize) && p.input_active) = true
    · left; rw [if_pos hcond]
    · rw [if_neg hcond]
      by_cases ha : p.input_active = true
      · right; right
        rw [if_pos ha]
        refine ⟨rfl, ?_, ha, by simp⟩
        simp only [ha, Bool.and_true, decide_eq_true_eq] at hcond
        omega
      · right; left
        rw [if_neg ha]

/-- The effect of one action on the queues, the counters and the history: the history grows
by the items `acc` accepted, the items `obs` processed and the values `del` delivered; the
input queue gains `acc` at the back and loses the items of `obs` at the front; the output
queue gains the non-null results of `obs` at the back and loses `del` at the front; an item is
accepted only below the capacity; and except for `start` on a stopped pipeline the counters
grow by the outputs and the exceptions of `obs`. -/
theorem StreamingPipeline.step_effect (p p' : StreamingPipeline) (h : History) (a : Action)
    (hs : p.step a = some p') :
    ∃ acc obs del,
      h.record p a = { accepted := h.accepted ++ acc, processed := h.processed ++ obs,
                       delivered := h.delivered ++ del } ∧
      obs.map Prod.fst ++ p'.inputQueue.queue = p.inputQueue.queue ++ acc ∧
      del ++ p'.outputQueue.queue = p.outputQueue.queue ++ obs.filterMap (fun x => x.2.output) ∧
      p'.queueMaxSize = p.queueMaxSize ∧
      (acc = [] ∨ (acc.length = 1 ∧ p.inputQueue.size < p.queueMaxSize ∧ obs = [])) ∧
      (p.running = true →
        p'.processedItems = p.processedItems + (obs.filterMap (fun x => x.2.output)).length ∧
        p'.errorCount = p.errorCount + (obs.filter (fun x => x.2.isException)).length) ∧
      (a.isStop = false → p.running = true →
        p'.running = true ∧ p'.threadJoinable = p.threadJoinable) ∧
      (a.isStop = true → p.running = true → p.threadJoinable = true →
        p'.running = false ∧ p'.inputQueue.queue = []) := by
  have same : ∀ q : StreamingPipeline, q.inputQueue = p.inputQueue →
      q.outputQueue = p.outputQueue → q.queueMaxSize = p.queueMaxSize →
      (p.running = true → q.processedItems = p.processedItems ∧ q.errorCount = p.errorCount) →
      (p.running = true → q.running = true ∧ q.threadJoinable = p.threadJoinable) →
      ∃ acc obs del,
        h = { accepted := h.accepted ++ acc, processed := h.processed ++ obs,
              delivered := h.delivered ++ del } ∧
        obs.map Prod.fst ++ q.inputQueue.queue = p.inputQueue.queue ++ acc ∧
        del ++ q.outputQueue.queue = p.outputQueue.queue ++ obs.filterMap (fun x => x.2.output) ∧
        q.queueMaxSize = p.queueMaxSize ∧
        (acc = [] ∨ (acc.length = 1 ∧ p.inputQueue.size < p.queueMaxSize ∧ obs = [])) ∧
        (p.running = true →
          q.processedItems = p.processedItems + (obs.filterMap (fun x => x.2.output)).length ∧
          q.errorCount = p.errorCount + (obs.filter (fun x => x.2.isException)).length) ∧
        (p.running = true → q.running = true ∧ q.threadJoinable = p.threadJoinable) := by
    intro q hi ho hm hcnt hrun
    refine ⟨[], [], [], by simp, by simp [hi], by simp [ho], hm, Or.inl rfl, ?_, hrun⟩
    intro hr
    simpa using hcnt hr
  have wrap : ∀ q : StreamingPipeline, q = p' → a.isStop = false → q.inputQueue = p.inputQueue →
      q.outputQueue = p.outputQueue → q.queueMaxSize = p.queueMaxSize →
      (p.running = true → q.processedItems = p.processedItems ∧ q.errorCount = p.errorCount) →
      (p.running = true → q.running = true ∧ q.threadJoinable = p.threadJoinable) →
      h.record p a = h →
      ∃ acc obs del,
        h.record p a = { accepted := h.accepted ++ acc, processed := h.processed ++ obs,
                         delivered := h.delivered ++ del } ∧
        obs.map Prod.fst ++ p'.inputQueue.queue = p.inputQueue.queue ++ acc ∧
        del ++ p'.outputQueue.queue
          = p.outputQueue.queue ++ obs.filterMap (fun x => x.2.output) ∧
        p'.queueMaxSize = p.queueMaxSize ∧
        (acc = [] ∨ (acc.length = 1 ∧ p.inputQueue.size < p.queueMaxSize ∧ obs = [])) ∧
        (p.running = true →
          p'.processedItems = p.processedItems + (obs.filterMap (fun x => x.2.output)).length ∧
          p'.errorCount = p.errorCount + (obs.filter (fun x => x.2.isException)).length) ∧
        (a.isStop = false → p.running = true →
          p'.running = true ∧ p'.threadJoinable = p.threadJoinable) ∧
        (a.isStop = true → p.running = true → p.threadJoinable = true →
          p'.running = false ∧ p'.inputQueue.queue = []) := by
    intro q hq hns hi ho hm hcnt hrun hrec
    subst hq
    obtain ⟨acc, obs, del, e1, e2, e3, e4, e5, e6, e7⟩ := same q hi ho hm hcnt hrun
    rw [hrec]
    exact ⟨acc, obs, del, e1, e2, e3, e4, e5, e6, fun _ => e7,
      fun hst => by rw [hns] at hst; cases hst⟩
  cases a with
  | start =>
    simp only [StreamingPipeline.step, StreamingPipeline.start] at hs
    by_cases hr : p.running = true
    · simp only [hr, if_true] at hs
      exact wrap p (Option.some.inj hs) rfl rfl rfl rfl (fun _ => ⟨rfl, rfl⟩) (fun h => ⟨h, rfl⟩) rfl
    · simp only [hr, Bool.false_eq_true, if_false] at hs
      cases hp : p.processor with
      | none =>
        rw [hp] at hs
        simp only at hs
        exact wrap p (Option.some.inj hs) rfl rfl rfl rfl (fun _ => ⟨rfl, rfl⟩) (fun h => ⟨h, rfl⟩) rfl
      | some f =>
        rw [hp] at hs
        simp only at hs
        exact wrap _ (Option.some.inj hs) rfl rfl rfl rfl (fun h => absurd h hr) (fun h => absurd h hr) rfl
  | stop =>
    simp only [StreamingPipeline.step] at hs
    simp only [History.record]
    by_cases hrt : (p.running && p.threadJoinable) = true
    · rw [if_pos hrt]
      have hrt' : p.running = true ∧ p.threadJoinable = true := by simpa using hrt
      obtain ⟨p1, hp1, hq1, hi, ho, hpi, hec, hm, hrun, _⟩ :=
        StreamingPipeline.stop_processed p p' hs hrt'.1 hrt'.2
      refine ⟨[], StreamingPipeline.observeLoop p.inputQueue.size
          { p with running := false, input_active := false }, [], by simp, ?_, ?_, ?_,
        Or.inl rfl, ?_, ?_, ?_⟩
      · rw [hi, List.append_nil]; exact hp1.input
      · rw [ho, List.nil_append]; exact hp1.output
      · rw [hm]; exact hp1.queueMaxSize
      · intro _
        rw [hpi, hec]
        exact ⟨hp1.processedItems, hp1.errorCount⟩
      · intro hst; cases hst
      · intro _ _ _
        rw [hi]
        exact ⟨hrun, hq1⟩
    · rw [if_neg hrt]
      have hq : ∃ q : StreamingPipeline, q = p' ∧ q.inputQueue = p.inputQueue ∧
          q.outputQueue = p.outputQueue ∧ q.queueMaxSize = p.queueMaxSize ∧
          q.processedItems = p.processedItems ∧ q.errorCount = p.errorCount := by
        unfold StreamingPipeline.stop at hs
        by_cases hr : p.running = true
        · have ht : p.threadJoinable = false := by
            cases ht : p.threadJoinable with
            | false => rfl
            | true => simp [hr, ht] at hrt
          simp only [hr, Bool.not_true, Bool.false_eq_true, if_false, ht] at hs
          simp only [Option.some.injEq] at hs
          split at hs <;> subst hs <;> exact ⟨_, rfl, rfl, rfl, rfl, rfl, rfl⟩
        · simp only [hr, Bool.not_false, if_true, Option.some.injEq] at hs
          subst hs
          exact ⟨_, rfl, rfl, rfl, rfl, rfl, rfl⟩
      obtain ⟨q, hqe, hi, ho, hm, hpi, hec⟩ := hq
      subst hqe
      refine ⟨[], [], [], by simp, by simp [hi], by simp [ho], hm, Or.inl rfl, ?_, ?_, ?_⟩
      · intro _; simp [hpi, hec]
      · intro hst; cases hst
      · intro _ hr ht
        rw [hr, ht] at hrt
        exact absurd rfl hrt
  | setProcessor f =>
    simp only [StreamingPipeline.step, StreamingPipeline.setProcessor] at hs
    by_cases hr : p.running = true
    · simp only [hr, if_true] at hs
      exact wrap p (Option.some.inj hs) rfl rfl rfl rfl (fun _ => ⟨rfl, rfl⟩) (fun h => ⟨h, rfl⟩) rfl
    · simp only [hr, Bool.false_eq_true, if_false] at hs
      exact wrap _ (Option.some.inj hs) rfl rfl rfl rfl (fun h => absurd h hr) (fun h => absurd h hr) rfl
  | setOutputNodeId id =>
    simp only [StreamingPipeline.step, StreamingPipeline.setOutputNodeId] at hs
    by_cases hr : p.running = true
    · simp only [hr, if_true] at hs
      exact wrap p (Option.some.inj hs) rfl rfl rfl rfl (fun _ => ⟨rfl, rfl⟩) (fun h => ⟨h, rfl⟩) rfl
    · simp only [hr, Bool.false_eq_true, if_false] at hs
      exact wrap _ (Option.some.inj hs) rfl rfl rfl rfl (fun h => absurd h hr) (fun h => absurd h hr) rfl
  | enableProfiling b =>
    simp only [StreamingPipeline.step, StreamingPipeline.enableProfiling] at hs
    exact wrap _ (Option.some.inj hs) rfl rfl rfl rfl (fun _ => ⟨rfl, rfl⟩) (fun h => ⟨h, rfl⟩) rfl
  | addInput data =>
    simp only [StreamingPipeline.step] at hs
    rcases StreamingPipeline.addInput_cases p data with h1 | h1 | ⟨h1, hlt, _, _⟩
    · rw [h1] at hs
      exact wrap p (Option.some.inj hs) rfl rfl rfl rfl (fun _ => ⟨rfl, rfl⟩) (fun h => ⟨h, rfl⟩) (by simp only [History.record, h1])
    · rw [h1] at hs
      exact wrap p (Option.some.inj hs) rfl rfl rfl rfl (fun _ => ⟨rfl, rfl⟩) (fun h => ⟨h, rfl⟩) (by simp only [History.record, h1])
    · rw [h1] at hs
      simp only [Option.some.injEq] at hs
      subst hs
      refine ⟨[data], [], [], ?_, ?_, ?_, rfl, Or.inr ⟨rfl, hlt, rfl⟩, ?_, ?_, ?_⟩
      · simp only [History.record, h1, List.append_nil]
      · simp [threadsafe_queue.push]
      · simp
      · intro _; simp
      · intro _ hr; exact ⟨hr, rfl⟩
      · intro hst; cases hst
  | tryGetOutput =>
    simp only [StreamingPipeline.step, StreamingPipeline.tryGetOutput, Option.some.injEq] at hs
    simp only [History.record, StreamingPipeline.tryGetOutput]
    unfold threadsafe_queue.try_pop at hs ⊢
    cases hq : p.outputQueue.queue with
    | nil =>
      rw [hq] at hs
      simp only at hs
      subst hs
      refine ⟨[], [], [], by simp, by simp, by simp [hq], rfl, Or.inl rfl, ?_, ?_, ?_⟩
      · intro _; simp
      · intro _ hr; exact ⟨hr, rfl⟩
      · intro hst; cases hst
    | cons v rest =>
      rw [hq] at hs
      simp only at hs
      subst hs
      refine ⟨[], [], [v], by simp, by simp, by simp, rfl, Or.inl rfl, ?_, ?_, ?_⟩
      · intro _; simp
      · intro _ hr; exact ⟨hr, rfl⟩
      · intro hst; cases hst
  | loopIteration =>
    simp only [StreamingPipeline.step] at hs
    by_cases hrt : (p.running && p.threadJoinable) = true
    · simp only [History.record]
      rw [if_pos hrt] at hs ⊢
      have hp := StreamingPipeline.loopBody_processed p p' hs
      refine ⟨[], p.observeBody.toList, [], by simp, ?_, ?_, hp.queueMaxSize, Or.inl rfl,
        ?_, ?_, ?_⟩
      · rw [List.append_nil]; exact hp.input
      · rw [List.nil_append]; exact hp.output
      · intro _; exact ⟨hp.processedItems, hp.errorCount⟩
      · intro _ hr; exact ⟨hp.running.trans hr, hp.threadJoinable⟩
      · intro hst; cases hst
    · rw [if_neg hrt] at hs
      exact wrap p (Option.some.inj hs) rfl rfl rfl rfl (fun _ => ⟨rfl, rfl⟩) (fun h => ⟨h, rfl⟩)
        (by simp only [History.record]; rw [if_neg hrt])

/-! ## Runs of the pipeline -/

theorem StreamingPipeline.step_orders (p p' : StreamingPipeline) (h : History) (a : Action)
    (hi : h.InputOrder p) (ho : h.OutputOrder p) (hs : p.step a = some p') :
    (h.record p a).InputOrder p' ∧ (h.record p a).OutputOrder p' := by
  obtain ⟨acc, obs, del, e, e1, e2, _⟩ := StreamingPipeline.step_effect p p' h a hs
  rw [e]
  unfold History.InputOrder History.OutputOrder at *
  simp only [List.map_append, List.filterMap_append, List.append_assoc]
  constructor
  · rw [e1, ← List.append_assoc, hi]
  · rw [e2, ← List.append_assoc, ho]

theorem StreamingPipeline.runObserved_orders (actions : List Action) :
    ∀ (p p' : StreamingPipeline) (h h' : History), h.InputOrder p → h.OutputOrder p →
      p.runObserved h actions = some (p', h') → h'.InputOrder p' ∧ h'.OutputOrder p' := by
  induction actions with
  | nil =>
    intro p p' h h' hi ho hrun
    simp only [StreamingPipeline.runObserved, Option.some.injEq, Prod.mk.injEq] at hrun
    obtain ⟨rfl, rfl⟩ := hrun
    exact ⟨hi, ho⟩
  | cons a rest ih =>
    intro p p' h h' hi ho hrun
    unfold StreamingPipeline.runObserved at hrun
    cases hs : p.step a with
    | none => rw [hs] at hrun; cases hrun
    | some p1 =>
      rw [hs] at hrun
      obtain ⟨hi1, ho1⟩ := StreamingPipeline.step_orders p p1 h a hi ho hs
      exact ih p1 p' _ h' hi1 ho1 hrun

/-- C5. Item-order preservation.  Take a pipeline with empty queues and let the threads around
it act in any order (calls of the public methods, passes of the processing loop).  At every
point of the run the items the loop has processed, followed by the items still in the input
queue, are exactly the items `addInput` accepted, in the order of acceptance; and the values
pushed onto the output queue (those already delivered followed by those still queued) are
exactly the non-null terminal results of the processed items, in that same order. -/
theorem outputs_follow_input_order (p : StreamingPipeline) (hin : p.inputQueue.queue = [])
    (hout : p.outputQueue.queue = []) (actions : List Action) (p' : StreamingPipeline)
    (h' : History) (hrun : p.runObserved History.empty actions = some (p', h')) :
    h'.processed.map Prod.fst ++ p'.inputQueue.queue = h'.accepted ∧
    h'.delivered ++ p'.outputQueue.queue = h'.processed.filterMap (fun x => x.2.output) :=
  StreamingPipeline.runObserved_orders actions p p' History.empty h'
    (by simp [History.InputOrder, History.empty, hin])
    (by simp [History.OutputOrder, History.empty, hout]) hrun

theorem Scenario.s1Run_isSome : Scenario.s1Run.isSome = true := by decide

/-- Witness for C5: scenario S1 with the inputs 1, 2, 3 and loop passes interleaved with the
calls of `addInput`. -/
theorem outputs_follow_input_order_witness :
    ((Scenario.s1Run.get Scenario.s1Run_isSome).2.accepted = [some 1, some 2, some 3] ∧
      (Scenario.s1Run.get Scenario.s1Run_isSome).1.outputQueue.queue
        = [some 3, some 5, some 7]) ∧
    ((Scenario.s1Run.get Scenario.s1Run_isSome).2.processed.map Prod.fst
        ++ (Scenario.s1Run.get Scenario.s1Run_isSome).1.inputQueue.queue
      = (Scenario.s1Run.get Scenario.s1Run_isSome).2.accepted ∧
    (Scenario.s1Run.get Scenario.s1Run_isSome).2.delivered
        ++ (Scenario.s1Run.get Scenario.s1Run_isSome).1.outputQueue.queue
      = (Scenario.s1Run.get Scenario.s1Run_isSome).2.processed.filterMap
          (fun x => x.2.output)) :=
  ⟨by decide,
    outputs_follow_input_order (Scenario.started Scenario.s1Processor) rfl rfl Scenario.s1Actions
      (Scenario.s1Run.get Scenario.s1Run_isSome).1 (Scenario.s1Run.get Scenario.s1Run_isSome).2
      (Option.some_get Scenario.s1Run_isSome).symm⟩

theorem StreamingPipeline.run_capacity (actions : List Action) :
    ∀ (p p' : StreamingPipeline), p.inputQueue.size ≤ p.queueMaxSize →
      p.run actions = some p' →
      p'.inputQueue.size ≤ p'.queueMaxSize ∧ p'.queueMaxSize = p.queueMaxSize := by
  induction actions with
  | nil =>
    intro p p' hc hrun
    simp only [StreamingPipeline.run, Option.some.injEq] at hrun
    subst hrun
    exact ⟨hc, rfl⟩
  | cons a rest ih =>
    intro p p' hc hrun
    unfold StreamingPipeline.run at hrun
    cases hs : p.step a with
    | none => rw [hs] at hrun; cases hrun
    | some p1 =>
      rw [hs] at hrun
      obtain ⟨acc, obs, del, _, e1, _, em, hacc, _⟩ :=
        StreamingPipeline.step_effect p p1 History.empty a hs
      have hlen := congrArg List.length e1
      simp only [List.length_append, List.length_map] at hlen
      have hc1 : p1.inputQueue.size ≤ p1.queueMaxSize := by
        unfold threadsafe_queue.size at *
        rw [em]
        rcases hacc with h0 | ⟨h1, hlt, hobs⟩
        · subst h0; simp only [List.length_nil] at hlen; omega
        · subst hobs; simp only [List.length_nil] at hlen; omega
      obtain ⟨r1, r2⟩ := ih p1 p' hc1 hrun
      exact ⟨r1, r2.trans em⟩

theorem ItemOutcome.partition (obs : List (DataPtr × ItemOutcome)) :
    obs.length = (obs.filterMap (fun x => x.2.output)).length
      + (obs.filter (fun x => x.2.isException)).length
      + (obs.filter (fun x => x.2.isNullResult)).length := by
  induction obs with
  | nil => rfl
  | cons x rest ih =>
    obtain ⟨item, outcome⟩ := x
    cases outcome with
    | exception =>
      have h1 : ItemOutcome.exception.output = none := rfl
      have h2 : ItemOutcome.exception.isException = true := rfl
      have h3 : ItemOutcome.exception.isNullResult = false := rfl
      simp only [List.filterMap_cons, List.filter_cons, h1, h2, h3, List.length_cons, if_true,
        Bool.false_eq_true, if_false]
      omega
    | result r =>
      cases r with
      | none =>
        have h1 : (ItemOutcome.result none).output = none := rfl
        have h2 : (ItemOutcome.result none).isException = false := rfl
        have h3 : (ItemOutcome.result none).isNullResult = true := rfl
        simp only [List.filterMap_cons, List.filter_cons, h1, h2, h3, List.length_cons, if_true,
          Bool.false_eq_true, if_false]
        omega
      | some v =>
        have h1 : (ItemOutcome.result (some v)).output = some (some v) := rfl
        have h2 : (ItemOutcome.result (some v)).isException = false := rfl
        have h3 : (ItemOutcome.result (some v)).isNullResult = false := rfl
        simp only [List.filterMap_cons, List.filter_cons, h1, h2, h3, List.length_cons, if_true,
          Bool.false_eq_true, if_false]
        omega

theorem StreamingPipeline.runObserved_append (as bs : List Action) :
    ∀ (p : StreamingPipeline) (h : History),
      p.runObserved h (as ++ bs)
        = (p.runObserved h as).bind (fun r => r.1.runObserved r.2 bs) := by
  induction as with
  | nil => intro p h; rfl
  | cons a rest ih =>
    intro p h
    simp only [List.cons_append, StreamingPipeline.runObserved]
    cases hs : p.step a with
    | none => rfl
    | some p1 => exact ih p1 _

/-- While the pipeline runs and nobody calls `stop()`, it keeps running with its thread, the
history stays consistent with the input queue, and the counters with the history. -/
theorem StreamingPipeline.runObserved_session (actions : List Action) :
    ∀ (p p' : StreamingPipeline) (h h' : History), (∀ a ∈ actions, a.isStop = false) →
      p.running = true → p.threadJoinable = true → h.InputOrder p → h.Counted p →
      p.runObserved h actions = some (p', h') →
      p'.running = true ∧ p'.threadJoinable = true ∧ h'.InputOrder p' ∧ h'.Counted p' := by
  induction actions with
  | nil =>
    intro p p' h h' _ hr ht hi hc hrun
    simp only [StreamingPipeline.runObserved, Option.some.injEq, Prod.mk.injEq] at hrun
    obtain ⟨rfl, rfl⟩ := hrun
    exact ⟨hr, ht, hi, hc⟩
  | cons a rest ih =>
    intro p p' h h' hns hr ht hi hc hrun
    unfold StreamingPipeline.runObserved at hrun
    cases hs : p.step a with
    | none => rw [hs] at hrun; cases hrun
    | some p1 =>
      rw [hs] at hrun
      obtain ⟨acc, obs, del, e, e1, _, _, _, ecnt, erun, _⟩ :=
        StreamingPipeline.step_effect p p1 h a hs
      obtain ⟨hr1, ht1⟩ := erun (hns a (List.mem_cons_self _ _)) hr
      obtain ⟨c1, c2⟩ := ecnt hr
      apply ih p1 p' _ h' (fun b hb => hns b (List.mem_cons_of_mem _ hb)) hr1 (ht1.trans ht) _ _
        hrun
      · rw [e]
        unfold History.InputOrder at *
        simp only [List.map_append, List.append_assoc]
        rw [e1, ← List.append_assoc, hi]
      · rw [e]
        unfold History.Counted at *
        simp only [List.filterMap_append, List.filter_append, List.length_append]
        rw [c1, c2, hc.1, hc.2]
        exact ⟨rfl, rfl⟩

/-- C8 on the code: the processing loop never calls `PipelineBuilder::reset`.  In scenario S1
with the items 1 and 2, after the pass for item 1 and with item 2 next in the input queue, the
index of the builder that the callback is about to receive still binds the three nodes added
for item 1.  And with a callback that builds the graph for item 1 only, item 2 is answered
with the result of item 1: the outputs for the items 1 and 2 are 3 and 3. -/
theorem builder_not_reset_between_items :
    ((Scenario.started Scenario.s1Processor).run
        [Action.addInput (some 1), Action.addInput (some 2), Action.loopIteration]).map
      (fun p => (p.inputQueue.queue, p.pipelineBuilder.map (fun b => b.scheduler.tasks)))
      = some ([some 2], some [("in", 0), ("double", 1), ("out", 2)]) ∧
    ((Scenario.started Scenario.onceProcessor).run
        [Action.addInput (some 1), Action.addInput (some 2), Action.loopIteration,
          Action.loopIteration]).map
      (fun p => (p.outputQueue.queue, p.processedItems)) = some ([some 3, some 3], 2) := by
  constructor <;> decide

/-! ## Configuration, start and rejection of inputs -/

/-- After `stop()` on a running pipeline the input is closed. -/
theorem StreamingPipeline.stop_closes_input (p p' : StreamingPipeline) (hr : p.running = true)
    (h : p.stop = some p') : p'.input_active = false ∧ p'.running = false := by
  by_cases ht : p.threadJoinable = true
  · obtain ⟨_, _, _, _, _, _, _, _, h1, h2, _⟩ := StreamingPipeline.stop_processed p p' h hr ht
    exact ⟨h2, h1⟩
  · unfold StreamingPipeline.stop at h
    simp only [hr, Bool.not_true, Bool.false_eq_true, if_false, ht] at h
    simp only [Option.some.injEq] at h
    split at h <;> subst h <;> exact ⟨rfl, rfl⟩

/-- C11. `StreamingPipeline::addInput` returns false and leaves the pipeline, and with it the
input queue, unchanged whenever the offered item is null or `inputActive` is false; in
particular every call after `stop()` has returned on a running pipeline is rejected. -/
theorem addInput_rejects_null_or_inactive (p : StreamingPipeline) (data : DataPtr) :
    ((data = none ∨ p.input_active = false) →
      p.addInput data = some (false, p) ∧ p.step (Action.addInput data) = some p) ∧
    (∀ p' : StreamingPipeline, p.running = true → p.stop = some p' →
      p'.addInput data = some (false, p')) := by
  have key : ∀ q : StreamingPipeline, (data = none ∨ q.input_active = false) →
      q.addInput data = some (false, q) := by
    intro q h
    unfold StreamingPipeline.addInput
    cases data with
    | none => rfl
    | some v =>
      rcases h with h | h
      · cases h
      · simp [h]
  constructor
  · intro h
    refine ⟨key p h, ?_⟩
    simp only [StreamingPipeline.step, key p h]
  · intro p' hr hs
    exact key p' (Or.inr (StreamingPipeline.stop_closes_input p p' hr hs).1)

/-- Witness for C11: a null item offered to a started pipeline, and an item offered after
`stop()`. -/
theorem addInput_rejects_null_or_inactive_witness :
    (Scenario.started Scenario.s1Processor).addInput none
      = some (false, Scenario.started Scenario.s1Processor) ∧
    (((Scenario.started Scenario.s1Processor).stop).bind
      (fun p' => (p'.addInput (some 1)).map (fun r => (r.1, r.2.inputQueue.queue))))
      = some (false, []) :=
  ⟨((addInput_rejects_null_or_inactive (Scenario.started Scenario.s1Processor) none).1
      (Or.inl rfl)).1, by decide⟩

/-- C12. While `running` is true, `setProcessor` and `setOutputNodeId` each throw and the
pipeline, with its stored processor and terminal node id, is left as it was; while `running`
is false each returns normally and stores the new value, changing nothing else. -/
theorem setters_rejected_while_running (p : StreamingPipeline)
    (processor : Option ProcessorFunction) (outputId : TaskId) :
    (p.running = true →
      p.setProcessor processor
        = Except.error "Cannot set processor while pipeline is running" ∧
      p.setOutputNodeId outputId
        = Except.error "Cannot set output node ID while pipeline is running" ∧
      p.step (Action.setProcessor processor) = some p ∧
      p.step (Action.setOutputNodeId outputId) = some p) ∧
    (p.running = false →
      p.setProcessor processor = Except.ok { p with processor := processor } ∧
      p.setOutputNodeId outputId = Except.ok { p with outputNodeId := outputId }) := by
  constructor
  · intro hr
    simp [StreamingPipeline.setProcessor, StreamingPipeline.setOutputNodeId,
      StreamingPipeline.step, hr]
  · intro hr
    simp [StreamingPipeline.setProcessor, StreamingPipeline.setOutputNodeId, hr]

/-- Witness for C12: a started and a merely configured pipeline. -/
theorem setters_rejected_while_running_witness :
    (Scenario.started Scenario.s1Processor).step (Action.setOutputNodeId "other")
      = some (Scenario.started Scenario.s1Processor) ∧
    (Scenario.configured 10 Scenario.s1Processor).setOutputNodeId "other"
      = Except.ok { (Scenario.configured 10 Scenario.s1Processor) with outputNodeId := "other" } :=
  ⟨((setters_rejected_while_running (Scenario.started Scenario.s1Processor) none "other").1
      rfl).2.2.2,
    ((setters_rejected_while_running (Scenario.configured 10 Scenario.s1Processor) none
      "other").2 rfl).2⟩

/-- C13 on the code: `StreamingPipeline::enableProfiling` has no test of `running_`; it stores
the flag in every state.  On the started pipeline of scenario S1, which runs with profiling
off, `enableProfiling(true)` returns normally and profiling is on afterwards. -/
theorem enableProfiling_not_guarded :
    (∀ (p : StreamingPipeline) (enable : Bool),
      (p.enableProfiling enable).profilingEnabled = enable) ∧
    (Scenario.started Scenario.s1Processor).running = true ∧
    (Scenario.started Scenario.s1Processor).profilingEnabled = false ∧
    ((Scenario.started Scenario.s1Processor).enableProfiling true).profilingEnabled = true ∧
    ((Scenario.started Scenario.s1Processor).step (Action.enableProfiling true)).map
      (fun p => p.profilingEnabled) = some true :=
  ⟨fun _ _ => rfl, rfl, rfl, rfl, rfl⟩

/-- C14. `StreamingPipeline::start()` on a pipeline that is not running throws exactly when no
processor has been set, and then the pipeline is left as it was (so `running` stays false);
when it returns normally `processedItems`, `errorCount` and the total processing time are
zero, `taskStats` is empty, and `running`, `inputActive` and `outputActive` are all true. -/
theorem start_requires_processor (p : StreamingPipeline) (hr : p.running = false) :
    ((∃ msg, p.start = Except.error msg) ↔ p.processor = none) ∧
    (p.processor = none → p.step Action.start = some p) ∧
    (∀ p', p.start = Except.ok p' →
      p'.processedItems = 0 ∧ p'.errorCount = 0 ∧ p'.totalProcessingTime = 0 ∧
      p'.taskStats = [] ∧ p'.running = true ∧ p'.input_active = true ∧
      p'.output_active = true) := by
  unfold StreamingPipeline.step StreamingPipeline.start
  simp only [hr, Bool.false_eq_true, if_false]
  cases hp : p.processor with
  | none => simp
  | some f =>
    simp only
    refine ⟨by simp, by simp, ?_⟩
    intro p' h
    simp only [Except.ok.injEq] at h
    subst h
    exact ⟨rfl, rfl, rfl, rfl, rfl, rfl, rfl⟩

/-- Witness for C14: a new pipeline without processor, and the configured pipeline of the
scenarios. -/
theorem start_requires_processor_witness :
    ((∃ msg, (StreamingPipeline.new 10 false false).start = Except.error msg) ↔
      (StreamingPipeline.new 10 false false).processor = none) ∧
    (Scenario.started Scenario.s1Processor).running = true ∧
    (Scenario.started Scenario.s1Processor).processedItems = 0 :=
  ⟨(start_requires_processor (StreamingPipeline.new 10 false false) rfl).1,
    ((start_requires_processor (Scenario.configured 10 Scenario.s1Processor) rfl).2.2
      (Scenario.started Scenario.s1Processor) rfl).2.2.2.2.1,
    ((start_requires_processor (Scenario.configured 10 Scenario.s1Processor) rfl).2.2
      (Scenario.started Scenario.s1Processor) rfl).1⟩

/-! ## The queue and the worker pool -/

theorem QueueTrace.apply_invariant {α : Type} (t : QueueTrace α) (op : QueueOp α)
    (pushed : List α) (h : t.popped ++ t.queue.queue = pushed) (hp : t.pops = t.popped.length) :
    (t.apply op).popped ++ (t.apply op).queue.queue = pushed ++ op.pushedValue.toList ∧
    (t.apply op).pops = (t.apply op).popped.length := by
  cases op with
  | push data =>
    refine ⟨?_, hp⟩
    simp [QueueTrace.apply, threadsafe_queue.push, QueueOp.pushedValue, ← h]
  | try_pop =>
    cases t with
    | mk queue value pops popped =>
      cases queue with
      | mk q =>
        cases q with
        | nil =>
          simp only [QueueTrace.apply, threadsafe_queue.try_pop, QueueOp.pushedValue,
            Option.toList, List.append_nil] at h hp ⊢
          exact ⟨h, hp⟩
        | cons front rest =>
          simp only [QueueTrace.apply, threadsafe_queue.try_pop, QueueOp.pushedValue,
            Option.toList, List.append_nil, List.append_assoc, List.singleton_append,
            List.length_append, List.length_singleton] at h hp ⊢
          exact ⟨h, by rw [hp]⟩

theorem QueueTrace.foldl_invariant {α : Type} (ops : List (QueueOp α)) :
    ∀ (t : QueueTrace α) (pushed : List α), t.popped ++ t.queue.queue = pushed →
      t.pops = t.popped.length →
      (ops.foldl QueueTrace.apply t).popped ++ (ops.foldl QueueTrace.apply t).queue.queue
        = pushed ++ ops.filterMap QueueOp.pushedValue ∧
      (ops.foldl QueueTrace.apply t).pops = (ops.foldl QueueTrace.apply t).popped.length := by
  induction ops with
  | nil => intro t pushed h hp; simpa using ⟨h, hp⟩
  | cons op rest ih =>
    intro t pushed h hp
    obtain ⟨h1, hp1⟩ := QueueTrace.apply_invariant t op pushed h hp
    obtain ⟨h2, hp2⟩ := ih (t.apply op) _ h1 hp1
    refine ⟨?_, hp2⟩
    rw [List.foldl_cons, h2]
    cases op <;> simp [QueueOp.pushedValue, List.filterMap_cons]

/-- C18. `threadsafe_queue` is FIFO and lossless.  After any sequence of `push` and `try_pop`
calls on a new queue, the values stored by the successful `try_pop` calls, in order, followed
by the values still in the queue, are exactly the pushed values in push order; so the popped
values are a prefix of the pushed values, none skipped and none duplicated.  The length of the
queue is the number of pushes minus the number of successful pops, and `size()` returns it as
long as it is below `2^31`, the range of the `int` that `size()` returns.  `try_pop` on an
empty queue returns false and leaves the queue and the argument unchanged. -/
theorem queue_fifo_lossless {α : Type} (init : α) (ops : List (QueueOp α)) :
    (QueueTrace.run init ops).popped ++ (QueueTrace.run init ops).queue.queue
      = ops.filterMap QueueOp.pushedValue ∧
    (QueueTrace.run init ops).popped <+: ops.filterMap QueueOp.pushedValue ∧
    (QueueTrace.run init ops).pops = (QueueTrace.run init ops).popped.length ∧
    (QueueTrace.run init ops).queue.size
      = (ops.filterMap QueueOp.pushedValue).length - (QueueTrace.run init ops).pops ∧
    ((QueueTrace.run init ops).queue.queue.length < 2 ^ 31 →
      (QueueTrace.run init ops).queue.sizeInt
        = ((ops.filterMap QueueOp.pushedValue).length : Int) - (QueueTrace.run init ops).pops) ∧
    (∀ (q : threadsafe_queue α) (value : α), q.empty = true →
      q.try_pop value = (false, value, q)) := by
  have key : (QueueTrace.run init ops).popped ++ (QueueTrace.run init ops).queue.queue
        = [] ++ ops.filterMap QueueOp.pushedValue ∧
      (QueueTrace.run init ops).pops = (QueueTrace.run init ops).popped.length :=
    QueueTrace.foldl_invariant ops
      { queue := threadsafe_queue.new, value := init, pops := 0, popped := [] } [] rfl rfl
  obtain ⟨h, hp⟩ := key
  rw [List.nil_append] at h
  have hlen := congrArg List.length h
  rw [List.length_append] at hlen
  refine ⟨h, ⟨_, h⟩, hp, ?_, ?_, ?_⟩
  · unfold threadsafe_queue.size
    rw [hp]
    omega
  · intro hlt
    unfold threadsafe_queue.sizeInt
    have hmod : (QueueTrace.run init ops).queue.queue.length % 2 ^ 32
        = (QueueTrace.run init ops).queue.queue.length := Nat.mod_eq_of_lt (by omega)
    rw [hmod, if_pos hlt, hp]
    omega
  · intro q value hq
    cases q with
    | mk l =>
      cases l with
      | nil => rfl
      | cons a rest => cases hq

/-- Witness for C18: push 1, push 2, pop, push 3, pop, pop, pop. -/
theorem queue_fifo_lossless_witness :
    (QueueTrace.run 0 [QueueOp.push 1, QueueOp.push 2, QueueOp.try_pop, QueueOp.push 3,
      QueueOp.try_pop, QueueOp.try_pop, QueueOp.try_pop]).popped = [1, 2, 3] ∧
    (QueueTrace.run 0 [QueueOp.push 1, QueueOp.push 2, QueueOp.try_pop]).queue.sizeInt
      = ((([QueueOp.push 1, QueueOp.push 2, QueueOp.try_pop] : List (QueueOp Nat)).filterMap
          QueueOp.pushedValue).length : Int)
        - (QueueTrace.run 0 [QueueOp.push 1, QueueOp.push 2, QueueOp.try_pop]).pops :=
  ⟨by decide,
    (queue_fifo_lossless 0 [QueueOp.push 1, QueueOp.push 2, QueueOp.try_pop]).2.2.2.2.1
      (by decide)⟩

theorem ThreadPool.workerPass_cases (pool : ThreadPool) :
    (pool.tasks = [] ∧ pool.stop = true ∧ pool.workerPass = (WorkerPass.exited, pool)) ∨
    (pool.tasks = [] ∧ pool.stop = false ∧ pool.workerPass = (WorkerPass.waiting, pool)) ∨
    (∃ task rest, pool.tasks = task :: rest ∧
      pool.workerPass
        = (WorkerPass.ran task, { pool with tasks := rest, ran := pool.ran ++ [task] })) := by
  cases pool with
  | mk tasks stop ran =>
    cases tasks with
    | nil =>
      cases stop
      · exact Or.inr (Or.inl ⟨rfl, rfl, rfl⟩)
      · exact Or.inl ⟨rfl, rfl, rfl⟩
    | cons task rest =>
      refine Or.inr (Or.inr ⟨task, rest, rfl, ?_⟩)
      cases stop <;> rfl

theorem ThreadPool.worker_drains (tasks : List Nat) :
    ∀ (fuel : Nat) (ran : List Nat), tasks.length < fuel →
      ThreadPool.worker fuel { tasks := tasks, stop := true, ran := ran }
        = some { tasks := [], stop := true, ran := ran ++ tasks } := by
  induction tasks with
  | nil =>
    intro fuel ran hf
    cases fuel with
    | zero => cases hf
    | succ fuel => simp [ThreadPool.worker, ThreadPool.workerPass]
  | cons task rest ih =>
    intro fuel ran hf
    cases fuel with
    | zero => cases hf
    | succ fuel =>
      have h := ih fuel (ran ++ [task]) (by simpa using hf)
      simp only [List.append_assoc, List.singleton_append] at h
      simp [ThreadPool.worker, ThreadPool.workerPass, h]

/-- C17 (as amended).  Shutdown of the worker pool does not discard queued tasks.  A pass of a
worker through its loop ends the worker exactly when `stop_` is set and the queue is empty;
whenever the queue is not empty, also with `stop_` set, the worker removes the front task
and runs it; a worker blocks only when the queue is empty and `stop_` is not set.  So the
destructor, which sets `stop_` and joins the workers, returns after every task that was
queued has been run, in queue order, with the queue empty.  Only `enqueue` refuses work on a
stopped pool. -/
theorem shutdown_runs_queued_tasks (pool : ThreadPool) :
    ((pool.workerPass).1 = WorkerPass.exited ↔ (pool.stop = true ∧ pool.tasks = [])) ∧
    ((pool.workerPass).1 = WorkerPass.waiting ↔ (pool.stop = false ∧ pool.tasks = [])) ∧
    (∀ task rest, pool.tasks = task :: rest →
      pool.workerPass
        = (WorkerPass.ran task, { pool with tasks := rest, ran := pool.ran ++ [task] })) ∧
    pool.shutdown = some { tasks := [], stop := true, ran := pool.ran ++ pool.tasks } ∧
    (∀ task, pool.stop = true →
      pool.enqueue task = Except.error "enqueue on stopped ThreadPool") := by
  refine ⟨?_, ?_, ?_, ?_, ?_⟩
  · rcases ThreadPool.workerPass_cases pool with ⟨h1, h2, h3⟩ | ⟨h1, h2, h3⟩ | ⟨t, r, h1, h3⟩
    · simp [h1, h2, h3]
    · simp [h1, h2, h3]
    · simp [h1, h3]
  · rcases ThreadPool.workerPass_cases pool with ⟨h1, h2, h3⟩ | ⟨h1, h2, h3⟩ | ⟨t, r, h1, h3⟩
    · simp [h1, h2, h3]
    · simp [h1, h2, h3]
    · simp [h1, h3]
  · intro task rest h
    rcases ThreadPool.workerPass_cases pool with ⟨h1, _, _⟩ | ⟨h1, _, _⟩ | ⟨t, r, h1, h3⟩
    · rw [h1] at h; cases h
    · rw [h1] at h; cases h
    · rw [h1] at h
      cases h
      exact h3
  · exact ThreadPool.worker_drains pool.tasks _ pool.ran (Nat.lt_succ_self _)
  · intro task h
    simp [ThreadPool.enqueue, h]

/-- Witness for C17 (as amended): a pool with the tasks 7 and 8 queued. -/
theorem shutdown_runs_queued_tasks_witness :
    ({ tasks := [7, 8], stop := true, ran := [] } : ThreadPool).workerPass
      = (WorkerPass.ran 7, { tasks := [8], stop := true, ran := [7] }) ∧
    ({ tasks := [7, 8], stop := false, ran := [] } : ThreadPool).shutdown
      = some { tasks := [], stop := true, ran := [7, 8] } :=
  ⟨(shutdown_runs_queued_tasks { tasks := [7, 8], stop := true, ran := [] }).2.2.1 7 [8] rfl,
    (shutdown_runs_queued_tasks { tasks := [7, 8], stop := false, ran := [] }).2.2.2.1⟩

/-- Counterexample to C17 as stated: a worker that observes `stop_` set with the task 7 still
queued does not exit; it removes the task and runs it, and the destructor returns with the
task run. -/
theorem shutdown_runs_queued_tasks_counterexample :
    (({ tasks := [7], stop := true, ran := [] } : ThreadPool).workerPass).1 ≠ WorkerPass.exited ∧
    ({ tasks := [7], stop := true, ran := [] } : ThreadPool).workerPass
      = (WorkerPass.ran 7, { tasks := [], stop := true, ran := [7] }) ∧
    (({ tasks := [7], stop := false, ran := [] } : ThreadPool).shutdown).map (fun p => p.ran)
      = some [7] := by
  decide

/-! ## An unbound terminal id, and the statistics of stale nodes -/

/-- C15 (as amended).  An unbound terminal id is not an error of its own.  When the callback
returns without binding the terminal id, `TaskScheduler::execute` returns the null pointer
(after logging), for every store and without executing anything, which is the value it also
returns for a terminal node whose result is null; and the processing loop, which only tests
`if (result)`, returns from the item with `errorCount` and `processedItems` unchanged and no
output pushed. -/
theorem unbound_terminal_gives_null_result (p : StreamingPipeline) (input : DataPtr)
    (processor : ProcessorFunction) (builder : PipelineBuilder) (cb : CallbackResult)
    (hproc : p.processor = some processor) (hb : p.pipelineBuilder = some builder)
    (hcb : processor (if p.profilingEnabled then p.store.now.2 else p.store) builder input
      p.outputNodeId = cb)
    (hnt : cb.threw = false)
    (hunbound : cb.builder.scheduler.getTask p.outputNodeId = none) :
    (∀ (fuel : Nat) (s : Store),
      TaskScheduler.execute fuel s cb.builder.scheduler p.outputNodeId = some (none, s)) ∧
    ∃ p', p.processItem input = some p' ∧ p'.errorCount = p.errorCount ∧
      p'.processedItems = p.processedItems ∧ p'.outputQueue = p.outputQueue ∧
      p'.inputQueue = p.inputQueue ∧ p'.running = p.running ∧
      p'.pipelineBuilder = some cb.builder := by
  have hex : ∀ (fuel : Nat) (s : Store),
      TaskScheduler.execute fuel s cb.builder.scheduler p.outputNodeId = some (none, s) := by
    intro fuel s
    unfold TaskScheduler.execute
    rw [hunbound]
  refine ⟨hex, ?_⟩
  have hbe : ∃ s1, p.buildAndExecute (if p.profilingEnabled then p.store.now.2 else p.store) input
      = some (s1, some cb.builder, ItemOutcome.result none) := by
    unfold StreamingPipeline.buildAndExecute PipelineBuilder.execute
    rw [hproc, hb]
    simp only [hcb, hnt, Bool.false_eq_true, if_false, hex]
    exact ⟨_, rfl⟩
  obtain ⟨s1, hbe⟩ := hbe
  unfold StreamingPipeline.processItem
  by_cases hp : p.profilingEnabled = true
  · simp only [hp, if_true] at hbe ⊢
    have hnow : p.store.now = (p.store.now.1, p.store.now.2) := rfl
    rw [hnow]
    simp only [hbe, StreamingPipeline.handleResult]
    exact ⟨_, rfl, rfl, rfl, rfl, rfl, rfl, rfl⟩
  · simp only [hp, Bool.false_eq_true, if_false] at hbe ⊢
    simp only [hbe, StreamingPipeline.handleResult]
    exact ⟨_, rfl, rfl, rfl, rfl, rfl, rfl, rfl⟩

/-- Witness for C15 (as amended): the callback that never binds the terminal id `out`. -/
theorem unbound_terminal_gives_null_result_witness :
    ∃ p', (Scenario.started Scenario.unboundProcessor).processItem (some 1) = some p' ∧
      p'.errorCount = 0 ∧ p'.processedItems = 0 ∧ p'.outputQueue.queue = [] := by
  obtain ⟨p', h1, h2, h3, h4, _⟩ := (unbound_terminal_gives_null_result
    (Scenario.started Scenario.unboundProcessor) (some 1) Scenario.unboundProcessor
    PipelineBuilder.new
    (Scenario.unboundProcessor (Scenario.started Scenario.unboundProcessor).store
      PipelineBuilder.new (some 1) "out")
    rfl rfl rfl rfl (by decide)).2
  exact ⟨p', h1, h2, h3, by rw [h4]; rfl⟩

/-- Counterexample to C15 as stated: with the callback that never binds the terminal id `out`,
`TaskScheduler::execute` returns normally with the null pointer, and after the item and
`stop()` the pipeline has `errorCount` 0, not 1. -/
theorem unbound_terminal_counterexample :
    TaskScheduler.execute 0 Store.empty
      (Scenario.unboundProcessor Store.empty PipelineBuilder.new (some 1) "out").builder.scheduler
      "out" = some (none, Store.empty) ∧
    ((Scenario.started Scenario.unboundProcessor).run
      [Action.addInput (some 1), Action.loopIteration, Action.stop]).map
      (fun p => (p.errorCount, p.processedItems, p.inputQueue.queue, p.outputQueue.queue))
      = some (0, 0, [], []) :=
  ⟨rfl, by decide⟩

/-- C16 on the code: the statistics count stale nodes.  With profiling enabled and the callback
that declares `in → first → out` for the item 1 and `in → other → out` for the item 2, after
both items have been processed `execute()` has been called once on a node with the id `first`
and once on a node with the id `other`, while `taskStats["first"].count` is 2: the index
still binds `first` to the executed node of item 1 when the times are collected for item 2. -/
theorem taskStats_counts_stale_nodes :
    Scenario.perItemRun.map (fun p =>
        (p.processedItems, p.store.executionsOf "first", p.store.executionsOf "other",
          (mapFind p.taskStats "first").map Prod.snd,
          (mapFind p.taskStats "other").map Prod.snd))
      = some (2, 1, 1, some 2, some 1) := by
  decide

/-! ## Exit of the processing loop -/

/-- When `stop()` returns on a running pipeline, the output is closed. -/
theorem StreamingPipeline.stop_closes_output (p p' : StreamingPipeline) (hr : p.running = true)
    (h : p.stop = some p') : p'.output_active = false := by
  unfold StreamingPipeline.stop at h
  simp only [hr, Bool.not_true, Bool.false_eq_true, if_false] at h
  split at h
  · cases h
  · simp only [Option.some.injEq] at h
    split at h <;> subst h <;> rfl

/-- A session from `start()` to the return of `stop()`: every accepted item has been processed
and the input queue is empty. -/
theorem StreamingPipeline.session_drained (p0 p1 : StreamingPipeline) (actions : List Action)
    (p : StreamingPipeline) (h : History)
    (hq : p0.inputQueue.queue = []) (hr0 : p0.running = false)
    (hstart : p0.start = Except.ok p1) (hns : ∀ a ∈ actions, a.isStop = false)
    (hrun : p1.runObserved History.empty (actions ++ [Action.stop]) = some (p, h)) :
    h.processed.map Prod.fst = h.accepted ∧ p.inputQueue.queue = [] ∧ p.running = false ∧
    p.output_active = false := by
  have hp1 : p1.running = true ∧ p1.threadJoinable = true ∧ p1.inputQueue.queue = [] ∧
      p1.processedItems = 0 ∧ p1.errorCount = 0 := by
    unfold StreamingPipeline.start at hstart
    simp only [hr0, Bool.false_eq_true, if_false] at hstart
    cases hp : p0.processor with
    | none => rw [hp] at hstart; cases hstart
    | some f =>
      rw [hp] at hstart
      simp only [Except.ok.injEq] at hstart
      subst hstart
      exact ⟨rfl, rfl, hq, rfl, rfl⟩
  obtain ⟨hr1, ht1, hq1, hpi1, hec1⟩ := hp1
  rw [StreamingPipeline.runObserved_append] at hrun
  cases hmid : p1.runObserved History.empty actions with
  | none => rw [hmid] at hrun; cases hrun
  | some r =>
    obtain ⟨p2, h2⟩ := r
    rw [hmid] at hrun
    simp only [Option.some_bind, StreamingPipeline.runObserved] at hrun
    obtain ⟨hr2, ht2, hi2, _⟩ := StreamingPipeline.runObserved_session actions p1 p2
      History.empty h2 hns hr1 ht1 (by simp [History.InputOrder, History.empty, hq1])
      (by simp [History.Counted, History.empty, hpi1, hec1]) hmid
    cases hs : p2.step Action.stop with
    | none => rw [hs] at hrun; cases hrun
    | some p3 =>
      rw [hs] at hrun
      simp only [Option.some.injEq, Prod.mk.injEq] at hrun
      obtain ⟨rfl, rfl⟩ := hrun
      obtain ⟨acc, obs, del, e, e1, _, _, hacc, _, _, estop⟩ :=
        StreamingPipeline.step_effect p2 p3 h2 Action.stop hs
      obtain ⟨hr3, hq3⟩ := estop rfl hr2 ht2
      have hacc0 : acc = [] := by
        rcases hacc with h0 | ⟨h1, _, hobs⟩
        · exact h0
        · subst hobs
          have hlen := congrArg List.length e1
          simp only [List.map_nil, List.nil_append, hq3, List.length_nil, List.length_append,
            h1] at hlen
          omega
      subst hacc0
      rw [e]
      simp only [List.append_nil] at e1 ⊢
      rw [hq3, List.append_nil] at e1
      unfold History.InputOrder at hi2
      refine ⟨?_, hq3, hr3, StreamingPipeline.stop_closes_output p2 p3 hr2 hs⟩
      rw [List.map_append, e1, hi2]

/-! ## No exception leaves `executeOnce` -/

theorem MultiInputTaskNode.executeCompletion_returns (s : Store) (self : NodeRef)
    (func : ProcessFunction) :
    MultiInputTaskNode.executeCompletion s self func
      = (Completion.returned (MultiInputTaskNode.execute s self func).1,
          (MultiInputTaskNode.execute s self func).2) := by
  unfold MultiInputTaskNode.executeCompletion MultiInputTaskNode.execute
  by_cases h1 : (!MultiInputTaskNode.isReady s self || (TaskNode.getDependencies s self).isEmpty)
      = true
  · rw [if_pos h1, if_pos h1]
  · rw [if_neg h1, if_neg h1]
    unfold MultiInputTaskNode.executeTry
    by_cases h2 : (MultiInputTaskNode.collectInputResults s
        (TaskNode.getDependencies s self)).any (fun obj => obj.isNone) = true
    · simp only [h2, if_true]
    · simp only [h2, Bool.false_eq_true, if_false]
      cases func with
      | none => rfl
      | some f =>
        simp only
        cases f (MultiInputTaskNode.collectInputResults s (TaskNode.getDependencies s self)) <;>
          rfl

theorem TaskNode.executeCompletion_eq (s : Store) (self : NodeRef) :
    TaskNode.executeCompletion s self
      = (Completion.returned (TaskNode.execute s self).1, (TaskNode.execute s self).2) := by
  unfold TaskNode.executeCompletion TaskNode.execute
  simp only
  split
  · split
    · rfl
    · exact MultiInputTaskNode.executeCompletion_returns _ self _
  · rfl

theorem TaskNode.executeOnceCompletion_eq (s : Store) (self : NodeRef) :
    TaskNode.executeOnceCompletion s self
      = (Completion.returned (), TaskNode.executeOnce s self) := by
  unfold TaskNode.executeOnceCompletion TaskNode.executeOnce
  split
  · rfl
  · simp only [TaskNode.executeCompletion_eq]

/-- The call of a throwing function inside `MultiInputTaskNode::execute`. -/
theorem MultiInputTaskNode.execute_throw (s : Store) (self : NodeRef)
    (f : List DataPtr → CallResult)
    (hready : MultiInputTaskNode.isReady s self = true)
    (hargs : ∀ v ∈ MultiInputTaskNode.collectInputResults s (TaskNode.getDependencies s self),
      v ≠ none)
    (hthrow : f (MultiInputTaskNode.collectInputResults s (TaskNode.getDependencies s self))
      = CallResult.raised) :
    MultiInputTaskNode.execute s self (some f)
      = (none, { s with funcLog := s.funcLog ++ [(self,
          MultiInputTaskNode.collectInputResults s (TaskNode.getDependencies s self))] }) ∧
    MultiInputTaskNode.executeTry s self (some f)
      = (Completion.threw, { s with funcLog := s.funcLog ++ [(self,
          MultiInputTaskNode.collectInputResults s (TaskNode.getDependencies s self))] }) := by
  have hne : (TaskNode.getDependencies s self).isEmpty = false := by
    unfold MultiInputTaskNode.isReady at hready
    cases hd : TaskNode.getDependencies s self with
    | nil => rw [hd] at hready; simp at hready
    | cons a rest => rfl
  have hany : (MultiInputTaskNode.collectInputResults s (TaskNode.getDependencies s self)).any
      (fun obj => obj.isNone) = false := by
    rw [List.any_eq_false]
    intro v hv
    cases v with
    | none => exact absurd rfl (hargs none hv)
    | some x => simp
  unfold MultiInputTaskNode.execute MultiInputTaskNode.executeTry
  simp [hready, hne, hany, hthrow]

/-- C20 (as amended).  Let a processing node that has not executed be ready, with no null
dependency result, and let its function throw on the dependency results.  Then the exception
leaves only the `try` block of `MultiInputTaskNode::execute`: the handler there turns it into
a null result, `executeOnce` returns normally to its caller (nothing is re-raised, so the
handler around `executeOnce` in `TaskScheduler::executeTask` is not entered), and it leaves
the node with `executed = true` and `result = null`, the function having been called once. -/
theorem executeOnce_swallows_exception (s : Store) (self : NodeRef) (n : TaskNode)
    (f : List DataPtr → CallResult) (inputs : List NodePtr)
    (hn : s.nodes[self]? = some n) (hne : n.executed = false)
    (hk : n.kind = NodeKind.multiInput (some f) inputs)
    (hready : MultiInputTaskNode.isReady s self = true)
    (hargs : ∀ v ∈ MultiInputTaskNode.collectInputResults s n.dependencies, v ≠ none)
    (hthrow : f (MultiInputTaskNode.collectInputResults s n.dependencies) = CallResult.raised) :
    (MultiInputTaskNode.executeTry s self (some f)).1 = Completion.threw ∧
    TaskNode.executeOnceCompletion s self
      = (Completion.returned (), TaskNode.executeOnce s self) ∧
    TaskNode.isExecuted (TaskNode.executeOnce s self) self = true ∧
    TaskNode.getResult (TaskNode.executeOnce s self) self = none ∧
    (TaskNode.executeOnce s self).funcLog
      = s.funcLog ++ [(self, MultiInputTaskNode.collectInputResults s n.dependencies)] := by
  have hgd : TaskNode.getDependencies s self = n.dependencies := by
    unfold TaskNode.getDependencies; simp [hn]
  have hlt : self < s.nodes.length := (List.getElem?_eq_some.1 hn).1
  obtain ⟨hexec, htry⟩ := MultiInputTaskNode.execute_throw s self f hready
    (by rw [hgd]; exact hargs) (by rw [hgd]; exact hthrow)
  rw [hgd] at hexec htry
  obtain ⟨hv, hl⟩ := TaskNode.execute_startExecution s self n (some f) inputs hn hk
  rw [hexec] at hv hl
  obtain ⟨hnodes, _, hlog⟩ := TaskNode.executeOnce_unexecuted s self n hn hne
  rw [hv] at hnodes
  have hnode : (TaskNode.executeOnce s self).nodes[self]?
      = some { n with
          startTime := s.clock, endTime := s.clock + 1, executionTimeMs := s.clock + 1 - s.clock,
          result := none, executed := true } := by
    rw [hnodes, List.getElem?_set_self hlt]
  refine ⟨by rw [htry], TaskNode.executeOnceCompletion_eq s self, ?_, ?_, ?_⟩
  · unfold TaskNode.isExecuted
    rw [hnode]
  · unfold TaskNode.getResult
    rw [hnode]
  · rw [hlog, hl]

/-- Witness for C20 (as amended): the node `out` of scenario S3 for the item 2, on which
`maybeFail` throws. -/
theorem executeOnce_swallows_exception_witness :
    TaskNode.executeOnceCompletion
        (Scenario.s3Processor Store.empty PipelineBuilder.new (some 2) "out").store 1
      = (Completion.returned (),
          TaskNode.executeOnce
            (Scenario.s3Processor Store.empty PipelineBuilder.new (some 2) "out").store 1) ∧
    TaskNode.getResult (TaskNode.executeOnce
      (Scenario.s3Processor Store.empty PipelineBuilder.new (some 2) "out").store 1) 1 = none :=
  ⟨(executeOnce_swallows_exception
      (Scenario.s3Processor Store.empty PipelineBuilder.new (some 2) "out").store 1
      { TaskNode.mk0 "out" (NodeKind.multiInput Scenario.maybeFail [some 0]) with
          dependencies := [some 0] }
      Scenario.maybeFailFn [some 0] (by rfl) rfl rfl (by decide) (by decide) (by decide)).2.1,
    (executeOnce_swallows_exception
      (Scenario.s3Processor Store.empty PipelineBuilder.new (some 2) "out").store 1
      { TaskNode.mk0 "out" (NodeKind.multiInput Scenario.maybeFail [some 0]) with
          dependencies := [some 0] }
      Scenario.maybeFailFn [some 0] (by rfl) rfl rfl (by decide) (by decide)
      (by decide)).2.2.2.1⟩

/-- Counterexample to C20 as stated: on the node `out` of scenario S3 for the item 2 the
function throws inside the `try` block, and `executeOnce` returns normally instead of
re-raising; the node is left executed with a null result. -/
theorem executeOnce_swallows_exception_counterexample :
    (MultiInputTaskNode.executeTry
      (Scenario.s3Processor Store.empty PipelineBuilder.new (some 2) "out").store 1
      Scenario.maybeFail).1 = Completion.threw ∧
    (TaskNode.executeOnceCompletion
      (Scenario.s3Processor Store.empty PipelineBuilder.new (some 2) "out").store 1).1
      = Completion.returned () ∧
    (TaskNode.executeOnceCompletion
      (Scenario.s3Processor Store.empty PipelineBuilder.new (some 2) "out").store 1).1
      ≠ Completion.threw ∧
    TaskNode.isExecuted (TaskNode.executeOnceCompletion
      (Scenario.s3Processor Store.empty PipelineBuilder.new (some 2) "out").store 1).2 1 = true ∧
    TaskNode.getResult (TaskNode.executeOnceCompletion
      (Scenario.s3Processor Store.empty PipelineBuilder.new (some 2) "out").store 1).2 1 = none := by
  decide

/-! ## A throwing callback, the scheduler index, and a restart -/

/-- C21. When the graph-construction callback throws for an item, processing the item returns
with `errorCount` incremented by exactly one and `processedItems` and the output queue
unchanged; the input queue, the flags, the callback and a non-null builder are kept.  So a
pass of the loop body that pops such an item leaves the items after it in the input queue,
and the processing loop continues from that state: the next pass pops the next item. -/
theorem callback_exception_counted (p : StreamingPipeline) (input : DataPtr)
    (processor : ProcessorFunction) (builder : PipelineBuilder) (cb : CallbackResult)
    (hproc : p.processor = some processor) (hb : p.pipelineBuilder = some builder)
    (hcb : processor (if p.profilingEnabled then p.store.now.2 else p.store) builder input
      p.outputNodeId = cb)
    (hthrew : cb.threw = true) :
    (∃ p', p.processItem input = some p' ∧ p'.errorCount = p.errorCount + 1 ∧
      p'.processedItems = p.processedItems ∧ p'.outputQueue = p.outputQueue ∧
      p'.inputQueue = p.inputQueue ∧ p'.running = p.running ∧ p'.processor = p.processor ∧
      p'.pipelineBuilder = some cb.builder) ∧
    (∀ (q : StreamingPipeline) (rest : List DataPtr) (fuel : Nat),
      q.inputQueue.queue = input :: rest → p = { q with inputQueue := { queue := rest } } →
      ∃ q', q.loopBody = some q' ∧ q'.errorCount = q.errorCount + 1 ∧
        q'.processedItems = q.processedItems ∧ q'.outputQueue = q.outputQueue ∧
        q'.inputQueue.queue = rest ∧
        StreamingPipeline.processingLoop (fuel + 1) q
          = StreamingPipeline.processingLoop fuel q') := by
  have hbe : p.buildAndExecute (if p.profilingEnabled then p.store.now.2 else p.store) input
      = some (cb.store, some cb.builder, ItemOutcome.exception) := by
    unfold StreamingPipeline.buildAndExecute
    rw [hproc, hb]
    simp only [hcb, hthrew, if_true]
  have hitem : ∃ p', p.processItem input = some p' ∧ p'.errorCount = p.errorCount + 1 ∧
      p'.processedItems = p.processedItems ∧ p'.outputQueue = p.outputQueue ∧
      p'.inputQueue = p.inputQueue ∧ p'.running = p.running ∧ p'.processor = p.processor ∧
      p'.pipelineBuilder = some cb.builder := by
    unfold StreamingPipeline.processItem
    by_cases hp : p.profilingEnabled = true
    · simp only [hp, if_true] at hbe ⊢
      have hnow : p.store.now = (p.store.now.1, p.store.now.2) := rfl
      rw [hnow]
      simp only [hbe]
      exact ⟨_, rfl, rfl, rfl, rfl, rfl, rfl, rfl, rfl⟩
    · simp only [hp, Bool.false_eq_true, if_false] at hbe ⊢
      simp only [hbe]
      exact ⟨_, rfl, rfl, rfl, rfl, rfl, rfl, rfl, rfl⟩
  refine ⟨hitem, ?_⟩
  intro q rest fuel hq hp
  obtain ⟨p', h1, h2, h3, h4, h5, _⟩ := hitem
  have hbody : q.loopBody = some p' := by
    unfold StreamingPipeline.loopBody threadsafe_queue.try_pop
    rw [hq]
    simp only
    rw [← hp]
    exact h1
  refine ⟨p', hbody, ?_, ?_, ?_, ?_, ?_⟩
  · rw [h2, hp]
  · rw [h3, hp]
  · rw [h4, hp]
  · rw [h5, hp]
  · have hcond : (q.running || !q.inputQueue.empty) = true := by
      simp [threadsafe_queue.empty, hq]
    conv_lhs => unfold StreamingPipeline.processingLoop
    rw [if_pos hcond, hbody]

/-- Witness for C21: the registry callback on the item 2, for which `getProcessFunction`
throws; and the run on the items 1, 2, 3, in which the items 1 and 3 give the outputs 2 and 6
and the item 2 is counted as the one error. -/
theorem callback_exception_counted_witness :
    (∃ p', (Scenario.started Scenario.lookupProcessor).processItem (some 2) = some p' ∧
      p'.errorCount = 1 ∧ p'.processedItems = 0 ∧ p'.outputQueue.queue = []) ∧
    Scenario.lookupRun.map
        (fun p => (p.errorCount, p.processedItems, p.outputQueue.queue, p.inputQueue.queue))
      = some (1, 2, [some 2, some 6], []) := by
  constructor
  · obtain ⟨p', h1, h2, h3, h4, _⟩ := (callback_exception_counted
      (Scenario.started Scenario.lookupProcessor) (some 2) Scenario.lookupProcessor
      PipelineBuilder.new
      (Scenario.lookupProcessor (Scenario.started Scenario.lookupProcessor).store
        PipelineBuilder.new (some 2) "out")
      rfl rfl rfl (by decide)).1
    exact ⟨p', h1, h2, h3, by rw [h4]; rfl⟩
  · decide

theorem mapAssign_length {β : Type} (m : List (TaskId × β)) (k : TaskId) (v : β) :
    (mapFind m k ≠ none →
      (mapAssign m k v).length = m.length ∧
      (mapAssign m k v).map Prod.fst = m.map Prod.fst) ∧
    (mapFind m k = none →
      (mapAssign m k v).length = m.length + 1 ∧
      (mapAssign m k v).map Prod.fst = m.map Prod.fst ++ [k] ∧ k ∉ m.map Prod.fst) := by
  induction m with
  | nil => simp [mapAssign, mapFind]
  | cons p rest ih =>
    obtain ⟨k1, v1⟩ := p
    unfold mapAssign mapFind
    by_cases hk : k1 = k
    · simp [hk]
    · simp only [hk, if_false, List.length_cons, List.map_cons, List.cons_append]
      refine ⟨fun h => ?_, fun h => ?_⟩
      · obtain ⟨a, b⟩ := ih.1 h
        exact ⟨by rw [a], by rw [b]⟩
      · obtain ⟨a, b, c⟩ := ih.2 h
        refine ⟨by rw [a], by rw [b], ?_⟩
        simp only [List.mem_cons, not_or]
        exact ⟨fun e => hk e.symm, c⟩

/-- C22. `TaskScheduler::addTask(node)` binds the id of the node to the node: afterwards
`getTask(id)` returns the new node and every other id is bound as before.  If the id was
already bound the set of bound ids and their number are unchanged (the previous binding is
replaced); if it was fresh exactly one binding, for this id, is added.  No id is ever bound
twice, and `addTask(nullptr)` changes nothing. -/
theorem addTask_replaces_binding (s : Store) (self : TaskScheduler) (task : NodeRef) :
    (self.addTask s (some task)).getTask (TaskNode.getId s task) = some task ∧
    (∀ other : TaskId, other ≠ TaskNode.getId s task →
      (self.addTask s (some task)).getTask other = self.getTask other) ∧
    (self.getTask (TaskNode.getId s task) ≠ none →
      (self.addTask s (some task)).tasks.length = self.tasks.length ∧
      (self.addTask s (some task)).tasks.map Prod.fst = self.tasks.map Prod.fst) ∧
    (self.getTask (TaskNode.getId s task) = none →
      (self.addTask s (some task)).tasks.length = self.tasks.length + 1 ∧
      (self.addTask s (some task)).tasks.map Prod.fst
        = self.tasks.map Prod.fst ++ [TaskNode.getId s task]) ∧
    ((self.tasks.map Prod.fst).Nodup →
      ((self.addTask s (some task)).tasks.map Prod.fst).Nodup) ∧
    self.addTask s none = self := by
  have hlen := mapAssign_length self.tasks (TaskNode.getId s task) task
  refine ⟨?_, ?_, ?_, ?_, ?_, rfl⟩
  · simp [TaskScheduler.addTask, TaskScheduler.getTask, mapFind_mapAssign]
  · intro other hne
    simp only [TaskScheduler.addTask, TaskScheduler.getTask, mapFind_mapAssign]
    rw [if_neg (fun e => hne e.symm)]
  · intro h
    exact hlen.1 h
  · intro h
    exact ⟨(hlen.2 h).1, (hlen.2 h).2.1⟩
  · intro hnd
    by_cases h : mapFind self.tasks (TaskNode.getId s task) = none
    · obtain ⟨_, hkeys, hnot⟩ := hlen.2 h
      simp only [TaskScheduler.addTask]
      rw [hkeys]
      exact List.Nodup.append hnd (List.nodup_singleton _) (by simpa using hnot)
    · simp only [TaskScheduler.addTask]
      rw [(hlen.1 h).2]
      exact hnd

/-- Witness for C22: adding the node `in` again to the index of scenario S1, which binds its
id, leaves three bindings; adding it to an empty index gives one binding. -/
theorem addTask_replaces_binding_witness :
    ((Scenario.s1Processor Store.empty PipelineBuilder.new (some 1) "out").builder.scheduler.addTask
        (Scenario.s1Processor Store.empty PipelineBuilder.new (some 1) "out").store
        (some 0)).tasks.length = 3 ∧
    (TaskScheduler.new.addTask
        (Scenario.s1Processor Store.empty PipelineBuilder.new (some 1) "out").store
        (some 0)).tasks.length = 1 :=
  ⟨((addTask_replaces_binding
      (Scenario.s1Processor Store.empty PipelineBuilder.new (some 1) "out").store
      (Scenario.s1Processor Store.empty PipelineBuilder.new (some 1) "out").builder.scheduler
      0).2.2.1 (by decide)).1,
    ((addTask_replaces_binding
      (Scenario.s1Processor Store.empty PipelineBuilder.new (some 1) "out").store
      TaskScheduler.new 0).2.2.2.1 (by decide)).1⟩

/-- C28 on the code: `stop()` resets the builder pointer and `start()` does not create a new
builder (only the constructor does).  After `start(); stop(); start()` on the configured
pipeline of scenario S1, `running` is true and the builder pointer is null; an item is still
accepted, and the pass of the processing loop that pops it hands the null builder to the
callback, which is no defined behaviour (no state follows in the embedding).  In general every
`stop()` of a running pipeline leaves the builder null and `start()` never changes it. -/
theorem restart_runs_without_builder :
    ((Scenario.configured 10 Scenario.s1Processor).run
        [Action.start, Action.stop, Action.start]).map
      (fun p => (p.running, p.pipelineBuilder.isSome)) = some (true, false) ∧
    ((Scenario.configured 10 Scenario.s1Processor).run
        [Action.start, Action.stop, Action.start, Action.addInput (some 1)]).map
      (fun p => (p.running, p.pipelineBuilder.isSome, p.inputQueue.queue))
      = some (true, false, [some 1]) ∧
    ((Scenario.configured 10 Scenario.s1Processor).run
        [Action.start, Action.stop, Action.start, Action.addInput (some 1),
          Action.loopIteration]).isNone = true ∧
    (∀ p p' : StreamingPipeline, p.running = true → p.stop = some p' →
      p'.pipelineBuilder = none) ∧
    (∀ p p' : StreamingPipeline, p.start = Except.ok p' →
      p'.pipelineBuilder = p.pipelineBuilder) := by
  refine ⟨by decide, by decide, by decide, ?_, ?_⟩
  · intro p p' hr h
    unfold StreamingPipeline.stop at h
    simp only [hr, Bool.not_true, Bool.false_eq_true, if_false] at h
    split at h
    · cases h
    · simp only [Option.some.injEq] at h
      split at h <;> subst h <;> rfl
  · intro p p' h
    unfold StreamingPipeline.start at h
    split at h
    · simp only [Except.ok.injEq] at h
      subst h
      rfl
    · split at h
      · cases h
      · simp only [Except.ok.injEq] at h
        subst h
        rfl

/-! ## `processedItems` counts the pushes since `start()` -/

/-- What `stop()` does to the output queue and to `processedItems`: the counter grows by the
growth of the queue. -/
theorem StreamingPipeline.stop_counts (p p' : StreamingPipeline) (h : p.stop = some p') :
    ∃ pushed : List DataPtr, p'.outputQueue.queue = p.outputQueue.queue ++ pushed ∧
      p'.processedItems = p.processedItems + pushed.length := by
  by_cases hr : p.running = true
  · by_cases ht : p.threadJoinable = true
    · obtain ⟨p1, hproc, _, _, ho, hc, _⟩ := StreamingPipeline.stop_processed p p' h hr ht
      exact ⟨_, (congrArg threadsafe_queue.queue ho).trans hproc.output,
        hc.trans hproc.processedItems⟩
    · refine ⟨[], ?_, ?_⟩
      · unfold StreamingPipeline.stop at h
        simp only [hr, Bool.not_true, Bool.false_eq_true, if_false, ht] at h
        simp only [Option.some.injEq] at h
        split at h <;> subst h <;> simp
      · unfold StreamingPipeline.stop at h
        simp only [hr, Bool.not_true, Bool.false_eq_true, if_false, ht] at h
        simp only [Option.some.injEq] at h
        split at h <;> subst h <;> simp
  · refine ⟨[], ?_, ?_⟩
    · unfold StreamingPipeline.stop at h
      simp only [hr, Bool.not_false, if_true, Option.some.injEq] at h
      subst h; simp
    · unfold StreamingPipeline.stop at h
      simp only [hr, Bool.not_false, if_true, Option.some.injEq] at h
      subst h; simp

/-- One action: a `start()` that passes its tests sets `processedItems` to zero; every other
step adds to `processedItems` the number of values it pushed onto the output queue. -/
theorem StreamingPipeline.step_counts (p p' : StreamingPipeline) (a : Action)
    (hs : p.step a = some p') :
    p'.processedItems = if p.startResets a then 0 else p.processedItems + p.pushCount p' a := by
  cases a with
  | start =>
    simp only [StreamingPipeline.step, StreamingPipeline.start] at hs
    unfold StreamingPipeline.startResets StreamingPipeline.pushCount
    by_cases hr : p.running = true
    · simp only [hr, if_true, Option.some.injEq] at hs
      subst hs
      simp [hr, Action.isStart]
    · simp only [hr, Bool.false_eq_true, if_false] at hs
      cases hp : p.processor with
      | none =>
        rw [hp] at hs
        simp only [Option.some.injEq] at hs
        subst hs
        simp [Action.isStart]
      | some f =>
        rw [hp] at hs
        simp only [Option.some.injEq] at hs
        subst hs
        simp [Action.isStart, hr]
  | stop =>
    obtain ⟨pushed, ho, hc⟩ := StreamingPipeline.stop_counts p p' hs
    simp only [StreamingPipeline.startResets, Action.isStart, Bool.false_and,
      Bool.false_eq_true, if_false, StreamingPipeline.pushCount]
    rw [hc, ho, List.length_append]
    omega
  | setProcessor processor =>
    simp only [StreamingPipeline.step, StreamingPipeline.setProcessor] at hs
    by_cases hr : p.running = true
    · simp only [hr, if_true, Option.some.injEq] at hs
      subst hs
      simp [StreamingPipeline.startResets, Action.isStart, StreamingPipeline.pushCount]
    · simp only [hr, Bool.false_eq_true, if_false, Option.some.injEq] at hs
      subst hs
      simp [StreamingPipeline.startResets, Action.isStart, StreamingPipeline.pushCount]
  | setOutputNodeId outputId =>
    simp only [StreamingPipeline.step, StreamingPipeline.setOutputNodeId] at hs
    by_cases hr : p.running = true
    · simp only [hr, if_true, Option.some.injEq] at hs
      subst hs
      simp [StreamingPipeline.startResets, Action.isStart, StreamingPipeline.pushCount]
    · simp only [hr, Bool.false_eq_true, if_false, Option.some.injEq] at hs
      subst hs
      simp [StreamingPipeline.startResets, Action.isStart, StreamingPipeline.pushCount]
  | enableProfiling enable =>
    simp only [StreamingPipeline.step, Option.some.injEq] at hs
    subst hs
    simp [StreamingPipeline.startResets, Action.isStart, StreamingPipeline.pushCount,
      StreamingPipeline.enableProfiling]
  | addInput data =>
    simp only [StreamingPipeline.step] at hs
    rcases StreamingPipeline.addInput_cases p data with h | h | ⟨h, _⟩ <;>
      rw [h] at hs <;> simp only [Option.some.injEq] at hs <;> subst hs <;>
      simp [StreamingPipeline.startResets, Action.isStart, StreamingPipeline.pushCount]
  | tryGetOutput =>
    simp only [StreamingPipeline.step, Option.some.injEq] at hs
    subst hs
    simp only [StreamingPipeline.startResets, Action.isStart, Bool.false_and,
      Bool.false_eq_true, if_false, StreamingPipeline.pushCount, Nat.add_zero]
    unfold StreamingPipeline.tryGetOutput threadsafe_queue.try_pop
    cases p.outputQueue.queue <;> rfl
  | loopIteration =>
    simp only [StreamingPipeline.step] at hs
    simp only [StreamingPipeline.startResets, Action.isStart, Bool.false_and,
      Bool.false_eq_true, if_false, StreamingPipeline.pushCount]
    split at hs
    · have hp := StreamingPipeline.loopBody_processed p p' hs
      rw [hp.processedItems, hp.output, List.length_append]
      omega
    · simp only [Option.some.injEq] at hs
      subst hs
      simp

/-- C29. `processedItems` counts the pushes onto the output queue since `start()`.  Every step
of a pipeline other than a `start()` that resets the statistics adds to `processedItems`
exactly the number of values the step pushed onto the output queue, and such a `start()`
sets both to zero.  Hence in every state reached from a state in which `processedItems` is
the number of values pushed since the last such `start()` (as in a new pipeline, with both
zero), by any sequence of public calls and passes of the processing loop, `processedItems`
is again that number. -/
theorem processedItems_counts_pushes :
    (∀ (p p' : StreamingPipeline) (a : Action), p.step a = some p' →
      p'.processedItems
        = if p.startResets a then 0 else p.processedItems + p.pushCount p' a) ∧
    (∀ (actions : List Action) (p p' : StreamingPipeline) (count count' : Nat),
      p.processedItems = count → p.runCounting count actions = some (p', count') →
      p'.processedItems = count') := by
  refine ⟨StreamingPipeline.step_counts, ?_⟩
  intro actions
  induction actions with
  | nil =>
    intro p p' count count' h hrun
    simp only [StreamingPipeline.runCounting, Option.some.injEq, Prod.mk.injEq] at hrun
    rw [← hrun.1, ← hrun.2]
    exact h
  | cons a rest ih =>
    intro p p' count count' h hrun
    unfold StreamingPipeline.runCounting at hrun
    cases hs : p.step a with
    | none => rw [hs] at hrun; cases hrun
    | some p1 =>
      rw [hs] at hrun
      refine ih p1 p' _ count' ?_ hrun
      rw [StreamingPipeline.step_counts p p1 a hs, h]

/-- The run of scenario S3 with a consumer, counted: two pushes, one of them delivered. -/
theorem Scenario.s3Counting_isSome :
    ((Scenario.configured 10 Scenario.s3Processor).runCounting 0
      ([Action.start] ++ Scenario.s3Actions ++ [Action.tryGetOutput, Action.stop])).isSome
      = true := by
  decide

/-- Witness for C29: scenario S3 from the configured pipeline, with one output taken by a
consumer before `stop()`: two values were pushed since `start()` and `processedItems` is 2. -/
theorem processedItems_counts_pushes_witness :
    (((Scenario.configured 10 Scenario.s3Processor).runCounting 0
      ([Action.start] ++ Scenario.s3Actions ++ [Action.tryGetOutput, Action.stop])).get
        Scenario.s3Counting_isSome).1.processedItems
      = (((Scenario.configured 10 Scenario.s3Processor).runCounting 0
      ([Action.start] ++ Scenario.s3Actions ++ [Action.tryGetOutput, Action.stop])).get
        Scenario.s3Counting_isSome).2 ∧
    ((Scenario.configured 10 Scenario.s3Processor).runCounting 0
      ([Action.start] ++ Scenario.s3Actions ++ [Action.tryGetOutput, Action.stop])).map
      (fun r => (r.1.processedItems, r.2, r.1.outputQueue.queue)) = some (2, 2, [some 3]) :=
  ⟨processedItems_counts_pushes.2 _ (Scenario.configured 10 Scenario.s3Processor) _ 0 _ rfl
      (Option.some_get Scenario.s3Counting_isSome).symm,
    by decide⟩

/-! ## Graphs built through the builder are acyclic -/

/-- Every store reached by `addInput` and `addTask` satisfies the store invariant, and the
index binds addresses of allocated nodes. -/
theorem Constructed.constructed_invariant {s : Store} {b : PipelineBuilder} (h : Constructed s b) :
    s.WF ∧ (∀ (id : TaskId) (t : Nat), b.scheduler.getTask id = some t → t < s.nodes.length) := by
  induction h with
  | fresh =>
    refine ⟨⟨?_, ?_, ?_, ?_⟩, ?_⟩
    · intro i n hn; simp [Store.empty] at hn
    · intro i n hn; simp [Store.empty] at hn
    · intro i n hn; simp [Store.empty] at hn
    · intro i n data hn; simp [Store.empty] at hn
    · intro id t ht
      simp [PipelineBuilder.new, TaskScheduler.new, TaskScheduler.getTask, mapFind] at ht
  | @addInput s b id data _ ih =>
    obtain ⟨hwf, hidx⟩ := ih
    unfold PipelineBuilder.addInput
    rw [InputNode.new_store]
    simp only
    have hnew : ({ s with nodes := s.nodes ++
        [{ TaskNode.mk0 id (NodeKind.input data) with result := data, executed := true }] }
        : Store).nodes[s.nodes.length]?
        = some { TaskNode.mk0 id (NodeKind.input data) with result := data, executed := true } := by
      simp
    refine ⟨?_, ?_⟩
    · apply hwf.append _ _ rfl
      · intro dep hdep; simp [TaskNode.mk0] at hdep
      · intro _
        refine ⟨?_, ?_⟩
        · exact (eval_input _ _ _ data hnew rfl).symm
        · intro d hd; simp [TaskNode.mk0] at hd
      · intro _ _; rfl
    · intro id' t ht
      simp only [TaskScheduler.addTask, TaskScheduler.getTask, mapFind_mapAssign] at ht
      simp only [List.length_append, List.length_singleton]
      split at ht
      · cases ht; omega
      · have := hidx id' t ht; omega
  | @addTask s b id func inputs _ hin ih =>
    obtain ⟨hwf, hidx⟩ := ih
    unfold PipelineBuilder.addTask
    rw [MultiInputTaskNode.new_node]
    simp only
    refine ⟨?_, ?_⟩
    · apply hwf.append _ _ rfl
      · intro dep hdep
        simp only [TaskNode.mk0, List.mem_filter] at hdep
        rcases hin dep hdep.1 with h0 | ⟨r, hr, hlt⟩
        · rw [h0] at hdep; simp at hdep
        · exact ⟨r, hr, hlt⟩
      · intro hex; simp [TaskNode.mk0] at hex
      · intro data hk; simp [TaskNode.mk0] at hk
    · intro id' t ht
      simp only [TaskScheduler.addTask, TaskScheduler.getTask, mapFind_mapAssign] at ht
      simp only [List.length_append, List.length_singleton]
      split at ht
      · cases ht; omega
      · have := hidx id' t ht; omega

/-- In a well-formed store the dependency closure of a node holds the node and nodes with
smaller addresses only. -/
theorem Reaches.le_of_wf {s : Store} (hwf : s.WF) {t n : Nat} (h : Reaches s t n) : n ≤ t := by
  induction h with
  | refl t => exact Nat.le_refl t
  | step t d n hd _ ih =>
    unfold TaskNode.getDependencies at hd
    cases hn : s.nodes[t]? with
    | none => rw [hn] at hd; cases hd
    | some m =>
      rw [hn] at hd
      obtain ⟨d', hd', hlt⟩ := hwf.acyclic t m hn (some d) hd
      have hdd : d = d' := Option.some.inj hd'
      have h1 : n ≤ d := ih
      rw [hdd] at h1
      exact Nat.le_trans h1 (Nat.le_of_lt hlt)

/-- The graph `in → out` in which `addTask` was also handed a null handle. -/
theorem Scenario.nullHandle_constructed :
    Constructed
      (PipelineBuilder.addTask (PipelineBuilder.addInput Store.empty PipelineBuilder.new "in"
          (some 1)).1 (PipelineBuilder.addInput Store.empty PipelineBuilder.new "in" (some 1)).2.1
        "out" (Scenario.addK 1) [none, some 0]).1
      (PipelineBuilder.addTask (PipelineBuilder.addInput Store.empty PipelineBuilder.new "in"
          (some 1)).1 (PipelineBuilder.addInput Store.empty PipelineBuilder.new "in" (some 1)).2.1
        "out" (Scenario.addK 1) [none, some 0]).2.1 :=
  Constructed.addTask "out" (Scenario.addK 1) [none, some 0]
    (Constructed.addInput "in" (some 1) Constructed.fresh) (by
      intro p hp
      simp only [List.mem_cons, List.mem_singleton, List.not_mem_nil, or_false] at hp
      rcases hp with hp | hp
      · exact Or.inl hp
      · exact Or.inr ⟨0, hp, Nat.lt_of_lt_of_eq (by decide : (0 : Nat) < 1) rfl⟩)

/-! ## A chain on a pool with one worker -/

theorem PoolState.stepThread_out_of_range (d : PoolState) (i : Nat)
    (h : d.threads.length ≤ i) : d.stepThread i = none := by
  unfold PoolState.stepThread
  rw [List.getElem?_eq_none h]

/-- With one worker the dispatch of the chain stays in two states, whatever the schedule. -/
theorem PoolState.chain_states (schedule : List Nat) :
    ∀ d : PoolState,
      (d = PoolState.execute Scenario.chainDeps Scenario.chainExecuted 1 3 ∨
        d = (PoolState.execute Scenario.chainDeps Scenario.chainExecuted 1 3).run [1]) →
      (d.run schedule = PoolState.execute Scenario.chainDeps Scenario.chainExecuted 1 3 ∨
        d.run schedule
          = (PoolState.execute Scenario.chainDeps Scenario.chainExecuted 1 3).run [1]) := by
  induction schedule with
  | nil => intro d h; exact h
  | cons i rest ih =>
    intro d h
    unfold PoolState.run
    apply ih
    rcases h with h | h
    · subst h
      match i with
      | 0 => left; decide
      | 1 => right; decide
      | n + 2 =>
        left
        rw [PoolState.stepThread_out_of_range _ _ (by
          have hl : (PoolState.execute Scenario.chainDeps Scenario.chainExecuted 1 3).threads.length
              = 2 := by decide
          omega)]
        rfl
    · subst h
      match i with
      | 0 => right; decide
      | 1 => right; decide
      | n + 2 =>
        right
        rw [PoolState.stepThread_out_of_range _ _ (by
          have hl : ((PoolState.execute Scenario.chainDeps Scenario.chainExecuted 1 3).run
              [1]).threads.length = 2 := by decide
          omega)]
        rfl

/-- C25 on the code: the dispatch starves a pool that is smaller than the depth of the graph.
For the chain `in → a → b → out` on a scheduler with one worker: the caller of `execute`
enqueues `executeTask(b)` and blocks on its future; the worker takes that task, enqueues
`executeTask(a)` and blocks on its future.  In that state the only worker is blocked on a
future whose task is still queued, no thread can move, and `out` has not executed; and
under every schedule of the threads `out` never executes.  The same chain completes with two
workers, and the chain `in → a → out` completes with one. -/
theorem single_worker_chain_starves :
    (∀ schedule : List Nat,
      ((PoolState.execute Scenario.chainDeps Scenario.chainExecuted 1 3).run
        schedule).isExecuted 3 = false) ∧
    ((PoolState.execute Scenario.chainDeps Scenario.chainExecuted 1 3).run [1]).starved = true ∧
    ((PoolState.execute Scenario.chainDeps Scenario.chainExecuted 1 3).run [1]).tasks
      = [(1, 1)] ∧
    (∀ i : Nat,
      ((PoolState.execute Scenario.chainDeps Scenario.chainExecuted 1 3).run [1]).stepThread i
        = none) ∧
    ((PoolState.execute Scenario.chainDeps Scenario.chainExecuted 2 3).run
      [1, 2, 2, 1, 1, 0, 0]).isExecuted 3 = true ∧
    ((PoolState.execute [[], [0], [1]] [true, false, false] 1 2).run
      [1, 1, 0, 0]).isExecuted 2 = true := by
  refine ⟨?_, by decide, by decide, ?_, by decide, by decide⟩
  · intro schedule
    rcases PoolState.chain_states schedule _ (Or.inl rfl) with h | h <;> rw [h] <;> decide
  · intro i
    match i with
    | 0 => decide
    | 1 => decide
    | n + 2 =>
      exact PoolState.stepThread_out_of_range _ _ (by
        have hl : ((PoolState.execute Scenario.chainDeps Scenario.chainExecuted 1 3).run
            [1]).threads.length = 2 := by decide
        omega)

/-! ## The output of an item depends on the item only -/

theorem PipelineBuilder.addInput_spec (s : Store) (b : PipelineBuilder) (id : TaskId)
    (data : DataPtr) :
    (PipelineBuilder.addInput s b id data).1.nodes = s.nodes ++
      [{ TaskNode.mk0 id (NodeKind.input data) with result := data, executed := true }] ∧
    (PipelineBuilder.addInput s b id data).2.2 = s.nodes.length ∧
    ∀ k : TaskId, (PipelineBuilder.addInput s b id data).2.1.scheduler.getTask k
      = if id = k then some s.nodes.length else b.scheduler.getTask k := by
  unfold PipelineBuilder.addInput
  rw [InputNode.new_store]
  refine ⟨rfl, rfl, ?_⟩
  intro k
  simp [TaskScheduler.addTask, TaskScheduler.getTask, mapFind_mapAssign, TaskNode.getId,
    TaskNode.mk0]

theorem PipelineBuilder.addTask_spec (s : Store) (b : PipelineBuilder) (id : TaskId)
    (func : ProcessFunction) (inputs : List NodePtr) :
    (PipelineBuilder.addTask s b id func inputs).1.nodes = s.nodes ++
      [{ TaskNode.mk0 id (NodeKind.multiInput func inputs) with
          dependencies := inputs.filter (fun p => p.isSome) }] ∧
    (PipelineBuilder.addTask s b id func inputs).2.2 = s.nodes.length ∧
    ∀ k : TaskId, (PipelineBuilder.addTask s b id func inputs).2.1.scheduler.getTask k
      = if id = k then some s.nodes.length else b.scheduler.getTask k := by
  unfold PipelineBuilder.addTask
  rw [MultiInputTaskNode.new_node]
  refine ⟨rfl, rfl, ?_⟩
  intro k
  simp [TaskScheduler.addTask, TaskScheduler.getTask, mapFind_mapAssign, TaskNode.getId,
    TaskNode.mk0]

theorem Store.SameUntimed.su_refl (s : Store) : s.SameUntimed s := rfl

theorem Store.SameUntimed.su_symm {s s' : Store} (h : s.SameUntimed s') : s'.SameUntimed s :=
  Eq.symm h

theorem Store.SameUntimed.su_trans {s s' s'' : Store} (h : s.SameUntimed s')
    (h' : s'.SameUntimed s'') : s.SameUntimed s'' :=
  Eq.trans h h'

theorem Store.SameUntimed.su_of_nodes_eq {s s' : Store} (h : s'.nodes = s.nodes) :
    s.SameUntimed s' := by
  unfold Store.SameUntimed; rw [h]

theorem Store.SameUntimed.su_node {s s' : Store} (h : s.SameUntimed s') (i : Nat) :
    (s.nodes[i]?).map TaskNode.untimed = (s'.nodes[i]?).map TaskNode.untimed := by
  have := congrArg (fun l => l[i]?) h
  simpa [List.getElem?_map] using this

theorem Store.SameUntimed.length_eq {s s' : Store} (h : s.SameUntimed s') :
    s.nodes.length = s'.nodes.length := by
  have := congrArg List.length h
  simpa using this

/-- What a read of a node that is not a time gives is the same in both stores. -/
theorem Store.SameUntimed.read {s s' : Store} (h : s.SameUntimed s') {β : Type}
    (g : TaskNode → β) (hg : ∀ n, g n.untimed = g n) (i : Nat) :
    (s.nodes[i]?).map g = (s'.nodes[i]?).map g := by
  have hn := h.su_node i
  cases h1 : s.nodes[i]? with
  | none =>
    rw [h1] at hn
    cases h2 : s'.nodes[i]? with
    | none => rfl
    | some m => rw [h2] at hn; cases hn
  | some n =>
    rw [h1] at hn
    cases h2 : s'.nodes[i]? with
    | none => rw [h2] at hn; cases hn
    | some m =>
      rw [h2] at hn
      simp only [Option.map_some', Option.some.injEq] at hn ⊢
      rw [← hg n, ← hg m, hn]

theorem Store.SameUntimed.su_isExecuted {s s' : Store} (h : s.SameUntimed s') (r : NodeRef) :
    TaskNode.isExecuted s r = TaskNode.isExecuted s' r := by
  have := h.read (fun n => n.executed) (fun _ => rfl) r
  unfold TaskNode.isExecuted
  cases h1 : s.nodes[r]? <;> cases h2 : s'.nodes[r]? <;> rw [h1, h2] at this <;>
    simp_all

theorem Store.SameUntimed.getResult {s s' : Store} (h : s.SameUntimed s') (r : NodeRef) :
    TaskNode.getResult s r = TaskNode.getResult s' r := by
  have := h.read (fun n => n.result) (fun _ => rfl) r
  unfold TaskNode.getResult
  cases h1 : s.nodes[r]? <;> cases h2 : s'.nodes[r]? <;> rw [h1, h2] at this <;>
    simp_all

theorem Store.SameUntimed.su_getDependencies {s s' : Store} (h : s.SameUntimed s')
    (r : NodeRef) : TaskNode.getDependencies s r = TaskNode.getDependencies s' r := by
  have := h.read (fun n => n.dependencies) (fun _ => rfl) r
  unfold TaskNode.getDependencies
  cases h1 : s.nodes[r]? <;> cases h2 : s'.nodes[r]? <;> rw [h1, h2] at this <;>
    simp_all

theorem Store.SameUntimed.kind {s s' : Store} (h : s.SameUntimed s') (r : NodeRef) :
    (s.nodes[r]?).map (fun n => n.kind) = (s'.nodes[r]?).map (fun n => n.kind) :=
  h.read (fun n => n.kind) (fun _ => rfl) r

/-- Related changes of the node at one address keep the stores related. -/
theorem Store.SameUntimed.modifyNode {s s' : Store} (h : s.SameUntimed s') (r : NodeRef)
    (f g : TaskNode → TaskNode)
    (hfg : ∀ n m : TaskNode, n.untimed = m.untimed → (f n).untimed = (g m).untimed) :
    (s.modifyNode r f).SameUntimed (s'.modifyNode r g) := by
  have hn := h.su_node r
  unfold Store.modifyNode
  cases h1 : s.nodes[r]? with
  | none =>
    rw [h1] at hn
    cases h2 : s'.nodes[r]? with
    | none => exact h
    | some m => rw [h2] at hn; cases hn
  | some n =>
    rw [h1] at hn
    cases h2 : s'.nodes[r]? with
    | none => rw [h2] at hn; cases hn
    | some m =>
      rw [h2] at hn
      simp only [Option.map_some', Option.some.injEq] at hn
      unfold Store.SameUntimed at h ⊢
      simp only [List.map_set]
      rw [h, hfg n m hn]

/-- A change of the times of one node is not seen. -/
theorem Store.SameUntimed.modifyTimes (s : Store) (r : NodeRef) (f : TaskNode → TaskNode)
    (hf : ∀ n : TaskNode, (f n).untimed = n.untimed) : (s.modifyNode r f).SameUntimed s := by
  have h := Store.SameUntimed.modifyNode (Store.SameUntimed.su_refl s) r f id
    (fun n m hnm => by rw [hf n]; exact hnm)
  have hid : s.modifyNode r id = s := by
    unfold Store.modifyNode
    cases h1 : s.nodes[r]? with
    | none => rfl
    | some n =>
      simp only [id]
      have : s.nodes.set r n = s.nodes := by
        apply List.ext_getElem? 
        intro i
        rw [List.getElem?_set]
        split
        · next hri => 
          subst hri
          split
          · exact h1.symm
          · rename_i hlt
            rw [List.getElem?_eq_none (Nat.le_of_not_lt hlt)]
        · rfl
      rw [this]
  rw [hid] at h
  exact h

theorem Store.SameUntimed.startExecution (s : Store) (r : NodeRef) :
    (TaskNode.startExecution s r).SameUntimed s := by
  have h1 := Store.SameUntimed.modifyTimes { s with clock := s.clock + 1 } r
    (fun n => { n with startTime := s.clock }) (fun _ => rfl)
  exact h1.su_trans (Store.SameUntimed.su_of_nodes_eq rfl).su_symm

theorem Store.SameUntimed.endExecution (s : Store) (r : NodeRef) :
    (TaskNode.endExecution s r).SameUntimed s := by
  have h1 := Store.SameUntimed.modifyTimes { s with clock := s.clock + 1 } r
    (fun n => { n with endTime := s.clock, executionTimeMs := s.clock - n.startTime })
    (fun _ => rfl)
  exact h1.su_trans (Store.SameUntimed.su_of_nodes_eq rfl).su_symm

theorem Store.SameUntimed.setResult {s s' : Store} (h : s.SameUntimed s') (r : NodeRef)
    (v : DataPtr) : (TaskNode.setResult s r v).SameUntimed (TaskNode.setResult s' r v) := by
  unfold TaskNode.setResult
  apply h.modifyNode
  intro n m hnm
  have h1 := congrArg TaskNode.id hnm
  have h2 := congrArg TaskNode.dependencies hnm
  have h3 := congrArg TaskNode.kind hnm
  simp only [TaskNode.untimed] at h1 h2 h3 ⊢
  rw [h1, h2, h3]

theorem MultiInputTaskNode.multiInput_execute_untimed {s s' : Store} (h : s.SameUntimed s')
    (self : NodeRef) (func : ProcessFunction) :
    (MultiInputTaskNode.execute s self func).1 = (MultiInputTaskNode.execute s' self func).1 ∧
    (MultiInputTaskNode.execute s self func).2.SameUntimed
      (MultiInputTaskNode.execute s' self func).2 := by
  have hd := h.su_getDependencies self
  have hready : MultiInputTaskNode.isReady s self = MultiInputTaskNode.isReady s' self := by
    unfold MultiInputTaskNode.isReady TaskNode.isReady
    rw [hd]
    congr 2
    funext dep
    cases dep with
    | none => rfl
    | some d => exact h.su_isExecuted d
  have hcol : MultiInputTaskNode.collectInputResults s (TaskNode.getDependencies s' self)
      = MultiInputTaskNode.collectInputResults s' (TaskNode.getDependencies s' self) := by
    unfold MultiInputTaskNode.collectInputResults
    congr 1
    funext dep
    cases dep with
    | none => rfl
    | some d => simp only [h.getResult d]
  refine ⟨?_, ?_⟩
  · unfold MultiInputTaskNode.execute
    rw [hready, hd, hcol]
    split
    · rfl
    · simp only
      split
      · rfl
      · cases func with
        | none => rfl
        | some f =>
          simp only
          cases f (MultiInputTaskNode.collectInputResults s' (TaskNode.getDependencies s' self)) <;>
            rfl
  · have h1 := (MultiInputTaskNode.execute_keeps_nodes s self func).1
    have h2 := (MultiInputTaskNode.execute_keeps_nodes s' self func).1
    exact ((Store.SameUntimed.su_of_nodes_eq h1).su_symm.su_trans h).su_trans
      (Store.SameUntimed.su_of_nodes_eq h2)

theorem TaskNode.node_execute_untimed {s s' : Store} (h : s.SameUntimed s') (self : NodeRef) :
    (TaskNode.execute s self).1 = (TaskNode.execute s' self).1 ∧
    (TaskNode.execute s self).2.SameUntimed (TaskNode.execute s' self).2 := by
  refine ⟨?_, ?_⟩
  · have hk := h.kind self
    unfold TaskNode.execute
    simp only
    have hk' : (({ s with executeLog := s.executeLog ++ [self] } : Store).nodes[self]?).map
        (fun n => n.kind)
        = (({ s' with executeLog := s'.executeLog ++ [self] } : Store).nodes[self]?).map
          (fun n => n.kind) := hk
    cases h1 : ({ s with executeLog := s.executeLog ++ [self] } : Store).nodes[self]? with
    | none =>
      rw [h1] at hk'
      cases h2 : ({ s' with executeLog := s'.executeLog ++ [self] } : Store).nodes[self]? with
      | none => rfl
      | some m => rw [h2] at hk'; cases hk'
    | some n =>
      rw [h1] at hk'
      cases h2 : ({ s' with executeLog := s'.executeLog ++ [self] } : Store).nodes[self]? with
      | none => rw [h2] at hk'; cases hk'
      | some m =>
        rw [h2] at hk'
        simp only [Option.map_some', Option.some.injEq] at hk'
        simp only
        rw [hk']
        cases m.kind with
        | input data => rfl
        | multiInput func inputs =>
          exact (MultiInputTaskNode.multiInput_execute_untimed
            (show Store.SameUntimed { s with executeLog := s.executeLog ++ [self] }
              { s' with executeLog := s'.executeLog ++ [self] } from h) self func).1
  · have h1 := (TaskNode.execute_logs_call s self).1
    have h2 := (TaskNode.execute_logs_call s' self).1
    exact ((Store.SameUntimed.su_of_nodes_eq h1).su_symm.su_trans h).su_trans
      (Store.SameUntimed.su_of_nodes_eq h2)

theorem TaskNode.executeOnce_untimed {s s' : Store} (h : s.SameUntimed s') (self : NodeRef) :
    (TaskNode.executeOnce s self).SameUntimed (TaskNode.executeOnce s' self) := by
  unfold TaskNode.executeOnce
  rw [h.su_isExecuted self]
  split
  · exact h
  · simp only
    have hs : (TaskNode.startExecution s self).SameUntimed (TaskNode.startExecution s' self) :=
      ((Store.SameUntimed.startExecution s self).su_trans h).su_trans
        (Store.SameUntimed.startExecution s' self).su_symm
    obtain ⟨hv, hst⟩ := TaskNode.node_execute_untimed hs self
    rw [hv]
    apply Store.SameUntimed.setResult
    exact ((Store.SameUntimed.endExecution _ self).su_trans hst).su_trans
      (Store.SameUntimed.endExecution _ self).su_symm

theorem Agree.of_some {α : Type} {R : α → α → Prop} {a b : α} (h : R a b) :
    Agree R (some a) (some b) := h

theorem TaskScheduler.pendingDependencies_untimed {s s' : Store} (h : s.SameUntimed s')
    (task : NodeRef) :
    TaskScheduler.pendingDependencies s task = TaskScheduler.pendingDependencies s' task := by
  unfold TaskScheduler.pendingDependencies
  rw [h.su_getDependencies task]
  congr 1
  funext dep
  cases dep with
  | none => rfl
  | some d => simp only [h.su_isExecuted d]

theorem TaskScheduler.foldlM_untimed (f : Store → NodePtr → Option Store)
    (hf : ∀ (s s' : Store) (t : NodePtr), s.SameUntimed s' →
      Agree Store.SameUntimed (f s t) (f s' t)) (deps : List NodePtr) :
    ∀ s s' : Store, s.SameUntimed s' →
      Agree Store.SameUntimed (deps.foldlM f s) (deps.foldlM f s') := by
  induction deps with
  | nil => intro s s' h; exact h
  | cons d rest ih =>
    intro s s' h
    simp only [List.foldlM_cons]
    have hd := hf s s' d h
    cases h1 : f s d with
    | none =>
      cases h2 : f s' d with
      | none => trivial
      | some r' => rw [h1, h2] at hd; exact hd.elim
    | some r =>
      cases h2 : f s' d with
      | none => rw [h1, h2] at hd; exact hd.elim
      | some r' =>
        rw [h1, h2] at hd
        exact ih r r' hd

theorem TaskScheduler.executeTask_untimed (fuel : Nat) :
    ∀ (s s' : Store) (t : NodePtr), s.SameUntimed s' →
      Agree Store.SameUntimed (TaskScheduler.executeTask fuel s t)
        (TaskScheduler.executeTask fuel s' t) := by
  induction fuel with
  | zero => intro s s' t _; unfold TaskScheduler.executeTask; trivial
  | succ fuel ih =>
    intro s s' t h
    cases t with
    | none => unfold TaskScheduler.executeTask; exact h
    | some task =>
      unfold TaskScheduler.executeTask
      rw [h.su_isExecuted task]
      split
      · exact h
      · rw [TaskScheduler.pendingDependencies_untimed h task]
        have hfold := TaskScheduler.foldlM_untimed
          (fun st dep => TaskScheduler.executeTask fuel st dep) ih
          (TaskScheduler.pendingDependencies s' task) s s' h
        cases h1 : (TaskScheduler.pendingDependencies s' task).foldlM
            (fun st dep => TaskScheduler.executeTask fuel st dep) s with
        | none =>
          cases h2 : (TaskScheduler.pendingDependencies s' task).foldlM
              (fun st dep => TaskScheduler.executeTask fuel st dep) s' with
          | none => trivial
          | some r' => rw [h1, h2] at hfold; exact hfold.elim
        | some r =>
          cases h2 : (TaskScheduler.pendingDependencies s' task).foldlM
              (fun st dep => TaskScheduler.executeTask fuel st dep) s' with
          | none => rw [h1, h2] at hfold; exact hfold.elim
          | some r' =>
            rw [h1, h2] at hfold
            exact TaskNode.executeOnce_untimed hfold task

theorem TaskScheduler.scheduler_execute_untimed (fuel : Nat) {s s' : Store} (h : s.SameUntimed s')
    (self : TaskScheduler) (outputId : TaskId) :
    Agree (fun r r' : DataPtr × Store => r.1 = r'.1 ∧ r.2.SameUntimed r'.2)
      (TaskScheduler.execute fuel s self outputId)
      (TaskScheduler.execute fuel s' self outputId) := by
  unfold TaskScheduler.execute
  cases self.getTask outputId with
  | none => exact ⟨rfl, h⟩
  | some t =>
    simp only
    have hexec := TaskScheduler.executeTask_untimed fuel s s' (some t) h
    cases h1 : TaskScheduler.executeTask fuel s (some t) with
    | none =>
      cases h2 : TaskScheduler.executeTask fuel s' (some t) with
      | none => trivial
      | some r' => rw [h1, h2] at hexec; exact hexec.elim
    | some r =>
      cases h2 : TaskScheduler.executeTask fuel s' (some t) with
      | none => rw [h1, h2] at hexec; exact hexec.elim
      | some r' =>
        rw [h1, h2] at hexec
        exact ⟨Store.SameUntimed.getResult hexec t, hexec⟩

/-- `PipelineBuilder::execute` in two stores that agree up to timing: both calls do not
return, or both return the same result and leave stores that agree up to timing. -/
theorem PipelineBuilder.builder_execute_untimed (fuel : Nat) {s s' : Store} (h : s.SameUntimed s')
    (b : PipelineBuilder) (outputId : TaskId) :
    Agree (fun r r' : DataPtr × Store => r.1 = r'.1 ∧ r.2.SameUntimed r'.2)
      (PipelineBuilder.execute fuel s b outputId) (PipelineBuilder.execute fuel s' b outputId) := by
  have hs0 : (if b.profilingEnabled then s.now.2 else s).SameUntimed
      (if b.profilingEnabled then s'.now.2 else s') := by
    split
    · exact h
    · exact h
  have hexec := TaskScheduler.scheduler_execute_untimed fuel hs0 b.scheduler outputId
  unfold PipelineBuilder.execute
  simp only
  cases h1 : TaskScheduler.execute fuel (if b.profilingEnabled then s.now.2 else s)
      b.scheduler outputId with
  | none =>
    cases h2 : TaskScheduler.execute fuel (if b.profilingEnabled then s'.now.2 else s')
        b.scheduler outputId with
    | none => trivial
    | some r' => rw [h1, h2] at hexec; exact hexec.elim
  | some r =>
    cases h2 : TaskScheduler.execute fuel (if b.profilingEnabled then s'.now.2 else s')
        b.scheduler outputId with
    | none => rw [h1, h2] at hexec; exact hexec.elim
    | some r' =>
      rw [h1, h2] at hexec
      obtain ⟨hr, hst⟩ := hexec
      refine ⟨hr, ?_⟩
      show (if b.profilingEnabled then r.2.now.2 else r.2).SameUntimed
        (if b.profilingEnabled then r'.2.now.2 else r'.2)
      split
      · exact hst
      · exact hst

/-! ## The processing loop with and without profiling -/

/-- The store in which the callback runs for an item. -/
theorem StreamingPipeline.SameUntimed.callbackStore {p q : StreamingPipeline}
    (h : p.SameUntimed q) :
    (if p.profilingEnabled then p.store.now.2 else p.store).SameUntimed
      (if q.profilingEnabled then q.store.now.2 else q.store) := by
  have hp : (if p.profilingEnabled then p.store.now.2 else p.store).SameUntimed p.store := by
    split
    · exact (Store.SameUntimed.su_of_nodes_eq rfl).su_symm
    · rfl
  have hq : (if q.profilingEnabled then q.store.now.2 else q.store).SameUntimed q.store := by
    split
    · exact (Store.SameUntimed.su_of_nodes_eq rfl).su_symm
    · rfl
  exact (hp.su_trans h.store).su_trans hq.su_symm

/-- The callback and `execute` for one item, in two pipelines that agree up to timing. -/
theorem StreamingPipeline.buildAndExecute_untimed {p q : StreamingPipeline}
    (h : p.SameUntimed q) (hdet : ∀ f, p.processor = some f → TimingIndependent f)
    {s s' : Store} (hs : s.SameUntimed s') (input : DataPtr) :
    Agree (fun r r' : Store × Option PipelineBuilder × ItemOutcome =>
        r.1.SameUntimed r'.1 ∧ r.2.1 = r'.2.1 ∧ r.2.2 = r'.2.2)
      (p.buildAndExecute s input) (q.buildAndExecute s' input) := by
  unfold StreamingPipeline.buildAndExecute
  rw [← h.processor, ← h.pipelineBuilder, ← h.outputNodeId]
  cases hproc : p.processor with
  | none => exact ⟨hs, rfl, rfl⟩
  | some f =>
    simp only
    cases p.pipelineBuilder with
    | none => trivial
    | some b =>
      simp only
      obtain ⟨hst, hbu, hth⟩ := hdet f hproc s s' b input p.outputNodeId hs
      rw [← hth, ← hbu]
      by_cases hthrew : (f s b input p.outputNodeId).threw = true
      · rw [if_pos hthrew, if_pos hthrew]
        exact ⟨hst, rfl, rfl⟩
      · rw [if_neg hthrew, if_neg hthrew, ← hst.length_eq]
        have hexec := PipelineBuilder.builder_execute_untimed
          (f s b input p.outputNodeId).store.nodes.length hst
          (f s b input p.outputNodeId).builder p.outputNodeId
        cases h1 : PipelineBuilder.execute (f s b input p.outputNodeId).store.nodes.length
            (f s b input p.outputNodeId).store (f s b input p.outputNodeId).builder
            p.outputNodeId with
        | none =>
          cases h2 : PipelineBuilder.execute (f s b input p.outputNodeId).store.nodes.length
              (f s' b input p.outputNodeId).store (f s b input p.outputNodeId).builder
              p.outputNodeId with
          | none => trivial
          | some r' => rw [h1, h2] at hexec; exact hexec.elim
        | some r =>
          cases h2 : PipelineBuilder.execute (f s b input p.outputNodeId).store.nodes.length
              (f s' b input p.outputNodeId).store (f s b input p.outputNodeId).builder
              p.outputNodeId with
          | none => rw [h1, h2] at hexec; exact hexec.elim
          | some r' =>
            rw [h1, h2] at hexec
            obtain ⟨hr, hst2⟩ := hexec
            exact ⟨hst2, rfl, by rw [hr]⟩

/-- What processing one item leaves, in terms of the callback and `execute`: the pipeline
with the store of that call (up to timing), the builder, the result pushed and counted or
the exception counted, and nothing else changed but timing statistics. -/
theorem StreamingPipeline.processItem_cases (p : StreamingPipeline) (input : DataPtr) :
    (p.buildAndExecute (if p.profilingEnabled then p.store.now.2 else p.store) input = none ∧
      p.processItem input = none) ∨
    ∃ s1 builder outcome p',
      p.buildAndExecute (if p.profilingEnabled then p.store.now.2 else p.store) input
        = some (s1, builder, outcome) ∧
      p.processItem input = some p' ∧
      p'.SameUntimed
        { p with store := s1, pipelineBuilder := builder,
                 outputQueue := { queue := p.outputQueue.queue ++ outcome.output.toList },
                 processedItems := p.processedItems + outcome.output.toList.length,
                 errorCount := p.errorCount + (if outcome.isException then 1 else 0) } := by
  unfold StreamingPipeline.processItem
  have hs0 : (if p.profilingEnabled then p.store.now else (0, p.store)).2
      = (if p.profilingEnabled then p.store.now.2 else p.store) := by
    split <;> rfl
  generalize hst : (if p.profilingEnabled then p.store.now else (0, p.store)) = st at hs0
  obtain ⟨startProcess, s0⟩ := st
  simp only at hs0
  rw [← hs0]
  simp only
  cases hbe : p.buildAndExecute s0 input with
  | none => left; exact ⟨rfl, rfl⟩
  | some r =>
    obtain ⟨s1, builder, outcome⟩ := r
    right
    cases outcome with
    | exception =>
      refine ⟨s1, builder, ItemOutcome.exception, _, rfl, rfl, ?_⟩
      exact ⟨rfl, rfl, rfl, rfl, by simp [ItemOutcome.output], rfl, rfl, rfl, rfl, rfl, rfl,
        by simp [ItemOutcome.output], by simp [ItemOutcome.isException]⟩
    | result result =>
      simp only
      by_cases hp : p.profilingEnabled = true
      · simp only [hp, if_true]
        refine ⟨s1, builder, ItemOutcome.result result, _, rfl, rfl, ?_⟩
        cases result with
        | none =>
          exact ⟨(Store.SameUntimed.su_of_nodes_eq rfl).su_symm, rfl, rfl, rfl,
            by simp [StreamingPipeline.handleResult, ItemOutcome.output], rfl, rfl, rfl, rfl,
            rfl, rfl, by simp [StreamingPipeline.handleResult, ItemOutcome.output],
            by simp [StreamingPipeline.handleResult, ItemOutcome.isException]⟩
        | some v =>
          exact ⟨(Store.SameUntimed.su_of_nodes_eq rfl).su_symm, rfl, rfl, rfl,
            by simp [StreamingPipeline.handleResult, ItemOutcome.output,
              threadsafe_queue.push], rfl, rfl, rfl, rfl,
            rfl, rfl, by simp [StreamingPipeline.handleResult, ItemOutcome.output],
            by simp [StreamingPipeline.handleResult, ItemOutcome.isException]⟩
      · simp only [hp, Bool.false_eq_true, if_false]
        refine ⟨s1, builder, ItemOutcome.result result, _, rfl, rfl, ?_⟩
        cases result with
        | none =>
          exact ⟨rfl, rfl, rfl, rfl,
            by simp [StreamingPipeline.handleResult, ItemOutcome.output], rfl, rfl, rfl, rfl,
            rfl, rfl, by simp [StreamingPipeline.handleResult, ItemOutcome.output],
            by simp [StreamingPipeline.handleResult, ItemOutcome.isException]⟩
        | some v =>
          exact ⟨rfl, rfl, rfl, rfl,
            by simp [StreamingPipeline.handleResult, ItemOutcome.output,
              threadsafe_queue.push], rfl, rfl, rfl, rfl,
            rfl, rfl, by simp [StreamingPipeline.handleResult, ItemOutcome.output],
            by simp [StreamingPipeline.handleResult, ItemOutcome.isException]⟩

theorem StreamingPipeline.SameUntimed.sp_refl (p : StreamingPipeline) : p.SameUntimed p :=
  ⟨rfl, rfl, rfl, rfl, rfl, rfl, rfl, rfl, rfl, rfl, rfl, rfl, rfl⟩

theorem StreamingPipeline.SameUntimed.sp_symm {p q : StreamingPipeline} (h : p.SameUntimed q) :
    q.SameUntimed p :=
  ⟨h.store.su_symm, h.pipelineBuilder.symm, h.inputQueue.symm, h.input_active.symm,
    h.outputQueue.symm, h.output_active.symm, h.processor.symm, h.outputNodeId.symm,
    h.threadJoinable.symm, h.running.symm, h.queueMaxSize.symm, h.processedItems.symm,
    h.errorCount.symm⟩

theorem StreamingPipeline.SameUntimed.sp_trans {p q r : StreamingPipeline}
    (h : p.SameUntimed q) (h' : q.SameUntimed r) : p.SameUntimed r :=
  ⟨h.store.su_trans h'.store, h.pipelineBuilder.trans h'.pipelineBuilder,
    h.inputQueue.trans h'.inputQueue, h.input_active.trans h'.input_active,
    h.outputQueue.trans h'.outputQueue, h.output_active.trans h'.output_active,
    h.processor.trans h'.processor, h.outputNodeId.trans h'.outputNodeId,
    h.threadJoinable.trans h'.threadJoinable, h.running.trans h'.running,
    h.queueMaxSize.trans h'.queueMaxSize, h.processedItems.trans h'.processedItems,
    h.errorCount.trans h'.errorCount⟩

theorem Agree.none_left {α : Type} {R : α → α → Prop} {b : Option α}
    (h : Agree R none b) : b = none := by
  cases b with
  | none => rfl
  | some x => exact h.elim

theorem Agree.some_left {α : Type} {R : α → α → Prop} {a : α} {b : Option α}
    (h : Agree R (some a) b) : ∃ x, b = some x ∧ R a x := by
  cases b with
  | none => exact h.elim
  | some x => exact ⟨x, rfl, h⟩

/-- Processing one item in two pipelines that agree up to timing, whatever their profiling
flags. -/
theorem StreamingPipeline.processItem_untimed {p q : StreamingPipeline}
    (h : p.SameUntimed q) (hdet : ∀ f, p.processor = some f → TimingIndependent f)
    (input : DataPtr) :
    Agree StreamingPipeline.SameUntimed (p.processItem input) (q.processItem input) := by
  have hbe := StreamingPipeline.buildAndExecute_untimed h hdet h.callbackStore input
  rcases StreamingPipeline.processItem_cases p input with ⟨hb1, hp1⟩ |
    ⟨s1, b1, o1, p', hb1, hp1, hv1⟩
  · rw [hb1] at hbe
    have hb2 := hbe.none_left
    rcases StreamingPipeline.processItem_cases q input with ⟨_, hq1⟩ | ⟨_, _, _, _, hb3, _, _⟩
    · rw [hp1, hq1]; trivial
    · rw [hb2] at hb3; cases hb3
  · rw [hb1] at hbe
    obtain ⟨r2, hb2, hst, hbu, hout⟩ := hbe.some_left
    rcases StreamingPipeline.processItem_cases q input with ⟨hb3, _⟩ |
      ⟨s2, b2, o2, q', hb3, hq1, hv2⟩
    · rw [hb2] at hb3; cases hb3
    · rw [hb2] at hb3
      simp only [Option.some.injEq] at hb3
      subst hb3
      simp only at hst hbu hout
      rw [hp1, hq1]
      refine (hv1.sp_trans ?_).sp_trans hv2.sp_symm
      exact ⟨hst, hbu, h.inputQueue, h.input_active,
        by simp only [h.outputQueue, hout], h.output_active, h.processor, h.outputNodeId,
        h.threadJoinable, h.running, h.queueMaxSize,
        by simp only [h.processedItems, hout], by simp only [h.errorCount, hout]⟩

theorem StreamingPipeline.loopBody_untimed {p q : StreamingPipeline}
    (h : p.SameUntimed q) (hdet : ∀ f, p.processor = some f → TimingIndependent f) :
    Agree StreamingPipeline.SameUntimed p.loopBody q.loopBody := by
  unfold StreamingPipeline.loopBody threadsafe_queue.try_pop
  rw [← h.inputQueue]
  cases hq : p.inputQueue.queue with
  | nil => exact h
  | cons input rest =>
    simp only
    exact StreamingPipeline.processItem_untimed
      (show StreamingPipeline.SameUntimed { p with inputQueue := { queue := rest } }
        { q with inputQueue := { queue := rest } } from
        ⟨h.store, h.pipelineBuilder, rfl, h.input_active, h.outputQueue, h.output_active,
          h.processor, h.outputNodeId, h.threadJoinable, h.running, h.queueMaxSize,
          h.processedItems, h.errorCount⟩) hdet input

theorem StreamingPipeline.processingLoop_untimed (fuel : Nat) :
    ∀ {p q : StreamingPipeline}, p.SameUntimed q →
      (∀ f, p.processor = some f → TimingIndependent f) →
      Agree StreamingPipeline.SameUntimed (StreamingPipeline.processingLoop fuel p)
        (StreamingPipeline.processingLoop fuel q) := by
  induction fuel with
  | zero =>
    intro p q h _
    unfold StreamingPipeline.processingLoop
    rw [← h.running, ← h.inputQueue]
    split
    · trivial
    · exact ⟨h.store, h.pipelineBuilder, rfl, h.input_active, h.outputQueue, rfl,
        h.processor, h.outputNodeId, h.threadJoinable, rfl, h.queueMaxSize,
        h.processedItems, h.errorCount⟩
  | succ fuel ih =>
    intro p q h hdet
    unfold StreamingPipeline.processingLoop
    rw [← h.running, ← h.inputQueue]
    split
    · have hbody := StreamingPipeline.loopBody_untimed h hdet
      cases h1 : p.loopBody with
      | none =>
        rw [h1] at hbody
        rw [hbody.none_left]
        trivial
      | some p1 =>
        rw [h1] at hbody
        obtain ⟨q1, h2, hv⟩ := hbody.some_left
        rw [h2]
        simp only
        apply ih hv
        intro f hf
        exact hdet f (by rw [← (StreamingPipeline.loopBody_processed p p1 h1).processor]; exact hf)
    · exact ⟨h.store, h.pipelineBuilder, rfl, h.input_active, h.outputQueue, rfl,
        h.processor, h.outputNodeId, h.threadJoinable, rfl, h.queueMaxSize,
        h.processedItems, h.errorCount⟩

/-- The statements of `stop()` on a running pipeline, in order. -/
theorem StreamingPipeline.stop_running (p : StreamingPipeline) (hr : p.running = true) :
    p.stop =
      (if p.threadJoinable = true then
        (StreamingPipeline.processingLoop p.inputQueue.size
          { p with running := false, input_active := false }).map
          fun p2 => { p2 with threadJoinable := false }
      else some { p with running := false, input_active := false }).map
      fun p2 =>
        if p2.profilingEnabled = true then
          { p2 with output_active := false, pipelineBuilder := none, store := p2.store.now.2 }
        else { p2 with output_active := false, pipelineBuilder := none } := by
  unfold StreamingPipeline.stop
  simp only [hr, Bool.not_true, Bool.false_eq_true, if_false]
  by_cases ht : p.threadJoinable = true
  · simp only [if_pos ht]
    cases StreamingPipeline.processingLoop (threadsafe_queue.size p.inputQueue)
        { p with running := false, input_active := false } with
    | none => rfl
    | some p2 => rfl
  · simp only [if_neg ht]
    rfl

theorem StreamingPipeline.stop_untimed {p q : StreamingPipeline}
    (h : p.SameUntimed q) (hdet : ∀ f, p.processor = some f → TimingIndependent f) :
    Agree StreamingPipeline.SameUntimed p.stop q.stop := by
  by_cases hr : p.running = true
  · have hrq : q.running = true := h.running ▸ hr
    rw [StreamingPipeline.stop_running p hr, StreamingPipeline.stop_running q hrq]
    have h1 : StreamingPipeline.SameUntimed { p with running := false, input_active := false }
        { q with running := false, input_active := false } :=
      ⟨h.store, h.pipelineBuilder, h.inputQueue, rfl, h.outputQueue, h.output_active,
        h.processor, h.outputNodeId, h.threadJoinable, rfl, h.queueMaxSize, h.processedItems,
        h.errorCount⟩
    have hfinal : ∀ p2 q2 : StreamingPipeline, p2.SameUntimed q2 →
        StreamingPipeline.SameUntimed
          (if p2.profilingEnabled = true then
            { p2 with output_active := false, pipelineBuilder := none,
                      store := p2.store.now.2 }
          else { p2 with output_active := false, pipelineBuilder := none })
          (if q2.profilingEnabled = true then
            { q2 with output_active := false, pipelineBuilder := none,
                      store := q2.store.now.2 }
          else { q2 with output_active := false, pipelineBuilder := none }) := by
      intro p2 q2 h2
      have hp : ∀ r : StreamingPipeline, StreamingPipeline.SameUntimed
          (if r.profilingEnabled = true then
            { r with output_active := false, pipelineBuilder := none,
                     store := r.store.now.2 }
          else { r with output_active := false, pipelineBuilder := none })
          { r with output_active := false, pipelineBuilder := none } := by
        intro r
        split
        · exact ⟨(Store.SameUntimed.su_of_nodes_eq rfl).su_symm, rfl, rfl, rfl, rfl, rfl, rfl, rfl,
            rfl, rfl, rfl, rfl, rfl⟩
        · exact StreamingPipeline.SameUntimed.sp_refl _
      refine ((hp p2).sp_trans ?_).sp_trans (hp q2).sp_symm
      exact ⟨h2.store, rfl, h2.inputQueue, h2.input_active, h2.outputQueue, rfl, h2.processor,
        h2.outputNodeId, h2.threadJoinable, h2.running, h2.queueMaxSize, h2.processedItems,
        h2.errorCount⟩
    by_cases ht : p.threadJoinable = true
    · have htq : q.threadJoinable = true := h.threadJoinable ▸ ht
      rw [if_pos ht, if_pos htq]
      have hsize : q.inputQueue.size = p.inputQueue.size := by rw [h.inputQueue]
      rw [hsize]
      have hloop := StreamingPipeline.processingLoop_untimed p.inputQueue.size h1 hdet
      cases hl1 : StreamingPipeline.processingLoop p.inputQueue.size
          { p with running := false, input_active := false } with
      | none =>
        rw [hl1] at hloop
        rw [hloop.none_left]
        trivial
      | some p2 =>
        rw [hl1] at hloop
        obtain ⟨q2, hl2, hv⟩ := hloop.some_left
        rw [hl2]
        exact hfinal { p2 with threadJoinable := false } { q2 with threadJoinable := false }
          ⟨hv.store, hv.pipelineBuilder, hv.inputQueue, hv.input_active, hv.outputQueue,
            hv.output_active, hv.processor, hv.outputNodeId, rfl, hv.running, hv.queueMaxSize,
            hv.processedItems, hv.errorCount⟩
    · have htq : ¬ q.threadJoinable = true := fun e => ht (h.threadJoinable ▸ e)
      rw [if_neg ht, if_neg htq]
      exact hfinal _ _ h1
  · have hrq : ¬ q.running = true := fun e => hr (h.running ▸ e)
    unfold StreamingPipeline.stop
    simp only [hr, hrq, Bool.not_false, if_true]
    exact h

/-- One action on two pipelines that agree up to timing. -/
theorem StreamingPipeline.step_untimed {p q : StreamingPipeline}
    (h : p.SameUntimed q) (hdet : ∀ f, p.processor = some f → TimingIndependent f)
    (a : Action) :
    Agree StreamingPipeline.SameUntimed (p.step a) (q.step a) := by
  cases a with
  | start =>
    simp only [StreamingPipeline.step, StreamingPipeline.start]
    rw [← h.running, ← h.processor]
    by_cases hr : p.running = true
    · simp only [hr, if_true]; exact h
    · simp only [hr, Bool.false_eq_true, if_false]
      cases p.processor with
      | none => exact h
      | some f =>
        exact ⟨(Store.SameUntimed.su_of_nodes_eq rfl).su_symm.su_trans
            (h.store.su_trans (Store.SameUntimed.su_of_nodes_eq rfl)),
          h.pipelineBuilder, h.inputQueue, rfl, h.outputQueue, rfl, rfl, h.outputNodeId, rfl,
          rfl, h.queueMaxSize, rfl, rfl⟩
  | stop => exact StreamingPipeline.stop_untimed h hdet
  | setProcessor processor =>
    simp only [StreamingPipeline.step, StreamingPipeline.setProcessor]
    rw [← h.running]
    by_cases hr : p.running = true
    · simp only [hr, if_true]; exact h
    · simp only [hr, Bool.false_eq_true, if_false]
      exact ⟨h.store, h.pipelineBuilder, h.inputQueue, h.input_active, h.outputQueue,
        h.output_active, rfl, h.outputNodeId, h.threadJoinable, rfl, h.queueMaxSize,
        h.processedItems, h.errorCount⟩
  | setOutputNodeId outputId =>
    simp only [StreamingPipeline.step, StreamingPipeline.setOutputNodeId]
    rw [← h.running]
    by_cases hr : p.running = true
    · simp only [hr, if_true]; exact h
    · simp only [hr, Bool.false_eq_true, if_false]
      exact ⟨h.store, h.pipelineBuilder, h.inputQueue, h.input_active, h.outputQueue,
        h.output_active, h.processor, rfl, h.threadJoinable, rfl, h.queueMaxSize,
        h.processedItems, h.errorCount⟩
  | enableProfiling enable =>
    exact ⟨h.store, h.pipelineBuilder, h.inputQueue, h.input_active, h.outputQueue,
      h.output_active, h.processor, h.outputNodeId, h.threadJoinable, h.running,
      h.queueMaxSize, h.processedItems, h.errorCount⟩
  | addInput data =>
    simp only [StreamingPipeline.step, StreamingPipeline.addInput]
    cases data with
    | none => exact h
    | some v =>
      simp only
      have c1 : (decide (q.inputQueue.size ≥ q.queueMaxSize) && q.input_active)
          = (decide (p.inputQueue.size ≥ p.queueMaxSize) && p.input_active) := by
        rw [h.inputQueue, h.queueMaxSize, h.input_active]
      rw [c1]
      by_cases hc : (decide (p.inputQueue.size ≥ p.queueMaxSize) && p.input_active) = true
      · simp only [if_pos hc]
        exact h
      · simp only [if_neg hc]
        by_cases ha : p.input_active = true
        · have haq : q.input_active = true := h.input_active ▸ ha
          simp only [if_pos ha, if_pos haq]
          exact ⟨h.store, h.pipelineBuilder, by simp only [h.inputQueue], h.input_active,
            h.outputQueue, h.output_active, h.processor, h.outputNodeId, h.threadJoinable,
            h.running, h.queueMaxSize, h.processedItems, h.errorCount⟩
        · have haq : ¬ q.input_active = true := fun e => ha (h.input_active ▸ e)
          simp only [if_neg ha, if_neg haq]
          exact h
  | tryGetOutput =>
    simp only [StreamingPipeline.step, StreamingPipeline.tryGetOutput]
    rw [← h.outputQueue]
    exact ⟨h.store, h.pipelineBuilder, h.inputQueue, h.input_active, rfl,
      h.output_active, h.processor, h.outputNodeId, h.threadJoinable, h.running,
      h.queueMaxSize, h.processedItems, h.errorCount⟩
  | loopIteration =>
    simp only [StreamingPipeline.step]
    rw [← h.running, ← h.threadJoinable]
    split
    · exact StreamingPipeline.loopBody_untimed h hdet
    · exact h

theorem StreamingPipeline.loopBody_keeps (p p' : StreamingPipeline) (h : p.loopBody = some p') :
    p'.processor = p.processor ∧ p'.profilingEnabled = p.profilingEnabled := by
  unfold StreamingPipeline.loopBody threadsafe_queue.try_pop at h
  cases hq : p.inputQueue.queue with
  | nil =>
    rw [hq] at h
    simp only [Option.some.injEq] at h
    subst h
    exact ⟨rfl, rfl⟩
  | cons input rest =>
    rw [hq] at h
    simp only at h
    obtain ⟨_, _, _, _, _, _, _, _, _, _, _, _, _, h1, h2⟩ :=
      StreamingPipeline.processItem_spec _ p' input h
    exact ⟨h1, h2⟩

theorem StreamingPipeline.processingLoop_keeps (fuel : Nat) :
    ∀ p p' : StreamingPipeline, StreamingPipeline.processingLoop fuel p = some p' →
      p'.processor = p.processor ∧ p'.profilingEnabled = p.profilingEnabled := by
  induction fuel with
  | zero =>
    intro p p' h
    unfold StreamingPipeline.processingLoop at h
    split at h
    · cases h
    · simp only [Option.some.injEq] at h
      subst h
      exact ⟨rfl, rfl⟩
  | succ fuel ih =>
    intro p p' h
    unfold StreamingPipeline.processingLoop at h
    split at h
    · cases hb : p.loopBody with
      | none => rw [hb] at h; cases h
      | some p1 =>
        rw [hb] at h
        obtain ⟨a1, a2⟩ := StreamingPipeline.loopBody_keeps p p1 hb
        obtain ⟨b1, b2⟩ := ih p1 p' h
        exact ⟨b1.trans a1, b2.trans a2⟩
    · simp only [Option.some.injEq] at h
      subst h
      exact ⟨rfl, rfl⟩

theorem StreamingPipeline.stop_keeps (p p' : StreamingPipeline) (h : p.stop = some p') :
    p'.processor = p.processor ∧ p'.profilingEnabled = p.profilingEnabled := by
  by_cases hr : p.running = true
  · rw [StreamingPipeline.stop_running p hr] at h
    have hfinal : ∀ p2 : StreamingPipeline,
        (if p2.profilingEnabled = true then
          { p2 with output_active := false, pipelineBuilder := none, store := p2.store.now.2 }
        else { p2 with output_active := false, pipelineBuilder := none }).processor
          = p2.processor ∧
        (if p2.profilingEnabled = true then
          { p2 with output_active := false, pipelineBuilder := none, store := p2.store.now.2 }
        else { p2 with output_active := false, pipelineBuilder := none }).profilingEnabled
          = p2.profilingEnabled := by
      intro p2
      split <;> exact ⟨rfl, rfl⟩
    by_cases ht : p.threadJoinable = true
    · rw [if_pos ht] at h
      cases hl : StreamingPipeline.processingLoop p.inputQueue.size
          { p with running := false, input_active := false } with
      | none => rw [hl] at h; cases h
      | some p2 =>
        rw [hl] at h
        simp only [Option.map_some', Option.some.injEq] at h
        obtain ⟨a1, a2⟩ := StreamingPipeline.processingLoop_keeps _ _ p2 hl
        obtain ⟨b1, b2⟩ := hfinal { p2 with threadJoinable := false }
        rw [← h]
        exact ⟨b1.trans a1, b2.trans a2⟩
    · rw [if_neg ht] at h
      simp only [Option.map_some', Option.some.injEq] at h
      obtain ⟨b1, b2⟩ := hfinal { p with running := false, input_active := false }
      rw [← h]
      exact ⟨b1, b2⟩
  · unfold StreamingPipeline.stop at h
    simp only [hr, Bool.not_false, if_true, Option.some.injEq] at h
    subst h
    exact ⟨rfl, rfl⟩

/-- Only `setProcessor` and `enableProfiling` change the callback and the profiling flag. -/
theorem StreamingPipeline.step_keeps (p p' : StreamingPipeline) (a : Action)
    (hs : p.step a = some p') (ha : a.keepsConfiguration = true) :
    p'.processor = p.processor ∧ p'.profilingEnabled = p.profilingEnabled := by
  cases a with
  | start =>
    simp only [StreamingPipeline.step, StreamingPipeline.start] at hs
    by_cases hr : p.running = true
    · simp only [hr, if_true, Option.some.injEq] at hs
      subst hs
      exact ⟨rfl, rfl⟩
    · simp only [hr, Bool.false_eq_true, if_false] at hs
      cases hp : p.processor with
      | none =>
        rw [hp] at hs
        simp only [Option.some.injEq] at hs
        subst hs
        exact ⟨hp.symm ▸ rfl, rfl⟩
      | some f =>
        rw [hp] at hs
        simp only [Option.some.injEq] at hs
        subst hs
        exact ⟨hp.symm ▸ rfl, rfl⟩
  | stop => exact StreamingPipeline.stop_keeps p p' hs
  | setProcessor processor => cases ha
  | setOutputNodeId outputId =>
    simp only [StreamingPipeline.step, StreamingPipeline.setOutputNodeId] at hs
    by_cases hr : p.running = true
    · simp only [hr, if_true, Option.some.injEq] at hs
      subst hs
      exact ⟨rfl, rfl⟩
    · simp only [hr, Bool.false_eq_true, if_false, Option.some.injEq] at hs
      subst hs
      exact ⟨rfl, rfl⟩
  | enableProfiling enable => cases ha
  | addInput data =>
    simp only [StreamingPipeline.step] at hs
    rcases StreamingPipeline.addInput_cases p data with h | h | ⟨h, _⟩ <;>
      rw [h] at hs <;> simp only [Option.some.injEq] at hs <;> subst hs <;> exact ⟨rfl, rfl⟩
  | tryGetOutput =>
    simp only [StreamingPipeline.step, Option.some.injEq] at hs
    subst hs
    exact ⟨rfl, rfl⟩
  | loopIteration =>
    simp only [StreamingPipeline.step] at hs
    split at hs
    · exact StreamingPipeline.loopBody_keeps p p' hs
    · simp only [Option.some.injEq] at hs
      subst hs
      exact ⟨rfl, rfl⟩

/-- A run of two pipelines that agree up to timing, under the same actions. -/
theorem StreamingPipeline.run_untimed (actions : List Action) :
    ∀ {p q : StreamingPipeline}, p.SameUntimed q →
      (∀ f, p.processor = some f → TimingIndependent f) →
      (∀ a ∈ actions, a.keepsConfiguration = true) →
      Agree StreamingPipeline.SameUntimed (p.run actions) (q.run actions) ∧
      (∀ p', p.run actions = some p' → p'.profilingEnabled = p.profilingEnabled) ∧
      (∀ q', q.run actions = some q' → q'.profilingEnabled = q.profilingEnabled) := by
  induction actions with
  | nil =>
    intro p q h _ _
    refine ⟨h, ?_, ?_⟩
    · intro p' hp; simp only [StreamingPipeline.run, Option.some.injEq] at hp; rw [← hp]
    · intro q' hq; simp only [StreamingPipeline.run, Option.some.injEq] at hq; rw [← hq]
  | cons a rest ih =>
    intro p q h hdet hcfg
    have ha := hcfg a (List.mem_cons_self _ _)
    have hstep := StreamingPipeline.step_untimed h hdet a
    unfold StreamingPipeline.run
    cases h1 : p.step a with
    | none =>
      rw [h1] at hstep
      rw [hstep.none_left]
      refine ⟨trivial, ?_, ?_⟩
      · intro p' e; simp at e
      · intro q' e; simp at e
    | some p1 =>
      rw [h1] at hstep
      obtain ⟨q1, h2, hv⟩ := hstep.some_left
      rw [h2]
      simp only
      obtain ⟨k1, k2⟩ := StreamingPipeline.step_keeps p p1 a h1 ha
      obtain ⟨_, k4⟩ := StreamingPipeline.step_keeps q q1 a h2 ha
      obtain ⟨r1, r2, r3⟩ := ih hv (fun f hf => hdet f (by rw [← k1]; exact hf))
        (fun b hb => hcfg b (List.mem_cons_of_mem _ hb))
      exact ⟨r1, fun p' hp => (r2 p' hp).trans k2, fun q' hq => (r3 q' hq).trans k4⟩

/-- C23. For every input sequence and every deterministic callback, the processing loop
produces the same output-queue contents, the same `processedItems` and the same `errorCount`
with profiling enabled as with profiling disabled.  From any pipeline state, with a callback
that does not depend on the clock, and under any sequence of actions of the threads that
changes neither the callback nor the profiling flag (calls of `start`, `stop`, `addInput`,
`tryGetOutput`, `setOutputNodeId`, passes of the processing loop): the run with profiling
enabled returns exactly when the run with profiling disabled does, the flag stays enabled in
the one and disabled in the other, and the two final states agree in the output queue, the
input queue, `processedItems`, `errorCount`, the flags `running`, `inputActive`,
`outputActive`, the builder, and the nodes up to their recorded times; only the timing
statistics and the clock can differ. -/
theorem profiling_changes_timing_only (p : StreamingPipeline) (actions : List Action)
    (hdet : ∀ f, p.processor = some f → TimingIndependent f)
    (hcfg : ∀ a ∈ actions, a.keepsConfiguration = true) :
    (((p.enableProfiling true).run actions).isSome
      = ((p.enableProfiling false).run actions).isSome) ∧
    ∀ r r' : StreamingPipeline, (p.enableProfiling true).run actions = some r →
      (p.enableProfiling false).run actions = some r' →
      r.profilingEnabled = true ∧ r'.profilingEnabled = false ∧
      r.outputQueue = r'.outputQueue ∧ r.processedItems = r'.processedItems ∧
      r.errorCount = r'.errorCount ∧ r.SameUntimed r' := by
  have hv : (p.enableProfiling true).SameUntimed (p.enableProfiling false) :=
    ⟨rfl, rfl, rfl, rfl, rfl, rfl, rfl, rfl, rfl, rfl, rfl, rfl, rfl⟩
  obtain ⟨h1, h2, h3⟩ := StreamingPipeline.run_untimed actions hv hdet hcfg
  cases hr : (p.enableProfiling true).run actions with
  | none =>
    rw [hr] at h1
    rw [h1.none_left]
    exact ⟨rfl, fun _ _ e => by cases e⟩
  | some r =>
    rw [hr] at h1
    obtain ⟨r', hr', hrel⟩ := h1.some_left
    rw [hr']
    refine ⟨rfl, ?_⟩
    intro x x' ex ex'
    cases ex
    cases ex'
    exact ⟨h2 r hr, h3 r' hr', hrel.outputQueue, hrel.processedItems, hrel.errorCount, hrel⟩

/-! ## Callbacks that only call the builder are deterministic -/

theorem Store.SameUntimed.getId {s s' : Store} (h : s.SameUntimed s') (r : NodeRef) :
    TaskNode.getId s r = TaskNode.getId s' r := by
  have := h.read (fun n => n.id) (fun _ => rfl) r
  unfold TaskNode.getId
  cases h1 : s.nodes[r]? <;> cases h2 : s'.nodes[r]? <;> rw [h1, h2] at this <;>
    simp_all

theorem Store.SameUntimed.su_append {s s' t t' : Store} (h : s.SameUntimed s') (m : TaskNode)
    (ht : t.nodes = s.nodes ++ [m]) (ht' : t'.nodes = s'.nodes ++ [m]) : t.SameUntimed t' := by
  unfold Store.SameUntimed at h ⊢
  rw [ht, ht', List.map_append, List.map_append, h]

theorem PipelineBuilder.addInput_untimed {s s' : Store} (h : s.SameUntimed s')
    (b : PipelineBuilder) (id : TaskId) (data : DataPtr) :
    (PipelineBuilder.addInput s b id data).1.SameUntimed
      (PipelineBuilder.addInput s' b id data).1 ∧
    (PipelineBuilder.addInput s b id data).2.1 = (PipelineBuilder.addInput s' b id data).2.1 ∧
    (PipelineBuilder.addInput s b id data).2.2 = (PipelineBuilder.addInput s' b id data).2.2 := by
  obtain ⟨a1, a2, _⟩ := PipelineBuilder.addInput_spec s b id data
  obtain ⟨b1, b2, _⟩ := PipelineBuilder.addInput_spec s' b id data
  have hst := h.su_append _ a1 b1
  have hh : (PipelineBuilder.addInput s b id data).2.2
      = (PipelineBuilder.addInput s' b id data).2.2 := by
    rw [a2, b2, h.length_eq]
  refine ⟨hst, ?_, hh⟩
  have e1 : (PipelineBuilder.addInput s b id data).2.1
      = PipelineBuilder.mk (TaskScheduler.addTask (PipelineBuilder.addInput s b id data).1 b.scheduler
          (some (PipelineBuilder.addInput s b id data).2.2)) b.profilingEnabled := rfl
  have e2 : (PipelineBuilder.addInput s' b id data).2.1
      = PipelineBuilder.mk (TaskScheduler.addTask (PipelineBuilder.addInput s' b id data).1 b.scheduler
          (some (PipelineBuilder.addInput s' b id data).2.2)) b.profilingEnabled := rfl
  rw [e1, e2, hh]
  simp only [TaskScheduler.addTask, hst.getId]

theorem PipelineBuilder.addTask_untimed {s s' : Store} (h : s.SameUntimed s')
    (b : PipelineBuilder) (id : TaskId) (func : ProcessFunction) (inputs : List NodePtr) :
    (PipelineBuilder.addTask s b id func inputs).1.SameUntimed
      (PipelineBuilder.addTask s' b id func inputs).1 ∧
    (PipelineBuilder.addTask s b id func inputs).2.1
      = (PipelineBuilder.addTask s' b id func inputs).2.1 ∧
    (PipelineBuilder.addTask s b id func inputs).2.2
      = (PipelineBuilder.addTask s' b id func inputs).2.2 := by
  obtain ⟨a1, a2, _⟩ := PipelineBuilder.addTask_spec s b id func inputs
  obtain ⟨b1, b2, _⟩ := PipelineBuilder.addTask_spec s' b id func inputs
  have hst := h.su_append _ a1 b1
  have hh : (PipelineBuilder.addTask s b id func inputs).2.2
      = (PipelineBuilder.addTask s' b id func inputs).2.2 := by
    rw [a2, b2, h.length_eq]
  refine ⟨hst, ?_, hh⟩
  have e1 : (PipelineBuilder.addTask s b id func inputs).2.1
      = PipelineBuilder.mk (TaskScheduler.addTask (PipelineBuilder.addTask s b id func inputs).1 b.scheduler
          (some (PipelineBuilder.addTask s b id func inputs).2.2)) b.profilingEnabled := rfl
  have e2 : (PipelineBuilder.addTask s' b id func inputs).2.1
      = PipelineBuilder.mk (TaskScheduler.addTask (PipelineBuilder.addTask s' b id func inputs).1 b.scheduler
          (some (PipelineBuilder.addTask s' b id func inputs).2.2)) b.profilingEnabled := rfl
  rw [e1, e2, hh]
  simp only [TaskScheduler.addTask, hst.getId]

theorem BuildStep.foldl_untimed (steps : List BuildStep) :
    ∀ (s s' : Store) (b : PipelineBuilder) (handles : List NodeRef), s.SameUntimed s' →
      (steps.foldl BuildStep.run (s, b, handles)).1.SameUntimed
        (steps.foldl BuildStep.run (s', b, handles)).1 ∧
      (steps.foldl BuildStep.run (s, b, handles)).2
        = (steps.foldl BuildStep.run (s', b, handles)).2 := by
  induction steps with
  | nil => intro s s' b handles h; exact ⟨h, rfl⟩
  | cons step rest ih =>
    intro s s' b handles h
    simp only [List.foldl_cons]
    cases step with
    | addInput id data =>
      obtain ⟨h1, h2, h3⟩ := PipelineBuilder.addInput_untimed h b id data
      simp only [BuildStep.run]
      rw [← h2, ← h3]
      exact ih _ _ _ _ h1
    | addTask id func inputs =>
      obtain ⟨h1, h2, h3⟩ := PipelineBuilder.addTask_untimed h b id func
        (inputs.map fun k => handles[k]?)
      simp only [BuildStep.run]
      rw [← h2, ← h3]
      exact ih _ _ _ _ h1

/-- A callback that only calls the builder does not depend on the clock. -/
theorem GraphProgram.callback_timingIndependent
    (program : DataPtr → TaskId → List BuildStep) :
    TimingIndependent (GraphProgram.callback program) := by
  intro s s' b input outputId h
  obtain ⟨h1, h2⟩ := BuildStep.foldl_untimed (program input outputId) s s' b [] h
  exact ⟨h1, congrArg Prod.fst h2, rfl⟩

/-- Witness for C23: scenario S3, whose function throws on the item 2, from the configured
pipeline to the return of `stop()`: with profiling enabled and with profiling disabled the
outputs are 1 and 3, `processedItems` is 2 and `errorCount` is 0; only the statistics differ. -/
theorem profiling_changes_timing_only_witness :
    ((((Scenario.configured 10 (GraphProgram.callback Scenario.s3Program)).enableProfiling
        true).run Scenario.s3Session).isSome
      = (((Scenario.configured 10 (GraphProgram.callback Scenario.s3Program)).enableProfiling
        false).run Scenario.s3Session).isSome) ∧
    (((Scenario.configured 10 (GraphProgram.callback Scenario.s3Program)).enableProfiling
        true).run Scenario.s3Session).map
      (fun r => (r.outputQueue.queue, r.processedItems, r.errorCount, r.taskStats.length))
      = some ([some 1, some 3], 2, 0, 2) ∧
    (((Scenario.configured 10 (GraphProgram.callback Scenario.s3Program)).enableProfiling
        false).run Scenario.s3Session).map
      (fun r => (r.outputQueue.queue, r.processedItems, r.errorCount, r.taskStats.length))
      = some ([some 1, some 3], 2, 0, 0) :=
  ⟨(profiling_changes_timing_only
      (Scenario.configured 10 (GraphProgram.callback Scenario.s3Program)) Scenario.s3Session
      (fun f hf => Option.some.inj hf ▸ GraphProgram.callback_timingIndependent Scenario.s3Program)
      (by decide)).1,
    by decide, by decide⟩

/-! ## The pooled allocator -/

theorem BaseUnifiedAllocator.alignSize_spec (size : Nat) (h : size + 127 < 2 ^ 64) :
    BaseUnifiedAllocator.alignSize size % 128 = 0 ∧ size ≤ BaseUnifiedAllocator.alignSize size ∧
    BaseUnifiedAllocator.alignSize size < size + 128 := by
  unfold BaseUnifiedAllocator.alignSize GRYFLUX_MEMORY_ALIGN
  have hm : (size + 128 - 1) % 2 ^ 64 = size + 127 := Nat.mod_eq_of_lt (by omega)
  rw [hm]
  omega

/-- The loop of `malloc` finds the first block of the pool that fits, if there is one. -/
theorem BaseUnifiedAllocator.scan_spec (self : BaseUnifiedAllocator) (size : Nat)
    (rest : List (Nat × Nat)) :
    ∀ it it_min it_max : Nat,
      ((self.scan size rest it it_min it_max).1 = none ∧
        ∀ b ∈ rest, self.fits size b.1 = false) ∨
      ∃ pre bs ptr post, rest = pre ++ (bs, ptr) :: post ∧
        (∀ b ∈ pre, self.fits size b.1 = false) ∧ self.fits size bs = true ∧
        (self.scan size rest it it_min it_max).1 = some (it + pre.length) := by
  induction rest with
  | nil => intro it it_min it_max; left; exact ⟨rfl, fun b hb => absurd hb (List.not_mem_nil b)⟩
  | cons b rest ih =>
    intro it it_min it_max
    obtain ⟨bs, ptr⟩ := b
    unfold BaseUnifiedAllocator.scan
    by_cases hf : self.fits size bs = true
    · right
      rw [if_pos hf]
      exact ⟨[], bs, ptr, rest, rfl, fun b hb => absurd hb (List.not_mem_nil b), hf, rfl⟩
    · rw [if_neg hf]
      have hf' : self.fits size bs = false := by simpa using hf
      rcases ih (it + 1) (if bs < self.sizeAt it_min then it else it_min)
          (if bs > self.sizeAt it_max then it else it_max) with ⟨h1, h2⟩ | ⟨pre, bs', ptr', post, h1, h2, h3, h4⟩
      · left
        refine ⟨h1, ?_⟩
        intro x hx
        rcases List.mem_cons.1 hx with hx | hx
        · rw [hx]; exact hf'
        · exact h2 x hx
      · right
        refine ⟨(bs, ptr) :: pre, bs', ptr', post, by rw [h1]; rfl, ?_, h3, ?_⟩
        · intro x hx
          rcases List.mem_cons.1 hx with hx | hx
          · rw [hx]; exact hf'
          · exact h2 x hx
        · rw [h4, List.length_cons]
          congr 1
          omega

theorem List.eraseIdx_append_cons {α : Type} (pre : List α) (x : α) (post : List α) :
    (pre ++ x :: post).eraseIdx pre.length = pre ++ post := by
  induction pre with
  | nil => rfl
  | cons a rest ih => simp [List.eraseIdx, ih]

theorem List.getD_append_cons {α : Type} (pre : List α) (x : α) (post : List α) (d : α) :
    (pre ++ x :: post).getD pre.length d = x := by
  induction pre with
  | nil => rfl
  | cons a rest ih => simpa using ih

/-- A call of `malloc` leaves through the reuse branch exactly when the loop found a block. -/
theorem BaseUnifiedAllocator.malloc_reused (self : BaseUnifiedAllocator) (size : Nat) :
    (self.malloc size).reused
      = (self.scan (BaseUnifiedAllocator.alignSize size) self.budgets 0 0 0).1.isSome := by
  unfold BaseUnifiedAllocator.malloc
  simp only
  generalize self.scan (BaseUnifiedAllocator.alignSize size) self.budgets 0 0 0 = sc
  obtain ⟨found, it_min, it_max⟩ := sc
  cases found with
  | none => simp [apply_ite MallocResult.reused]
  | some it => rfl

/-- C26. `BaseUnifiedAllocator::malloc(size)` rounds the size up to `s`, the least multiple of
128 that is at least `size` (for a size that leaves room for the rounding in `size_t`).
It returns a pooled block exactly when some block of the pool has a recorded size `bs` with
`bs >= s` and `(bs * size_compare_ratio) >> 8 <= s`; it then returns the first such block in
pool order, and moves it from the pool (`budgets`) to the end of the in-use list
(`payouts`), leaving the other pool blocks in their order.  On a new `CPUAllocator` with a
ratio of at most 256 (the default is 192) and `s` at most 2 MiB, if the platform call
succeeds, `p = malloc(n); free(p); malloc(n)` returns `p` again, from the pool. -/
theorem malloc_reuses_first_fit (self : BaseUnifiedAllocator) (size : Nat)
    (hsize : size + 127 < 2 ^ 64) :
    (BaseUnifiedAllocator.alignSize size % 128 = 0 ∧
      size ≤ BaseUnifiedAllocator.alignSize size ∧
      BaseUnifiedAllocator.alignSize size < size + 128) ∧
    (∀ bs : Nat, bs * self.size_compare_ratio < 2 ^ 64 →
      (self.fits (BaseUnifiedAllocator.alignSize size) bs = true ↔
        (bs ≥ BaseUnifiedAllocator.alignSize size ∧
          bs * self.size_compare_ratio / 2 ^ 8 ≤ BaseUnifiedAllocator.alignSize size))) ∧
    ((self.malloc size).reused = true ↔
      ∃ b ∈ self.budgets, self.fits (BaseUnifiedAllocator.alignSize size) b.1 = true) ∧
    ((self.malloc size).reused = true →
      ∃ pre bs ptr post, self.budgets = pre ++ (bs, ptr) :: post ∧
        (∀ b ∈ pre, self.fits (BaseUnifiedAllocator.alignSize size) b.1 = false) ∧
        self.fits (BaseUnifiedAllocator.alignSize size) bs = true ∧
        (self.malloc size).ptr = ptr ∧
        (self.malloc size).allocator.budgets = pre ++ post ∧
        (self.malloc size).allocator.payouts = self.payouts ++ [(bs, ptr)]) ∧
    (∀ (original_ptr : Nat) (later : List Nat) (ratio threshold : Nat),
      ratio ≤ 256 → BaseUnifiedAllocator.alignSize size ≤ 2 * LARGE_MEMORY_THRESHOLD →
      original_ptr ≠ 0 → original_ptr + sizeofMemoryBlock + 127 < 2 ^ 64 →
      ((CPUAllocator.new (original_ptr :: later) ratio threshold).malloc size).ptr ≠ 0 ∧
      ((CPUAllocator.new (original_ptr :: later) ratio threshold).malloc size).reused = false ∧
      ((((CPUAllocator.new (original_ptr :: later) ratio threshold).malloc size).allocator.free
          ((CPUAllocator.new (original_ptr :: later) ratio threshold).malloc size).ptr).malloc
        size).ptr
        = ((CPUAllocator.new (original_ptr :: later) ratio threshold).malloc size).ptr ∧
      ((((CPUAllocator.new (original_ptr :: later) ratio threshold).malloc size).allocator.free
          ((CPUAllocator.new (original_ptr :: later) ratio threshold).malloc size).ptr).malloc
        size).reused = true) := by
  refine ⟨BaseUnifiedAllocator.alignSize_spec size hsize, ?_, ?_, ?_, ?_⟩
  · intro bs hbs
    unfold BaseUnifiedAllocator.fits
    rw [Nat.mod_eq_of_lt hbs]
    simp
  · rw [BaseUnifiedAllocator.malloc_reused]
    rcases BaseUnifiedAllocator.scan_spec self (BaseUnifiedAllocator.alignSize size)
        self.budgets 0 0 0 with ⟨h1, h2⟩ | ⟨pre, bs, ptr, post, h1, h2, h3, h4⟩
    · rw [h1]
      constructor
      · intro h; cases h
      · rintro ⟨b, hb, hfit⟩
        rw [h2 b hb] at hfit
        cases hfit
    · rw [h4]
      constructor
      · intro _
        exact ⟨(bs, ptr), by rw [h1]; simp, h3⟩
      · intro _; rfl
  · intro hre
    rw [BaseUnifiedAllocator.malloc_reused] at hre
    rcases BaseUnifiedAllocator.scan_spec self (BaseUnifiedAllocator.alignSize size)
        self.budgets 0 0 0 with ⟨h1, h2⟩ | ⟨pre, bs, ptr, post, h1, h2, h3, h4⟩
    · rw [h1] at hre; cases hre
    · unfold BaseUnifiedAllocator.malloc
      simp only
      generalize hsc : self.scan (BaseUnifiedAllocator.alignSize size) self.budgets 0 0 0 = sc
        at h4
      obtain ⟨found, it_min, it_max⟩ := sc
      simp only at h4
      subst h4
      simp only [Nat.zero_add]
      refine ⟨pre, bs, ptr, post, h1, h2, h3, ?_, ?_, ?_⟩
      · rw [h1, List.getD_append_cons]
      · rw [h1, List.eraseIdx_append_cons]
      · rw [h1, List.getD_append_cons]
  · intro original_ptr later ratio threshold hratio hs hne hroom
    have hal := BaseUnifiedAllocator.alignSize_spec size hsize
    have huser : alignPtr ((original_ptr + sizeofMemoryBlock) % 2 ^ 64) GRYFLUX_MEMORY_ALIGN
        ≠ 0 := by
      unfold alignPtr GRYFLUX_MEMORY_ALIGN sizeofMemoryBlock at *
      have h1 : (original_ptr + 32) % 2 ^ 64 = original_ptr + 32 :=
        Nat.mod_eq_of_lt (by omega)
      have h2 : (original_ptr + 32 + 128 - 1) % 2 ^ 64 = original_ptr + 159 :=
        Nat.mod_eq_of_lt (by omega)
      rw [h1, h2]
      omega
    have hr : ratio % 2 ^ 32 = ratio := Nat.mod_eq_of_lt (by omega)
    have hfit : (decide (BaseUnifiedAllocator.alignSize size ≥ BaseUnifiedAllocator.alignSize size)
        && decide (BaseUnifiedAllocator.alignSize size * ratio % 2 ^ 64 / 2 ^ 8
            ≤ BaseUnifiedAllocator.alignSize size)) = true := by
      unfold LARGE_MEMORY_THRESHOLD at hs
      have hlt : BaseUnifiedAllocator.alignSize size * ratio < 2 ^ 64 :=
        Nat.lt_of_le_of_lt (Nat.mul_le_mul hs hratio) (by norm_num)
      rw [Nat.mod_eq_of_lt hlt]
      have hle : BaseUnifiedAllocator.alignSize size * ratio / 2 ^ 8
          ≤ BaseUnifiedAllocator.alignSize size := by
        apply Nat.div_le_of_le_mul
        calc BaseUnifiedAllocator.alignSize size * ratio
            ≤ BaseUnifiedAllocator.alignSize size * 256 := Nat.mul_le_mul_left _ hratio
          _ = 2 ^ 8 * BaseUnifiedAllocator.alignSize size := by ring
      simpa using hle
    have huser2 : alignPtr ((original_ptr + sizeofMemoryBlock) % 18446744073709551616)
        GRYFLUX_MEMORY_ALIGN ≠ 0 := huser
    have hr2 : ratio % 4294967296 = ratio := hr
    have hfit2 : BaseUnifiedAllocator.alignSize size * ratio % 18446744073709551616 / 256
        ≤ BaseUnifiedAllocator.alignSize size := by simpa using hfit
    have hlarge : ¬ BaseUnifiedAllocator.alignSize size > LARGE_MEMORY_THRESHOLD * 2 := by
      omega
    have hm1 : (CPUAllocator.new (original_ptr :: later) ratio threshold).malloc size
        = { ptr := alignPtr ((original_ptr + sizeofMemoryBlock) % 2 ^ 64) GRYFLUX_MEMORY_ALIGN,
            reused := false,
            allocator :=
              { size_compare_ratio := ratio, size_drop_threshold := threshold, budgets := [],
                payouts := [(BaseUnifiedAllocator.alignSize size,
                  alignPtr ((original_ptr + sizeofMemoryBlock) % 2 ^ 64) GRYFLUX_MEMORY_ALIGN)],
                registry := [(alignPtr ((original_ptr + sizeofMemoryBlock) % 2 ^ 64)
                  GRYFLUX_MEMORY_ALIGN, original_ptr)],
                platform := later,
                requested := [(BaseUnifiedAllocator.alignSize size + sizeofMemoryBlock
                  + GRYFLUX_MEMORY_ALIGN) % 2 ^ 64],
                released := [] } } := by
      simp [BaseUnifiedAllocator.malloc, CPUAllocator.new, BaseUnifiedAllocator.scan,
        BaseUnifiedAllocator.allocateMemory, hne, huser2, hr2, MemoryRegistry.registerBlock,
        MemoryRegistry.unregisterBlock]
    rw [hm1]
    refine ⟨huser, rfl, ?_, ?_⟩
    · simp [BaseUnifiedAllocator.free, huser2, BaseUnifiedAllocator.findPayout,
        MemoryRegistry.getBlock, hlarge, BaseUnifiedAllocator.malloc,
        BaseUnifiedAllocator.scan, BaseUnifiedAllocator.fits, hfit2, BaseUnifiedAllocator.sizeAt]
    · simp [BaseUnifiedAllocator.free, huser2, BaseUnifiedAllocator.findPayout,
        MemoryRegistry.getBlock, hlarge, BaseUnifiedAllocator.malloc,
        BaseUnifiedAllocator.scan, BaseUnifiedAllocator.fits, hfit2, BaseUnifiedAllocator.sizeAt]

/-- Witness for C26: on a new `CPUAllocator`, `malloc(1000)` gives a block of recorded size
1024; after `free` the block is in the pool, `malloc(1000)` returns it again, and `malloc(900)`
would take the same block since `(1024 * 192) >> 8 = 768 <= 896`. -/
theorem malloc_reuses_first_fit_witness :
    ((CPUAllocator.new [4096] 192 16).malloc 1000).ptr = 4224 ∧
    ((((CPUAllocator.new [4096] 192 16).malloc 1000).allocator.free 4224).malloc 1000).ptr
      = ((CPUAllocator.new [4096] 192 16).malloc 1000).ptr ∧
    ((((CPUAllocator.new [4096] 192 16).malloc 1000).allocator.free 4224).malloc 900).reused
      = true :=
  ⟨by decide,
    ((malloc_reuses_first_fit (CPUAllocator.new [4096] 192 16) 1000 (by norm_num)).2.2.2.2
      4096 [] 192 16 (by norm_num) (by decide) (by decide) (by decide)).2.2.1 ▸ (by decide),
    by decide⟩

theorem List.cons_set_perm_cons {β : Type} (x a : β) :
    ∀ (t : List β) (i : Nat), i < t.length → (x :: t.set i a).Perm (a :: t.set i x)
  | [], _, h => by simp at h
  | c :: t, 0, _ => by
    simp only [List.set_cons_zero]
    exact List.Perm.swap a x t
  | c :: t, i + 1, h => by
    simp only [List.set_cons_succ]
    have ih := List.cons_set_perm_cons x a t i (by simpa using h)
    exact ((List.Perm.swap c x _).trans (ih.cons c)).trans (List.Perm.swap a c _)

theorem List.cons_set_perm_self {β : Type} (x d : β) :
    ∀ (t : List β) (j : Nat), j < t.length → (t.getD j d :: t.set j x).Perm (x :: t)
  | [], _, h => by simp at h
  | c :: t, 0, _ => by
    simp only [List.set_cons_zero, List.getD_cons_zero]
    exact List.Perm.swap x c t
  | c :: t, j + 1, h => by
    simp only [List.set_cons_succ, List.getD_cons_succ]
    have ih := List.cons_set_perm_self x d t j (by simpa using h)
    exact ((List.Perm.swap c _ _).trans (ih.cons c)).trans (List.Perm.swap x c _)


/-- Moving the element at `j` into the hole at `i` and putting `x` into the new hole at `j` is a
permutation of putting `x` into the hole at `i`. -/
theorem List.set_set_perm {β : Type} (x d : β) :
    ∀ (w : List β) (i j : Nat), i < w.length → j < w.length →
      ((w.set i (w.getD j d)).set j x).Perm (w.set i x)
  | [], _, _, h, _ => by simp at h
  | a :: t, 0, 0, _, _ => by simp
  | a :: t, 0, j + 1, _, hj => by
    simp only [List.set_cons_zero, List.set_cons_succ, List.getD_cons_succ]
    exact List.cons_set_perm_self x d t j (by simpa using hj)
  | a :: t, i + 1, 0, hi, _ => by
    simp only [List.set_cons_zero, List.set_cons_succ, List.getD_cons_zero]
    exact List.cons_set_perm_cons x a t i (by simpa using hi)
  | a :: t, i + 1, j + 1, hi, hj => by
    simp only [List.set_cons_succ, List.getD_cons_succ]
    exact (List.set_set_perm x d t i j (by simpa using hi) (by simpa using hj)).cons a

theorem List.zip_set_set {β γ : Type} (x : β) (y : γ) :
    ∀ (a : List β) (b : List γ) (i : Nat),
      (a.set i x).zip (b.set i y) = (a.zip b).set i (x, y)
  | [], _, _ => by simp
  | _ :: _, [], _ => by simp
  | _ :: _, _ :: _, 0 => by simp
  | _ :: a, _ :: b, i + 1 => by
    simp only [List.set_cons_succ, List.zip_cons_cons]
    rw [List.zip_set_set x y a b i]

theorem List.getD_zip {β γ : Type} (d : β) (e : γ) :
    ∀ (a : List β) (b : List γ) (i : Nat), a.length = b.length →
      (a.zip b).getD i (d, e) = (a.getD i d, b.getD i e)
  | [], [], _, _ => by simp
  | [], _ :: _, _, h => by simp at h
  | _ :: _, [], _, h => by simp at h
  | _ :: _, _ :: _, 0, _ => by simp
  | _ :: a, _ :: b, i + 1, h => by
    simp only [List.zip_cons_cons, List.getD_cons_succ]
    exact List.getD_zip d e a b i (by simpa using h)

theorem List.getD_set_eq {β : Type} (l : List β) (i j : Nat) (a d : β) :
    (l.set i a).getD j d = if i = j ∧ i < l.length then a else l.getD j d := by
  simp only [List.getD_eq_getElem?_getD, List.getElem?_set]
  by_cases h : i = j
  · subst h
    by_cases h2 : i < l.length
    · simp [h2]
    · simp [h2, List.getElem?_eq_none (Nat.le_of_not_lt h2)]
  · simp [h]


theorem quick_sort_indice_inverse.scanHigh_spec {α : Type} [Inhabited α] (le : α → α → Bool)
    (input : List α) (key : α) (low : Nat) :
    ∀ (fuel high : Nat), low ≤ high → high - low < fuel →
      ∃ h1 : Nat, quick_sort_indice_inverse.scanHigh le input key (low : Int) fuel (high : Int)
          = some (h1 : Int) ∧ low ≤ h1 ∧ h1 ≤ high ∧
        (∀ k, h1 < k → k ≤ high → le (input.getD k default) key = true) ∧
        (low < h1 → le (input.getD h1 default) key = false)
  | 0, _, _, hf => by omega
  | fuel + 1, high, hlh, hf => by
    unfold quick_sort_indice_inverse.scanHigh
    by_cases hc : (low : Int) < (high : Int) ∧ le (input.getD (high : Int).toNat default) key = true
    · rw [if_pos hc]
      rw [Int.toNat_ofNat] at hc
      have hlt : low < high := by omega
      have hcast : ((high : Int) - 1) = ((high - 1 : Nat) : Int) := by omega
      rw [hcast]
      obtain ⟨h1, e, a, b, c, d⟩ :=
        quick_sort_indice_inverse.scanHigh_spec le input key low fuel (high - 1) (by omega)
          (by omega)
      refine ⟨h1, e, a, by omega, ?_, d⟩
      intro k hk1 hk2
      by_cases hk : k = high
      · rw [hk]; exact hc.2
      · exact c k hk1 (by omega)
    · rw [if_neg hc]
      rw [Int.toNat_ofNat] at hc
      refine ⟨high, rfl, hlh, Nat.le_refl _, fun k h1 h2 => by omega, ?_⟩
      intro hl
      by_cases hv : le (input.getD high default) key = true
      · exact absurd ⟨by omega, hv⟩ hc
      · simpa using hv

theorem quick_sort_indice_inverse.scanLow_spec {α : Type} [Inhabited α] (le : α → α → Bool)
    (input : List α) (key : α) (high : Nat) :
    ∀ (fuel low : Nat), low ≤ high → high - low < fuel →
      ∃ l1 : Nat, quick_sort_indice_inverse.scanLow le input key (high : Int) fuel (low : Int)
          = some (l1 : Int) ∧ low ≤ l1 ∧ l1 ≤ high ∧
        (∀ k, low ≤ k → k < l1 → le key (input.getD k default) = true) ∧
        (l1 < high → le key (input.getD l1 default) = false)
  | 0, _, _, hf => by omega
  | fuel + 1, low, hlh, hf => by
    unfold quick_sort_indice_inverse.scanLow
    by_cases hc : (low : Int) < (high : Int) ∧ le key (input.getD (low : Int).toNat default) = true
    · rw [if_pos hc]
      rw [Int.toNat_ofNat] at hc
      have hlt : low < high := by omega
      have hcast : ((low : Int) + 1) = ((low + 1 : Nat) : Int) := by omega
      rw [hcast]
      obtain ⟨l1, e, a, b, c, d⟩ :=
        quick_sort_indice_inverse.scanLow_spec le input key high fuel (low + 1) (by omega)
          (by omega)
      refine ⟨l1, e, by omega, b, ?_, d⟩
      intro k hk1 hk2
      by_cases hk : k = low
      · rw [hk]; exact hc.2
      · exact c k (by omega) hk2
    · rw [if_neg hc]
      rw [Int.toNat_ofNat] at hc
      refine ⟨low, rfl, Nat.le_refl _, hlh, fun k h1 h2 => by omega, ?_⟩
      intro hl
      by_cases hv : le key (input.getD low default) = true
      · exact absurd ⟨by omega, hv⟩ hc
      · simpa using hv


theorem quick_sort_indice_inverse.partition_spec {α : Type} [Inhabited α] (le : α → α → Bool)
    (htotal : ∀ a b, le a b = true ∨ le b a = true) (key : α) (x : α × Int) :
    ∀ (fuel : Nat) (input : List α) (indices : List Int) (low high : Nat),
      input.length = indices.length → low ≤ high → high < input.length → high - low < fuel →
      ∃ (input1 : List α) (indices1 : List Int) (p : Nat),
        quick_sort_indice_inverse.partition le key fuel input indices (low : Int) (high : Int)
          = some (input1, indices1, (p : Int), (p : Int)) ∧
        input1.length = input.length ∧ indices1.length = indices.length ∧
        low ≤ p ∧ p ≤ high ∧
        (∀ k, low ≤ k → k < p → le key (input1.getD k default) = true) ∧
        (∀ k, p < k → k ≤ high → le (input1.getD k default) key = true) ∧
        (∀ k, (k < low ∨ high < k) →
          input1.getD k default = input.getD k default ∧ indices1.getD k 0 = indices.getD k 0) ∧
        (∀ P : α → Prop, (∀ k, low < k → k ≤ high → P (input.getD k default)) →
          ∀ k, low ≤ k → k ≤ high → k ≠ p → P (input1.getD k default)) ∧
        ((input1.zip indices1).set p x).Perm ((input.zip indices).set low x)
  | 0, _, _, _, _, _, _, _, hf => by omega
  | fuel + 1, input, indices, low, high, hlen, hlh, hhi, hf => by
    unfold quick_sort_indice_inverse.partition
    by_cases hlt : low < high
    · rw [if_pos (show (low : Int) < (high : Int) by omega)]
      obtain ⟨h1, e1, a1, b1, c1, d1⟩ :=
        quick_sort_indice_inverse.scanHigh_spec le input key low (fuel + 1) high hlh hf
      rw [e1]
      simp only [Int.toNat_ofNat]
      obtain ⟨l1, e2, a2, b2, c2, d2⟩ :=
        quick_sort_indice_inverse.scanLow_spec le (input.set low (input.getD h1 default)) key h1
          (fuel + 1) low a1 (by omega)
      rw [e2]
      simp only [Int.toNat_ofNat]
      have hadv : h1 - l1 < fuel := by
        by_cases hl : low < h1
        · have hk : le key (input.getD h1 default) = true := by
            rcases htotal key (input.getD h1 default) with h | h
            · exact h
            · rw [d1 hl] at h; cases h
          by_cases hl1 : l1 = low
          · have hv := d2 (by omega)
            rw [hl1, List.getD_set_eq, if_pos ⟨rfl, by omega⟩, hk] at hv
            cases hv
          · omega
        · omega
      obtain ⟨input1, indices1, p, e3, len1, len2, a3, b3, c3, d3, u3, pr3, perm3⟩ :=
        quick_sort_indice_inverse.partition_spec le htotal key x fuel
          ((input.set low (input.getD h1 default)).set h1
            ((input.set low (input.getD h1 default)).getD l1 default))
          ((indices.set low (indices.getD h1 0)).set h1
            ((indices.set low (indices.getD h1 0)).getD l1 0))
          l1 h1 (by simp [hlen]) b2 (by simp; omega) hadv
      refine ⟨input1, indices1, p, e3, by simpa using len1, by simpa using len2, by omega,
        by omega, ?_, ?_, ?_, ?_, ?_⟩
      · intro k hk1 hk2
        by_cases hk : l1 ≤ k
        · exact c3 k hk hk2
        · rw [(u3 k (Or.inl (by omega))).1, List.getD_set_eq, if_neg (by omega)]
          exact c2 k hk1 (by omega)
      · intro k hk1 hk2
        by_cases hk : k ≤ h1
        · exact d3 k hk1 hk
        · rw [(u3 k (Or.inr (by omega))).1, List.getD_set_eq, if_neg (by omega),
            List.getD_set_eq, if_neg (by omega)]
          exact c1 k (by omega) hk2
      · intro k hk
        have h := u3 k (by omega)
        rw [h.1, h.2, List.getD_set_eq, if_neg (by omega), List.getD_set_eq, if_neg (by omega),
          List.getD_set_eq, if_neg (by omega), List.getD_set_eq, if_neg (by omega)]
        exact ⟨rfl, rfl⟩
      · intro P hP k hk1 hk2 hk3
        have hP1 : ∀ k, low ≤ k → k ≤ high → k ≠ h1 →
            P ((input.set low (input.getD h1 default)).getD k default) := by
          intro k hk1 hk2 hk3
          rw [List.getD_set_eq]
          by_cases hk : low = k
          · rw [if_pos ⟨hk, by omega⟩]
            exact hP h1 (by omega) b1
          · rw [if_neg (by omega)]
            exact hP k (by omega) hk2
        have hP2 : ∀ k, low ≤ k → k ≤ high → k ≠ l1 →
            P (((input.set low (input.getD h1 default)).set h1
              ((input.set low (input.getD h1 default)).getD l1 default)).getD k default) := by
          intro k hk1 hk2 hk3
          rw [List.getD_set_eq]
          by_cases hk : h1 = k
          · rw [if_pos ⟨hk, by simp; omega⟩]
            by_cases hlh1 : l1 = h1
            · omega
            · exact hP1 l1 a2 (by omega) hlh1
          · rw [if_neg (by omega)]
            exact hP1 k hk1 hk2 (by omega)
        by_cases hin : l1 ≤ k ∧ k ≤ h1
        · exact pr3 P (fun j hj1 hj2 => hP2 j (by omega) (by omega) (by omega)) k hin.1 hin.2 hk3
        · rw [(u3 k (by omega)).1]
          exact hP2 k hk1 hk2 (by omega)
      · refine perm3.trans ?_
        have hz1 : (input.set low (input.getD h1 default)).zip
            (indices.set low (indices.getD h1 0))
            = (input.zip indices).set low ((input.zip indices).getD h1 (default, 0)) := by
          rw [List.zip_set_set, List.getD_zip default 0 _ _ _ hlen]
        have hz2 : ((input.set low (input.getD h1 default)).set h1
              ((input.set low (input.getD h1 default)).getD l1 default)).zip
            ((indices.set low (indices.getD h1 0)).set h1
              ((indices.set low (indices.getD h1 0)).getD l1 0))
            = ((input.zip indices).set low ((input.zip indices).getD h1 (default, 0))).set h1
              (((input.zip indices).set low ((input.zip indices).getD h1 (default, 0))).getD l1
                (default, 0)) := by
          rw [List.zip_set_set, ← List.getD_zip default 0 _ _ _ (by simp [hlen]), hz1]
        rw [hz2]
        exact (List.set_set_perm x (default, 0) _ h1 l1 (by simp [hlen]; omega)
          (by simp [hlen]; omega)).trans
          (List.set_set_perm x (default, 0) _ low h1 (by simp [hlen]; omega)
            (by simp [hlen]; omega))
    · rw [if_neg (show ¬ (low : Int) < (high : Int) by omega)]
      have hEq : high = low := by omega
      subst hEq
      exact ⟨input, indices, high, rfl, rfl, rfl, Nat.le_refl _, Nat.le_refl _,
        fun k h1 h2 => by omega, fun k h1 h2 => by omega, fun k _ => ⟨rfl, rfl⟩,
        fun P _ k h1 h2 h3 => by omega, List.Perm.refl _⟩


theorem List.set_getD_self {β : Type} (d : β) :
    ∀ (l : List β) (i : Nat), l.set i (l.getD i d) = l
  | [], _ => by simp
  | _ :: _, 0 => by simp
  | a :: l, i + 1 => by
    simp only [List.set_cons_succ, List.getD_cons_succ]
    rw [List.set_getD_self d l i]

theorem quick_sort_indice_inverse_spec {α : Type} [Inhabited α] (le : α → α → Bool)
    (htotal : ∀ a b, le a b = true ∨ le b a = true)
    (htrans : ∀ a b c, le a b = true → le b c = true → le a c = true) :
    ∀ (fuel : Nat) (input : List α) (indices : List Int) (l r1 : Nat),
      input.length = indices.length → l ≤ r1 → r1 ≤ input.length → r1 - l < fuel →
      ∃ (input4 : List α) (indices4 : List Int) (ret : Int),
        quick_sort_indice_inverse le fuel input (l : Int) ((r1 : Int) - 1) indices
          = some (input4, indices4, ret) ∧
        input4.length = input.length ∧ indices4.length = indices.length ∧
        (∀ k, (k < l ∨ r1 ≤ k) →
          input4.getD k default = input.getD k default ∧ indices4.getD k 0 = indices.getD k 0) ∧
        (∀ P : α → Prop, (∀ k, l ≤ k → k < r1 → P (input.getD k default)) →
          ∀ k, l ≤ k → k < r1 → P (input4.getD k default)) ∧
        (input4.zip indices4).Perm (input.zip indices) ∧
        (∀ i j, l ≤ i → i < j → j < r1 →
          le (input4.getD j default) (input4.getD i default) = true)
  | 0, _, _, _, _, _, _, _, hf => by omega
  | fuel + 1, input, indices, l, r1, hlen, hlr, hr, hf => by
    unfold quick_sort_indice_inverse
    by_cases hlt : l + 1 < r1
    · rw [if_pos (show (l : Int) < (r1 : Int) - 1 by omega)]
      simp only [Int.toNat_ofNat]
      have hcast : ((r1 : Int) - 1) = ((r1 - 1 : Nat) : Int) := by omega
      obtain ⟨input1, indices1, p, e, len1, len2, a, b, c, d, u, pr, perm⟩ :=
        quick_sort_indice_inverse.partition_spec le htotal (input.getD l default)
          (input.getD l default, indices.getD l 0) (fuel + 1) input indices l (r1 - 1) hlen
          (by omega) (by omega) (by omega)
      rw [← hcast] at e
      rw [e]
      simp only [Int.toNat_ofNat]
      obtain ⟨input3, indices3, ret1, e1, len31, len32, u1, pr1, perm1, sorted1⟩ :=
        quick_sort_indice_inverse_spec le htotal htrans fuel
          (input1.set p (input.getD l default)) (indices1.set p (indices.getD l 0)) l p
          (by simp [len1, len2, hlen]) a (by simp [len1]; omega) (by omega)
      rw [e1]
      simp only
      have hc2 : ((p : Int) + 1) = ((p + 1 : Nat) : Int) := by omega
      obtain ⟨input4, indices4, ret2, e2, len41, len42, u2, pr2, perm2, sorted2⟩ :=
        quick_sort_indice_inverse_spec le htotal htrans fuel input3 indices3 (p + 1) r1
          (by simp [len31, len32, len1, len2, hlen]) (by omega)
          (by simp [len31, len1]; omega) (by omega)
      rw [hc2, e2]
      simp only
      have hp : p < input1.length := by omega
      have h2 : ∀ k, k ≠ p → (input1.set p (input.getD l default)).getD k default
          = input1.getD k default := by
        intro k hk
        rw [List.getD_set_eq, if_neg (by omega)]
      have h2i : ∀ k, k ≠ p → (indices1.set p (indices.getD l 0)).getD k 0
          = indices1.getD k 0 := by
        intro k hk
        rw [List.getD_set_eq, if_neg (by omega)]
      have h2p : (input1.set p (input.getD l default)).getD p default = input.getD l default := by
        rw [List.getD_set_eq, if_pos ⟨rfl, hp⟩]
      have F1 : ∀ k, l ≤ k → k < p → le (input.getD l default) (input4.getD k default) = true := by
        intro k hk1 hk2
        rw [(u2 k (Or.inl (by omega))).1]
        refine pr1 (fun v => le (input.getD l default) v = true) ?_ k hk1 hk2
        intro j hj1 hj2
        rw [h2 j (by omega)]
        exact c j hj1 hj2
      have F2 : input4.getD p default = input.getD l default := by
        rw [(u2 p (Or.inl (by omega))).1, (u1 p (Or.inr (Nat.le_refl _))).1, h2p]
      have F3 : ∀ k, p < k → k < r1 → le (input4.getD k default) (input.getD l default) = true := by
        intro k hk1 hk2
        refine pr2 (fun v => le v (input.getD l default) = true) ?_ k (by omega) hk2
        intro j hj1 hj2
        rw [(u1 j (Or.inr (by omega))).1, h2 j (by omega)]
        exact d j (by omega) (by omega)
      refine ⟨input4, indices4, p, rfl, ?_, ?_, ?_, ?_, ?_, ?_⟩
      · rw [len41, len31, List.length_set, len1]
      · rw [len42, len32, List.length_set, len2]
      · intro k hk
        have hk2 := u2 k (by omega)
        have hk1 := u1 k (by omega)
        have hk0 := u k (by omega)
        rw [hk2.1, hk2.2, hk1.1, hk1.2, h2 k (by omega), h2i k (by omega), hk0.1, hk0.2]
        exact ⟨rfl, rfl⟩
      · intro P hP
        have P2 : ∀ k, l ≤ k → k < r1 →
            P ((input1.set p (input.getD l default)).getD k default) := by
          intro k hk1 hk2
          by_cases hk : k = p
          · rw [hk, h2p]
            exact hP l (Nat.le_refl _) (by omega)
          · rw [h2 k hk]
            exact pr P (fun j hj1 hj2 => hP j (by omega) (by omega)) k hk1 (by omega) hk
        have P3 : ∀ k, l ≤ k → k < r1 → P (input3.getD k default) := by
          intro k hk1 hk2
          by_cases hk : k < p
          · exact pr1 P (fun j hj1 hj2 => P2 j hj1 (by omega)) k hk1 hk
          · rw [(u1 k (Or.inr (by omega))).1]
            exact P2 k hk1 hk2
        intro k hk1 hk2
        by_cases hk : p + 1 ≤ k
        · exact pr2 P (fun j hj1 hj2 => P3 j (by omega) hj2) k hk hk2
        · rw [(u2 k (Or.inl (by omega))).1]
          exact P3 k hk1 hk2
      · refine perm2.trans (perm1.trans ?_)
        rw [List.zip_set_set]
        refine perm.trans ?_
        rw [← List.getD_zip default 0 _ _ _ hlen, List.set_getD_self]
      · intro i j hi hij hj
        by_cases hjp : j < p
        · rw [(u2 j (Or.inl (by omega))).1, (u2 i (Or.inl (by omega))).1]
          exact sorted1 i j hi hij hjp
        · by_cases hjp2 : j = p
          · rw [hjp2, F2]
            exact F1 i hi (by omega)
          · by_cases hip : i < p
            · exact htrans _ _ _ (F3 j (by omega) hj) (F1 i hi hip)
            · by_cases hip2 : i = p
              · rw [hip2, F2]
                exact F3 j (by omega) hj
              · exact sorted2 i j (by omega) hij hj
    · rw [if_neg (show ¬ (l : Int) < (r1 : Int) - 1 by omega)]
      exact ⟨input, indices, l, rfl, rfl, rfl, fun k _ => ⟨rfl, rfl⟩, fun P hP => hP,
        List.Perm.refl _, fun i j h1 h2 h3 => by omega⟩

theorem nms.foldl_masked {ι : Type} (f : List Int → ι → List Int)
    (hf : ∀ o i, (f o i).length = o.length ∧
      ∀ k, (f o i).getD k 0 = o.getD k 0 ∨ (f o i).getD k 0 = -1) :
    ∀ (l : List ι) (o : List Int), (l.foldl f o).length = o.length ∧
      ∀ k, (l.foldl f o).getD k 0 = o.getD k 0 ∨ (l.foldl f o).getD k 0 = -1
  | [], o => ⟨rfl, fun _ => Or.inl rfl⟩
  | i :: l, o => by
    simp only [List.foldl_cons]
    obtain ⟨h1, h2⟩ := nms.foldl_masked f hf l (f o i)
    obtain ⟨h3, h4⟩ := hf o i
    refine ⟨h1.trans h3, fun k => ?_⟩
    rcases h2 k with h | h
    · rw [h]; exact h4 k
    · exact Or.inr h

/-- A call of `nms` leaves every entry of `order` as it was or sets it to `-1`. -/
theorem nms_masked {α : Type} [Inhabited α] (ops : FloatOps α) (validCount : Int)
    (outputLocations : List α) (classIds : List Int) (order : List Int) (filterId : Int)
    (threshold : α) :
    (nms ops validCount outputLocations classIds order filterId threshold).length
      = order.length ∧
    ∀ k, (nms ops validCount outputLocations classIds order filterId threshold).getD k 0
        = order.getD k 0 ∨
      (nms ops validCount outputLocations classIds order filterId threshold).getD k 0 = -1 := by
  unfold nms
  apply nms.foldl_masked
  intro o i
  simp only
  split
  · exact ⟨rfl, fun _ => Or.inl rfl⟩
  · apply nms.foldl_masked
    intro o2 j
    split
    · exact ⟨rfl, fun _ => Or.inl rfl⟩
    · split
      · refine ⟨List.length_set _ _ _, fun k => ?_⟩
        rw [List.getD_set_eq]
        split
        · exact Or.inr rfl
        · exact Or.inl rfl
      · exact ⟨rfl, fun _ => Or.inl rfl⟩

/-- The last loop of `process` pushes, for an increasing selection `js` of the positions whose
entry of `indexArray` is not `-1`, the info of candidate `indexArray[j]` with probability
`objProbs[j]`. -/
theorem ObjectDetector.emit_spec {α : Type} [Inhabited α] (ops : FloatOps α)
    (filterBoxes : List α) (objProbs : List α) (classId : List Int) (indexArray : List Int)
    (x_pad y_pad model_in_w model_in_h : Int) (scale : α) (valid : Int) :
    ∃ js : List Nat, js.Sublist (List.range valid.toNat) ∧
      (∀ j ∈ js, indexArray.getD j 0 ≠ -1) ∧
      (ObjectDetector.emit ops filterBoxes objProbs classId indexArray x_pad y_pad model_in_w
        model_in_h scale valid).1
        = js.map (fun j => ObjectDetector.objInfo ops filterBoxes classId x_pad y_pad model_in_w
            model_in_h scale (indexArray.getD j 0) (objProbs.getD j default)) := by
  unfold ObjectDetector.emit
  have key : ∀ (is : List Nat) (st : List (ObjectInfo α) × Int),
      ∃ js : List Nat, js.Sublist is ∧ (∀ j ∈ js, indexArray.getD j 0 ≠ -1) ∧
        (is.foldl (fun st i =>
          if indexArray.getD i 0 = -1 ∨ st.2 ≥ 80 then st
          else
            (st.1 ++ [ObjectDetector.objInfo ops filterBoxes classId x_pad y_pad model_in_w
              model_in_h scale (indexArray.getD i 0) (objProbs.getD i default)], st.2 + 1))
          st).1
          = st.1 ++ js.map (fun j => ObjectDetector.objInfo ops filterBoxes classId x_pad y_pad
              model_in_w model_in_h scale (indexArray.getD j 0) (objProbs.getD j default)) := by
    intro is
    induction is with
    | nil => intro st; exact ⟨[], List.Sublist.refl _, by simp, by simp⟩
    | cons i is ih =>
      intro st
      simp only [List.foldl_cons]
      by_cases hc : indexArray.getD i 0 = -1 ∨ st.2 ≥ 80
      · rw [if_pos hc]
        obtain ⟨js, h1, h2, h3⟩ := ih st
        exact ⟨js, h1.cons i, h2, h3⟩
      · rw [if_neg hc]
        obtain ⟨js, h1, h2, h3⟩ := ih (st.1 ++ [ObjectDetector.objInfo ops filterBoxes classId
          x_pad y_pad model_in_w model_in_h scale (indexArray.getD i 0)
          (objProbs.getD i default)], st.2 + 1)
        refine ⟨i :: js, h1.cons₂ i, ?_, ?_⟩
        · intro j hj
          rcases List.mem_cons.1 hj with h | h
          · rw [h]; exact fun e => hc (Or.inl e)
          · exact h2 j h
        · rw [h3]; simp
  obtain ⟨js, h1, h2, h3⟩ := key (List.range valid.toNat) ([], 0)
  exact ⟨js, h1, h2, by simpa using h3⟩

theorem List.mem_zip_range {β : Type} (d : β) (l : List β) (a : β) (i : Int)
    (h : (a, i) ∈ l.zip ((List.range l.length).map (fun k : Nat => (k : Int)))) :
    ∃ c : Nat, c < l.length ∧ i = (c : Int) ∧ a = l.getD c d := by
  obtain ⟨m, hm, e⟩ := List.mem_iff_getElem.1 h
  have hm1 : m < l.length := by
    rw [List.length_zip] at hm
    omega
  rw [List.getElem_zip, List.getElem_map, List.getElem_range] at e
  refine ⟨m, hm1, (congrArg Prod.snd e).symm, ?_⟩
  rw [List.getD_eq_getElem _ _ hm1]
  exact (congrArg Prod.fst e).symm


/-- The whole-array call `quick_sort_indice_inverse(input, 0, n - 1, indices)` returns, with the
probabilities in non-increasing order and the pairs (probability, index) permuted. -/
theorem quick_sort_indice_inverse_whole {α : Type} [Inhabited α] (le : α → α → Bool)
    (htotal : ∀ a b, le a b = true ∨ le b a = true)
    (htrans : ∀ a b c, le a b = true → le b c = true → le a c = true)
    (input : List α) (indices : List Int) (fuel : Nat) (hlen : indices.length = input.length)
    (hfuel : input.length < fuel) :
    ∃ (probs : List α) (idx : List Int) (ret : Int),
      quick_sort_indice_inverse le fuel input 0 ((input.length : Int) - 1) indices
        = some (probs, idx, ret) ∧
      probs.length = input.length ∧ idx.length = input.length ∧
      (probs.zip idx).Perm (input.zip indices) ∧
      probs.Pairwise (fun a b => le b a = true) := by
  obtain ⟨probs, idx, ret, e, len1, len2, _, _, perm, sorted⟩ :=
    quick_sort_indice_inverse_spec le htotal htrans fuel input indices 0 input.length hlen.symm
      (Nat.zero_le _) (Nat.le_refl _) (by omega)
  rw [Nat.cast_zero] at e
  refine ⟨probs, idx, ret, e, len1, len2.trans hlen, perm, ?_⟩
  rw [List.pairwise_iff_getElem]
  intro i j hi hj hij
  have h := sorted i j (Nat.zero_le _) hij (by omega)
  rw [List.getD_eq_getElem _ _ hi, List.getD_eq_getElem _ _ hj] at h
  exact h

theorem FloatOps.int_le_total (a b : Int) :
    FloatOps.int.le a b = true ∨ FloatOps.int.le b a = true := by
  simp only [FloatOps.int, decide_eq_true_eq]
  omega

theorem FloatOps.int_le_trans (a b c : Int) (h1 : FloatOps.int.le a b = true)
    (h2 : FloatOps.int.le b c = true) : FloatOps.int.le a c = true := by
  simp only [FloatOps.int, decide_eq_true_eq] at *
  omega

/-- Claim C30: for a total and transitive `<=` on the probabilities,
`quick_sort_indice_inverse(objProbs, 0, n - 1, indexArray)` returns with `objProbs` in
non-increasing order, a permutation of the original, and `indexArray` permuted identically
(with `indexArray = 0 .. n-1`, entry `i` of the sorted probabilities is the original
probability of candidate `indexArray[i]`); and `ObjectDetector::process` pushes detections
whose probabilities are in non-increasing order, each being the info built from the box and
class of one candidate together with that candidate's original probability. -/
theorem process_emits_sorted {α : Type} [Inhabited α] (ops : FloatOps α)
    (htotal : ∀ a b, ops.le a b = true ∨ ops.le b a = true)
    (htrans : ∀ a b c, ops.le a b = true → ops.le b c = true → ops.le a c = true)
    (objProbs : List α) (fuel : Nat) (hfuel : objProbs.length < fuel) :
    (∀ indexArray : List Int, indexArray.length = objProbs.length →
      ∃ (probs : List α) (idx : List Int) (ret : Int),
        quick_sort_indice_inverse ops.le fuel objProbs 0 ((objProbs.length : Int) - 1)
          indexArray = some (probs, idx, ret) ∧
        probs.Pairwise (fun a b => ops.le b a = true) ∧
        probs.Perm objProbs ∧ idx.Perm indexArray ∧
        (probs.zip idx).Perm (objProbs.zip indexArray) ∧
        (indexArray = (List.range objProbs.length).map (fun i : Nat => (i : Int)) →
          ∀ i, i < objProbs.length → ∃ c : Nat, c < objProbs.length ∧
            idx.getD i 0 = (c : Int) ∧ probs.getD i default = objProbs.getD c default)) ∧
    (∀ (threshold_ : α) (filterBoxes : List α) (classId : List Int)
        (x_pad y_pad model_in_w model_in_h : Int) (scale : α), 0 < objProbs.length →
      ∃ infos : List (ObjectInfo α),
        ObjectDetector.process ops fuel threshold_ filterBoxes objProbs classId
          (objProbs.length : Int) x_pad y_pad model_in_w model_in_h scale = some (some infos) ∧
        (infos.map ObjectInfo.prob).Pairwise (fun a b => ops.le b a = true) ∧
        ∀ info ∈ infos, ∃ c : Nat, c < objProbs.length ∧
          info = ObjectDetector.objInfo ops filterBoxes classId x_pad y_pad model_in_w
            model_in_h scale (c : Int) (objProbs.getD c default)) := by
  have hcand : ∀ (probs : List α) (idx : List Int), probs.length = objProbs.length →
      idx.length = objProbs.length →
      (probs.zip idx).Perm
        (objProbs.zip ((List.range objProbs.length).map (fun i : Nat => (i : Int)))) →
      ∀ i, i < objProbs.length → ∃ c : Nat, c < objProbs.length ∧
        idx.getD i 0 = (c : Int) ∧ probs.getD i default = objProbs.getD c default := by
    intro probs idx len1 len2 perm i hi
    have hmem : (probs.getD i default, idx.getD i 0) ∈ probs.zip idx := by
      rw [← List.getD_zip default 0 probs idx i (len1.trans len2.symm),
        List.getD_eq_getElem _ _ (by rw [List.length_zip]; omega)]
      exact List.getElem_mem _
    obtain ⟨c, hc, e1, e2⟩ := List.mem_zip_range default objProbs _ _ (perm.subset hmem)
    exact ⟨c, hc, e1, e2⟩
  constructor
  · intro indexArray hlen
    obtain ⟨probs, idx, ret, e, len1, len2, perm, sorted⟩ :=
      quick_sort_indice_inverse_whole ops.le htotal htrans objProbs indexArray fuel hlen hfuel
    refine ⟨probs, idx, ret, e, sorted, ?_, ?_, perm, ?_⟩
    · have h := perm.map Prod.fst
      rwa [List.map_fst_zip _ _ (by omega), List.map_fst_zip _ _ (by omega)] at h
    · have h := perm.map Prod.snd
      rwa [List.map_snd_zip _ _ (by omega), List.map_snd_zip _ _ (by omega)] at h
    · intro hid
      rw [hid] at perm
      exact hcand probs idx len1 len2 perm
  · intro threshold_ filterBoxes classId x_pad y_pad model_in_w model_in_h scale hpos
    obtain ⟨probs, idx, ret, e, len1, len2, perm, sorted⟩ :=
      quick_sort_indice_inverse_whole ops.le htotal htrans objProbs
        ((List.range objProbs.length).map (fun i : Nat => (i : Int))) fuel (by simp) hfuel
    unfold ObjectDetector.process
    rw [if_neg (by omega)]
    simp only [Int.toNat_ofNat]
    rw [e]
    simp only
    obtain ⟨hml, hmask⟩ := nms.foldl_masked
      (fun order c => nms ops (objProbs.length : Int) filterBoxes classId order c threshold_)
      (fun o c => nms_masked ops _ filterBoxes classId o c threshold_)
      (ObjectDetector.class_set classId) idx
    obtain ⟨js, hsub, hne, hemit⟩ := ObjectDetector.emit_spec ops filterBoxes probs classId
      ((ObjectDetector.class_set classId).foldl
        (fun order c => nms ops (objProbs.length : Int) filterBoxes classId order c threshold_)
        idx) x_pad y_pad model_in_w model_in_h scale (objProbs.length : Int)
    rw [Int.toNat_ofNat] at hsub
    refine ⟨_, rfl, ?_, ?_⟩
    · rw [hemit, List.map_map, List.pairwise_map]
      have hlt : js.Pairwise (fun a b => a < b) :=
        List.Pairwise.sublist hsub (List.pairwise_lt_range _)
      refine List.Pairwise.imp_of_mem ?_ hlt
      intro a b ha hb hab
      have ha1 : a < probs.length := by
        rw [len1]; exact List.mem_range.1 (hsub.subset ha)
      have hb1 : b < probs.length := by
        rw [len1]; exact List.mem_range.1 (hsub.subset hb)
      have h := (List.pairwise_iff_getElem.1 sorted) a b ha1 hb1 hab
      simp only [Function.comp, ObjectDetector.objInfo]
      rw [List.getD_eq_getElem _ _ ha1, List.getD_eq_getElem _ _ hb1]
      exact h
    · intro info hinfo
      rw [hemit] at hinfo
      obtain ⟨j, hj, rfl⟩ := List.mem_map.1 hinfo
      have hj1 : j < objProbs.length := List.mem_range.1 (hsub.subset hj)
      obtain ⟨c, hc, e1, e2⟩ := hcand probs idx len1 len2 perm j hj1
      refine ⟨c, hc, ?_⟩
      rcases hmask j with h | h
      · rw [h, e1, e2]
      · exact absurd h (hne j hj)


/-- Witness for C30: four candidates with probabilities 30, 90, 50, 70; the sort gives
90, 70, 50, 30 with indices 1, 3, 2, 0, and `process` pushes candidates 1, 2, 0 (candidate 3 is
suppressed by `nms`), each with its own probability, class and box. -/
theorem process_emits_sorted_witness :
    (∀ a b : Int, FloatOps.int.le a b = true ∨ FloatOps.int.le b a = true) ∧
    (∀ a b c : Int, FloatOps.int.le a b = true → FloatOps.int.le b c = true →
      FloatOps.int.le a c = true) ∧
    Scenario.detProbs.length < 5 ∧
    quick_sort_indice_inverse FloatOps.int.le 5 Scenario.detProbs 0 3 [0, 1, 2, 3]
      = some ([90, 70, 50, 30], [1, 3, 2, 0], 3) ∧
    ObjectDetector.process FloatOps.int 5 45 Scenario.detBoxes Scenario.detProbs
      Scenario.detClasses 4 0 0 640 640 1
      = some (some [⟨100, 100, 120, 120, 0, 90⟩, ⟨50, 50, 60, 60, 1, 50⟩,
          ⟨0, 0, 10, 10, 1, 30⟩]) ∧
    ∃ infos : List (ObjectInfo Int),
      ObjectDetector.process FloatOps.int 5 45 Scenario.detBoxes Scenario.detProbs
        Scenario.detClasses (Scenario.detProbs.length : Int) 0 0 640 640 1
        = some (some infos) ∧
      (infos.map ObjectInfo.prob).Pairwise (fun a b => FloatOps.int.le b a = true) ∧
      ∀ info ∈ infos, ∃ c : Nat, c < Scenario.detProbs.length ∧
        info = ObjectDetector.objInfo FloatOps.int Scenario.detBoxes Scenario.detClasses
          0 0 640 640 1 (c : Int) (Scenario.detProbs.getD c default) :=
  ⟨FloatOps.int_le_total, FloatOps.int_le_trans, by decide, by decide, by decide,
    (process_emits_sorted FloatOps.int FloatOps.int_le_total FloatOps.int_le_trans
      Scenario.detProbs 5 (by decide)).2 45 Scenario.detBoxes Scenario.detClasses 0 0 640 640 1
      (by decide)⟩

theorem List.countP_set_add {β : Type} (p : β → Bool) (a b : β) :
    ∀ (l : List β) (k : Nat), l[k]? = some b →
      (l.set k a).countP p + (if p b then 1 else 0) = l.countP p + (if p a then 1 else 0)
  | [], _, h => by simp at h
  | c :: l, 0, h => by
    simp only [List.getElem?_cons_zero, Option.some.injEq] at h
    subst h
    simp only [List.set_cons_zero, List.countP_cons]
    omega
  | c :: l, k + 1, h => by
    simp only [List.getElem?_cons_succ] at h
    have ih := List.countP_set_add p a b l k h
    simp only [List.set_cons_succ, List.countP_cons]
    omega

theorem List.countP_eraseIdx_add {β : Type} (p : β → Bool) (b : β) :
    ∀ (l : List β) (k : Nat), l[k]? = some b →
      (l.eraseIdx k).countP p + (if p b then 1 else 0) = l.countP p
  | [], _, h => by simp at h
  | c :: l, 0, h => by
    simp only [List.getElem?_cons_zero, Option.some.injEq] at h
    subst h
    simp only [List.eraseIdx_cons_zero, List.countP_cons]
  | c :: l, k + 1, h => by
    simp only [List.getElem?_cons_succ] at h
    have ih := List.countP_eraseIdx_add p b l k h
    simp only [List.eraseIdx_cons_succ, List.countP_cons]
    omega

theorem List.length_eraseIdx_add {β : Type} (b : β) :
    ∀ (l : List β) (k : Nat), l[k]? = some b → (l.eraseIdx k).length + 1 = l.length
  | [], _, h => by simp at h
  | c :: l, 0, _ => by simp
  | c :: l, k + 1, h => by
    simp only [List.getElem?_cons_succ] at h
    have ih := List.length_eraseIdx_add b l k h
    simp only [List.eraseIdx_cons_succ, List.length_cons]
    omega

theorem List.countP_lt_length {β : Type} (p : β → Bool) (b : β) (l : List β) (k : Nat)
    (h : l[k]? = some b) (hb : p b = false) : l.countP p + 1 ≤ l.length := by
  have h1 := List.countP_eraseIdx_add p b l k h
  have h2 := List.length_eraseIdx_add b l k h
  have h3 := List.countP_le_length p (l := l.eraseIdx k)
  rw [hb] at h1
  simp only [Bool.false_eq_true, if_false] at h1
  omega

theorem Session.accepted_append_true (returned : List (DataPtr × Bool)) (data : DataPtr) :
    ((returned ++ [(data, true)]).filter fun r : DataPtr × Bool => r.2).map Prod.fst
      = (returned.filter fun r : DataPtr × Bool => r.2).map Prod.fst ++ [data] := by
  simp

theorem Session.accepted_append_false (returned : List (DataPtr × Bool)) (data : DataPtr) :
    ((returned ++ [(data, false)]).filter fun r : DataPtr × Bool => r.2).map Prod.fst
      = (returned.filter fun r : DataPtr × Bool => r.2).map Prod.fst := by
  simp

theorem Session.of_inv (p : StreamingPipeline) (producers : Nat)
    (hq : p.inputQueue.queue = []) (hr : p.running = true) (ht : p.threadJoinable = true)
    (hp : p.processedItems = 0) (he : p.errorCount = 0) : (Session.of p producers).Inv := by
  refine ⟨?_, ?_, ?_, ?_, ?_, ?_, ?_, ?_, ?_⟩
  · simp [Session.of, Session.accepted, hq]
  · simp [Session.of, hp]
  · simp [Session.of, he]
  · intro h; simp [Session.of, hr] at h
  · intro h; simp [Session.of] at h
  · intro h; simp [Session.of, ht] at h
  · intro h; simp [Session.of] at h
  · simp [Session.of]
  · simp [Session.of, Session.committed, threadsafe_queue.size, hq]

theorem Session.addInput_inv (s : Session) (data : DataPtr) (h : s.Inv) :
    (s.addInput data).Inv := by
  unfold Session.addInput
  by_cases hc : s.calls.length ≥ s.producers
  · rw [if_pos hc]; exact h
  · rw [if_neg hc]
    cases data with
    | none =>
      exact ⟨by
          have hi := h.input
          simp only [Session.accepted] at hi ⊢
          rw [Session.accepted_append_false]; exact hi,
        h.processedItems, h.errorCount, h.flags, h.exited, h.joinable, h.stopped, h.calls,
        h.bound⟩
    | some v =>
      refine ⟨h.input, h.processedItems, h.errorCount, h.flags, ?_, h.joinable, h.stopped,
        ?_, ?_⟩
      · intro he
        obtain ⟨h1, h2⟩ := h.exited he
        refine ⟨h1, ?_⟩
        rw [← h2]
        simp [Session.pushing, List.countP_append, AddInputCall.isPushing]
      · show (s.calls ++ [AddInputCall.waiting (some v)]).length ≤ s.producers
        simp only [List.length_append, List.length_singleton]
        omega
      · have hb := h.bound
        simp only [Session.committed, List.countP_append, List.countP_cons, List.countP_nil,
          AddInputCall.committed] at hb ⊢
        simpa using hb


theorem Session.advance_inv (s : Session) (k : Nat) (h : s.Inv) : (s.advance k).Inv := by
  unfold Session.advance
  cases hk : s.calls[k]? with
  | none => exact h
  | some call =>
    cases call with
    | waiting data =>
      simp only
      by_cases hc : (decide (s.pipeline.inputQueue.size ≥ s.pipeline.queueMaxSize)
          && s.pipeline.input_active) = true
      · rw [if_pos hc]; exact h
      · rw [if_neg hc]
        refine ⟨h.input, h.processedItems, h.errorCount, h.flags, ?_, h.joinable, h.stopped,
          ?_, ?_⟩
        · intro he
          obtain ⟨h1, h2⟩ := h.exited he
          refine ⟨h1, ?_⟩
          rw [← h2]
          have hset := List.countP_set_add AddInputCall.isPushing (AddInputCall.testing data)
            (AddInputCall.waiting data) s.calls k hk
          simp only [AddInputCall.isPushing, Bool.false_eq_true, if_false] at hset
          simp only [Session.pushing]
          omega
        · show (s.calls.set k _).length ≤ s.producers
          rw [List.length_set]; exact h.calls
        · have hset := List.countP_set_add (AddInputCall.committed s.pipeline.input_active)
            (AddInputCall.testing data) (AddInputCall.waiting data) s.calls k hk
          have hlt := List.countP_lt_length (AddInputCall.committed s.pipeline.input_active)
            (AddInputCall.waiting data) s.calls k hk rfl
          have hb := h.bound
          have hcalls := h.calls
          simp only [Session.committed] at hb ⊢
          generalize s.pipeline.input_active = act at hset hlt hb hc ⊢
          cases act
          · simp only [AddInputCall.committed, Bool.false_eq_true, if_false] at hset
            omega
          · simp only [AddInputCall.committed, Bool.and_true, decide_eq_true_eq, if_true,
              Bool.false_eq_true, if_false] at hc hset
            omega
    | testing data =>
      simp only
      by_cases ha : s.pipeline.input_active = true
      · rw [if_pos ha]
        refine ⟨h.input, h.processedItems, h.errorCount, h.flags, ?_, h.joinable, h.stopped,
          ?_, ?_⟩
        · intro he
          have h1 := h.flags (h.exited he).1
          rw [ha] at h1; cases h1
        · show (s.calls.set k _).length ≤ s.producers
          rw [List.length_set]; exact h.calls
        · have hset := List.countP_set_add (AddInputCall.committed s.pipeline.input_active)
            (AddInputCall.pushing data) (AddInputCall.testing data) s.calls k hk
          have hb := h.bound
          simp only [Session.committed, AddInputCall.committed, ha, if_true] at *
          omega
      · rw [if_neg ha]
        have hlen := List.length_eraseIdx_add _ s.calls k hk
        refine ⟨?_, h.processedItems, h.errorCount, h.flags, ?_, h.joinable, h.stopped,
          ?_, ?_⟩
        · have hi := h.input
          simp only [Session.accepted] at hi ⊢
          rw [Session.accepted_append_false]; exact hi
        · intro he
          obtain ⟨h1, h2⟩ := h.exited he
          refine ⟨h1, ?_⟩
          rw [← h2]
          have hset := List.countP_eraseIdx_add AddInputCall.isPushing
            (AddInputCall.testing data) s.calls k hk
          simp only [AddInputCall.isPushing, Bool.false_eq_true, if_false] at hset
          simp only [Session.pushing]
          omega
        · show (s.calls.eraseIdx k).length ≤ s.producers
          have := h.calls
          omega
        · have hset := List.countP_eraseIdx_add
            (AddInputCall.committed s.pipeline.input_active) (AddInputCall.testing data)
            s.calls k hk
          have hb := h.bound
          simp only [Session.committed, AddInputCall.committed, ha, if_false] at *
          omega
    | pushing data =>
      simp only
      have hlen := List.length_eraseIdx_add _ s.calls k hk
      refine ⟨?_, h.processedItems, h.errorCount, h.flags, ?_, h.joinable, h.stopped, ?_, ?_⟩
      · have hi := h.input
        simp only [Session.accepted, threadsafe_queue.push] at hi ⊢
        rw [Session.accepted_append_true, ← hi, List.append_assoc]
      · intro he
        obtain ⟨h1, h2⟩ := h.exited he
        refine ⟨h1, ?_⟩
        rw [← h2]
        have hset := List.countP_eraseIdx_add AddInputCall.isPushing
          (AddInputCall.pushing data) s.calls k hk
        simp only [AddInputCall.isPushing, if_true] at hset
        simp only [Session.pushing, threadsafe_queue.push, List.length_append,
          List.length_singleton]
        omega
      · show (s.calls.eraseIdx k).length ≤ s.producers
        have := h.calls
        omega
      · have hset := List.countP_eraseIdx_add
          (AddInputCall.committed s.pipeline.input_active) (AddInputCall.pushing data)
          s.calls k hk
        have hb := h.bound
        simp only [Session.committed, AddInputCall.committed, if_true, threadsafe_queue.size,
          threadsafe_queue.push, List.length_append, List.length_singleton] at *
        omega


theorem Session.loopPass_inv (s s1 : Session) (h : s.Inv) (hs : s.loopPass = some s1) :
    s1.Inv := by
  unfold Session.loopPass at hs
  split at hs
  · rename_i hj
    simp only [Bool.and_eq_true, Bool.not_eq_true'] at hj
    split at hs
    · cases hb : s.pipeline.loopBody with
      | none => rw [hb] at hs; cases hs
      | some p1 =>
        rw [hb] at hs
        simp only [Option.map_some', Option.some.injEq] at hs
        subst hs
        have hp := StreamingPipeline.loopBody_processed s.pipeline p1 hb
        have hlen := congrArg List.length hp.input
        simp only [List.length_append, List.length_map] at hlen
        refine ⟨?_, ?_, ?_, ?_, ?_, ?_, h.stopped, h.calls, ?_⟩
        · show (s.processed ++ s.pipeline.observeBody.toList).map Prod.fst
            ++ p1.inputQueue.queue = s.accepted
          rw [List.map_append, List.append_assoc, hp.input]
          exact h.input
        · show p1.processedItems = _
          rw [hp.processedItems, h.processedItems, List.filterMap_append, List.length_append]
        · show p1.errorCount = _
          rw [hp.errorCount, h.errorCount, List.filter_append, List.length_append]
        · show p1.running = false → p1.input_active = false
          rw [hp.running, hp.input_active]
          exact h.flags
        · intro he
          have he1 : s.loopExited = true := he
          rw [hj.2] at he1; cases he1
        · show p1.threadJoinable = false → _
          rw [hp.threadJoinable]
          exact h.joinable
        · have hb1 := h.bound
          show p1.inputQueue.size + List.countP (AddInputCall.committed p1.input_active) s.calls
            ≤ p1.queueMaxSize + (s.producers - 1)
          rw [hp.input_active, hp.queueMaxSize]
          simp only [Session.committed, threadsafe_queue.size] at hb1 ⊢
          omega
    · rename_i hc
      simp only [Option.some.injEq] at hs
      subst hs
      simp only [Bool.or_eq_true, Bool.not_eq_true', not_or, Bool.not_eq_true,
        Bool.not_eq_false, threadsafe_queue.empty, List.isEmpty_iff] at hc
      refine ⟨h.input, h.processedItems, h.errorCount, h.flags, ?_, h.joinable, ?_, h.calls,
        h.bound⟩
      · intro _
        refine ⟨hc.1, ?_⟩
        show s.pipeline.inputQueue.queue.length + s.pushing = s.pushing
        rw [hc.2]; simp
      · intro _; rfl
  · simp only [Option.some.injEq] at hs
    subst hs
    exact h

theorem Session.stopBegin_inv (s : Session) (h : s.Inv) : s.stopBegin.Inv := by
  unfold Session.stopBegin
  by_cases hr : s.pipeline.running = true
  · simp only [hr, Bool.not_true, Bool.false_eq_true, if_false]
    refine ⟨h.input, h.processedItems, h.errorCount, fun _ => rfl, ?_, h.joinable, h.stopped,
      h.calls, ?_⟩
    · intro he
      have h1 := (h.exited he).1
      rw [hr] at h1; cases h1
    · have hb := h.bound
      have hmono : List.countP (AddInputCall.committed false) s.calls
          ≤ List.countP (AddInputCall.committed s.pipeline.input_active) s.calls := by
        apply List.countP_mono_left
        intro c _ hc
        cases c <;> simp [AddInputCall.committed] at hc ⊢
      simp only [Session.committed, threadsafe_queue.size] at hb ⊢
      omega
  · simp only [hr, Bool.not_eq_true] at hr ⊢
    simp only [hr, Bool.not_false, if_true]
    exact h

theorem Session.stopEnd_inv (s : Session) (h : s.Inv) : s.stopEnd.Inv := by
  unfold Session.stopEnd
  split
  · rename_i hc
    simp only [Bool.and_eq_true, Bool.or_eq_true, Bool.not_eq_true'] at hc
    have hex : s.loopExited = true := by
      rcases hc.2 with h1 | h1
      · exact h1
      · exact h.stopped (h.joinable h1)
    simp only
    split
    · exact ⟨h.input, h.processedItems, h.errorCount, h.flags, h.exited, fun _ => rfl,
        fun _ => hex, h.calls, h.bound⟩
    · exact ⟨h.input, h.processedItems, h.errorCount, h.flags, h.exited, fun _ => rfl,
        fun _ => hex, h.calls, h.bound⟩
  · exact h

theorem Session.step_inv (s s1 : Session) (a : SessionAction) (h : s.Inv)
    (hs : s.step a = some s1) : s1.Inv := by
  cases a with
  | addInput data =>
    simp only [Session.step, Option.some.injEq] at hs
    subst hs; exact Session.addInput_inv s data h
  | advance k =>
    simp only [Session.step, Option.some.injEq] at hs
    subst hs; exact Session.advance_inv s k h
  | loopPass => exact Session.loopPass_inv s s1 h hs
  | stopBegin =>
    simp only [Session.step, Option.some.injEq] at hs
    subst hs; exact Session.stopBegin_inv s h
  | stopEnd =>
    simp only [Session.step, Option.some.injEq] at hs
    subst hs; exact Session.stopEnd_inv s h
  | tryGetOutput =>
    simp only [Session.step, Option.some.injEq] at hs
    subst hs
    exact ⟨h.input, h.processedItems, h.errorCount, h.flags, h.exited, h.joinable, h.stopped,
      h.calls, h.bound⟩

theorem Session.run_inv : ∀ (actions : List SessionAction) (s s1 : Session), s.Inv →
    s.run actions = some s1 → s1.Inv
  | [], s, s1, h, hr => by
    simp only [Session.run, Option.some.injEq] at hr
    subst hr; exact h
  | a :: rest, s, s1, h, hr => by
    unfold Session.run at hr
    cases hs : s.step a with
    | none => rw [hs] at hr; cases hr
    | some s2 =>
      rw [hs] at hr
      exact Session.run_inv rest s2 s1 (Session.step_inv s s2 a h hs) hr

theorem List.getElem?_append_some {β : Type} (l e : List β) (k : Nat) (v : β)
    (h : l[k]? = some v) : (l ++ e)[k]? = some v := by
  have hk : k < l.length := (List.getElem?_eq_some.1 h).1
  rw [List.getElem?_append_left hk]
  exact h

theorem List.getElem?_append_length {β : Type} (l e : List β) (x : β) :
    (l ++ x :: e)[l.length]? = some x := by
  rw [List.getElem?_append_right (Nat.le_refl _), Nat.sub_self, List.getElem?_cons_zero]

theorem Dispatch.foldl_enqueue (deps : List NodePtr) : ∀ (acc : Dispatch × List Nat),
    (deps.foldl Dispatch.enqueue acc).1.store = acc.1.store ∧
    (deps.foldl Dispatch.enqueue acc).1.ready = acc.1.ready ∧
    (deps.foldl Dispatch.enqueue acc).1.threads = acc.1.threads ∧
    ∃ (extra : List NodeRef) (newtasks : List (Nat × NodeRef)) (new : List Nat),
      (deps.foldl Dispatch.enqueue acc).1.issued = acc.1.issued ++ extra ∧
      (deps.foldl Dispatch.enqueue acc).1.tasks = acc.1.tasks ++ newtasks ∧
      (deps.foldl Dispatch.enqueue acc).2 = acc.2 ++ new ∧
      (∀ x ∈ extra, some x ∈ deps) ∧
      (∀ (k : Nat) (node : NodeRef), (k, node) ∈ newtasks →
        (acc.1.issued ++ extra)[k]? = some node) ∧
      (∀ x : Nat, some x ∈ deps → ∃ k ∈ new, (acc.1.issued ++ extra)[k]? = some x) := by
  induction deps with
  | nil =>
    intro acc
    exact ⟨rfl, rfl, rfl, [], [], [], by simp, by simp, by simp, by simp, by simp, by simp⟩
  | cons dep rest ih =>
    intro acc
    simp only [List.foldl_cons]
    cases dep with
    | none =>
      obtain ⟨h1, h2, h3, extra, newtasks, new, e1, e2, e3, p1, p2, p3⟩ := ih acc
      refine ⟨h1, h2, h3, extra, newtasks, new, e1, e2, e3, ?_, p2, ?_⟩
      · intro x hx; exact List.mem_cons_of_mem _ (p1 x hx)
      · intro x hx
        rcases List.mem_cons.1 hx with h | h
        · cases h
        · exact p3 x h
    | some r =>
      obtain ⟨h1, h2, h3, extra, newtasks, new, e1, e2, e3, p1, p2, p3⟩ :=
        ih (Dispatch.enqueue acc (some r))
      have hiss : (Dispatch.enqueue acc (some r)).1.issued ++ extra
          = acc.1.issued ++ (r :: extra) := by
        simp [Dispatch.enqueue]
      rw [hiss] at e1 p2 p3
      refine ⟨h1, h2, h3, r :: extra, (acc.1.issued.length, r) :: newtasks,
        acc.1.issued.length :: new, e1, ?_, ?_, ?_, ?_, ?_⟩
      · rw [e2]; simp [Dispatch.enqueue]
      · rw [e3]; simp [Dispatch.enqueue]
      · intro x hx
        rcases List.mem_cons.1 hx with h | h
        · rw [h]; exact List.mem_cons_self _ _
        · exact List.mem_cons_of_mem _ (p1 x h)
      · intro k node hk
        rcases List.mem_cons.1 hk with h | h
        · simp only [Prod.mk.injEq] at h
          obtain ⟨rfl, rfl⟩ := h
          exact List.getElem?_append_length _ _ _
        · exact p2 k node h
      · intro x hx
        rcases List.mem_cons.1 hx with h | h
        · simp only [Option.some.injEq] at h
          subst h
          exact ⟨acc.1.issued.length, List.mem_cons_self _ _,
            List.getElem?_append_length _ _ _⟩
        · obtain ⟨k, hk, e⟩ := p3 x h
          exact ⟨k, List.mem_cons_of_mem _ hk, e⟩

theorem Store.WF.dependency_lt {s : Store} (hwf : s.WF) (t x : Nat)
    (h : some x ∈ TaskNode.getDependencies s t) : x < t := by
  unfold TaskNode.getDependencies at h
  cases hn : s.nodes[t]? with
  | none => rw [hn] at h; simp at h
  | some n =>
    rw [hn] at h
    obtain ⟨d, e, hlt⟩ := hwf.acyclic t n hn (some x) h
    simp only [Option.some.injEq] at e
    rw [e]; exact hlt


theorem Dispatch.complete_fields (d : Dispatch) (future : Option Nat) :
    (d.complete future).store = d.store ∧ (d.complete future).issued = d.issued ∧
    (d.complete future).tasks = d.tasks ∧ (d.complete future).threads = d.threads ∧
    ∀ k ∈ (d.complete future).ready, k ∈ d.ready ∨ future = some k := by
  cases future with
  | none => exact ⟨rfl, rfl, rfl, rfl, fun k hk => Or.inl hk⟩
  | some f =>
    refine ⟨rfl, rfl, rfl, rfl, fun k hk => ?_⟩
    simp only [Dispatch.complete, List.mem_append, List.mem_singleton] at hk
    rcases hk with h | h
    · exact Or.inl h
    · exact Or.inr (by rw [h])

theorem List.getElem?_set_idle {β : Type} (l : List β) (i j : Nat) (x b : β)
    (hi : l[i]? = some b) : (l.set i x)[j]? = if i = j then some x else l[j]? := by
  have hil : i < l.length := (List.getElem?_eq_some.1 hi).1
  rw [List.getElem?_set]
  by_cases h : i = j
  · rw [if_pos h, if_pos h, if_pos hil]
  · rw [if_neg h, if_neg h]

/-- Entering `executeTask(node)` keeps the invariant of the dispatch. -/
theorem Dispatch.beginExecuteTask_sound (s0 : Store) (terminal : NodeRef) (d : Dispatch)
    (i : Nat) (future : Option Nat) (node : NodeRef)
    (hrun : s0.Run d.store s0.nodes.length)
    (hissued : ∀ x ∈ d.issued, x < s0.nodes.length)
    (htasks : ∀ (k : Nat) (x : NodeRef), (k, x) ∈ d.tasks → d.issued[k]? = some x)
    (hready : ∀ k ∈ d.ready, ∃ x : NodeRef, d.issued[k]? = some x ∧
      TaskNode.isExecuted d.store x = true)
    (hframes : ∀ (j : Nat) (frame : WaitFrame), d.threads[j]? = some (some frame) →
      frame.node < s0.nodes.length ∧
      (∀ k, frame.future = some k → d.issued[k]? = some frame.node) ∧
      (∀ x : Nat, some x ∈ TaskNode.getDependencies d.store frame.node →
        TaskNode.isExecuted d.store x = true ∨ ∃ k ∈ frame.waits, d.issued[k]? = some x))
    (hcr : i ≠ 0 → d.threads[0]? = some none → TaskNode.isExecuted d.store terminal = true)
    (hcf : ∀ frame : WaitFrame, d.threads[0]? = some (some frame) → frame.node = terminal)
    (hi : d.threads[i]? = some none) (hnode : node < s0.nodes.length)
    (hfut : ∀ k, future = some k → d.issued[k]? = some node)
    (hcaller : i = 0 → node = terminal) :
    Dispatch.Sound s0 terminal (d.beginExecuteTask i future node) := by
  unfold Dispatch.beginExecuteTask
  by_cases hex : TaskNode.isExecuted d.store node = true
  · rw [if_pos hex]
    obtain ⟨c1, c2, c3, c4, c5⟩ := Dispatch.complete_fields d future
    have hth : ∀ j, ((d.complete future).setThread i none).threads[j]?
        = if i = j then some none else d.threads[j]? := by
      intro j
      show ((d.complete future).threads.set i none)[j]? = _
      rw [c4]
      exact List.getElem?_set_idle _ _ _ _ _ hi
    refine ⟨?_, ?_, ?_, ?_, ?_, ?_, ?_⟩
    · show s0.Run (d.complete future).store _
      rw [c1]; exact hrun
    · show ∀ x ∈ (d.complete future).issued, _
      rw [c2]; exact hissued
    · show ∀ (k : Nat) (x : NodeRef), (k, x) ∈ (d.complete future).tasks →
        (d.complete future).issued[k]? = some x
      rw [c2, c3]; exact htasks
    · show ∀ k ∈ (d.complete future).ready, ∃ x : NodeRef,
        (d.complete future).issued[k]? = some x ∧
        TaskNode.isExecuted (d.complete future).store x = true
      rw [c1, c2]
      intro k hk
      rcases c5 k hk with h | h
      · exact hready k h
      · exact ⟨node, hfut k h, hex⟩
    · intro j frame hj
      rw [hth j] at hj
      by_cases hij : i = j
      · rw [if_pos hij] at hj; cases hj
      · rw [if_neg hij] at hj
        show _ ∧ (∀ k, frame.future = some k → (d.complete future).issued[k]? = _) ∧
          (∀ x : Nat, some x ∈ TaskNode.getDependencies (d.complete future).store frame.node →
            TaskNode.isExecuted (d.complete future).store x = true ∨
              ∃ k ∈ frame.waits, (d.complete future).issued[k]? = some x)
        rw [c1, c2]
        exact hframes j frame hj
    · intro h0
      rw [hth 0] at h0
      show TaskNode.isExecuted (d.complete future).store terminal = true
      rw [c1]
      by_cases hi0 : i = 0
      · rw [← hcaller hi0]; exact hex
      · rw [if_neg hi0] at h0
        exact hcr hi0 h0
    · intro frame h0
      rw [hth 0] at h0
      by_cases hi0 : i = 0
      · rw [if_pos hi0] at h0; cases h0
      · rw [if_neg hi0] at h0
        exact hcf frame h0
  · rw [if_neg hex]
    simp only
    obtain ⟨e1, e2, e3, extra, newtasks, new, e4, e5, e6, p1, p2, p3⟩ :=
      Dispatch.foldl_enqueue (TaskScheduler.pendingDependencies d.store node) (d, [])
    simp only [List.nil_append] at e1 e2 e3 e4 e5 e6 p2 p3
    have hth : ∀ (fr : Option WaitFrame) (j : Nat),
        (((d.enqueueAll (TaskScheduler.pendingDependencies d.store node)).1).setThread i
          fr).threads[j]? = if i = j then some fr else d.threads[j]? := by
      intro fr j
      show ((d.enqueueAll _).1.threads.set i fr)[j]? = _
      unfold Dispatch.enqueueAll
      rw [e3]
      exact List.getElem?_set_idle _ _ _ _ _ hi
    have hst : (d.enqueueAll (TaskScheduler.pendingDependencies d.store node)).1.store
        = d.store := e1
    have his : (d.enqueueAll (TaskScheduler.pendingDependencies d.store node)).1.issued
        = d.issued ++ extra := e4
    have hpend : ∀ x : Nat, some x ∈ TaskScheduler.pendingDependencies d.store node →
        some x ∈ TaskNode.getDependencies d.store node := by
      intro x hx
      unfold TaskScheduler.pendingDependencies at hx
      exact (List.mem_filter.1 hx).1
    have hlen : d.store.nodes.length = s0.nodes.length := hrun.graph.length
    refine ⟨?_, ?_, ?_, ?_, ?_, ?_, ?_⟩
    · show s0.Run (d.enqueueAll _).1.store _
      rw [hst]; exact hrun
    · show ∀ x ∈ (d.enqueueAll _).1.issued, _
      rw [his]
      intro x hx
      rcases List.mem_append.1 hx with h | h
      · exact hissued x h
      · exact Nat.lt_trans (hrun.wf.dependency_lt node x (hpend x (p1 x h))) hnode
    · show ∀ (k : Nat) (x : NodeRef), (k, x) ∈ (d.enqueueAll _).1.tasks →
        (d.enqueueAll _).1.issued[k]? = some x
      rw [his]
      intro k x hk
      have hk2 : (k, x) ∈ d.tasks ++ newtasks := by
        have : (d.enqueueAll (TaskScheduler.pendingDependencies d.store node)).1.tasks
            = d.tasks ++ newtasks := e5
        rw [← this]; exact hk
      rcases List.mem_append.1 hk2 with h | h
      · exact List.getElem?_append_some _ _ _ _ (htasks k x h)
      · exact p2 k x h
    · show ∀ k ∈ (d.enqueueAll _).1.ready, ∃ x : NodeRef,
        (d.enqueueAll _).1.issued[k]? = some x ∧
        TaskNode.isExecuted (d.enqueueAll _).1.store x = true
      rw [hst, his]
      intro k hk
      have hk2 : k ∈ d.ready := by
        have : (d.enqueueAll (TaskScheduler.pendingDependencies d.store node)).1.ready
            = d.ready := e2
        rw [← this]; exact hk
      obtain ⟨x, hx1, hx2⟩ := hready k hk2
      exact ⟨x, List.getElem?_append_some _ _ _ _ hx1, hx2⟩
    · intro j frame hj
      rw [hth _ j] at hj
      show _ ∧ (∀ k, frame.future = some k → (d.enqueueAll _).1.issued[k]? = _) ∧
        (∀ x : Nat, some x ∈ TaskNode.getDependencies (d.enqueueAll _).1.store frame.node →
          TaskNode.isExecuted (d.enqueueAll _).1.store x = true ∨
            ∃ k ∈ frame.waits, (d.enqueueAll _).1.issued[k]? = some x)
      rw [hst, his]
      by_cases hij : i = j
      · rw [if_pos hij] at hj
        simp only [Option.some.injEq] at hj
        subst hj
        refine ⟨hnode, fun k hk => List.getElem?_append_some _ _ _ _ (hfut k hk), ?_⟩
        intro x hx
        by_cases hxe : TaskNode.isExecuted d.store x = true
        · exact Or.inl hxe
        · right
          have hp : some x ∈ TaskScheduler.pendingDependencies d.store node := by
            unfold TaskScheduler.pendingDependencies
            exact List.mem_filter.2 ⟨hx, by simpa using hxe⟩
          obtain ⟨k, hk, e⟩ := p3 x hp
          refine ⟨k, ?_, e⟩
          show k ∈ (d.enqueueAll _).2
          unfold Dispatch.enqueueAll
          rw [e6]; exact hk
      · rw [if_neg hij] at hj
        obtain ⟨f1, f2, f3⟩ := hframes j frame hj
        refine ⟨f1, fun k hk => List.getElem?_append_some _ _ _ _ (f2 k hk), ?_⟩
        intro x hx
        rcases f3 x hx with h | ⟨k, hk, e⟩
        · exact Or.inl h
        · exact Or.inr ⟨k, hk, List.getElem?_append_some _ _ _ _ e⟩
    · intro h0
      rw [hth _ 0] at h0
      show TaskNode.isExecuted (d.enqueueAll _).1.store terminal = true
      rw [hst]
      by_cases hi0 : i = 0
      · rw [if_pos hi0] at h0; cases h0
      · rw [if_neg hi0] at h0
        exact hcr hi0 h0
    · intro frame h0
      rw [hth _ 0] at h0
      by_cases hi0 : i = 0
      · rw [if_pos hi0] at h0
        simp only [Option.some.injEq] at h0
        subst h0
        exact hcaller hi0
      · rw [if_neg hi0] at h0
        exact hcf frame h0


/-- The step `task->executeOnce()` of a thread whose dependencies have all executed: the store
only gains the executed node. -/
theorem Dispatch.executeOnce_step (s0 s : Store) (hrun : s0.Run s s0.nodes.length)
    (node : NodeRef) (hnode : node < s0.nodes.length)
    (hdeps : ∀ x : Nat, some x ∈ TaskNode.getDependencies s node →
      TaskNode.isExecuted s x = true) :
    s.Run (TaskNode.executeOnce s node) s0.nodes.length ∧
    TaskNode.isExecuted (TaskNode.executeOnce s node) node = true := by
  by_cases hex : TaskNode.isExecuted s node = true
  · rw [(executeOnce_idempotent s node).1 hex]
    exact ⟨Store.Run.run_refl hrun.wf _, hex⟩
  · have hlen : s.nodes.length = s0.nodes.length := hrun.graph.length
    have hlt : node < s.nodes.length := by rw [hlen]; exact hnode
    have hn : s.nodes[node]? = some (s.nodes.get ⟨node, hlt⟩) := List.getElem?_eq_getElem hlt
    have hne : (s.nodes.get ⟨node, hlt⟩).executed = false := by
      unfold TaskNode.isExecuted at hex
      rw [hn] at hex
      simpa using hex
    have hd : ∀ x : Nat, some x ∈ (s.nodes.get ⟨node, hlt⟩).dependencies →
        TaskNode.isExecuted s x = true := by
      intro x hx
      apply hdeps x
      unfold TaskNode.getDependencies
      rw [hn]; exact hx
    obtain ⟨r1, r2⟩ := TaskNode.executeOnce_run s hrun.wf node _ hn hne hd
    exact ⟨r1.weaken (Nat.succ_le_of_lt hnode), r2⟩

/-- A step of a thread keeps the invariant of the dispatch. -/
theorem Dispatch.stepThread_sound (s0 : Store) (terminal : NodeRef) (d d1 : Dispatch) (i : Nat)
    (h : Dispatch.Sound s0 terminal d) (hs : d.stepThread i = some d1) :
    Dispatch.Sound s0 terminal d1 := by
  unfold Dispatch.stepThread at hs
  cases hi : d.threads[i]? with
  | none => rw [hi] at hs; cases hs
  | some thread =>
    rw [hi] at hs
    cases thread with
    | none =>
      simp only at hs
      by_cases hi0 : i = 0
      · rw [if_pos hi0] at hs; cases hs
      · rw [if_neg hi0] at hs
        cases htk : d.tasks with
        | nil => rw [htk] at hs; cases hs
        | cons task rest =>
          obtain ⟨k, node⟩ := task
          rw [htk] at hs
          simp only [Option.some.injEq] at hs
          subst hs
          have hmem : (k, node) ∈ d.tasks := by rw [htk]; exact List.mem_cons_self _ _
          have hiss := h.tasks_issued k node hmem
          have hk : k < d.issued.length := (List.getElem?_eq_some.1 hiss).1
          have hnode : node < s0.nodes.length := by
            apply h.issued_lt node
            rw [List.mem_iff_getElem?]
            exact ⟨k, hiss⟩
          refine Dispatch.beginExecuteTask_sound s0 terminal _ i (some k) node h.run h.issued_lt
            ?_ h.ready_executed h.frames (fun _ => h.caller_returned) h.caller_frame hi hnode
            ?_ (fun e => absurd e hi0)
          · intro k2 x hx
            apply h.tasks_issued k2 x
            rw [htk]; exact List.mem_cons_of_mem _ hx
          · intro k2 e
            simp only [Option.some.injEq] at e
            rw [← e]; exact hiss
    | some frame =>
      simp only at hs
      obtain ⟨fnode, ffut, fdeps⟩ := h.frames i frame hi
      cases hw : frame.waits with
      | cons w rest =>
        rw [hw] at hs
        simp only at hs
        by_cases hr : w ∈ d.ready
        · rw [if_pos hr] at hs
          simp only [Option.some.injEq] at hs
          subst hs
          have hth : ∀ j, (d.setThread i (some { frame with waits := rest })).threads[j]?
              = if i = j then some (some { frame with waits := rest }) else d.threads[j]? :=
            fun j => List.getElem?_set_idle _ _ _ _ _ hi
          refine ⟨h.run, h.issued_lt, h.tasks_issued, h.ready_executed, ?_, ?_, ?_⟩
          · intro j fr hj
            rw [hth j] at hj
            by_cases hij : i = j
            · rw [if_pos hij] at hj
              simp only [Option.some.injEq] at hj
              subst hj
              refine ⟨fnode, ffut, ?_⟩
              intro x hx
              rcases fdeps x hx with e | ⟨k, hk, e⟩
              · exact Or.inl e
              · rw [hw] at hk
                rcases List.mem_cons.1 hk with hkw | hkr
                · left
                  obtain ⟨y, hy1, hy2⟩ := h.ready_executed w hr
                  rw [hkw] at e
                  rw [hy1] at e
                  simp only [Option.some.injEq] at e
                  rw [← e]; exact hy2
                · exact Or.inr ⟨k, hkr, e⟩
            · rw [if_neg hij] at hj
              exact h.frames j fr hj
          · intro h0
            rw [hth 0] at h0
            by_cases hi0 : i = 0
            · rw [if_pos hi0] at h0; cases h0
            · rw [if_neg hi0] at h0
              exact h.caller_returned h0
          · intro fr h0
            rw [hth 0] at h0
            by_cases hi0 : i = 0
            · rw [if_pos hi0] at h0
              simp only [Option.some.injEq] at h0
              subst h0
              exact h.caller_frame frame (by rw [← hi0]; exact hi)
            · rw [if_neg hi0] at h0
              exact h.caller_frame fr h0
        · rw [if_neg hr] at hs; cases hs
      | nil =>
        rw [hw] at hs
        simp only [Option.some.injEq] at hs
        subst hs
        have hdeps : ∀ x : Nat, some x ∈ TaskNode.getDependencies d.store frame.node →
            TaskNode.isExecuted d.store x = true := by
          intro x hx
          rcases fdeps x hx with e | ⟨k, hk, _⟩
          · exact e
          · rw [hw] at hk; cases hk
        obtain ⟨r1, r2⟩ := Dispatch.executeOnce_step s0 d.store h.run frame.node fnode hdeps
        obtain ⟨c1, c2, c3, c4, c5⟩ := Dispatch.complete_fields
          { d with store := TaskNode.executeOnce d.store frame.node } frame.future
        have hth : ∀ j, ((({ d with store := TaskNode.executeOnce d.store frame.node }
            : Dispatch).complete frame.future).setThread i none).threads[j]?
            = if i = j then some none else d.threads[j]? := by
          intro j
          show ((({ d with store := TaskNode.executeOnce d.store frame.node }
            : Dispatch).complete frame.future).threads.set i none)[j]? = _
          rw [c4]
          exact List.getElem?_set_idle _ _ _ _ _ hi
        refine ⟨?_, ?_, ?_, ?_, ?_, ?_, ?_⟩
        · show s0.Run (Dispatch.complete _ frame.future).store _
          rw [c1]
          exact h.run.run_trans r1
        · show ∀ x ∈ (Dispatch.complete _ frame.future).issued, _
          rw [c2]; exact h.issued_lt
        · show ∀ (k : Nat) (x : NodeRef), (k, x) ∈ (Dispatch.complete _ frame.future).tasks →
            (Dispatch.complete _ frame.future).issued[k]? = some x
          rw [c2, c3]; exact h.tasks_issued
        · show ∀ k ∈ (Dispatch.complete _ frame.future).ready, ∃ x : NodeRef,
            (Dispatch.complete _ frame.future).issued[k]? = some x ∧
            TaskNode.isExecuted (Dispatch.complete _ frame.future).store x = true
          rw [c1, c2]
          intro k hk
          rcases c5 k hk with hk1 | hk1
          · obtain ⟨x, hx1, hx2⟩ := h.ready_executed k hk1
            exact ⟨x, hx1, r1.mono.isExecuted x hx2⟩
          · exact ⟨frame.node, ffut k hk1, r2⟩
        · intro j fr hj
          rw [hth j] at hj
          by_cases hij : i = j
          · rw [if_pos hij] at hj; cases hj
          · rw [if_neg hij] at hj
            obtain ⟨f1, f2, f3⟩ := h.frames j fr hj
            show _ ∧ (∀ k, fr.future = some k →
                (Dispatch.complete _ frame.future).issued[k]? = _) ∧
              (∀ x : Nat,
                some x ∈ TaskNode.getDependencies (Dispatch.complete _ frame.future).store
                  fr.node →
                TaskNode.isExecuted (Dispatch.complete _ frame.future).store x = true ∨
                  ∃ k ∈ fr.waits, (Dispatch.complete _ frame.future).issued[k]? = some x)
            rw [c1, c2]
            refine ⟨f1, f2, ?_⟩
            intro x hx
            have hx1 : some x ∈ TaskNode.getDependencies d.store fr.node := by
              have := r1.graph.getDependencies fr.node
              simp only at this
              rw [← this]; exact hx
            rcases f3 x hx1 with e | e
            · exact Or.inl (r1.mono.isExecuted x e)
            · exact Or.inr e
        · intro h0
          rw [hth 0] at h0
          show TaskNode.isExecuted (Dispatch.complete _ frame.future).store terminal = true
          rw [c1]
          by_cases hi0 : i = 0
          · have := h.caller_frame frame (by rw [← hi0]; exact hi)
            rw [← this]; exact r2
          · rw [if_neg hi0] at h0
            exact r1.mono.isExecuted terminal (h.caller_returned h0)
        · intro fr h0
          rw [hth 0] at h0
          by_cases hi0 : i = 0
          · rw [if_pos hi0] at h0; cases h0
          · rw [if_neg hi0] at h0
            exact h.caller_frame fr h0

/-- The state in which the caller has entered `executeTask(terminal)` has the invariant. -/
theorem Dispatch.execute_sound (s0 : Store) (hwf : s0.WF) (numThreads : Nat)
    (terminal : NodeRef) (ht : terminal < s0.nodes.length) :
    Dispatch.Sound s0 terminal (Dispatch.execute s0 numThreads terminal) := by
  unfold Dispatch.execute
  have hth : ∀ (j : Nat) (fr : WaitFrame),
      (List.replicate (numThreads + 1) (none : Option WaitFrame))[j]? ≠ some (some fr) := by
    intro j fr hj
    have hm : some fr ∈ List.replicate (numThreads + 1) (none : Option WaitFrame) := by
      rw [List.mem_iff_getElem?]
      exact ⟨j, hj⟩
    rw [List.mem_replicate] at hm
    cases hm.2
  refine Dispatch.beginExecuteTask_sound s0 terminal _ 0 none terminal
    (Store.Run.run_refl hwf _) ?_ ?_ ?_ ?_ (fun h => absurd rfl h) ?_ ?_ ht ?_ (fun _ => rfl)
  · intro x hx; cases hx
  · intro k x hx; cases hx
  · intro k hk; cases hk
  · intro j fr hj; exact absurd hj (hth j fr)
  · intro fr hj; exact absurd hj (hth 0 fr)
  · show (List.replicate (numThreads + 1) (none : Option WaitFrame))[0]? = some none
    rw [List.replicate_succ, List.getElem?_cons_zero]
  · intro k hk; cases hk

/-- Every state that a schedule reaches has the invariant of the dispatch. -/
theorem Dispatch.run_sound (s0 : Store) (terminal : NodeRef) :
    ∀ (schedule : List Nat) (d : Dispatch), Dispatch.Sound s0 terminal d →
      Dispatch.Sound s0 terminal (d.run schedule)
  | [], _, h => h
  | i :: rest, d, h => by
    unfold Dispatch.run
    apply Dispatch.run_sound s0 terminal rest
    cases hs : d.stepThread i with
    | none => exact h
    | some d1 => exact Dispatch.stepThread_sound s0 terminal d d1 i h hs

theorem Dispatch.stepThread_idle_beyond (d : Dispatch) (i : Nat) (h : d.threads.length ≤ i) :
    d.stepThread i = none := by
  unfold Dispatch.stepThread
  rw [List.getElem?_eq_none h]

/-- A set of states that no step leaves contains every state a schedule reaches from it. -/
theorem Dispatch.run_closed (P : Dispatch → Prop)
    (hstep : ∀ d, P d → ∀ i, P ((d.stepThread i).getD d)) :
    ∀ (schedule : List Nat) (d : Dispatch), P d → P (d.run schedule)
  | [], _, h => h
  | i :: rest, d, h => Dispatch.run_closed P hstep rest _ (hstep d h i)

/-- Every state that a schedule reaches from the call of `execute` on a graph made by the
builder has the invariant of the dispatch. -/
theorem Dispatch.reached_sound {s : Store} {b : PipelineBuilder} (h : Constructed s b)
    (terminalId : TaskId) (t : Nat) (ht : b.scheduler.getTask terminalId = some t)
    (numThreads : Nat) (schedule : List Nat) :
    Dispatch.Sound s t ((Dispatch.execute s numThreads t).run schedule) := by
  obtain ⟨hwf, hidx⟩ := h.constructed_invariant
  exact Dispatch.run_sound s t schedule _
    (Dispatch.execute_sound s hwf numThreads t (hidx terminalId t ht))

/-- Once the caller has returned from `executeTask`, `execute` returns the value of the
terminal node, which has executed. -/
theorem Dispatch.Sound.returned_result {s0 : Store} {t : NodeRef} {d : Dispatch}
    (h : Dispatch.Sound s0 t d) (hret : d.returned = true) :
    d.result t = some (eval s0 t) ∧ TaskNode.isExecuted d.store t = true := by
  have h0 : d.threads[0]? = some none := by
    unfold Dispatch.returned at hret
    cases hth : d.threads[0]? with
    | none => rw [hth] at hret; cases hret
    | some th =>
      cases th with
      | none => rfl
      | some fr => rw [hth] at hret; cases hret
  have hex := h.caller_returned h0
  refine ⟨?_, hex⟩
  unfold Dispatch.result
  rw [if_pos hret, h.run.wf.getResult_eq_eval t hex, eval_sameGraph h.run.graph]

/-- In every state of a dispatch the virtual `execute()` has been called at most once on each
node since the call of `execute`, and exactly once on each node that has executed since. -/
theorem Dispatch.Sound.calls {s0 : Store} {t : NodeRef} {d : Dispatch}
    (h : Dispatch.Sound s0 t d) (hlog : s0.executeLog = []) (r : NodeRef) :
    d.store.callsOf r ≤ 1 ∧
    (TaskNode.isExecuted s0 r = false → TaskNode.isExecuted d.store r = true →
      d.store.callsOf r = 1) ∧
    (TaskNode.isExecuted d.store r = false → d.store.callsOf r = 0) := by
  obtain ⟨new, e, nd, hm⟩ := h.run.log
  rw [hlog, List.nil_append] at e
  unfold Store.callsOf
  rw [e]
  refine ⟨List.nodup_iff_count_le_one.1 nd r, ?_, ?_⟩
  · intro h1 h2
    exact List.count_eq_one_of_mem nd ((hm r).2 ⟨h1, h2⟩)
  · intro h1
    rw [List.count_eq_zero]
    intro hmem
    have h2 := ((hm r).1 hmem).2
    rw [h1] at h2; cases h2

theorem Scenario.chainOut_constructed :
    Constructed Scenario.chainOut.1 Scenario.chainOut.2.1 := by
  have h0 := Constructed.addInput "in" (some 1) Constructed.fresh
  have h1 := Constructed.addTask "a" (Scenario.addK 10) [some 0] h0 (by
    intro p hp
    simp only [List.mem_singleton] at hp
    exact Or.inr ⟨0, hp, Nat.lt_of_lt_of_eq (by decide : (0 : Nat) < 1) rfl⟩)
  have h2 := Constructed.addTask "b" (Scenario.addK 20) [some 1] h1 (by
    intro p hp
    simp only [List.mem_singleton] at hp
    exact Or.inr ⟨1, hp, Nat.lt_of_lt_of_eq (by decide : (1 : Nat) < 2) rfl⟩)
  exact Constructed.addTask "out" (Scenario.addK 1) [some 2] h2 (by
    intro p hp
    simp only [List.mem_singleton] at hp
    exact Or.inr ⟨2, hp, Nat.lt_of_lt_of_eq (by decide : (2 : Nat) < 3) rfl⟩)

/-- The states of the dispatch of the chain `in → a → b → out` on one worker. -/
theorem Scenario.chain_one_worker_states (schedule : List Nat) :
    (Dispatch.execute Scenario.chainOut.1 1 3).run schedule
        = Dispatch.execute Scenario.chainOut.1 1 3 ∨
      (Dispatch.execute Scenario.chainOut.1 1 3).run schedule
        = (Dispatch.execute Scenario.chainOut.1 1 3).run [1] := by
  refine Dispatch.run_closed
    (fun d => d = Dispatch.execute Scenario.chainOut.1 1 3 ∨
      d = (Dispatch.execute Scenario.chainOut.1 1 3).run [1]) ?_ schedule _ (Or.inl rfl)
  intro d hd i
  rcases hd with h | h
  · subst h
    match i with
    | 0 => exact Or.inl rfl
    | 1 => exact Or.inr rfl
    | n + 2 =>
      rw [Dispatch.stepThread_idle_beyond _ _ (by
        have hl : (Dispatch.execute Scenario.chainOut.1 1 3).threads.length = 2 := by decide
        omega)]
      exact Or.inl rfl
  · subst h
    match i with
    | 0 => exact Or.inr rfl
    | 1 => exact Or.inr rfl
    | n + 2 =>
      rw [Dispatch.stepThread_idle_beyond _ _ (by
        have hl : ((Dispatch.execute Scenario.chainOut.1 1 3).run [1]).threads.length = 2 := by
          decide
        omega)]
      exact Or.inr rfl

/-- C1 on the code: `TaskScheduler::execute(terminalId)` returns `eval(terminal)` whenever it
returns, under every schedule of the caller and the workers and for every number of workers;
but on a pool that is smaller than the depth of the graph it does not return.  For the chain
`in → a → b → out` (`in = 1`, `a = +10`, `b = +20`, `out = +1`, value 32) built through the
builder, on a scheduler with one worker, `execute("out")` has returned under no schedule: the
caller waits for the future of `executeTask(b)`, the worker runs that task and waits for the
future of `executeTask(a)`, which stays in the queue, and no thread can move.  The same call
returns 32 with two workers, and on the graph of the claim's witness (`A` and `B` on the
input, `join` on both) it returns 32 with one worker. -/
theorem execute_returns_eval_only_with_free_worker :
    (∀ (s : Store) (b : PipelineBuilder), Constructed s b →
      ∀ (terminalId : TaskId) (t : Nat), b.scheduler.getTask terminalId = some t →
      ∀ (numThreads : Nat) (schedule : List Nat),
        ((Dispatch.execute s numThreads t).run schedule).returned = true →
        ((Dispatch.execute s numThreads t).run schedule).result t = some (eval s t)) ∧
    Constructed Scenario.chainOut.1 Scenario.chainOut.2.1 ∧
    Scenario.chainOut.2.1.scheduler.getTask "out" = some 3 ∧
    eval Scenario.chainOut.1 3 = some 32 ∧
    (∀ schedule : List Nat,
      ((Dispatch.execute Scenario.chainOut.1 1 3).run schedule).result 3 = none ∧
      TaskNode.isExecuted ((Dispatch.execute Scenario.chainOut.1 1 3).run schedule).store 3
        = false) ∧
    ((Dispatch.execute Scenario.chainOut.1 1 3).run [1]).threads
      = [some { future := none, node := 3, waits := [0] },
         some { future := some 0, node := 2, waits := [1] }] ∧
    ((Dispatch.execute Scenario.chainOut.1 1 3).run [1]).tasks = [(1, 1)] ∧
    ((Dispatch.execute Scenario.chainOut.1 1 3).run [1]).ready = [] ∧
    (∀ i : Nat, ((Dispatch.execute Scenario.chainOut.1 1 3).run [1]).stepThread i = none) ∧
    ((Dispatch.execute Scenario.chainOut.1 2 3).run [1, 2, 2, 1, 1, 0, 0]).result 3
      = some (some 32) ∧
    ((Dispatch.execute (Scenario.s2Out (some 1)).1 1 3).run [1, 1, 1, 1, 0, 0, 0]).result 3
      = some (some 32) := by
  refine ⟨?_, Scenario.chainOut_constructed, by decide, by decide, ?_, by decide, by decide,
    by decide, ?_, by decide, by decide⟩
  · intro s b h terminalId t ht numThreads schedule hret
    exact ((Dispatch.reached_sound h terminalId t ht numThreads schedule).returned_result
      hret).1
  · intro schedule
    rcases Scenario.chain_one_worker_states schedule with h | h <;> rw [h] <;>
      exact ⟨by decide, by decide⟩
  · intro i
    match i with
    | 0 => rfl
    | 1 => rfl
    | n + 2 =>
      exact Dispatch.stepThread_idle_beyond _ _ (by
        have hl : ((Dispatch.execute Scenario.chainOut.1 1 3).run [1]).threads.length = 2 := by
          decide
        omega)

/-- The states of the dispatch of the chain `in → a → b → c → out` on two workers. -/
theorem Scenario.chain5_two_workers_states (schedule : List Nat) :
    (Dispatch.execute Scenario.chain5Out.1 2 4).run schedule = Dispatch.execute Scenario.chain5Out.1 2 4 ∨
      (Dispatch.execute Scenario.chain5Out.1 2 4).run schedule = (Dispatch.execute Scenario.chain5Out.1 2 4).run [1] ∨
      (Dispatch.execute Scenario.chain5Out.1 2 4).run schedule = (Dispatch.execute Scenario.chain5Out.1 2 4).run [2] ∨
      (Dispatch.execute Scenario.chain5Out.1 2 4).run schedule = (Dispatch.execute Scenario.chain5Out.1 2 4).run [1, 2] ∨
      (Dispatch.execute Scenario.chain5Out.1 2 4).run schedule = (Dispatch.execute Scenario.chain5Out.1 2 4).run [2, 1] := by
  refine Dispatch.run_closed
    (fun d => d = Dispatch.execute Scenario.chain5Out.1 2 4 ∨
      d = (Dispatch.execute Scenario.chain5Out.1 2 4).run [1] ∨
      d = (Dispatch.execute Scenario.chain5Out.1 2 4).run [2] ∨
      d = (Dispatch.execute Scenario.chain5Out.1 2 4).run [1, 2] ∨
      d = (Dispatch.execute Scenario.chain5Out.1 2 4).run [2, 1]) ?_ schedule _ (Or.inl rfl)
  intro d hd i
  rcases hd with h | h | h | h | h <;> subst h
  · match i with
    | 0 => exact Or.inl rfl
    | 1 => exact Or.inr (Or.inl rfl)
    | 2 => exact Or.inr (Or.inr (Or.inl rfl))
    | n + 3 =>
      rw [Dispatch.stepThread_idle_beyond _ _ (Nat.le_add_left 3 n)]
      exact Or.inl rfl
  · match i with
    | 0 => exact Or.inr (Or.inl rfl)
    | 1 => exact Or.inr (Or.inl rfl)
    | 2 => exact Or.inr (Or.inr (Or.inr (Or.inl rfl)))
    | n + 3 =>
      rw [Dispatch.stepThread_idle_beyond _ _ (Nat.le_add_left 3 n)]
      exact Or.inr (Or.inl rfl)
  · match i with
    | 0 => exact Or.inr (Or.inr (Or.inl rfl))
    | 1 => exact Or.inr (Or.inr (Or.inr (Or.inr rfl)))
    | 2 => exact Or.inr (Or.inr (Or.inl rfl))
    | n + 3 =>
      rw [Dispatch.stepThread_idle_beyond _ _ (Nat.le_add_left 3 n)]
      exact Or.inr (Or.inr (Or.inl rfl))
  · match i with
    | 0 => exact Or.inr (Or.inr (Or.inr (Or.inl rfl)))
    | 1 => exact Or.inr (Or.inr (Or.inr (Or.inl rfl)))
    | 2 => exact Or.inr (Or.inr (Or.inr (Or.inl rfl)))
    | n + 3 =>
      rw [Dispatch.stepThread_idle_beyond _ _ (Nat.le_add_left 3 n)]
      exact Or.inr (Or.inr (Or.inr (Or.inl rfl)))
  · match i with
    | 0 => exact Or.inr (Or.inr (Or.inr (Or.inr rfl)))
    | 1 => exact Or.inr (Or.inr (Or.inr (Or.inr rfl)))
    | 2 => exact Or.inr (Or.inr (Or.inr (Or.inr rfl)))
    | n + 3 =>
      rw [Dispatch.stepThread_idle_beyond _ _ (Nat.le_add_left 3 n)]
      exact Or.inr (Or.inr (Or.inr (Or.inr rfl)))


theorem Scenario.chain5Out_constructed :
    Constructed Scenario.chain5Out.1 Scenario.chain5Out.2.1 := by
  have h0 := Constructed.addInput "in" (some 1) Constructed.fresh
  have h1 := Constructed.addTask "a" (Scenario.addK 1) [some 0] h0 (by
    intro p hp
    simp only [List.mem_singleton] at hp
    exact Or.inr ⟨0, hp, Nat.lt_of_lt_of_eq (by decide : (0 : Nat) < 1) rfl⟩)
  have h2 := Constructed.addTask "b" (Scenario.addK 1) [some 1] h1 (by
    intro p hp
    simp only [List.mem_singleton] at hp
    exact Or.inr ⟨1, hp, Nat.lt_of_lt_of_eq (by decide : (1 : Nat) < 2) rfl⟩)
  have h3 := Constructed.addTask "c" (Scenario.addK 1) [some 2] h2 (by
    intro p hp
    simp only [List.mem_singleton] at hp
    exact Or.inr ⟨2, hp, Nat.lt_of_lt_of_eq (by decide : (2 : Nat) < 3) rfl⟩)
  exact Constructed.addTask "out" (Scenario.addK 1) [some 3] h3 (by
    intro p hp
    simp only [List.mem_singleton] at hp
    exact Or.inr ⟨3, hp, Nat.lt_of_lt_of_eq (by decide : (3 : Nat) < 4) rfl⟩)

/-- C24 on the code: every graph made by `addInput` and `addTask` is acyclic (each dependency
is a non-null handle of a node constructed earlier, no node is in its own transitive
dependency closure, and the dependency relation that `executeTask` recurses over is
well-founded), but the recursion runs through the pool, where every level waits inside a
pool task for the next one, and so it does not terminate on a pool with fewer workers than
levels.  For the chain `in → a → b → c → out` made by the builder, on two workers, under
every schedule `executeTask(out)` has not returned and `out` has not executed: the caller
waits for `c`, one worker runs `executeTask(c)` and waits for `b`, the other runs
`executeTask(b)` and waits for `a`, whose task stays in the queue; no thread can move.  With
three workers the same call returns. -/
theorem acyclic_graph_executeTask_may_not_return :
    (∀ (s : Store) (b : PipelineBuilder), Constructed s b →
      (∀ (t : Nat) (n : TaskNode), s.nodes[t]? = some n →
        ∀ dep ∈ n.dependencies, ∃ d : Nat, dep = some d ∧ d < t) ∧
      (∀ t : Nat, ¬ DependsOn s t t) ∧
      WellFounded (fun d t : Nat => some d ∈ TaskNode.getDependencies s t)) ∧
    Constructed Scenario.chain5Out.1 Scenario.chain5Out.2.1 ∧
    Scenario.chain5Out.2.1.scheduler.getTask "out" = some 4 ∧
    (∀ schedule : List Nat,
      ((Dispatch.execute Scenario.chain5Out.1 2 4).run schedule).returned = false ∧
      TaskNode.isExecuted ((Dispatch.execute Scenario.chain5Out.1 2 4).run schedule).store 4
        = false) ∧
    ((Dispatch.execute Scenario.chain5Out.1 2 4).run [1, 2]).threads
      = [some { future := none, node := 4, waits := [0] },
         some { future := some 0, node := 3, waits := [1] },
         some { future := some 1, node := 2, waits := [2] }] ∧
    ((Dispatch.execute Scenario.chain5Out.1 2 4).run [1, 2]).tasks = [(2, 1)] ∧
    ((Dispatch.execute Scenario.chain5Out.1 2 4).run [1, 2]).ready = [] ∧
    (∀ i : Nat, ((Dispatch.execute Scenario.chain5Out.1 2 4).run [1, 2]).stepThread i = none) ∧
    ((Dispatch.execute Scenario.chain5Out.1 3 4).run [1, 2, 3, 3, 2, 2, 1, 1, 0, 0]).returned
      = true ∧
    TaskNode.isExecuted
      ((Dispatch.execute Scenario.chain5Out.1 3 4).run [1, 2, 3, 3, 2, 2, 1, 1, 0, 0]).store 4
      = true := by
  refine ⟨?_, Scenario.chain5Out_constructed, by decide, ?_, by decide, by decide, by decide,
    ?_, by decide, by decide⟩
  · intro s b h
    obtain ⟨hwf, _⟩ := h.constructed_invariant
    refine ⟨hwf.acyclic, ?_, ?_⟩
    · intro t hcyc
      obtain ⟨d, hd, hreach⟩ := hcyc
      have hle : t ≤ d := Reaches.le_of_wf hwf hreach
      have hlt : d < t := hwf.dependency_lt t d hd
      exact Nat.lt_irrefl t (Nat.lt_of_le_of_lt hle hlt)
    · exact Subrelation.wf (fun {d t} hd => hwf.dependency_lt t d hd) Nat.lt_wfRel.wf
  · intro schedule
    rcases Scenario.chain5_two_workers_states schedule with h | h | h | h | h <;> rw [h] <;>
      exact ⟨by decide, by decide⟩
  · intro i
    match i with
    | 0 => rfl
    | 1 => rfl
    | 2 => rfl
    | n + 3 => exact Dispatch.stepThread_idle_beyond _ _ (Nat.le_add_left 3 n)

/-- What `start()` leaves of a stopped pipeline. -/
theorem StreamingPipeline.start_fields (p0 p1 : StreamingPipeline) (hr0 : p0.running = false)
    (hstart : p0.start = Except.ok p1) :
    p1.running = true ∧ p1.threadJoinable = true ∧ p1.input_active = true ∧
    p1.inputQueue = p0.inputQueue ∧ p1.queueMaxSize = p0.queueMaxSize ∧
    p1.processedItems = 0 ∧ p1.errorCount = 0 := by
  unfold StreamingPipeline.start at hstart
  simp only [hr0, Bool.false_eq_true, if_false] at hstart
  cases hp : p0.processor with
  | none => rw [hp] at hstart; cases hstart
  | some f =>
    rw [hp] at hstart
    simp only [Except.ok.injEq] at hstart
    subst hstart
    exact ⟨rfl, rfl, rfl, rfl, rfl, rfl, rfl⟩

theorem Session.step_consts (s s1 : Session) (a : SessionAction) (hs : s.step a = some s1) :
    s1.producers = s.producers ∧ s1.pipeline.queueMaxSize = s.pipeline.queueMaxSize := by
  cases a with
  | addInput data =>
    simp only [Session.step, Option.some.injEq] at hs
    subst hs
    unfold Session.addInput
    split
    · exact ⟨rfl, rfl⟩
    · cases data <;> exact ⟨rfl, rfl⟩
  | advance k =>
    simp only [Session.step, Option.some.injEq] at hs
    subst hs
    unfold Session.advance
    cases hk : s.calls[k]? with
    | none => exact ⟨rfl, rfl⟩
    | some call =>
      cases call with
      | waiting data => simp only; split <;> exact ⟨rfl, rfl⟩
      | testing data => simp only; split <;> exact ⟨rfl, rfl⟩
      | pushing data => exact ⟨rfl, rfl⟩
  | loopPass =>
    simp only [Session.step] at hs
    unfold Session.loopPass at hs
    split at hs
    · split at hs
      · cases hb : s.pipeline.loopBody with
        | none => rw [hb] at hs; cases hs
        | some p1 =>
          rw [hb] at hs
          simp only [Option.map_some', Option.some.injEq] at hs
          subst hs
          exact ⟨rfl, (StreamingPipeline.loopBody_processed s.pipeline p1 hb).queueMaxSize⟩
      · simp only [Option.some.injEq] at hs
        subst hs; exact ⟨rfl, rfl⟩
    · simp only [Option.some.injEq] at hs
      subst hs; exact ⟨rfl, rfl⟩
  | stopBegin =>
    simp only [Session.step, Option.some.injEq] at hs
    subst hs
    unfold Session.stopBegin
    split <;> exact ⟨rfl, rfl⟩
  | stopEnd =>
    simp only [Session.step, Option.some.injEq] at hs
    subst hs
    unfold Session.stopEnd
    split
    · refine ⟨rfl, ?_⟩
      show (if s.pipeline.profilingEnabled = true then _ else _ : StreamingPipeline).queueMaxSize
        = s.pipeline.queueMaxSize
      split <;> rfl
    · exact ⟨rfl, rfl⟩
  | tryGetOutput =>
    simp only [Session.step, Option.some.injEq] at hs
    subst hs; exact ⟨rfl, rfl⟩

theorem Session.run_consts : ∀ (actions : List SessionAction) (s s1 : Session),
    s.run actions = some s1 →
    s1.producers = s.producers ∧ s1.pipeline.queueMaxSize = s.pipeline.queueMaxSize
  | [], s, s1, hr => by
    simp only [Session.run, Option.some.injEq] at hr
    subst hr; exact ⟨rfl, rfl⟩
  | a :: rest, s, s1, hr => by
    unfold Session.run at hr
    cases hs : s.step a with
    | none => rw [hs] at hr; cases hr
    | some s2 =>
      rw [hs] at hr
      obtain ⟨a1, a2⟩ := Session.step_consts s s2 a hs
      obtain ⟨b1, b2⟩ := Session.run_consts rest s2 s1 hr
      exact ⟨b1.trans a1, b2.trans a2⟩

/-- Every session reached from a pipeline that was started with an empty input queue has the
invariant. -/
theorem Session.reached_inv (p0 p1 : StreamingPipeline) (producers : Nat)
    (actions : List SessionAction) (s : Session)
    (hq : p0.inputQueue.queue = []) (hr0 : p0.running = false)
    (hstart : p0.start = Except.ok p1)
    (hrun : (Session.of p1 producers).run actions = some s) :
    s.Inv ∧ s.producers = producers ∧ s.pipeline.queueMaxSize = p0.queueMaxSize := by
  obtain ⟨h1, h2, _, h4, h5, h6, h7⟩ := StreamingPipeline.start_fields p0 p1 hr0 hstart
  obtain ⟨c1, c2⟩ := Session.run_consts actions _ s hrun
  refine ⟨Session.run_inv actions _ s
    (Session.of_inv p1 producers (by rw [h4]; exact hq) h1 h2 h6 h7) hrun, c1, ?_⟩
  rw [c2]; exact h5


/-- C6 on the code: the test of the wait loop and the push of `addInput` are separate steps,
and between them another producer can push.  In every session started with an empty input
queue the input queue holds at most `queueMaxSize` items plus one for every producer thread
beyond the first, and nothing is dropped (the popped items followed by the queued ones are
the items of the calls that returned true, in order); so with one producer the queue never
exceeds `queueMaxSize`.  With two producers it does: on a started pipeline of capacity 1 both
calls leave the wait loop while the queue is empty and both read `input_active_` as true;
the first push fills the queue, the second call pushes onto a queue that already holds
`queueMaxSize` items, and the queue holds 2 items with both calls returning true. -/
theorem two_producers_exceed_capacity :
    (∀ (p0 p1 : StreamingPipeline) (producers : Nat) (actions : List SessionAction)
        (s : Session),
      p0.inputQueue.queue = [] → p0.running = false → p0.start = Except.ok p1 →
      (Session.of p1 producers).run actions = some s →
      s.pipeline.inputQueue.size ≤ p0.queueMaxSize + (producers - 1) ∧
      (producers ≤ 1 → s.pipeline.inputQueue.size ≤ p0.queueMaxSize) ∧
      s.processed.map Prod.fst ++ s.pipeline.inputQueue.queue = s.accepted) ∧
    (Scenario.startedWith 1 Scenario.s1Processor).queueMaxSize = 1 ∧
    ((Session.of (Scenario.startedWith 1 Scenario.s1Processor) 2).run
        (Scenario.twoProducers.take 6)).map
      (fun s => (s.pipeline.inputQueue.queue, s.calls))
      = some ([], [AddInputCall.pushing (some 5), AddInputCall.pushing (some 6)]) ∧
    ((Session.of (Scenario.startedWith 1 Scenario.s1Processor) 2).run
        (Scenario.twoProducers.take 7)).map
      (fun s => (s.pipeline.inputQueue.queue, s.calls))
      = some ([some 5], [AddInputCall.pushing (some 6)]) ∧
    ((Session.of (Scenario.startedWith 1 Scenario.s1Processor) 2).run
        Scenario.twoProducers).map (fun s => s.pipeline.inputQueue.queue)
      = some [some 5, some 6] ∧
    ((Session.of (Scenario.startedWith 1 Scenario.s1Processor) 2).run
        Scenario.twoProducers).map (fun s => (s.pipeline.inputQueue.size, s.returned))
      = some (2, [(some 5, true), (some 6, true)]) := by
  refine ⟨?_, by decide, by decide, by decide, by decide, by decide⟩
  intro p0 p1 producers actions s hq hr0 hstart hrun
  obtain ⟨hinv, hp, hm⟩ := Session.reached_inv p0 p1 producers actions s hq hr0 hstart hrun
  have hb := hinv.bound
  rw [hp, hm] at hb
  refine ⟨by omega, ?_, hinv.input⟩
  intro h1
  omega

/-- Witness for C1: on the chain with two workers the call returns, and what it returns is the
value of the terminal node. -/
theorem execute_returns_eval_only_with_free_worker_witness :
    Constructed Scenario.chainOut.1 Scenario.chainOut.2.1 ∧
    Scenario.chainOut.2.1.scheduler.getTask "out" = some 3 ∧
    ((Dispatch.execute Scenario.chainOut.1 2 3).run [1, 2, 2, 1, 1, 0, 0]).returned = true ∧
    ((Dispatch.execute Scenario.chainOut.1 2 3).run [1, 2, 2, 1, 1, 0, 0]).result 3
      = some (eval Scenario.chainOut.1 3) :=
  ⟨Scenario.chainOut_constructed, by decide, by decide,
    execute_returns_eval_only_with_free_worker.1 Scenario.chainOut.1 Scenario.chainOut.2.1
      Scenario.chainOut_constructed "out" 3 (by decide) 2 [1, 2, 2, 1, 1, 0, 0] (by decide)⟩

/-- Witness for C24: the chain `in → a → b → c → out` is made by the builder, and `out` is not
in its own dependency closure. -/
theorem acyclic_graph_executeTask_may_not_return_witness :
    Constructed Scenario.chain5Out.1 Scenario.chain5Out.2.1 ∧
    ¬ DependsOn Scenario.chain5Out.1 4 4 :=
  ⟨Scenario.chain5Out_constructed,
    (acyclic_graph_executeTask_may_not_return.1 Scenario.chain5Out.1 Scenario.chain5Out.2.1
      Scenario.chain5Out_constructed).2.1 4⟩

theorem Scenario.twoProducers_isSome :
    ((Session.of (Scenario.startedWith 1 Scenario.s1Processor) 2).run
      Scenario.twoProducers).isSome = true := by decide

/-- Witness for C6: the session of the two producers on a queue of capacity 1 is within the
bound for two producer threads, `queueMaxSize + 1`. -/
theorem two_producers_exceed_capacity_witness :
    (((Session.of (Scenario.startedWith 1 Scenario.s1Processor) 2).run
      Scenario.twoProducers).get Scenario.twoProducers_isSome).pipeline.inputQueue.size
      ≤ (Scenario.configured 1 Scenario.s1Processor).queueMaxSize + (2 - 1) :=
  (two_producers_exceed_capacity.1 (Scenario.configured 1 Scenario.s1Processor)
    (Scenario.startedWith 1 Scenario.s1Processor) 2 Scenario.twoProducers
    (((Session.of (Scenario.startedWith 1 Scenario.s1Processor) 2).run
      Scenario.twoProducers).get Scenario.twoProducers_isSome) rfl rfl rfl
    (Option.some_get Scenario.twoProducers_isSome).symm).1

end GryFlux
